import Mathlib

/-! # crossplane-lint: field-path resolution and patch validation

A shallow embedding of `internal/xpkg/lint/linter/rules/composition_fieldpath.go`
(with the parts of `jsonpath.go`, `linter.go` and `store.go` it relies on) and
theorems about it.

Conventions of the embedding:

* a Go pointer is an `Option`; a Go `error` is an `Option String` holding the
  message (`none` is the nil error);
* a Go `map[string]T` is an association list searched from the front, and a
  nil map is `none`;
* a function that can dereference a nil pointer returns `Option`, where `none`
  stands for the run-time panic;
* issues sent to the issue channel by one call are collected, in emission
  order, in a list.
-/

namespace CrossplaneLint

/-! ## Schema nodes (`extv1.JSONSchemaProps`) -/

/-- The fields of `extv1.JSONSchemaProps` that the linter reads.
`additionalProperties` is `*JSONSchemaPropsOrBool` (the pair `Allows`, `Schema`),
`items` is `*JSONSchemaPropsOrArray` reduced to its `Schema` pointer, the only
part of it the linter looks at. -/
inductive JSONSchemaProps where
  | mk (type : String)
       (xPreserveUnknownFields : Option Bool)
       (properties : Option (List (String × JSONSchemaProps)))
       (additionalProperties : Option (Bool × Option JSONSchemaProps))
       (items : Option (Option JSONSchemaProps))
  deriving Repr

namespace JSONSchemaProps

/-- Field `Type`. -/
def type : JSONSchemaProps → String
  | mk t _ _ _ _ => t

/-- Field `XPreserveUnknownFields`. -/
def xPreserveUnknownFields : JSONSchemaProps → Option Bool
  | mk _ x _ _ _ => x

/-- Field `Properties`. -/
def properties : JSONSchemaProps → Option (List (String × JSONSchemaProps))
  | mk _ _ p _ _ => p

/-- Field `AdditionalProperties`. -/
def additionalProperties : JSONSchemaProps → Option (Bool × Option JSONSchemaProps)
  | mk _ _ _ a _ => a

/-- Field `Items`. -/
def items : JSONSchemaProps → Option (Option JSONSchemaProps)
  | mk _ _ _ _ i => i

end JSONSchemaProps

/-- Go map index `m[k]` with the comma-ok form: `none` when the key is absent
(always so for a nil map). -/
def mapLookup {α : Type} (m : Option (List (String × α))) (k : String) : Option α :=
  match m with
  | none => none
  | some l => l.lookup k

/-- Function `pointer.BoolDeref`. -/
def boolDeref (p : Option Bool) (dflt : Bool) : Bool :=
  match p with
  | none => dflt
  | some b => b

/-! ## Field paths (`fieldpath.Segment`) -/

/-- Constant `fieldpath.SegmentField`. -/
def SegmentField : Int := 1

/-- Constant `fieldpath.SegmentIndex`. -/
def SegmentIndex : Int := 2

/-- A `fieldpath.Segment`: `Type` is a `SegmentType` (an int), `Field` the name
of a field segment, `Index` the number of an index segment. -/
structure Segment where
  type : Int
  field : String
  index : Nat
  deriving Repr, DecidableEq

/-- The segment `fieldpath.Field(name)`. -/
def Segment.ofField (name : String) : Segment := ⟨SegmentField, name, 0⟩

/-- The segment `fieldpath.FieldOrIndex` of a number. -/
def Segment.ofIndex (i : Nat) : Segment := ⟨SegmentIndex, "", i⟩

/-! ## Error messages -/

/-- Message `errNoCRDForGVK`. -/
def errNoCRDForGVK (gvk : String) : String := "no CRD for " ++ gvk

/-- Message `errFieldPathWrongType`. -/
def errFieldPathWrongType (expected actual : String) : String :=
  "expected type '" ++ expected ++ "' but got '" ++ actual ++ "'"

/-- Message `errFieldNotFound`. -/
def errFieldNotFound (field : String) : String := "property '" ++ field ++ "' not found"

/-- Message `errFieldArrayNoItems`. -/
def errFieldArrayNoItems : String := "prop type is array but missing items definition"

/-- Message `errInvalidSegmentType`. -/
def errInvalidSegmentType (t : Int) : String := "invalid segment type " ++ toString t

/-- Message `errValidateFieldPath`, declared in the source and used nowhere. -/
def errValidateFieldPath (i : Nat) : String := "failed to validate segment " ++ toString i

/-! ## The resolver -/

/-- Function `validateFieldPathSegment`: the pair `(*JSONSchemaProps, error)` is
an `Except`, whose `ok none` is the result `(nil, nil)`. -/
def validateFieldPathSegment (current : JSONSchemaProps) (segment : Segment) :
    Except String (Option JSONSchemaProps) :=
  if segment.type = SegmentField then
    let propType := if current.type = "" then "object" else current.type
    if propType ≠ "object" then
      .error (errFieldPathWrongType "object" propType)
    else if boolDeref current.xPreserveUnknownFields false then
      .ok none
    else
      match mapLookup current.properties segment.field with
      | none =>
        match current.additionalProperties with
        | some (true, schema) => .ok schema
        | _ => .error (errFieldNotFound segment.field)
      | some prop => .ok (some prop)
  else if segment.type = SegmentIndex then
    if current.type ≠ "array" then
      .error (errFieldPathWrongType "array" current.type)
    else
      match current.items with
      | some (some schema) => .ok (some schema)
      | _ => .error errFieldArrayNoItems
  else
    .error (errInvalidSegmentType segment.type)

/-- The loop of `validateFieldPath` over the segments, started with `current`.
The result is the error the loop returns with, or else the value `current`
holds when the loop is left. -/
def validateSegments : Option JSONSchemaProps → List Segment →
    Except String (Option JSONSchemaProps)
  | current, [] => .ok current
  | none, _ :: _ => .ok none
  | some current, segment :: rest =>
    match validateFieldPathSegment current segment with
    | .error err => .error err
    | .ok next => validateSegments next rest

/-- No node of the tree sets `x-preserve-unknown-fields` or declares
`additionalProperties`; the tree is the node, the schemas of its properties and
its item schema, recursively. -/
def JSONSchemaProps.declaredOnly : JSONSchemaProps → Bool
  | .mk _ x props addl items =>
    !boolDeref x false && addl.isNone &&
    (match props with
     | none => true
     | some l => declaredOnlyList l) &&
    (match items with
     | some (some s) => declaredOnly s
     | _ => true)
where
  declaredOnlyList : List (String × JSONSchemaProps) → Bool
    | [] => true
    | (_, s) :: rest => declaredOnly s && declaredOnlyList rest

/-! ## Logical paths (`jsonpath.go`) -/

/-- A `jsonpath.JSONPathSegment`: the interface is implemented by `FieldSegment`,
`IndexSegment` and, as it has a `String` method too, by `JSONPath` itself. -/
inductive JSONPathSegment where
  | field (f : String)
  | index (i : Int)
  | path (p : List JSONPathSegment)
  deriving Repr

/-- Type `jsonpath.JSONPath`. -/
abbrev JSONPath := List JSONPathSegment

/-- An argument of the variadic `NewJSONPath(rawSegments ...any)`: a value that
is a `JSONPathSegment`, an `int`, a `string`, or any other value, given by what
`fmt.Sprint` prints for it. -/
inductive RawSegment where
  | segment (s : JSONPathSegment)
  | int (i : Int)
  | str (s : String)
  | other (sprint : String)
  deriving Repr

/-- Function `NewJSONPath`. -/
def NewJSONPath (rawSegments : List RawSegment) : JSONPath :=
  rawSegments.map fun s =>
    match s with
    | .segment val => val
    | .int val => .index val
    | .str val => .field val
    | .other val => .field val

mutual
/-- Method `String` of the three kinds of segment. -/
def JSONPathSegment.string : JSONPathSegment → String
  | .field f => if f.toList.any (· == '.') then "[" ++ f ++ "]" else "." ++ f
  | .index i => "[" ++ toString i ++ "]"
  | .path p => JSONPath.string p
/-- Method `JSONPath.String`: the renderings of the segments, concatenated. -/
def JSONPath.string : List JSONPathSegment → String
  | [] => ""
  | s :: rest => JSONPathSegment.string s ++ JSONPath.string rest
end

/-! ## Schema store and linter context (`store.go`, `linter.go`, `interface.go`) -/

/-- Type `schema.GroupVersionKind`. -/
structure GroupVersionKind where
  group : String
  version : String
  kind : String
  deriving Repr, DecidableEq

/-- Method `GroupVersionKind.String` of apimachinery. -/
def GroupVersionKind.string (gvk : GroupVersionKind) : String :=
  gvk.group ++ "/" ++ gvk.version ++ ", Kind=" ++ gvk.kind

/-- Type `extv1.CustomResourceValidation`. -/
structure CustomResourceValidation where
  openAPIV3Schema : Option JSONSchemaProps
  deriving Repr

/-- The fields of `extv1.CustomResourceDefinitionVersion` the linter reads. -/
structure CustomResourceDefinitionVersion where
  name : String
  schema : Option CustomResourceValidation
  deriving Repr

/-- Type `SchemaStore`: the map `versions`. -/
structure SchemaStore where
  versions : List (GroupVersionKind × CustomResourceDefinitionVersion)
  deriving Repr

/-- Method `SchemaStore.GetCRDSchema`. -/
def SchemaStore.GetCRDSchema (s : SchemaStore) (gvk : GroupVersionKind) :
    Option CustomResourceDefinitionVersion :=
  s.versions.lookup gvk

/-- What the linter keeps of an `xpkg.PackageEntry`: the `apiVersion`, `kind`
and `metadata.name` of its `Object`, its `Source` and its `Raw` manifest. -/
structure PackageEntry where
  apiVersion : String
  kind : String
  name : String
  source : String
  raw : String
  deriving Repr, DecidableEq

/-- Type `lint.Issue`. -/
structure Issue where
  ruleName : String
  entry : Option PackageEntry
  path : JSONPath
  pathValue : String
  description : String
  deriving Repr

/-- Type `linterContext`, without its channel: what a rule sends to the channel
is returned by the functions below. -/
structure linterContext where
  ruleName : String
  schemaStore : SchemaStore
  deriving Repr

/-- Method `linterContext.ReportIssue`: the issue that is sent to the channel. -/
def linterContext.ReportIssue (c : linterContext) (issue : Issue) : Issue :=
  { issue with ruleName := c.ruleName }

/-- Method `linterContext.GetCRDSchema`. -/
def linterContext.GetCRDSchema (c : linterContext) (gvk : GroupVersionKind) :
    Option CustomResourceDefinitionVersion :=
  c.schemaStore.GetCRDSchema gvk

/-- Type `scopedContext`. -/
structure scopedContext where
  linterContext : linterContext
  entry : PackageEntry
  basePath : JSONPath
  deriving Repr

/-- Method `scopedContext.ReportIssueRequireField`. -/
def scopedContext.ReportIssueRequireField (c : scopedContext) (path : JSONPath) : Issue :=
  c.linterContext.ReportIssue
    { ruleName := ""
      entry := some c.entry
      description := "require field"
      path := NewJSONPath [.segment (.path c.basePath), .segment (.path path)]
      pathValue := "" }

/-- Method `scopedContext.ReportIssueFieldPath`. -/
def scopedContext.ReportIssueFieldPath (c : scopedContext) (path : JSONPath)
    (description pathValue : String) : Issue :=
  c.linterContext.ReportIssue
    { ruleName := ""
      entry := some c.entry
      description := description
      path := NewJSONPath [.segment (.path c.basePath), .segment (.path path)]
      pathValue := pathValue }

/-- Method `scopedContext.Wrap`. -/
def scopedContext.Wrap (c : scopedContext) (path : JSONPath) : scopedContext :=
  { entry := c.entry
    linterContext := c.linterContext
    basePath := NewJSONPath [.segment (.path c.basePath), .segment (.path path)] }

/-- The parser `fieldpath.Parse` of crossplane-runtime, which the linter calls
and does not define: a parameter of everything that validates a raw path. -/
abbrev FieldPathParser := String → Except String (List Segment)

/-- Function `validateFieldPath`. The outer `Option` is `none` when the call
panics, which it does on a registered version whose `Schema` is nil; the inner
one is the returned `error`. -/
def validateFieldPath (parse : FieldPathParser) (ctx : scopedContext)
    (gvk : GroupVersionKind) (rawPath : String) : Option (Option String) :=
  match parse rawPath with
  | .error err => some (some err)
  | .ok path =>
    match ctx.linterContext.GetCRDSchema gvk with
    | none => some (some (errNoCRDForGVK gvk.string))
    | some crd =>
      match crd.schema with
      | none => none
      | some validation =>
        match validateSegments validation.openAPIV3Schema path with
        | .error err => some (some err)
        | .ok _ => some none

/-! ## Patches (`xpv1.Patch`) -/

/-- Constant `xpv1.PatchTypeFromCompositeFieldPath`. -/
def PatchTypeFromCompositeFieldPath : String := "FromCompositeFieldPath"

/-- Constant `xpv1.PatchTypeFromEnvironmentFieldPath`. -/
def PatchTypeFromEnvironmentFieldPath : String := "FromEnvironmentFieldPath"

/-- Constant `xpv1.PatchTypePatchSet`. -/
def PatchTypePatchSet : String := "PatchSet"

/-- Constant `xpv1.PatchTypeToCompositeFieldPath`. -/
def PatchTypeToCompositeFieldPath : String := "ToCompositeFieldPath"

/-- Constant `xpv1.PatchTypeCombineFromComposite`. -/
def PatchTypeCombineFromComposite : String := "CombineFromComposite"

/-- Constant `xpv1.PatchTypeCombineToComposite`. -/
def PatchTypeCombineToComposite : String := "CombineToComposite"

/-- Type `xpv1.CombineVariable`. -/
structure CombineVariable where
  fromFieldPath : String
  deriving Repr, DecidableEq

/-- The field of `xpv1.Combine` the linter reads. -/
structure Combine where
  «variables» : List CombineVariable
  deriving Repr, DecidableEq

/-- The fields of `xpv1.Patch` the linter reads. -/
structure Patch where
  type : String
  fromFieldPath : Option String
  combine : Option Combine
  toFieldPath : Option String
  patchSetName : Option String
  deriving Repr, DecidableEq

/-- Type `xpv1.PatchSet`. -/
structure PatchSet where
  name : String
  patches : List Patch
  deriving Repr, DecidableEq

/-- Type `xpv1.ComposedTemplate`: the raw `Base` and the `Patches`. -/
structure ComposedTemplate where
  base : String
  patches : List Patch
  deriving Repr, DecidableEq

/-- Type `xpv1.TypeReference` of `spec.compositeTypeRef`. -/
structure TypeReference where
  apiVersion : String
  kind : String
  deriving Repr, DecidableEq

/-- The fields of `xpv1.Composition` (of its `Spec`) the linter reads. -/
structure Composition where
  compositeTypeRef : TypeReference
  patchSets : List PatchSet
  resources : List ComposedTemplate
  deriving Repr, DecidableEq

/-! ## The patch validator -/

/-- The statement `if err := validateFieldPath(ctx, gvk, raw); err != nil
{ ctx.ReportIssueFieldPath(at, err.Error(), raw) }`, which every validator
below is made of. -/
def reportFieldPath (parse : FieldPathParser) (ctx : scopedContext)
    (gvk : GroupVersionKind) (raw : String) (at_ : JSONPath) : Option (List Issue) :=
  match validateFieldPath parse ctx gvk raw with
  | none => none
  | some none => some []
  | some (some err) => some [ctx.ReportIssueFieldPath at_ err raw]

/-- The loop of `validateCombinePatch` over `p.Combine.Variables`, from index `i`. -/
def validateCombineVariables (parse : FieldPathParser) (ctx : scopedContext)
    (fromGvk : GroupVersionKind) : Nat → List CombineVariable → Option (List Issue)
  | _, [] => some []
  | i, v :: rest => do
    let here ←
      if v.fromFieldPath = "" then
        some [ctx.ReportIssueRequireField
          (NewJSONPath [.str "combine", .str "variables", .int i, .str "fromFieldPath"])]
      else
        reportFieldPath parse ctx fromGvk v.fromFieldPath
          (NewJSONPath [.str "combine", .str "variables", .int i, .str "fromFieldPath"])
    let later ← validateCombineVariables parse ctx fromGvk (i + 1) rest
    pure (here ++ later)

/-- Function `validateCombinePatch`. -/
def validateCombinePatch (parse : FieldPathParser) (ctx : scopedContext) (p : Patch)
    (fromGvk toGvk : GroupVersionKind) : Option (List Issue) := do
  let vars ←
    match p.combine with
    | none =>
      some [ctx.ReportIssueRequireField (NewJSONPath [.str "combine", .str "variables"])]
    | some c =>
      if c.variables.length = 0 then
        some [ctx.ReportIssueRequireField (NewJSONPath [.str "combine", .str "variables"])]
      else
        validateCombineVariables parse ctx fromGvk 0 c.variables
  match p.toFieldPath with
  | none => pure (vars ++ [ctx.ReportIssueRequireField (NewJSONPath [.str "toFieldPath"])])
  | some dst => do
    let dest ← reportFieldPath parse ctx toGvk dst (NewJSONPath [.str "toFieldPath"])
    pure (vars ++ dest)

/-- Function `validateEnvironmentPatch`. -/
def validateEnvironmentPatch (parse : FieldPathParser) (ctx : scopedContext) (p : Patch)
    (_fromGvk toGvk : GroupVersionKind) : Option (List Issue) := do
  let src : List Issue :=
    match p.fromFieldPath with
    | none => [ctx.ReportIssueRequireField (NewJSONPath [.str "fromFieldPath"])]
    | some _ => []
  let toFieldPath :=
    match p.toFieldPath with
    | none => p.fromFieldPath
    | some dst => some dst
  match toFieldPath with
  | none => pure (src ++ [ctx.ReportIssueRequireField (NewJSONPath [.str "toFieldPath"])])
  | some dst => do
    let dest ← reportFieldPath parse ctx toGvk dst (NewJSONPath [.str "toFieldPath"])
    pure (src ++ dest)

/-- Function `validateSinglePatch`. -/
def validateSinglePatch (parse : FieldPathParser) (ctx : scopedContext) (p : Patch)
    (fromGvk toGvk : GroupVersionKind) : Option (List Issue) := do
  let src ←
    match p.fromFieldPath with
    | none => some [ctx.ReportIssueRequireField (NewJSONPath [.str "fromFieldPath"])]
    | some f => reportFieldPath parse ctx fromGvk f (NewJSONPath [.str "fromFieldPath"])
  let toFieldPath :=
    match p.toFieldPath with
    | none => p.fromFieldPath
    | some dst => some dst
  match toFieldPath with
  | none => pure (src ++ [ctx.ReportIssueRequireField (NewJSONPath [.str "toFieldPath"])])
  | some dst => do
    let dest ← reportFieldPath parse ctx toGvk dst (NewJSONPath [.str "toFieldPath"])
    pure (src ++ dest)

/-- The body of the loop of `validatePatchSet`, for the patch `p` at index `i`. -/
def validatePatchSetEntry (parse : FieldPathParser) (ctx : scopedContext)
    (compositeGvk baseGvk : GroupVersionKind) (patchPath : JSONPath) (i : Nat) (p : Patch) :
    Option (List Issue) :=
  let sctx := ctx.Wrap
    (NewJSONPath [.segment (.path patchPath), .str "patches", .int i, .str "type"])
  if p.type = PatchTypeCombineToComposite then
    validateCombinePatch parse sctx p baseGvk compositeGvk
  else if p.type = PatchTypeCombineFromComposite then
    validateCombinePatch parse sctx p compositeGvk baseGvk
  else if p.type = PatchTypeToCompositeFieldPath then
    validateSinglePatch parse sctx p baseGvk compositeGvk
  else if p.type = "" ∨ p.type = PatchTypeFromCompositeFieldPath then
    validateSinglePatch parse sctx p compositeGvk baseGvk
  else if p.type = PatchTypePatchSet then
    some [sctx.ReportIssueFieldPath (NewJSONPath [.str "type"])
      "nested patch sets are not allowed" p.type]
  else if p.type = PatchTypeFromEnvironmentFieldPath then
    validateEnvironmentPatch parse sctx p compositeGvk baseGvk
  else
    some [sctx.ReportIssueFieldPath (NewJSONPath [.str "type"]) "unknown patch type" p.type]

/-- The loop of `validatePatchSet` over `ps.Patches`, from index `i`. -/
def validatePatchSetFrom (parse : FieldPathParser) (ctx : scopedContext)
    (compositeGvk baseGvk : GroupVersionKind) (patchPath : JSONPath) :
    Nat → List Patch → Option (List Issue)
  | _, [] => some []
  | i, p :: rest => do
    let here ← validatePatchSetEntry parse ctx compositeGvk baseGvk patchPath i p
    let later ← validatePatchSetFrom parse ctx compositeGvk baseGvk patchPath (i + 1) rest
    pure (here ++ later)

/-- Function `validatePatchSet`. -/
def validatePatchSet (parse : FieldPathParser) (ctx : scopedContext) (ps : PatchSet)
    (compositeGvk baseGvk : GroupVersionKind) (patchPath : JSONPath) : Option (List Issue) :=
  validatePatchSetFrom parse ctx compositeGvk baseGvk patchPath 0 ps.patches

/-- The search loop of `validatePatch`: the first patch set called `name`, with
its index, looked for from index `i` on. -/
def findPatchSet (name : String) : Nat → List PatchSet → Option (PatchSet × Nat)
  | _, [] => none
  | i, s :: rest => if s.name = name then some (s, i) else findPatchSet name (i + 1) rest

/-- Function `validatePatch`. -/
def validatePatch (parse : FieldPathParser) (ctx : scopedContext) (p : Patch)
    (comp : Composition) (compositeGvk baseGvk : GroupVersionKind) : Option (List Issue) :=
  if p.type = PatchTypeCombineToComposite then
    validateCombinePatch parse ctx p baseGvk compositeGvk
  else if p.type = PatchTypeCombineFromComposite then
    validateCombinePatch parse ctx p compositeGvk baseGvk
  else if p.type = PatchTypeToCompositeFieldPath then
    validateSinglePatch parse ctx p baseGvk compositeGvk
  else if p.type = "" ∨ p.type = PatchTypeFromCompositeFieldPath then
    validateSinglePatch parse ctx p compositeGvk baseGvk
  else if p.type = PatchTypeFromEnvironmentFieldPath then
    validateEnvironmentPatch parse ctx p compositeGvk baseGvk
  else if p.type = PatchTypePatchSet then
    match p.patchSetName with
    | none => some [ctx.ReportIssueRequireField (NewJSONPath [.str "patchSetName"])]
    | some name =>
      match findPatchSet name 0 comp.patchSets with
      | none =>
        some [ctx.ReportIssueFieldPath (NewJSONPath [.str "patchSetName"])
          "no matching patchset found" name]
      | some (patchSet, patchSetIndex) =>
        validatePatchSet parse ctx patchSet compositeGvk baseGvk
          (NewJSONPath [.str "#inlined", .str "spec", .str "patchSets", .int patchSetIndex])
  else
    some [ctx.ReportIssueFieldPath (NewJSONPath [.str "type"]) "unknown patch type" p.type]

/-! ## Registration of schemas (`store.go`) -/

/-- Go map assignment `m[k] = v` on a non-nil map: the entry of `k` is replaced
where it stands, or added at the end when there is none. -/
def mapSet {κ α : Type} [DecidableEq κ] : List (κ × α) → κ → α → List (κ × α)
  | [], k, v => [(k, v)]
  | (k', v') :: rest, k, v =>
    if k' = k then (k, v) :: rest else (k', v') :: mapSet rest k v

/-- The zero value of `extv1.JSONSchemaProps`, which indexing a map gives for a
key that is absent. -/
def JSONSchemaProps.zero : JSONSchemaProps := .mk "" none none none none

/-- The node with its `Properties` replaced. -/
def JSONSchemaProps.withProperties (node : JSONSchemaProps)
    (props : Option (List (String × JSONSchemaProps))) : JSONSchemaProps :=
  match node with
  | .mk t x _ addl items => .mk t x props addl items

/-- Go map index `m[k]` in its one-value form: the zero value when the key is
absent. -/
def propertyOrZero (m : Option (List (String × JSONSchemaProps))) (k : String) :
    JSONSchemaProps :=
  match mapLookup m k with
  | some v => v
  | none => JSONSchemaProps.zero

/-- The map `additionalMetaProps` of `addMetaDataToSchema`. A Go map is ranged
over in no fixed order; the entries are listed here in the order of the
source text. -/
def additionalMetaProps : List (String × JSONSchemaProps) :=
  [("name", .mk "string" none none none none),
   ("namespace", .mk "string" none none none none),
   ("labels", .mk "" none none (some (true, some (.mk "string" none none none none))) none),
   ("annotations", .mk "" none none (some (true, some (.mk "string" none none none none))) none)]

/-- The body of the loop of `addMetaDataToSchema` for one entry of
`additionalMetaProps`, on the root schema. It is `none` when an assignment is
made to an entry of a nil map, on which Go panics. -/
def addMetaProp (root : JSONSchemaProps) (name : String) (prop : JSONSchemaProps) :
    Option JSONSchemaProps :=
  match mapLookup (propertyOrZero root.properties "metadata").properties name with
  | some _ => some root
  | none =>
    let props := propertyOrZero root.properties "metadata"
    match props.properties with
    | none => none
    | some fields =>
      match root.properties with
      | none => none
      | some rootProps =>
        some (root.withProperties
          (some (mapSet rootProps "metadata"
            (props.withProperties (some (mapSet fields name prop))))))

/-- The loop of `addMetaDataToSchema` over `additionalMetaProps`. -/
def addMetaProps : JSONSchemaProps → List (String × JSONSchemaProps) → Option JSONSchemaProps
  | root, [] => some root
  | root, (name, prop) :: rest =>
    match addMetaProp root name prop with
    | none => none
    | some next => addMetaProps next rest

/-- The statements of `addMetaDataToSchema` on the root schema, once `Schema`
and `OpenAPIV3Schema` are non-nil: the property `metadata` is created when
absent, its `Properties` are made a map when nil, and the loop runs. -/
def addMetaDataToRoot (root : JSONSchemaProps) : Option JSONSchemaProps := do
  let withMeta ←
    match mapLookup root.properties "metadata" with
    | some _ => some root
    | none =>
      match root.properties with
      | none => none
      | some rootProps =>
        some (root.withProperties
          (some (mapSet rootProps "metadata" (.mk "object" none (some []) none none))))
  let withFields ←
    match (propertyOrZero withMeta.properties "metadata").properties with
    | some _ => some withMeta
    | none =>
      match withMeta.properties with
      | none => none
      | some rootProps =>
        some (withMeta.withProperties
          (some (mapSet rootProps "metadata"
            ((propertyOrZero withMeta.properties "metadata").withProperties (some [])))))
  addMetaProps withFields additionalMetaProps

/-- Function `addMetaDataToSchema`: the version it leaves behind, or `none`
when it panics. -/
def addMetaDataToSchema (crdv : CustomResourceDefinitionVersion) :
    Option CustomResourceDefinitionVersion :=
  let validation : CustomResourceValidation :=
    match crdv.schema with
    | none => ⟨none⟩
    | some v => v
  let root : JSONSchemaProps :=
    match validation.openAPIV3Schema with
    | none => .mk "" none (some []) none none
    | some r => r
  match addMetaDataToRoot root with
  | none => none
  | some augmented => some { crdv with schema := some ⟨some augmented⟩ }

/-- The fields of `extv1.CustomResourceDefinition` (of its `Spec`) the store
reads: `Group`, `Names.Kind` and `Versions`. -/
structure CustomResourceDefinition where
  group : String
  kind : String
  versions : List CustomResourceDefinitionVersion
  deriving Repr

/-- The loop of `registerCRD` over `crd.Spec.Versions`, for the group and kind
of the definition. -/
def registerVersions (group kind : String) :
    SchemaStore → List CustomResourceDefinitionVersion → Option SchemaStore
  | s, [] => some s
  | s, v :: rest =>
    match addMetaDataToSchema v with
    | none => none
    | some version =>
      registerVersions group kind ⟨mapSet s.versions ⟨group, v.name, kind⟩ version⟩ rest

/-- Method `SchemaStore.registerCRD`: the store afterwards, or `none` when
`addMetaDataToSchema` panics on one of the versions. -/
def SchemaStore.registerCRD (s : SchemaStore) (crd : CustomResourceDefinition) :
    Option SchemaStore :=
  registerVersions crd.group crd.kind s crd.versions

/-- Function `NewSchemaStore`. -/
def NewSchemaStore : SchemaStore := ⟨[]⟩

/-! ## The rule over a composition (`checkCompositionFieldPaths`) -/

/-- What the linter calls and does not define: `schema.ParseGroupVersion` of
apimachinery, giving the group and the version, and `yaml.Unmarshal` of
sigs.k8s.io/yaml, once into a `*xpv1.Composition` and once into the
`unstructured.Unstructured` of a base, of which the `apiVersion` and the `kind`
are kept. -/
structure Decoders where
  parseGroupVersion : String → Except String (String × String)
  unmarshalComposition : String → Except String Composition
  unmarshalBase : String → Except String (String × String)

/-- Method `Unstructured.GroupVersionKind` of apimachinery: the empty kind when
the `apiVersion` does not parse. -/
def objectGroupVersionKind (d : Decoders) (apiVersion kind : String) : GroupVersionKind :=
  match d.parseGroupVersion apiVersion with
  | .error _ => ⟨"", "", ""⟩
  | .ok (group, version) => ⟨group, version, kind⟩

/-- Variable `xpv1.CompositionGroupVersionKind`. -/
def CompositionGroupVersionKind : GroupVersionKind :=
  ⟨"apiextensions.crossplane.io", "v1", "Composition"⟩

/-- Method `PackageEntry.IsComposition`. -/
def PackageEntry.IsComposition (d : Decoders) (e : PackageEntry) : Bool :=
  decide (objectGroupVersionKind d e.apiVersion e.kind = CompositionGroupVersionKind)

/-- The message of `errors.Wrap(err, msg)`. -/
def wrapError (err msg : String) : String := msg ++ ": " ++ err

/-- Method `PackageEntry.AsComposition`, through `convertToWithCache`, whose
cache is never filled; the type name that `reflect` gives for the pointer type
is empty. -/
def PackageEntry.AsComposition (d : Decoders) (e : PackageEntry) : Except String Composition :=
  if e.IsComposition d then
    match d.unmarshalComposition e.raw with
    | .error err => .error (wrapError err ("failed to convert object to " ++ ""))
    | .ok comp => .ok comp
  else
    .error ("object is not of kind " ++ "Composition")

/-- Type `xpkg.Package`. -/
structure Package where
  source : String
  name : String
  entries : List PackageEntry
  deriving Repr, DecidableEq

/-- The loop of `checkCompositionFieldPaths` over the patches `r.Patches` of the
resource at index `i`, from the patch index `ip`. -/
def validateResourcePatchesFrom (parse : FieldPathParser) (ctx : linterContext)
    (manifest : PackageEntry) (comp : Composition) (compositeGvk baseGvk : GroupVersionKind)
    (i : Nat) : Nat → List Patch → Option (List Issue)
  | _, [] => some []
  | ip, p :: rest => do
    let sctx : scopedContext :=
      { linterContext := ctx
        entry := manifest
        basePath :=
          NewJSONPath [.str "spec", .str "resources", .int i, .str "patches", .int ip] }
    let here ← validatePatch parse sctx p comp compositeGvk baseGvk
    let later ←
      validateResourcePatchesFrom parse ctx manifest comp compositeGvk baseGvk i (ip + 1) rest
    pure (here ++ later)

/-- The body of the loop of `checkCompositionFieldPaths` over the resources, for
the resource `r` at index `i`. -/
def checkResource (d : Decoders) (parse : FieldPathParser) (ctx : linterContext)
    (manifest : PackageEntry) (comp : Composition) (compositeGvk : GroupVersionKind)
    (i : Nat) (r : ComposedTemplate) : Option (List Issue) :=
  match d.unmarshalBase r.base with
  | .error err =>
    some [ctx.ReportIssue
      { ruleName := ""
        entry := some manifest
        path := NewJSONPath [.str "spec", .str "resources", .int i, .str "base"]
        pathValue := ""
        description := wrapError err "failed to parse base" }]
  | .ok (apiVersion, kind) =>
    let baseGvk := objectGroupVersionKind d apiVersion kind
    match ctx.GetCRDSchema baseGvk with
    | none =>
      some [ctx.ReportIssue
        { ruleName := ""
          entry := some manifest
          path := NewJSONPath [.str "spec", .str "resources", .int i, .str "base"]
          pathValue := ""
          description := errNoCRDForGVK baseGvk.string }]
    | some _ =>
      validateResourcePatchesFrom parse ctx manifest comp compositeGvk baseGvk i 0 r.patches

/-- The loop of `checkCompositionFieldPaths` over `comp.Spec.Resources`, from
index `i`. -/
def checkResourcesFrom (d : Decoders) (parse : FieldPathParser) (ctx : linterContext)
    (manifest : PackageEntry) (comp : Composition) (compositeGvk : GroupVersionKind) :
    Nat → List ComposedTemplate → Option (List Issue)
  | _, [] => some []
  | i, r :: rest => do
    let here ← checkResource d parse ctx manifest comp compositeGvk i r
    let later ← checkResourcesFrom d parse ctx manifest comp compositeGvk (i + 1) rest
    pure (here ++ later)

/-- Function `checkCompositionFieldPaths`: the issues it reports for one
manifest, in the order in which it reports them. -/
def checkCompositionFieldPaths (d : Decoders) (parse : FieldPathParser) (ctx : linterContext)
    (_pkg : Package) (manifest : PackageEntry) : Option (List Issue) :=
  if manifest.IsComposition d then
    match manifest.AsComposition d with
    | .error err =>
      some [ctx.ReportIssue
        { ruleName := ""
          entry := some manifest
          path := []
          pathValue := ""
          description := wrapError err ("failed to convert object to " ++ "Composition") }]
    | .ok comp =>
      match d.parseGroupVersion comp.compositeTypeRef.apiVersion with
      | .error err =>
        some [ctx.ReportIssue
          { ruleName := ""
            entry := some manifest
            path := []
            pathValue := ""
            description := wrapError err "failed to convert object to Composition" }]
      | .ok (group, version) =>
        let compositeGvk : GroupVersionKind := ⟨group, version, comp.compositeTypeRef.kind⟩
        match ctx.GetCRDSchema compositeGvk with
        | none =>
          some [ctx.ReportIssue
            { ruleName := ""
              entry := some manifest
              path := NewJSONPath [.str "spec", .str "compositeTypeRef"]
              pathValue := ""
              description := errNoCRDForGVK compositeGvk.string }]
        | some _ => checkResourcesFrom d parse ctx manifest comp compositeGvk 0 comp.resources
  else
    some []

/-! ## Duplicate objects (`generic.go`) -/

/-- How a `for ... range` statement holds its variable: one variable for each
iteration (Go 1.22 and later) or one variable for the whole loop (before). The
rules that take the address of a loop variable depend on it, and have it as a
parameter. -/
inductive LoopVariable where
  | perIteration
  | perLoop
  deriving Repr, DecidableEq

/-- What a pointer `&e`, taken in the iteration over the entry `e` of a loop
over `entries`, points to once the loop is over: the entry of that iteration
when each iteration has its own variable, the last entry of the loop when the
loop has one variable. -/
def loopVariableAfter (sem : LoopVariable) (entries : List PackageEntry) (e : PackageEntry) :
    PackageEntry :=
  match sem with
  | .perIteration => e
  | .perLoop => entries.getLastD e

/-- Type `groupVersionKindName`. -/
structure groupVersionKindName where
  gvk : GroupVersionKind
  name : String
  deriving Repr, DecidableEq

/-- The key `gvkn` that `CheckDuplicateObjects` builds for an entry. -/
def entryGroupVersionKindName (d : Decoders) (e : PackageEntry) : groupVersionKindName :=
  ⟨objectGroupVersionKind d e.apiVersion e.kind, e.name⟩

/-- The first loop of `CheckDuplicateObjects`: the map `objects` after the
entries, started from the map `objects`. An element of a slice of the map stands
for the pointer `&e` of the iteration over it. -/
def collectObjects (d : Decoders) :
    List (groupVersionKindName × List PackageEntry) → List PackageEntry →
      List (groupVersionKindName × List PackageEntry)
  | objects, [] => objects
  | objects, e :: rest =>
    let gvkn := entryGroupVersionKindName d e
    match objects.lookup gvkn with
    | some arr => collectObjects d (mapSet objects gvkn (arr ++ [e])) rest
    | none => collectObjects d (mapSet objects gvkn [e]) rest

/-- The description of the issue of `CheckDuplicateObjects`. -/
def duplicateDescription (gvkn : groupVersionKindName) : String :=
  "Multiple objects of kind '" ++ gvkn.gvk.string ++ "' with name '" ++ gvkn.name ++ "'"

/-- The body of the second loop of `CheckDuplicateObjects` for one entry of the
map: the issue it reports, if it reports one. -/
def reportDuplicates (sem : LoopVariable) (ctx : linterContext) (entries : List PackageEntry)
    (group : groupVersionKindName × List PackageEntry) : Option Issue :=
  if group.2.length > 1 then
    match group.2 with
    | [] => none
    | first :: _ =>
      some (ctx.ReportIssue
        { ruleName := ""
          entry := some (loopVariableAfter sem entries first)
          path := []
          pathValue := ""
          description := duplicateDescription group.1 })
  else
    none

/-- Function `CheckDuplicateObjects`: the issues it reports, in the order in
which it reports them. Go ranges over a map in an order it does not specify:
`rangeOrder` gives the order in which the second loop meets the entries of the
map. -/
def CheckDuplicateObjects (sem : LoopVariable)
    (rangeOrder : List (groupVersionKindName × List PackageEntry) →
      List (groupVersionKindName × List PackageEntry))
    (d : Decoders) (ctx : linterContext) (pkg : Package) : List Issue :=
  (rangeOrder (collectObjects d [] pkg.entries)).filterMap (reportDuplicates sem ctx pkg.entries)

/-! ## The composite type of a composition (`composition.go`) -/

/-- The field `Name` of `xpv1.CompositeResourceDefinitionVersion`, the only one
the rule reads. -/
structure CompositeResourceDefinitionVersion where
  name : String
  deriving Repr, DecidableEq

/-- The fields of `xpv1.CompositeResourceDefinition` (of its `Spec`) the rule
and the store read: `Group`, `Names.Kind`, `Versions`, and `ClaimNames`, a
pointer, of which the `Kind` is kept. -/
structure CompositeResourceDefinition where
  group : String
  kind : String
  versions : List CompositeResourceDefinitionVersion
  claimNames : Option String
  deriving Repr, DecidableEq

/-- Variable `xpv1.CompositeResourceDefinitionGroupVersionKind`. -/
def CompositeResourceDefinitionGroupVersionKind : GroupVersionKind :=
  ⟨"apiextensions.crossplane.io", "v1", "CompositeResourceDefinition"⟩

/-- Method `PackageEntry.IsXRD`. -/
def PackageEntry.IsXRD (d : Decoders) (e : PackageEntry) : Bool :=
  decide (objectGroupVersionKind d e.apiVersion e.kind
    = CompositeResourceDefinitionGroupVersionKind)

/-- The decoder `yaml.Unmarshal` of a raw manifest into a
`CompositeResourceDefinition`, which the linter calls and does not define. -/
abbrev XRDDecoder := String → Except String CompositeResourceDefinition

/-- Method `PackageEntry.AsXRD`, through `convertToWithCache`, whose cache is
never filled; the type name that `reflect` gives for the pointer type is
empty. -/
def PackageEntry.AsXRD (d : Decoders) (unmarshalXRD : XRDDecoder) (e : PackageEntry) :
    Except String CompositeResourceDefinition :=
  if e.IsXRD d then
    match unmarshalXRD e.raw with
    | .error err => .error (wrapError err ("failed to convert object to " ++ ""))
    | .ok xrd => .ok xrd
  else
    .error ("object is not of kind " ++ "XRD")

/-- The inner loop of `getCompositeXRD` over `xrd.Spec.Versions`: the first
version of the name. -/
def findCompositeVersion (name : String) :
    List CompositeResourceDefinitionVersion → Option CompositeResourceDefinitionVersion
  | [] => none
  | v :: rest => if v.name = name then some v else findCompositeVersion name rest

/-- The loop of `getCompositeXRD` over the entries: the pair
`(*CompositeResourceDefinitionVersion, *lint.Issue)` it returns. -/
def getCompositeXRDFrom (d : Decoders) (unmarshalXRD : XRDDecoder)
    (compositeGVK : GroupVersionKind) :
    List PackageEntry → Option CompositeResourceDefinitionVersion × Option Issue
  | [] => (none, none)
  | e :: rest =>
    if !e.IsXRD d then
      getCompositeXRDFrom d unmarshalXRD compositeGVK rest
    else
      match e.AsXRD d unmarshalXRD with
      | .error err =>
        (none, some
          { ruleName := ""
            entry := some e
            path := []
            pathValue := ""
            description := wrapError err ("failed to convert object to " ++ "XRD") })
      | .ok xrd =>
        if xrd.group = compositeGVK.group ∧ xrd.kind = compositeGVK.kind then
          match findCompositeVersion compositeGVK.version xrd.versions with
          | some v => (some v, none)
          | none => getCompositeXRDFrom d unmarshalXRD compositeGVK rest
        else
          getCompositeXRDFrom d unmarshalXRD compositeGVK rest

/-- Function `getCompositeXRD`. -/
def getCompositeXRD (d : Decoders) (unmarshalXRD : XRDDecoder) (pkg : Package)
    (compositeGVK : GroupVersionKind) :
    Option CompositeResourceDefinitionVersion × Option Issue :=
  getCompositeXRDFrom d unmarshalXRD compositeGVK pkg.entries

/-- Message `errNoMatchingCompositeType`. -/
def errNoMatchingCompositeType (kind group version : String) : String :=
  "no composite type found for " ++ kind ++ "." ++ group ++ "/" ++ version

/-- The body of the loop of `CheckCompositionCompositeTypeRef` for the entry
`manifest`: the issues it reports. `Entry` is the pointer `&manifest` to the
variable of the loop over the entries of the package. -/
def checkCompositeTypeRef (sem : LoopVariable) (d : Decoders) (unmarshalXRD : XRDDecoder)
    (ctx : linterContext) (pkg : Package) (manifest : PackageEntry) : List Issue :=
  if !manifest.IsComposition d then
    []
  else
    match manifest.AsComposition d with
    | .error err =>
      [ctx.ReportIssue
        { ruleName := ""
          entry := some (loopVariableAfter sem pkg.entries manifest)
          path := []
          pathValue := ""
          description := wrapError err ("failed to convert object to " ++ "Composition") }]
    | .ok comp =>
      match d.parseGroupVersion comp.compositeTypeRef.apiVersion with
      | .error err =>
        [ctx.ReportIssue
          { ruleName := ""
            entry := some (loopVariableAfter sem pkg.entries manifest)
            path := []
            pathValue := ""
            description := wrapError err "failed to convert object to Composition" }]
      | .ok (group, version) =>
        let gvk : GroupVersionKind := ⟨group, version, comp.compositeTypeRef.kind⟩
        match getCompositeXRD d unmarshalXRD pkg gvk with
        | (_, some issue) => [ctx.ReportIssue issue]
        | (none, none) =>
          [ctx.ReportIssue
            { ruleName := ""
              entry := some (loopVariableAfter sem pkg.entries manifest)
              path := []
              pathValue := ""
              description := errNoMatchingCompositeType gvk.kind gvk.group gvk.version }]
        | (some _, none) => []

/-- The loop of `CheckCompositionCompositeTypeRef` over the entries. -/
def checkCompositeTypeRefs (sem : LoopVariable) (d : Decoders) (unmarshalXRD : XRDDecoder)
    (ctx : linterContext) (pkg : Package) : List PackageEntry → List Issue
  | [] => []
  | manifest :: rest =>
    checkCompositeTypeRef sem d unmarshalXRD ctx pkg manifest
      ++ checkCompositeTypeRefs sem d unmarshalXRD ctx pkg rest

/-- Function `CheckCompositionCompositeTypeRef`: the issues it reports, in the
order in which it reports them. -/
def CheckCompositionCompositeTypeRef (sem : LoopVariable) (d : Decoders)
    (unmarshalXRD : XRDDecoder) (ctx : linterContext) (pkg : Package) : List Issue :=
  checkCompositeTypeRefs sem d unmarshalXRD ctx pkg pkg.entries

/-! ## The registration of packages (`store.go`, `lint_package.go`) -/

/-- Variable `crdGVK` of package `xpkg`. -/
def crdGVK : GroupVersionKind :=
  ⟨"apiextensions.k8s.io", "v1", "CustomResourceDefinition"⟩

/-- Method `PackageEntry.IsCRD`. -/
def PackageEntry.IsCRD (d : Decoders) (e : PackageEntry) : Bool :=
  decide (objectGroupVersionKind d e.apiVersion e.kind = crdGVK)

/-- The decoder `yaml.Unmarshal` of a raw manifest into a
`CustomResourceDefinition`, which the linter calls and does not define. -/
abbrev CRDDecoder := String → Except String CustomResourceDefinition

/-- Method `PackageEntry.AsCRD`, through `convertToWithCache`, whose cache is
never filled; the message for an entry of another kind names `Composition`, as
the source does. -/
def PackageEntry.AsCRD (d : Decoders) (unmarshalCRD : CRDDecoder) (e : PackageEntry) :
    Except String CustomResourceDefinition :=
  if e.IsCRD d then
    match unmarshalCRD e.raw with
    | .error err => .error (wrapError err ("failed to convert object to " ++ ""))
    | .ok crd => .ok crd
  else
    .error ("object is not of kind " ++ "Composition")

/-- Functions `ForCompositeResource` and `ForCompositeResourceClaim` of package
`schema`, which `RegisterPackage` calls and which are not among the sources:
the definition each derives from a composite-type definition, or its error. -/
structure CompositeBuilders where
  ForCompositeResource : CompositeResourceDefinition → Except String CustomResourceDefinition
  ForCompositeResourceClaim : CompositeResourceDefinition → Except String CustomResourceDefinition

/-- The loop of `SchemaStore.RegisterPackage` over the entries: the store
afterwards or the error returned, and `none` when `registerCRD` panics. -/
def registerEntries (d : Decoders) (unmarshalCRD : CRDDecoder) (unmarshalXRD : XRDDecoder)
    (b : CompositeBuilders) : SchemaStore → List PackageEntry → Option (Except String SchemaStore)
  | s, [] => some (.ok s)
  | s, e :: rest =>
    if e.IsCRD d then
      match e.AsCRD d unmarshalCRD with
      | .error err => some (.error err)
      | .ok crd =>
        match s.registerCRD crd with
        | none => none
        | some s1 => registerEntries d unmarshalCRD unmarshalXRD b s1 rest
    else if e.IsXRD d then
      match e.AsXRD d unmarshalXRD with
      | .error err => some (.error err)
      | .ok xrd =>
        match b.ForCompositeResource xrd with
        | .error err => some (.error (wrapError err "failed to build composite CRD"))
        | .ok comp =>
          match s.registerCRD comp with
          | none => none
          | some s1 =>
            match xrd.claimNames with
            | none => registerEntries d unmarshalCRD unmarshalXRD b s1 rest
            | some _ =>
              match b.ForCompositeResourceClaim xrd with
              | .error err => some (.error (wrapError err "failed to build claim CRD"))
              | .ok claim =>
                match s1.registerCRD claim with
                | none => none
                | some s2 => registerEntries d unmarshalCRD unmarshalXRD b s2 rest
    else
      registerEntries d unmarshalCRD unmarshalXRD b s rest

/-- Method `SchemaStore.RegisterPackage`. -/
def SchemaStore.RegisterPackage (d : Decoders) (unmarshalCRD : CRDDecoder)
    (unmarshalXRD : XRDDecoder) (b : CompositeBuilders) (s : SchemaStore) (pkg : Package) :
    Option (Except String SchemaStore) :=
  registerEntries d unmarshalCRD unmarshalXRD b s pkg.entries

/-- The calls of `RegisterPackage` in `lintPackageCmd.Run`, package after
package: an error is wrapped with `errRegisterPackageSchema` and returned. -/
def registerPackages (d : Decoders) (unmarshalCRD : CRDDecoder) (unmarshalXRD : XRDDecoder)
    (b : CompositeBuilders) : SchemaStore → List Package → Option (Except String SchemaStore)
  | s, [] => some (.ok s)
  | s, p :: rest =>
    match s.RegisterPackage d unmarshalCRD unmarshalXRD b p with
    | none => none
    | some (.error err) => some (.error (wrapError err "failed to register package schemas"))
    | some (.ok s1) => registerPackages d unmarshalCRD unmarshalXRD b s1 rest

/-- The statements of `lintPackageCmd.Run` that build the schema store for the
linter: a new store, in which the package is registered and then each of its
dependencies `pkgDeps`. -/
def buildSchemaStore (d : Decoders) (unmarshalCRD : CRDDecoder) (unmarshalXRD : XRDDecoder)
    (b : CompositeBuilders) (pkg : Package) (pkgDeps : List Package) :
    Option (Except String SchemaStore) :=
  registerPackages d unmarshalCRD unmarshalXRD b NewSchemaStore (pkg :: pkgDeps)

/-! ## The linter (`linter.go`) -/

/-- Type `lint.LinterReport`. -/
structure LinterReport where
  issues : List Issue
  deriving Repr

/-- Type `LinterRule`, by what a rule sends to the channel of its context: the
sequence of issues of each goroutine that reports for the rule, or `none` when
one of them panics. -/
abbrev LinterRule := linterContext → Package → Option (List (List Issue))

/-- The loop of `CheckCompositionFieldPaths` over the entries: one goroutine for
each entry, which runs `checkCompositionFieldPaths` on a copy of the entry. -/
def checkCompositionFieldPathsEach (d : Decoders) (parse : FieldPathParser)
    (ctx : linterContext) (pkg : Package) : List PackageEntry → Option (List (List Issue))
  | [] => some []
  | m :: rest =>
    match checkCompositionFieldPaths d parse ctx pkg m with
    | none => none
    | some issues =>
      match checkCompositionFieldPathsEach d parse ctx pkg rest with
      | none => none
      | some later => some (issues :: later)

/-- Function `CheckCompositionFieldPaths`. -/
def CheckCompositionFieldPaths (d : Decoders) (parse : FieldPathParser) : LinterRule :=
  fun ctx pkg => checkCompositionFieldPathsEach d parse ctx pkg pkg.entries

/-- What the linter calls and does not define, and what Go leaves open: how a
loop holds its variable, the order in which a map is ranged over, the decoders,
and the order in which the channel of issues hands over what the goroutines
send. -/
structure Environment where
  loopVariable : LoopVariable
  rangeOrder : List (groupVersionKindName × List PackageEntry) →
    List (groupVersionKindName × List PackageEntry)
  decoders : Decoders
  unmarshalXRD : XRDDecoder
  parse : FieldPathParser
  schedule : List (List Issue) → List Issue

/-- Variable `defaultRules`, in the order of the source text. -/
def defaultRules (env : Environment) : List (String × LinterRule) :=
  [("generic.checkDuplicates", fun ctx pkg =>
      some [CheckDuplicateObjects env.loopVariable env.rangeOrder env.decoders ctx pkg]),
   ("composition.checkCompositeType", fun ctx pkg =>
      some [CheckCompositionCompositeTypeRef env.loopVariable env.decoders env.unmarshalXRD
        ctx pkg]),
   ("composition.checkPathFieldPaths", CheckCompositionFieldPaths env.decoders env.parse)]

/-- Type `linter`. -/
structure linter where
  schemaValidator : SchemaStore
  rules : List (String × LinterRule)

/-- Function `Newlinter`. -/
def Newlinter (env : Environment) (schemaValidator : SchemaStore) : linter :=
  { schemaValidator := schemaValidator
    rules := defaultRules env }

/-- The loop of `runRulesConcurrently` over the rules: each rule runs with a
context of its own, which bears the name of the rule; the result is what the
goroutines of the rules send, goroutine by goroutine. -/
def runRules (schemaValidator : SchemaStore) (pkg : Package) :
    List (String × LinterRule) → Option (List (List Issue))
  | [] => some []
  | (name, rule) :: rest =>
    match rule { ruleName := name, schemaStore := schemaValidator } pkg with
    | none => none
    | some sent =>
      match runRules schemaValidator pkg rest with
      | none => none
      | some later => some (sent ++ later)

/-- Method `linter.runRulesConcurrently`, by what is sent to the channel it
returns. -/
def linter.runRulesConcurrently (l : linter) (pkg : Package) : Option (List (List Issue)) :=
  runRules l.schemaValidator pkg l.rules

/-- Method `linter.Lint`: the report holds the issues in the order in which the
channel hands them over. -/
def linter.Lint (schedule : List (List Issue) → List Issue) (l : linter) (pkg : Package) :
    Option LinterReport :=
  match l.runRulesConcurrently pkg with
  | none => none
  | some sent => some { issues := schedule sent }

/-! ## The report at the end of the command (`text.go`, `lint_package.go`) -/

/-- What the text printer calls and does not define: `yamlpath.NewPath`, by the
error it gives for the text of a path, `goyaml.Unmarshal` of a raw manifest into
a node, by its error, and `Path.Find`, by the lines and columns of the nodes it
finds for the text of a path in a raw manifest, or its error. -/
structure YamlLibraries where
  newPath : String → Option String
  unmarshalNode : String → Option String
  find : String → String → Except String (List (Nat × Nat))

/-- Function `evalJSONPath` of the text printer: the line and the column it
returns, or its error. `GetYamlNode` unmarshals the raw manifest of the entry;
its cache spares a second parse of the same manifest. -/
def evalJSONPath (lib : YamlLibraries) (e : PackageEntry) (path : JSONPath) :
    Except String (Nat × Nat) :=
  match lib.newPath (JSONPath.string path) with
  | some err => .error (wrapError err "failed to parse JSON path")
  | none =>
    match lib.unmarshalNode e.raw with
    | some err => .error (wrapError err "failed to parse yaml")
    | none =>
      match lib.find (JSONPath.string path) e.raw with
      | .error err => .error (wrapError err "failed to evaluate JSON path")
      | .ok [] => .ok (0, 0)
      | .ok (pathNode :: _) => .ok pathNode

/-- Method `TextPrinter.printIssue`, by the error it returns; a path that is nil
is the empty list. -/
def printIssue (lib : YamlLibraries) (issue : Issue) : Option String :=
  match issue.entry with
  | none => none
  | some e =>
    if issue.path.isEmpty then
      none
    else
      match evalJSONPath lib e issue.path with
      | .error err => some (wrapError err "failed to evaluate JSON Path")
      | .ok _ => none

/-- The loop of `TextPrinter.PrintReport` over the issues, by the error it
returns. -/
def printIssues (lib : YamlLibraries) : List Issue → Option String
  | [] => none
  | issue :: rest =>
    match printIssue lib issue with
    | some err => some err
    | none => printIssues lib rest

/-- Method `TextPrinter.PrintReport`, by the error it returns. -/
def PrintReport (lib : YamlLibraries) (report : LinterReport) : Option String :=
  printIssues lib report.issues

/-- Message `errLinterIssues`. -/
def errLinterIssues (n : Nat) : String := toString n ++ " issues discovered during linting"

/-- The statements of `lintPackageCmd.Run` that follow `pkgLinter.Lint(pkg)`: the
error that `Run` returns for the report, `none` for no error. -/
def runOnReport (lib : YamlLibraries) (report : LinterReport) : Option String :=
  if report.issues.length = 0 then
    none
  else
    match PrintReport lib report with
    | some err => some err
    | none => some (errLinterIssues report.issues.length)

/-! ## Reference predicate for declared structure -/

/-- The path matches the declared shape below `node`, by recursion on the path:
a field segment names a declared property of an object-kind node (type `object`
or none) and the rest matches below that property; an index segment stands on a
node of type `array` that declares an item schema and the rest matches below the
item schema. This is the specification's predicate, not the code. -/
def matchesDeclaredShape : JSONSchemaProps → List Segment → Bool
  | _, [] => true
  | node, segment :: rest =>
    if segment.type = SegmentField then
      decide (node.type = "object" ∨ node.type = "") &&
        (match mapLookup node.properties segment.field with
         | some prop => matchesDeclaredShape prop rest
         | none => false)
    else if segment.type = SegmentIndex then
      decide (node.type = "array") &&
        (match node.items with
         | some (some schema) => matchesDeclaredShape schema rest
         | _ => false)
    else
      false

/-! ## Example data -/

/-- A leaf of type string. -/
def stringLeaf : JSONSchemaProps := .mk "string" none none none none

/-- The node `{b: string}`, with no declared type. -/
def nodeB : JSONSchemaProps := .mk "" none (some [("b", stringLeaf)]) none none

/-- The schema `{a: {b: string}}`. -/
def schemaAB : JSONSchemaProps := .mk "object" none (some [("a", nodeB)]) none none

/-- An array of strings. -/
def stringArray : JSONSchemaProps := .mk "array" none none none (some (some stringLeaf))

/-- An object with a declared property `b` and a wildcard of strings. -/
def wildcardNode : JSONSchemaProps :=
  .mk "object" none (some [("b", stringArray)]) (some (true, some stringLeaf)) none

/-! ## Single segments -/

/-- An object-kind test that passes: the declared type is empty or `object`. -/
theorem propType_object {t : String} (h : t = "object" ∨ t = "") :
    (if t = "" then "object" else t) = "object" := by
  rcases h with h | h <;> simp [h]

/-- The type test of a field segment, when the declared type is another one. -/
theorem propType_other {t : String} (h₁ : t ≠ "") (h₂ : t ≠ "object") :
    (if t = "" then "object" else t) = t ∧ (if t = "" then "object" else t) ≠ "object" := by
  simp [h₁, h₂]

/-- The type-mismatch message of a field segment, written out. -/
theorem errFieldPathWrongType_object (t : String) :
    errFieldPathWrongType "object" t = "expected type 'object' but got '" ++ t ++ "'" := by
  have h : "expected type '" ++ "object" ++ "' but got '" = "expected type 'object' but got '" := by
    decide
  unfold errFieldPathWrongType
  rw [h]

/-- The type-mismatch message of an index segment, written out. -/
theorem errFieldPathWrongType_array (t : String) :
    errFieldPathWrongType "array" t = "expected type 'array' but got '" ++ t ++ "'" := by
  have h : "expected type '" ++ "array" ++ "' but got '" = "expected type 'array' but got '" := by
    decide
  unfold errFieldPathWrongType
  rw [h]

/-- C1: on a node of type `object` or of no type, without
x-preserve-unknown-fields and without additionalProperties, a field segment `f`
gives the schema declared under `properties[f]` when there is one, and the error
`property 'f' not found` otherwise. -/
theorem validateFieldPathSegment_declared_property
    (current : JSONSchemaProps) (segment : Segment)
    (hseg : segment.type = SegmentField)
    (htype : current.type = "object" ∨ current.type = "")
    (hpres : boolDeref current.xPreserveUnknownFields false = false)
    (haddl : current.additionalProperties = none) :
    validateFieldPathSegment current segment =
      match mapLookup current.properties segment.field with
      | some prop => .ok (some prop)
      | none => .error ("property '" ++ segment.field ++ "' not found") := by
  unfold validateFieldPathSegment
  rw [if_pos hseg]
  simp only [propType_object htype, ne_eq, not_true_eq_false, if_false, hpres, haddl,
    Bool.false_eq_true, errFieldNotFound]
  cases mapLookup current.properties segment.field <;> rfl

/-- Scenario A, on the schema `{a: {b: string}}`: under `a` the segment `b` gives
the string leaf and the segment `c` fails naming `c`; so do the paths `a.b` and
`a.c` from the root. -/
theorem validateFieldPathSegment_declared_property_witness :
    validateFieldPathSegment nodeB (Segment.ofField "b") = .ok (some stringLeaf) ∧
    validateFieldPathSegment nodeB (Segment.ofField "c") = .error "property 'c' not found" ∧
    validateSegments (some schemaAB) [Segment.ofField "a", Segment.ofField "b"]
      = .ok (some stringLeaf) ∧
    validateSegments (some schemaAB) [Segment.ofField "a", Segment.ofField "c"]
      = .error "property 'c' not found" :=
  ⟨validateFieldPathSegment_declared_property nodeB (Segment.ofField "b") rfl
      (Or.inr rfl) rfl rfl,
   validateFieldPathSegment_declared_property nodeB (Segment.ofField "c") rfl
      (Or.inr rfl) rfl rfl,
   rfl, rfl⟩

/-- C2: a field segment on a node whose declared type is neither empty nor
`object` fails with `expected type 'object' but got '<type>'`, whatever the
properties, additionalProperties and preserve-unknown flag of the node; and a
node of no declared type gives what the same node of type `object` gives. -/
theorem validateFieldPathSegment_field_wrong_type
    (segment : Segment) (hseg : segment.type = SegmentField) :
    (∀ (t : String) (x : Option Bool) (props : Option (List (String × JSONSchemaProps)))
        (addl : Option (Bool × Option JSONSchemaProps)) (items : Option (Option JSONSchemaProps)),
        t ≠ "" → t ≠ "object" →
        validateFieldPathSegment (.mk t x props addl items) segment =
          .error ("expected type 'object' but got '" ++ t ++ "'")) ∧
    (∀ (x : Option Bool) (props : Option (List (String × JSONSchemaProps)))
        (addl : Option (Bool × Option JSONSchemaProps)) (items : Option (Option JSONSchemaProps)),
        validateFieldPathSegment (.mk "" x props addl items) segment =
          validateFieldPathSegment (.mk "object" x props addl items) segment) := by
  refine ⟨?_, ?_⟩
  · intro t x props addl items h₁ h₂
    unfold validateFieldPathSegment
    rw [if_pos hseg]
    simp only [JSONSchemaProps.type, (propType_other h₁ h₂).1, ne_eq, h₂, not_false_eq_true,
      if_true, errFieldPathWrongType_object]
  · intro x props addl items
    unfold validateFieldPathSegment
    rw [if_pos hseg, if_pos hseg]
    rfl

/-- A field segment on the string leaf and on an array that sets every other
field; the untyped `{b: string}` against its `object` twin. -/
theorem validateFieldPathSegment_field_wrong_type_witness :
    validateFieldPathSegment stringLeaf (Segment.ofField "b")
      = .error "expected type 'object' but got 'string'" ∧
    validateFieldPathSegment
        (.mk "array" (some true) (some [("b", stringLeaf)]) (some (true, some stringLeaf))
          (some (some stringLeaf))) (Segment.ofField "b")
      = .error "expected type 'object' but got 'array'" ∧
    validateFieldPathSegment nodeB (Segment.ofField "b") =
      validateFieldPathSegment (.mk "object" none (some [("b", stringLeaf)]) none none)
        (Segment.ofField "b") :=
  ⟨(validateFieldPathSegment_field_wrong_type (Segment.ofField "b") rfl).1
      "string" none none none none (by decide) (by decide),
   (validateFieldPathSegment_field_wrong_type (Segment.ofField "b") rfl).1
      "array" (some true) (some [("b", stringLeaf)]) (some (true, some stringLeaf))
      (some (some stringLeaf)) (by decide) (by decide),
   (validateFieldPathSegment_field_wrong_type (Segment.ofField "b") rfl).2
      none (some [("b", stringLeaf)]) none none⟩

/-- C3: an index segment fails with the type-mismatch error expecting `array`
unless the declared type is exactly `array` (an untyped node fails too); on an
array it fails with `prop type is array but missing items definition` when no
item schema is declared and returns the declared item schema otherwise; and two
index segments, whatever their numbers, give the same result. -/
theorem validateFieldPathSegment_index
    (current : JSONSchemaProps) (segment : Segment) (hseg : segment.type = SegmentIndex) :
    (current.type ≠ "array" →
      validateFieldPathSegment current segment =
        .error ("expected type 'array' but got '" ++ current.type ++ "'")) ∧
    (current.type = "array" → (current.items = none ∨ current.items = some none) →
      validateFieldPathSegment current segment =
        .error "prop type is array but missing items definition") ∧
    (∀ schema, current.type = "array" → current.items = some (some schema) →
      validateFieldPathSegment current segment = .ok (some schema)) ∧
    (∀ other : Segment, other.type = SegmentIndex →
      validateFieldPathSegment current other = validateFieldPathSegment current segment) := by
  have hne : ¬ segment.type = SegmentField := by rw [hseg]; decide
  refine ⟨?_, ?_, ?_, ?_⟩
  · intro h
    unfold validateFieldPathSegment
    rw [if_neg hne, if_pos hseg]
    simp only [ne_eq, h, not_false_eq_true, if_true, errFieldPathWrongType_array]
  · intro h hitems
    unfold validateFieldPathSegment
    rw [if_neg hne, if_pos hseg]
    rcases hitems with hi | hi <;>
      simp only [ne_eq, h, not_true_eq_false, if_false, hi, errFieldArrayNoItems]
  · intro schema h hi
    unfold validateFieldPathSegment
    rw [if_neg hne, if_pos hseg]
    simp only [ne_eq, h, not_true_eq_false, if_false, hi]
  · intro other hother
    have hne2 : ¬ other.type = SegmentField := by rw [hother]; decide
    unfold validateFieldPathSegment
    rw [if_neg hne, if_pos hseg, if_neg hne2, if_pos hother]

/-- Index segments on an untyped node, on an array without items, and on an
array of strings, where the indices 0 and 7 agree. -/
theorem validateFieldPathSegment_index_witness :
    validateFieldPathSegment nodeB (Segment.ofIndex 0)
      = .error "expected type 'array' but got ''" ∧
    validateFieldPathSegment (.mk "array" none none none (some none)) (Segment.ofIndex 0)
      = .error "prop type is array but missing items definition" ∧
    validateFieldPathSegment stringArray (Segment.ofIndex 0) = .ok (some stringLeaf) ∧
    validateFieldPathSegment stringArray (Segment.ofIndex 7)
      = validateFieldPathSegment stringArray (Segment.ofIndex 0) :=
  ⟨(validateFieldPathSegment_index nodeB (Segment.ofIndex 0) rfl).1 (by decide),
   (validateFieldPathSegment_index (.mk "array" none none none (some none))
      (Segment.ofIndex 0) rfl).2.1 rfl (Or.inr rfl),
   (validateFieldPathSegment_index stringArray (Segment.ofIndex 0) rfl).2.2.1 stringLeaf rfl rfl,
   (validateFieldPathSegment_index stringArray (Segment.ofIndex 0) rfl).2.2.2
      (Segment.ofIndex 7) rfl⟩

/-- C4: on an object-kind node without x-preserve-unknown-fields, for a field
`f` that is not a declared property: when additionalProperties is declared and
allows (a value schema, or `true`), the segment succeeds with its value schema;
the segment fails, with the not-found error, exactly when additionalProperties
is absent or is `false`. A declared property is returned whatever
additionalProperties says. -/
theorem validateFieldPathSegment_wildcard
    (current : JSONSchemaProps) (segment : Segment)
    (hseg : segment.type = SegmentField)
    (htype : current.type = "object" ∨ current.type = "")
    (hpres : boolDeref current.xPreserveUnknownFields false = false) :
    (∀ schema, mapLookup current.properties segment.field = none →
      current.additionalProperties = some (true, schema) →
      validateFieldPathSegment current segment = .ok schema) ∧
    (mapLookup current.properties segment.field = none →
      ((∃ err, validateFieldPathSegment current segment = .error err) ↔
        (current.additionalProperties = none ∨
          ∃ schema, current.additionalProperties = some (false, schema)))) ∧
    (mapLookup current.properties segment.field = none →
      ∀ err, validateFieldPathSegment current segment = .error err →
        err = "property '" ++ segment.field ++ "' not found") ∧
    (∀ prop, mapLookup current.properties segment.field = some prop →
      validateFieldPathSegment current segment = .ok (some prop)) := by
  have hstep : validateFieldPathSegment current segment =
      match mapLookup current.properties segment.field with
      | none =>
        match current.additionalProperties with
        | some (true, schema) => .ok schema
        | _ => .error (errFieldNotFound segment.field)
      | some prop => .ok (some prop) := by
    unfold validateFieldPathSegment
    rw [if_pos hseg]
    simp only [propType_object htype, ne_eq, not_true_eq_false, if_false, hpres,
      Bool.false_eq_true]
  refine ⟨?_, ?_, ?_, ?_⟩
  · intro schema hmiss haddl
    rw [hstep, hmiss, haddl]
  · intro hmiss
    rw [hstep, hmiss]
    rcases h : current.additionalProperties with _ | ⟨allows, schema⟩
    · simp
    · cases allows <;> simp
  · intro hmiss err
    rw [hstep, hmiss]
    rcases h : current.additionalProperties with _ | ⟨allows, schema⟩
    · simp only [errFieldNotFound, Except.error.injEq]
      exact fun h => h.symm
    · cases allows
      · simp only [errFieldNotFound, Except.error.injEq]
        exact fun h => h.symm
      · simp
  · intro prop hhit
    rw [hstep, hhit]

/-- On the node with the property `b` and a wildcard of strings: `zone` goes to
the wildcard's schema, `b` to its own; without a wildcard `c` is not found. -/
theorem validateFieldPathSegment_wildcard_witness :
    validateFieldPathSegment wildcardNode (Segment.ofField "zone") = .ok (some stringLeaf) ∧
    validateFieldPathSegment wildcardNode (Segment.ofField "b") = .ok (some stringArray) ∧
    ((∃ err, validateFieldPathSegment nodeB (Segment.ofField "c") = .error err) ↔
      (nodeB.additionalProperties = none ∨
        ∃ schema, nodeB.additionalProperties = some (false, schema))) ∧
    (∀ err, validateFieldPathSegment nodeB (Segment.ofField "c") = .error err →
      err = "property 'c' not found") :=
  ⟨(validateFieldPathSegment_wildcard wildcardNode (Segment.ofField "zone") rfl
      (Or.inl rfl) rfl).1 (some stringLeaf) rfl rfl,
   (validateFieldPathSegment_wildcard wildcardNode (Segment.ofField "b") rfl
      (Or.inl rfl) rfl).2.2.2 stringArray rfl,
   (validateFieldPathSegment_wildcard nodeB (Segment.ofField "c") rfl
      (Or.inr rfl) rfl).2.1 rfl,
   (validateFieldPathSegment_wildcard nodeB (Segment.ofField "c") rfl
      (Or.inr rfl) rfl).2.2.1 rfl⟩

/-! ## Whole paths -/

/-- A toy `fieldpath.Parse`, enough for the raw paths of the examples: it gives
what the real parser gives on them and fails on every other string. -/
def exampleParse : FieldPathParser := fun raw =>
  if raw = "a.b" then .ok [Segment.ofField "a", Segment.ofField "b"]
  else if raw = "a.c" then .ok [Segment.ofField "a", Segment.ofField "c"]
  else if raw = "c" then .ok [Segment.ofField "c"]
  else if raw = "a[0]" then .ok [Segment.ofField "a", Segment.ofIndex 0]
  else if raw = "a.x[0].y" then
    .ok [Segment.ofField "a", Segment.ofField "x", Segment.ofIndex 0, Segment.ofField "y"]
  else .error "unexpected path"

/-- The kind of the examples. -/
def exampleGvk : GroupVersionKind := ⟨"example.org", "v1", "Widget"⟩

/-- A second kind, for the other side of a patch. -/
def otherGvk : GroupVersionKind := ⟨"example.org", "v1", "Gadget"⟩

/-- A scoped context whose store holds `root` as the schema of `exampleGvk`
and nothing else. -/
def exampleContext (root : JSONSchemaProps) : scopedContext :=
  { linterContext :=
      { ruleName := "composition.checkPathFieldPaths"
        schemaStore := ⟨[(exampleGvk, ⟨"v1", some ⟨some root⟩⟩)]⟩ }
    entry := ⟨"apiextensions.crossplane.io/v1", "Composition", "example", "composition.yaml", ""⟩
    basePath := NewJSONPath [.str "spec", .str "resources", .int 0, .str "patches", .int 0] }

/-- A node that only sets x-preserve-unknown-fields. -/
def preserveNode : JSONSchemaProps := .mk "" (some true) none none none

/-- The schema `{a: <preserve unknown fields>}`. -/
def schemaPreserve : JSONSchemaProps := .mk "object" none (some [("a", preserveNode)]) none none

/-- The loop over `pre ++ suf` is the loop over `suf` started where the loop over
`pre` ended, unless that one returned an error. -/
theorem validateSegments_append (current : Option JSONSchemaProps) (pre suf : List Segment) :
    validateSegments current (pre ++ suf) =
      match validateSegments current pre with
      | .error err => .error err
      | .ok next => validateSegments next suf := by
  induction pre generalizing current with
  | nil => simp [validateSegments]
  | cons segment rest ih =>
    cases current with
    | none => cases suf <;> simp [validateSegments]
    | some node =>
      simp only [List.cons_append, validateSegments]
      cases validateFieldPathSegment node segment with
      | error err => rfl
      | ok next => exact ih next

/-- Once `current` is nil the loop returns without an error, whatever is left. -/
theorem validateSegments_none (path : List Segment) : validateSegments none path = .ok none := by
  cases path <;> rfl

/-- The result of `validateFieldPath` once the path is parsed and the schema of
the kind is found. -/
theorem validateFieldPath_eq (parse : FieldPathParser) (ctx : scopedContext)
    (gvk : GroupVersionKind) (rawPath : String) (path : List Segment)
    (crd : CustomResourceDefinitionVersion) (validation : CustomResourceValidation)
    (hparse : parse rawPath = .ok path)
    (hcrd : ctx.linterContext.GetCRDSchema gvk = some crd)
    (hschema : crd.schema = some validation) :
    validateFieldPath parse ctx gvk rawPath =
      match validateSegments validation.openAPIV3Schema path with
      | .error err => some (some err)
      | .ok _ => some none := by
  unfold validateFieldPath
  simp only [hparse, hcrd, hschema]

/-- The amended C5: when a path reaches an object-kind node (type `object` or none)
that sets x-preserve-unknown-fields and continues with a field segment, followed
by any segments at all, `validateFieldPath` returns no error and no issue is
reported for the path. -/
theorem validateFieldPath_past_preserve_unknown
    (parse : FieldPathParser) (ctx : scopedContext) (gvk : GroupVersionKind)
    (rawPath : String) (crd : CustomResourceDefinitionVersion)
    (validation : CustomResourceValidation) (node : JSONSchemaProps)
    (pre : List Segment) (segment : Segment) (rest : List Segment) (reportAt : JSONPath)
    (hparse : parse rawPath = .ok (pre ++ segment :: rest))
    (hcrd : ctx.linterContext.GetCRDSchema gvk = some crd)
    (hschema : crd.schema = some validation)
    (hreach : validateSegments validation.openAPIV3Schema pre = .ok (some node))
    (htype : node.type = "object" ∨ node.type = "")
    (hpres : boolDeref node.xPreserveUnknownFields false = true)
    (hseg : segment.type = SegmentField) :
    validateFieldPath parse ctx gvk rawPath = some none ∧
    reportFieldPath parse ctx gvk rawPath reportAt = some [] := by
  have hstep : validateFieldPathSegment node segment = .ok none := by
    unfold validateFieldPathSegment
    rw [if_pos hseg]
    simp only [propType_object htype, ne_eq, not_true_eq_false, if_false, hpres, if_true]
  have hloop : validateSegments validation.openAPIV3Schema (pre ++ segment :: rest) = .ok none := by
    rw [validateSegments_append, hreach]
    simp only [validateSegments, hstep, validateSegments_none]
  have hres : validateFieldPath parse ctx gvk rawPath = some none := by
    rw [validateFieldPath_eq parse ctx gvk rawPath _ crd validation hparse hcrd hschema, hloop]
  refine ⟨hres, ?_⟩
  unfold reportFieldPath
  rw [hres]

/-- The path `a.x[0].y` on `{a: <preserve unknown fields>}`: `a` reaches the node,
`x` is the field segment after it, `[0].y` the rest. -/
theorem validateFieldPath_past_preserve_unknown_witness :
    validateFieldPath exampleParse (exampleContext schemaPreserve) exampleGvk "a.x[0].y"
      = some none ∧
    reportFieldPath exampleParse (exampleContext schemaPreserve) exampleGvk "a.x[0].y"
      (NewJSONPath [.str "fromFieldPath"]) = some [] :=
  validateFieldPath_past_preserve_unknown exampleParse (exampleContext schemaPreserve)
    exampleGvk "a.x[0].y" ⟨"v1", some ⟨some schemaPreserve⟩⟩ ⟨some schemaPreserve⟩ preserveNode
    [Segment.ofField "a"] (Segment.ofField "x") [Segment.ofIndex 0, Segment.ofField "y"]
    (NewJSONPath [.str "fromFieldPath"]) rfl rfl rfl rfl (Or.inr rfl) rfl rfl

/-- C5 as stated fails: on `{a: <preserve unknown fields>}` the path `a[0]`
reaches the node `a`, which sets x-preserve-unknown-fields, continues past it with
an index segment, and `validateFieldPath` returns a type-mismatch error, for
which an issue is reported. -/
theorem validateFieldPath_index_past_preserve_unknown_fails :
    validateSegments (some schemaPreserve) [Segment.ofField "a"] = .ok (some preserveNode) ∧
    boolDeref preserveNode.xPreserveUnknownFields false = true ∧
    exampleParse "a[0]" = .ok ([Segment.ofField "a"] ++ [Segment.ofIndex 0]) ∧
    validateFieldPath exampleParse (exampleContext schemaPreserve) exampleGvk "a[0]"
      = some (some "expected type 'array' but got ''") ∧
    (reportFieldPath exampleParse (exampleContext schemaPreserve) exampleGvk "a[0]"
      (NewJSONPath [.str "fromFieldPath"])).map List.length = some 1 :=
  ⟨rfl, rfl, rfl, rfl, rfl⟩

/-- A field segment on an object-kind node that sets x-preserve-unknown-fields
gives `(nil, nil)`. -/
theorem validateFieldPathSegment_preserve (node : JSONSchemaProps) (segment : Segment)
    (hseg : segment.type = SegmentField)
    (htype : node.type = "object" ∨ node.type = "")
    (hpres : boolDeref node.xPreserveUnknownFields false = true) :
    validateFieldPathSegment node segment = .ok none := by
  unfold validateFieldPathSegment
  rw [if_pos hseg]
  simp only [propType_object htype, ne_eq, not_true_eq_false, if_false, hpres, if_true]

/-- A field segment that misses the properties of an object-kind node whose
additionalProperties allows without a value schema gives `(nil, nil)`. -/
theorem validateFieldPathSegment_open_wildcard (node : JSONSchemaProps) (segment : Segment)
    (hseg : segment.type = SegmentField)
    (htype : node.type = "object" ∨ node.type = "")
    (hpres : boolDeref node.xPreserveUnknownFields false = false)
    (hmiss : mapLookup node.properties segment.field = none)
    (haddl : node.additionalProperties = some (true, none)) :
    validateFieldPathSegment node segment = .ok none := by
  unfold validateFieldPathSegment
  rw [if_pos hseg]
  simp only [propType_object htype, ne_eq, not_true_eq_false, if_false, hpres,
    Bool.false_eq_true, hmiss, haddl]

/-- C6: when the loop over the first part `pre` of a path ends with `current`
nil (the unknown terminal), `validateFieldPath` returns no error on `pre ++ suf`
for every `suf`, of whatever segments, and no issue is reported. The terminal is
reached by a field segment on an object-kind node that sets
x-preserve-unknown-fields, and by a field segment that falls through to an
additionalProperties that allows and has no value schema. -/
theorem validateFieldPath_unknown_terminal
    (parse : FieldPathParser) (ctx : scopedContext) (gvk : GroupVersionKind)
    (rawPath : String) (crd : CustomResourceDefinitionVersion)
    (validation : CustomResourceValidation)
    (pre suf : List Segment) (reportAt : JSONPath)
    (hparse : parse rawPath = .ok (pre ++ suf))
    (hcrd : ctx.linterContext.GetCRDSchema gvk = some crd)
    (hschema : crd.schema = some validation)
    (hreach : validateSegments validation.openAPIV3Schema pre = .ok none) :
    validateFieldPath parse ctx gvk rawPath = some none ∧
    reportFieldPath parse ctx gvk rawPath reportAt = some [] ∧
    (∀ (before : List Segment) (node : JSONSchemaProps) (segment : Segment),
      validateSegments validation.openAPIV3Schema before = .ok (some node) →
      segment.type = SegmentField → (node.type = "object" ∨ node.type = "") →
      (boolDeref node.xPreserveUnknownFields false = true ∨
        (boolDeref node.xPreserveUnknownFields false = false ∧
          mapLookup node.properties segment.field = none ∧
          node.additionalProperties = some (true, none))) →
      validateSegments validation.openAPIV3Schema (before ++ [segment]) = .ok none) := by
  have hloop : validateSegments validation.openAPIV3Schema (pre ++ suf) = .ok none := by
    rw [validateSegments_append, hreach]
    exact validateSegments_none suf
  have hres : validateFieldPath parse ctx gvk rawPath = some none := by
    rw [validateFieldPath_eq parse ctx gvk rawPath _ crd validation hparse hcrd hschema, hloop]
  refine ⟨hres, ?_, ?_⟩
  · unfold reportFieldPath
    rw [hres]
  · intro before node segment hbefore hseg htype hcase
    have hstep : validateFieldPathSegment node segment = .ok none := by
      rcases hcase with hpres | ⟨hpres, hmiss, haddl⟩
      · exact validateFieldPathSegment_preserve node segment hseg htype hpres
      · exact validateFieldPathSegment_open_wildcard node segment hseg htype hpres hmiss haddl
    rw [validateSegments_append, hbefore]
    simp only [validateSegments, hstep]

/-- The schema `{a: {additionalProperties: true}}`. -/
def schemaOpen : JSONSchemaProps :=
  .mk "object" none (some [("a", .mk "object" none none (some (true, none)) none)]) none none

/-- The path `a.x[0].y` on `{a: {additionalProperties: true}}`: `a.x` ends in the
unknown terminal and `[0].y` is not looked at; `x` under `a` is the step into
it. -/
theorem validateFieldPath_unknown_terminal_witness :
    validateFieldPath exampleParse (exampleContext schemaOpen) exampleGvk "a.x[0].y"
      = some none ∧
    reportFieldPath exampleParse (exampleContext schemaOpen) exampleGvk "a.x[0].y"
      (NewJSONPath [.str "toFieldPath"]) = some [] ∧
    validateSegments (some schemaOpen) ([Segment.ofField "a"] ++ [Segment.ofField "x"])
      = .ok none :=
  have h := validateFieldPath_unknown_terminal exampleParse (exampleContext schemaOpen)
    exampleGvk "a.x[0].y" ⟨"v1", some ⟨some schemaOpen⟩⟩ ⟨some schemaOpen⟩
    [Segment.ofField "a", Segment.ofField "x"] [Segment.ofIndex 0, Segment.ofField "y"]
    (NewJSONPath [.str "toFieldPath"]) rfl rfl rfl rfl
  ⟨h.1, h.2.1,
   h.2.2 [Segment.ofField "a"] (.mk "object" none none (some (true, none)) none)
     (Segment.ofField "x") rfl rfl (Or.inl rfl) (Or.inr ⟨rfl, rfl, rfl⟩)⟩

/-! ## Declared structure only -/

/-- Every schema of a list of properties that passes `declaredOnlyList` passes
`declaredOnly`. -/
theorem declaredOnlyList_lookup (l : List (String × JSONSchemaProps)) (f : String)
    (prop : JSONSchemaProps)
    (h : JSONSchemaProps.declaredOnly.declaredOnlyList l = true)
    (hlook : l.lookup f = some prop) : prop.declaredOnly = true := by
  induction l with
  | nil => simp at hlook
  | cons kv rest ih =>
    obtain ⟨k, v⟩ := kv
    simp only [JSONSchemaProps.declaredOnly.declaredOnlyList, Bool.and_eq_true] at h
    rw [List.lookup_cons] at hlook
    by_cases hk : (f == k) = true
    · simp only [hk, Option.some.injEq] at hlook
      rw [← hlook]
      exact h.1
    · simp only [hk] at hlook
      exact ih h.2 hlook

/-- A declared-only node sets no preserve flag and no additionalProperties. -/
theorem declaredOnly_flags (node : JSONSchemaProps) (h : node.declaredOnly = true) :
    boolDeref node.xPreserveUnknownFields false = false ∧ node.additionalProperties = none := by
  cases node with
  | mk t x props addl items =>
    unfold JSONSchemaProps.declaredOnly at h
    simp only [Bool.and_eq_true, Bool.not_eq_true', Option.isNone_iff_eq_none] at h
    exact ⟨h.1.1.1, h.1.1.2⟩

/-- The properties of a declared-only node are declared-only. -/
theorem declaredOnly_property (node : JSONSchemaProps) (f : String) (prop : JSONSchemaProps)
    (h : node.declaredOnly = true) (hlook : mapLookup node.properties f = some prop) :
    prop.declaredOnly = true := by
  cases node with
  | mk t x props addl items =>
    unfold JSONSchemaProps.declaredOnly at h
    simp only [Bool.and_eq_true] at h
    cases props with
    | none => simp [mapLookup, JSONSchemaProps.properties] at hlook
    | some l =>
      simp only [mapLookup, JSONSchemaProps.properties] at hlook
      exact declaredOnlyList_lookup l f prop h.1.2 hlook

/-- The item schema of a declared-only node is declared-only. -/
theorem declaredOnly_items (node schema : JSONSchemaProps)
    (h : node.declaredOnly = true) (hitems : node.items = some (some schema)) :
    schema.declaredOnly = true := by
  cases node with
  | mk t x props addl items =>
    simp only [JSONSchemaProps.items] at hitems
    subst hitems
    unfold JSONSchemaProps.declaredOnly at h
    simp only [Bool.and_eq_true] at h
    exact h.2

/-- On a declared-only node a segment that succeeds returns a node, which is
declared-only too, and the node has the kind the segment requires. -/
theorem validateFieldPathSegment_declaredOnly (node : JSONSchemaProps) (segment : Segment)
    (next : Option JSONSchemaProps)
    (h : node.declaredOnly = true)
    (hok : validateFieldPathSegment node segment = .ok next) :
    ∃ child, next = some child ∧ child.declaredOnly = true := by
  obtain ⟨hpres, haddl⟩ := declaredOnly_flags node h
  unfold validateFieldPathSegment at hok
  by_cases hf : segment.type = SegmentField
  · rw [if_pos hf] at hok
    by_cases ht : (if node.type = "" then "object" else node.type) = "object"
    · simp only [ht, ne_eq, not_true_eq_false, if_false, hpres, Bool.false_eq_true,
        haddl] at hok
      cases hl : mapLookup node.properties segment.field with
      | none => simp [hl] at hok
      | some prop =>
        simp only [hl, Except.ok.injEq] at hok
        exact ⟨prop, hok.symm, declaredOnly_property node _ prop h hl⟩
    · simp [ht] at hok
  · rw [if_neg hf] at hok
    by_cases hi : segment.type = SegmentIndex
    · rw [if_pos hi] at hok
      by_cases ht : node.type = "array"
      · simp only [ht, ne_eq, not_true_eq_false, if_false] at hok
        rcases hit : node.items with _ | _ | schema
        · simp [hit] at hok
        · simp [hit] at hok
        · simp only [hit, Except.ok.injEq] at hok
          exact ⟨schema, hok.symm, declaredOnly_items node schema h hit⟩
      · simp [ht] at hok
    · rw [if_neg hi] at hok
      simp at hok

/-- A segment that succeeds stands on a node of the kind it requires. -/
theorem validateFieldPathSegment_kind (node : JSONSchemaProps) (segment : Segment)
    (next : Option JSONSchemaProps)
    (hok : validateFieldPathSegment node segment = .ok next) :
    (segment.type = SegmentField ∧ (node.type = "object" ∨ node.type = "")) ∨
    (segment.type = SegmentIndex ∧ node.type = "array") := by
  unfold validateFieldPathSegment at hok
  by_cases hf : segment.type = SegmentField
  · left
    refine ⟨hf, ?_⟩
    rw [if_pos hf] at hok
    by_cases he : node.type = ""
    · exact Or.inr he
    · by_cases ho : node.type = "object"
      · exact Or.inl ho
      · simp [he, ho] at hok
  · right
    rw [if_neg hf] at hok
    by_cases hi : segment.type = SegmentIndex
    · refine ⟨hi, ?_⟩
      rw [if_pos hi] at hok
      by_cases ht : node.type = "array"
      · exact ht
      · simp [ht] at hok
    · rw [if_neg hi] at hok
      simp at hok

/-- On a declared-only tree the loop, when it succeeds, ends on a node of the
tree. -/
theorem validateSegments_declaredOnly (path : List Segment) (root : JSONSchemaProps)
    (last : Option JSONSchemaProps)
    (h : root.declaredOnly = true)
    (hok : validateSegments (some root) path = .ok last) :
    ∃ node, last = some node ∧ node.declaredOnly = true := by
  induction path generalizing root with
  | nil =>
    simp only [validateSegments, Except.ok.injEq] at hok
    exact ⟨root, hok.symm, h⟩
  | cons segment rest ih =>
    simp only [validateSegments] at hok
    cases hstep : validateFieldPathSegment root segment with
    | error err => simp [hstep] at hok
    | ok next =>
      obtain ⟨child, hchild, hdecl⟩ := validateFieldPathSegment_declaredOnly root segment next h hstep
      subst hchild
      simp only [hstep] at hok
      exact ih child hdecl hok

/-- On a declared-only tree the loop succeeds exactly on the paths that match
the declared shape. -/
theorem validateSegments_iff_matchesDeclaredShape (path : List Segment) (root : JSONSchemaProps)
    (h : root.declaredOnly = true) :
    (∃ last, validateSegments (some root) path = .ok last) ↔
      matchesDeclaredShape root path = true := by
  induction path generalizing root with
  | nil => simp [validateSegments, matchesDeclaredShape]
  | cons segment rest ih =>
    obtain ⟨hpres, haddl⟩ := declaredOnly_flags root h
    simp only [validateSegments, matchesDeclaredShape]
    unfold validateFieldPathSegment
    by_cases hf : segment.type = SegmentField
    · simp only [if_pos hf]
      by_cases ht : root.type = "object" ∨ root.type = ""
      · simp only [propType_object ht, ne_eq, not_true_eq_false, if_false, hpres,
          Bool.false_eq_true, haddl, ht, decide_True, Bool.true_and]
        cases hl : mapLookup root.properties segment.field with
        | none => simp
        | some prop => exact ih prop (declaredOnly_property root _ prop h hl)
      · have hne : (if root.type = "" then "object" else root.type) ≠ "object" := by
          intro hc
          apply ht
          by_cases he : root.type = ""
          · exact Or.inr he
          · rw [if_neg he] at hc
            exact Or.inl hc
        simp [hne, ht]
    · simp only [if_neg hf]
      by_cases hi : segment.type = SegmentIndex
      · simp only [if_pos hi]
        by_cases ht : root.type = "array"
        · simp only [ht, ne_eq, not_true_eq_false, if_false, decide_True, Bool.true_and]
          rcases hit : root.items with _ | _ | schema
          · simp
          · simp
          · exact ih schema (declaredOnly_items root schema h hit)
        · simp [ht]
      · simp [if_neg hi]

/-- C7: on a schema tree in which no node sets x-preserve-unknown-fields or
additionalProperties, `validateFieldPath` returns no error exactly when the
parsed path matches the declared shape, and returns an error otherwise; and
whenever the loop succeeds on `p ++ [s]`, the loop over `p` ends on a node that
has the kind `s` requires: object kind for a field segment, `array` for an index
segment. -/
theorem validateFieldPath_iff_matchesDeclaredShape
    (parse : FieldPathParser) (ctx : scopedContext) (gvk : GroupVersionKind)
    (rawPath : String) (path : List Segment) (crd : CustomResourceDefinitionVersion)
    (validation : CustomResourceValidation) (root : JSONSchemaProps)
    (hparse : parse rawPath = .ok path)
    (hcrd : ctx.linterContext.GetCRDSchema gvk = some crd)
    (hschema : crd.schema = some validation)
    (hroot : validation.openAPIV3Schema = some root)
    (hdecl : root.declaredOnly = true) :
    (validateFieldPath parse ctx gvk rawPath = some none ↔
      matchesDeclaredShape root path = true) ∧
    (matchesDeclaredShape root path = false →
      ∃ err, validateFieldPath parse ctx gvk rawPath = some (some err)) ∧
    (∀ (p : List Segment) (s : Segment) (last : Option JSONSchemaProps),
      validateSegments (some root) (p ++ [s]) = .ok last →
      ∃ node, validateSegments (some root) p = .ok (some node) ∧
        ((s.type = SegmentField ∧ (node.type = "object" ∨ node.type = "")) ∨
          (s.type = SegmentIndex ∧ node.type = "array"))) := by
  have hval := validateFieldPath_eq parse ctx gvk rawPath path crd validation hparse hcrd hschema
  rw [hroot] at hval
  have hiff := validateSegments_iff_matchesDeclaredShape path root hdecl
  refine ⟨?_, ?_, ?_⟩
  · rw [hval, ← hiff]
    cases validateSegments (some root) path with
    | error err => simp
    | ok last => simp
  · intro hno
    rw [hval]
    cases hres : validateSegments (some root) path with
    | error err => exact ⟨err, rfl⟩
    | ok last =>
      have : matchesDeclaredShape root path = true := hiff.mp ⟨last, hres⟩
      rw [hno] at this
      exact absurd this (by decide)
  · intro p s last hok
    rw [validateSegments_append] at hok
    cases hp : validateSegments (some root) p with
    | error err => simp [hp] at hok
    | ok reached =>
      obtain ⟨node, hnode, _⟩ := validateSegments_declaredOnly p root reached hdecl hp
      subst hnode
      refine ⟨node, rfl, ?_⟩
      simp only [hp, validateSegments] at hok
      cases hstep : validateFieldPathSegment node s with
      | error err => simp [hstep] at hok
      | ok next => exact validateFieldPathSegment_kind node s next hstep

/-- On `{a: {b: string}}`: `a.b` matches the declared shape and is accepted, and
the last segment `b` stands on the object-kind node `{b: string}`. -/
theorem validateFieldPath_iff_matchesDeclaredShape_witness :
    validateFieldPath exampleParse (exampleContext schemaAB) exampleGvk "a.b" = some none ∧
    ∃ node, validateSegments (some schemaAB) [Segment.ofField "a"] = .ok (some node) ∧
      (((Segment.ofField "b").type = SegmentField ∧ (node.type = "object" ∨ node.type = "")) ∨
        ((Segment.ofField "b").type = SegmentIndex ∧ node.type = "array")) :=
  have h := validateFieldPath_iff_matchesDeclaredShape exampleParse (exampleContext schemaAB)
    exampleGvk "a.b" [Segment.ofField "a", Segment.ofField "b"]
    ⟨"v1", some ⟨some schemaAB⟩⟩ ⟨some schemaAB⟩ schemaAB rfl rfl rfl rfl rfl
  ⟨h.1.mpr rfl, h.2.2 [Segment.ofField "a"] (Segment.ofField "b") (some stringLeaf) rfl⟩

/-- C8, the code at two failing inputs: on `{a: {b: string}}` the path `c` fails at
its segment 0 and the path `a.c` at its segment 1 (its segment 0 resolves), and
`validateFieldPath` returns the very same error for both, so that the error does
not tell which segment failed. -/
theorem validateFieldPath_error_lacks_segment_index :
    validateFieldPath exampleParse (exampleContext schemaAB) exampleGvk "c"
      = some (some "property 'c' not found") ∧
    validateSegments (some schemaAB) [Segment.ofField "a"] = .ok (some nodeB) ∧
    validateFieldPath exampleParse (exampleContext schemaAB) exampleGvk "a.c"
      = some (some "property 'c' not found") ∧
    validateFieldPath exampleParse (exampleContext schemaAB) exampleGvk "a.c"
      = validateFieldPath exampleParse (exampleContext schemaAB) exampleGvk "c" :=
  ⟨rfl, rfl, rfl, rfl⟩

/-! ## Patches -/

/-- C9: the direction of a patch follows its kind. A `ToCompositeFieldPath`
patch has its source path resolved against the base kind and its destination
against the composite kind, a `FromCompositeFieldPath` patch the other way
round, and likewise the variables and the destination of the two combine kinds;
so `validatePatch` on a to-composite patch reports what it reports on the
from-composite patch of the same fields with the two kinds exchanged. -/
theorem validatePatch_direction (parse : FieldPathParser) (ctx : scopedContext)
    (comp : Composition) (compositeGvk baseGvk : GroupVersionKind)
    (src dst : String) (v : CombineVariable) (vs : List CombineVariable)
    (combine : Option Combine) (srcOpt dstOpt patchSetName : Option String) :
    validatePatch parse ctx
        ⟨PatchTypeToCompositeFieldPath, some src, combine, some dst, patchSetName⟩
        comp compositeGvk baseGvk
      = (do
          let a ← reportFieldPath parse ctx baseGvk src (NewJSONPath [.str "fromFieldPath"])
          let b ← reportFieldPath parse ctx compositeGvk dst (NewJSONPath [.str "toFieldPath"])
          pure (a ++ b)) ∧
    validatePatch parse ctx
        ⟨PatchTypeFromCompositeFieldPath, some src, combine, some dst, patchSetName⟩
        comp compositeGvk baseGvk
      = (do
          let a ← reportFieldPath parse ctx compositeGvk src (NewJSONPath [.str "fromFieldPath"])
          let b ← reportFieldPath parse ctx baseGvk dst (NewJSONPath [.str "toFieldPath"])
          pure (a ++ b)) ∧
    validatePatch parse ctx
        ⟨PatchTypeCombineToComposite, srcOpt, some ⟨v :: vs⟩, some dst, patchSetName⟩
        comp compositeGvk baseGvk
      = (do
          let a ← validateCombineVariables parse ctx baseGvk 0 (v :: vs)
          let b ← reportFieldPath parse ctx compositeGvk dst (NewJSONPath [.str "toFieldPath"])
          pure (a ++ b)) ∧
    validatePatch parse ctx
        ⟨PatchTypeCombineFromComposite, srcOpt, some ⟨v :: vs⟩, some dst, patchSetName⟩
        comp compositeGvk baseGvk
      = (do
          let a ← validateCombineVariables parse ctx compositeGvk 0 (v :: vs)
          let b ← reportFieldPath parse ctx baseGvk dst (NewJSONPath [.str "toFieldPath"])
          pure (a ++ b)) ∧
    validatePatch parse ctx
        ⟨PatchTypeToCompositeFieldPath, srcOpt, combine, dstOpt, patchSetName⟩
        comp compositeGvk baseGvk
      = validatePatch parse ctx
        ⟨PatchTypeFromCompositeFieldPath, srcOpt, combine, dstOpt, patchSetName⟩
        comp baseGvk compositeGvk ∧
    validatePatch parse ctx
        ⟨PatchTypeCombineToComposite, srcOpt, combine, dstOpt, patchSetName⟩
        comp compositeGvk baseGvk
      = validatePatch parse ctx
        ⟨PatchTypeCombineFromComposite, srcOpt, combine, dstOpt, patchSetName⟩
        comp baseGvk compositeGvk := by
  have hTo : ∀ q : Patch, q.type = PatchTypeToCompositeFieldPath →
      validatePatch parse ctx q comp compositeGvk baseGvk
        = validateSinglePatch parse ctx q baseGvk compositeGvk := by
    intro q hq
    unfold validatePatch
    rw [hq]
    rfl
  have hFrom : ∀ (q : Patch) (cg bg : GroupVersionKind),
      q.type = PatchTypeFromCompositeFieldPath →
      validatePatch parse ctx q comp cg bg = validateSinglePatch parse ctx q cg bg := by
    intro q cg bg hq
    unfold validatePatch
    rw [hq]
    rfl
  have hCTo : ∀ q : Patch, q.type = PatchTypeCombineToComposite →
      validatePatch parse ctx q comp compositeGvk baseGvk
        = validateCombinePatch parse ctx q baseGvk compositeGvk := by
    intro q hq
    unfold validatePatch
    rw [hq]
    rfl
  have hCFrom : ∀ (q : Patch) (cg bg : GroupVersionKind),
      q.type = PatchTypeCombineFromComposite →
      validatePatch parse ctx q comp cg bg = validateCombinePatch parse ctx q cg bg := by
    intro q cg bg hq
    unfold validatePatch
    rw [hq]
    rfl
  refine ⟨?_, ?_, ?_, ?_, ?_, ?_⟩
  · rw [hTo _ rfl]
    rfl
  · rw [hFrom _ _ _ rfl]
    rfl
  · rw [hCTo _ rfl]
    rfl
  · rw [hCFrom _ _ _ rfl]
    rfl
  · rw [hTo _ rfl, hFrom _ _ _ rfl]
    rfl
  · rw [hCTo _ rfl, hCFrom _ _ _ rfl]
    rfl

/-- The issue `require field` that `ctx` reports at the field `name` of its
patch. -/
def requireFieldIssue (ctx : scopedContext) (name : String) : Issue :=
  { ruleName := ctx.linterContext.ruleName
    entry := some ctx.entry
    path := [.path ctx.basePath, .path [.field name]]
    pathValue := ""
    description := "require field" }

/-- The rendering of a path made of a base path and one field without a dot. -/
theorem JSONPath_string_base_field (base : JSONPath) (name : String)
    (hdot : name.toList.any (· == '.') = false) :
    JSONPath.string [.path base, .path [.field name]] = JSONPath.string base ++ ("." ++ name) := by
  simp only [JSONPath.string, JSONPathSegment.string, hdot, Bool.false_eq_true, if_false,
    String.append_empty]

/-- A copy patch without paths, validated by `validateSinglePatch`. -/
theorem validateSinglePatch_no_paths (parse : FieldPathParser) (ctx : scopedContext) (p : Patch)
    (fromGvk toGvk : GroupVersionKind)
    (hfrom : p.fromFieldPath = none) (hto : p.toFieldPath = none) :
    validateSinglePatch parse ctx p fromGvk toGvk =
      some [requireFieldIssue ctx "fromFieldPath", requireFieldIssue ctx "toFieldPath"] := by
  unfold validateSinglePatch
  rw [hfrom, hto]
  rfl

/-- C10: a copy patch (type `FromCompositeFieldPath`, empty, or
`ToCompositeFieldPath`) that sets neither fromFieldPath nor toFieldPath gets,
for any pair of kinds and any schema store, exactly two issues, both described
`require field`: the first at the fromFieldPath of the patch, the second at its
toFieldPath. The same holds for such a patch inside a patch set. -/
theorem validatePatch_copy_without_paths (parse : FieldPathParser) (ctx : scopedContext)
    (p : Patch) (comp : Composition) (compositeGvk baseGvk : GroupVersionKind)
    (patchPath : JSONPath) (i : Nat)
    (hkind : p.type = PatchTypeFromCompositeFieldPath ∨ p.type = "" ∨
      p.type = PatchTypeToCompositeFieldPath)
    (hfrom : p.fromFieldPath = none) (hto : p.toFieldPath = none) :
    validatePatch parse ctx p comp compositeGvk baseGvk =
      some [requireFieldIssue ctx "fromFieldPath", requireFieldIssue ctx "toFieldPath"] ∧
    (requireFieldIssue ctx "fromFieldPath").description = "require field" ∧
    (requireFieldIssue ctx "toFieldPath").description = "require field" ∧
    JSONPath.string (requireFieldIssue ctx "fromFieldPath").path
      = JSONPath.string ctx.basePath ++ ".fromFieldPath" ∧
    JSONPath.string (requireFieldIssue ctx "toFieldPath").path
      = JSONPath.string ctx.basePath ++ ".toFieldPath" ∧
    validatePatchSetEntry parse ctx compositeGvk baseGvk patchPath i p =
      some [requireFieldIssue
              (ctx.Wrap (NewJSONPath
                [.segment (.path patchPath), .str "patches", .int i, .str "type"]))
              "fromFieldPath",
            requireFieldIssue
              (ctx.Wrap (NewJSONPath
                [.segment (.path patchPath), .str "patches", .int i, .str "type"]))
              "toFieldPath"] := by
  refine ⟨?_, rfl, rfl, ?_, ?_, ?_⟩
  · unfold validatePatch
    rcases hkind with h | h | h <;> rw [h] <;>
      simp only [PatchTypeCombineToComposite, PatchTypeCombineFromComposite,
        PatchTypeToCompositeFieldPath, PatchTypeFromCompositeFieldPath] <;>
      simp only [String.reduceEq, if_false, if_true, or_true, true_or] <;>
      exact validateSinglePatch_no_paths parse ctx p _ _ hfrom hto
  · exact JSONPath_string_base_field ctx.basePath "fromFieldPath" (by decide)
  · exact JSONPath_string_base_field ctx.basePath "toFieldPath" (by decide)
  · unfold validatePatchSetEntry
    rcases hkind with h | h | h <;> rw [h] <;>
      simp only [PatchTypeCombineToComposite, PatchTypeCombineFromComposite,
        PatchTypeToCompositeFieldPath, PatchTypeFromCompositeFieldPath] <;>
      simp only [String.reduceEq, if_false, if_true, or_true, true_or] <;>
      exact validateSinglePatch_no_paths parse _ p _ _ hfrom hto

/-- Scenario C: a copy-from-composite patch without paths, in the first patch of
the first resource of a composition, against a store that knows neither kind. -/
theorem validatePatch_copy_without_paths_witness :
    validatePatch exampleParse (exampleContext schemaAB)
        ⟨PatchTypeFromCompositeFieldPath, none, none, none, none⟩
        ⟨⟨"example.org/v1", "Widget"⟩, [], []⟩ exampleGvk otherGvk =
      some [requireFieldIssue (exampleContext schemaAB) "fromFieldPath",
            requireFieldIssue (exampleContext schemaAB) "toFieldPath"] ∧
    JSONPath.string (requireFieldIssue (exampleContext schemaAB) "fromFieldPath").path
      = JSONPath.string (exampleContext schemaAB).basePath ++ ".fromFieldPath" ∧
    JSONPath.string (exampleContext schemaAB).basePath = ".spec.resources[0].patches[0]" :=
  have h := validatePatch_copy_without_paths exampleParse (exampleContext schemaAB)
    ⟨PatchTypeFromCompositeFieldPath, none, none, none, none⟩
    ⟨⟨"example.org/v1", "Widget"⟩, [], []⟩ exampleGvk otherGvk [] 0 (Or.inl rfl) rfl rfl
  ⟨h.1, h.2.2.2.1, by decide⟩

/-- The issue that `ctx` reports at the path `at_` of its patch for the error
`err` of the raw path `raw`. -/
def fieldPathIssue (ctx : scopedContext) (at_ : JSONPath) (err raw : String) : Issue :=
  { ruleName := ctx.linterContext.ruleName
    entry := some ctx.entry
    path := [.path ctx.basePath, .path at_]
    pathValue := raw
    description := err }

/-- What `reportFieldPath` reports, by the result of `validateFieldPath`: nothing
for no error, and for an error one issue at the given place, described by the
error and carrying the raw path. -/
theorem reportFieldPath_eq (parse : FieldPathParser) (ctx : scopedContext)
    (gvk : GroupVersionKind) (raw : String) (at_ : JSONPath) :
    reportFieldPath parse ctx gvk raw at_ =
      match validateFieldPath parse ctx gvk raw with
      | none => none
      | some none => some []
      | some (some err) => some [fieldPathIssue ctx at_ err raw] := by
  unfold reportFieldPath
  rcases validateFieldPath parse ctx gvk raw with _ | _ | err <;> rfl

/-- C11: the destination of a copy patch defaults to its source path. A copy
patch with fromFieldPath `src` and no toFieldPath gets the issues of the same
patch with toFieldPath `src`: `src` is resolved against the source kind, a
failure being reported at fromFieldPath with `src` as its value, and again
against the destination kind, a failure being reported at toFieldPath with `src`
as its value. -/
theorem validatePatch_destination_defaults (parse : FieldPathParser) (ctx : scopedContext)
    (comp : Composition) (compositeGvk baseGvk : GroupVersionKind)
    (kind src : String) (combine : Option Combine) (patchSetName : Option String)
    (hkind : kind = PatchTypeFromCompositeFieldPath ∨ kind = "" ∨
      kind = PatchTypeToCompositeFieldPath) :
    validatePatch parse ctx ⟨kind, some src, combine, none, patchSetName⟩
        comp compositeGvk baseGvk
      = validatePatch parse ctx ⟨kind, some src, combine, some src, patchSetName⟩
        comp compositeGvk baseGvk ∧
    validatePatch parse ctx ⟨kind, some src, combine, none, patchSetName⟩
        comp compositeGvk baseGvk
      = (do
          let a ← reportFieldPath parse ctx
            (if kind = PatchTypeToCompositeFieldPath then baseGvk else compositeGvk) src
            (NewJSONPath [.str "fromFieldPath"])
          let b ← reportFieldPath parse ctx
            (if kind = PatchTypeToCompositeFieldPath then compositeGvk else baseGvk) src
            (NewJSONPath [.str "toFieldPath"])
          pure (a ++ b)) ∧
    (∀ (gvk : GroupVersionKind) (at_ : JSONPath) (err : String),
      validateFieldPath parse ctx gvk src = some (some err) →
      reportFieldPath parse ctx gvk src at_ = some [fieldPathIssue ctx at_ err src]) := by
  refine ⟨?_, ?_, ?_⟩
  · rcases hkind with h | h | h <;> subst h <;> rfl
  · rcases hkind with h | h | h <;> subst h <;> rfl
  · intro gvk at_ err herr
    rw [reportFieldPath_eq, herr]

/-- A copy-from-composite patch whose only path is `a.c`, on `{a: {b: string}}`
for the composite kind and no schema for the base kind: one issue at
fromFieldPath and one at toFieldPath, both carrying `a.c`. -/
theorem validatePatch_destination_defaults_witness :
    validatePatch exampleParse (exampleContext schemaAB)
        ⟨PatchTypeFromCompositeFieldPath, some "a.c", none, none, none⟩
        ⟨⟨"example.org/v1", "Widget"⟩, [], []⟩ exampleGvk otherGvk
      = validatePatch exampleParse (exampleContext schemaAB)
        ⟨PatchTypeFromCompositeFieldPath, some "a.c", none, some "a.c", none⟩
        ⟨⟨"example.org/v1", "Widget"⟩, [], []⟩ exampleGvk otherGvk ∧
    validatePatch exampleParse (exampleContext schemaAB)
        ⟨PatchTypeFromCompositeFieldPath, some "a.c", none, none, none⟩
        ⟨⟨"example.org/v1", "Widget"⟩, [], []⟩ exampleGvk otherGvk
      = some [fieldPathIssue (exampleContext schemaAB) [.field "fromFieldPath"]
                "property 'c' not found" "a.c",
              fieldPathIssue (exampleContext schemaAB) [.field "toFieldPath"]
                "no CRD for example.org/v1, Kind=Gadget" "a.c"] :=
  have h := validatePatch_destination_defaults exampleParse (exampleContext schemaAB)
    ⟨⟨"example.org/v1", "Widget"⟩, [], []⟩ exampleGvk otherGvk
    PatchTypeFromCompositeFieldPath "a.c" none none (Or.inl rfl)
  ⟨h.1, h.2.1.trans rfl⟩

/-- C13: a from-environment patch. Two such patches that differ only in the
value of a fromFieldPath that is set, with the same toFieldPath set, get the
same issues, those of the toFieldPath against the base kind, whatever the store
holds; without a fromFieldPath a `require field` issue at fromFieldPath comes
first; and without a toFieldPath the fromFieldPath is resolved, as the
destination, against the base kind and reported at toFieldPath. -/
theorem validatePatch_from_environment (parse : FieldPathParser) (ctx : scopedContext)
    (comp : Composition) (compositeGvk baseGvk : GroupVersionKind)
    (src src₂ dst : String) (combine : Option Combine) (patchSetName : Option String) :
    validatePatch parse ctx
        ⟨PatchTypeFromEnvironmentFieldPath, some src, combine, some dst, patchSetName⟩
        comp compositeGvk baseGvk
      = validatePatch parse ctx
        ⟨PatchTypeFromEnvironmentFieldPath, some src₂, combine, some dst, patchSetName⟩
        comp compositeGvk baseGvk ∧
    validatePatch parse ctx
        ⟨PatchTypeFromEnvironmentFieldPath, some src, combine, some dst, patchSetName⟩
        comp compositeGvk baseGvk
      = reportFieldPath parse ctx baseGvk dst (NewJSONPath [.str "toFieldPath"]) ∧
    validatePatch parse ctx
        ⟨PatchTypeFromEnvironmentFieldPath, none, combine, some dst, patchSetName⟩
        comp compositeGvk baseGvk
      = (reportFieldPath parse ctx baseGvk dst (NewJSONPath [.str "toFieldPath"])).map
          (fun issues => requireFieldIssue ctx "fromFieldPath" :: issues) ∧
    validatePatch parse ctx
        ⟨PatchTypeFromEnvironmentFieldPath, none, combine, none, patchSetName⟩
        comp compositeGvk baseGvk
      = some [requireFieldIssue ctx "fromFieldPath", requireFieldIssue ctx "toFieldPath"] ∧
    validatePatch parse ctx
        ⟨PatchTypeFromEnvironmentFieldPath, some src, combine, none, patchSetName⟩
        comp compositeGvk baseGvk
      = reportFieldPath parse ctx baseGvk src (NewJSONPath [.str "toFieldPath"]) := by
  have henv : ∀ q : Patch, q.type = PatchTypeFromEnvironmentFieldPath →
      validatePatch parse ctx q comp compositeGvk baseGvk
        = validateEnvironmentPatch parse ctx q compositeGvk baseGvk := by
    intro q hq
    unfold validatePatch
    rw [hq]
    rfl
  refine ⟨?_, ?_, ?_, ?_, ?_⟩
  · rw [henv _ rfl, henv _ rfl]
    rfl
  · rw [henv _ rfl]
    show (do
      let dest ← reportFieldPath parse ctx baseGvk dst (NewJSONPath [.str "toFieldPath"])
      pure ([] ++ dest)) = _
    cases reportFieldPath parse ctx baseGvk dst (NewJSONPath [.str "toFieldPath"]) <;> rfl
  · rw [henv _ rfl]
    show (do
      let dest ← reportFieldPath parse ctx baseGvk dst (NewJSONPath [.str "toFieldPath"])
      pure ([ctx.ReportIssueRequireField (NewJSONPath [.str "fromFieldPath"])] ++ dest)) = _
    cases reportFieldPath parse ctx baseGvk dst (NewJSONPath [.str "toFieldPath"]) <;> rfl
  · rw [henv _ rfl]
    rfl
  · rw [henv _ rfl]
    show (do
      let dest ← reportFieldPath parse ctx baseGvk src (NewJSONPath [.str "toFieldPath"])
      pure ([] ++ dest)) = _
    cases reportFieldPath parse ctx baseGvk src (NewJSONPath [.str "toFieldPath"]) <;> rfl

/-! ## Issues in sequence -/

/-- The issues of steps run one after the other: their lists in order, end to
end, and a panic when a step panics. -/
def sequenceIssues : List (Option (List Issue)) → Option (List Issue)
  | [] => some []
  | step :: rest => do
    let here ← step
    let later ← sequenceIssues rest
    pure (here ++ later)

/-- Two steps in a row report nothing exactly when neither reports anything. -/
theorem bind_append_eq_nil (first second : Option (List Issue)) :
    (do
      let a ← first
      let b ← second
      pure (a ++ b)) = some [] ↔ first = some [] ∧ second = some [] := by
  rcases first with _ | a <;> rcases second with _ | b <;>
    simp [Option.bind, bind, pure]

/-- Two steps in a row that do not panic report the issues of the first and then
those of the second. -/
theorem bind_append_some (first second : Option (List Issue)) (a b : List Issue)
    (ha : first = some a) (hb : second = some b) :
    (do
      let x ← first
      let y ← second
      pure (x ++ y)) = some (a ++ b) := by
  subst ha
  subst hb
  rfl

/-- When no step panics, the issues in sequence are the lists of the steps end
to end. -/
theorem sequenceIssues_eq_some (steps : List (Option (List Issue)))
    (h : ∀ step ∈ steps, step ≠ none) :
    sequenceIssues steps = some (steps.filterMap id).flatten := by
  induction steps with
  | nil => rfl
  | cons step rest ih =>
    have hrest := ih (fun x hx => h x (List.mem_cons_of_mem _ hx))
    rcases step with _ | issues
    · exact absurd rfl (h none (List.mem_cons_self _ _))
    · simp only [sequenceIssues, hrest, List.filterMap_cons, id_eq, List.flatten_cons]
      rfl

/-- `reportFieldPath` reports nothing exactly when `validateFieldPath` returns
no error. -/
theorem reportFieldPath_eq_nil (parse : FieldPathParser) (ctx : scopedContext)
    (gvk : GroupVersionKind) (raw : String) (at_ : JSONPath) :
    reportFieldPath parse ctx gvk raw at_ = some [] ↔
      validateFieldPath parse ctx gvk raw = some none := by
  unfold reportFieldPath
  rcases validateFieldPath parse ctx gvk raw with _ | _ | err <;> simp

/-! ## Combine patches -/

/-- The check of one combine variable, the variable `v` at index `i`: its
fromFieldPath is required, and resolved against the source kind. -/
def combineVariableIssues (parse : FieldPathParser) (ctx : scopedContext)
    (fromGvk : GroupVersionKind) (i : Nat) (v : CombineVariable) : Option (List Issue) :=
  if v.fromFieldPath = "" then
    some [ctx.ReportIssueRequireField
      (NewJSONPath [.str "combine", .str "variables", .int i, .str "fromFieldPath"])]
  else
    reportFieldPath parse ctx fromGvk v.fromFieldPath
      (NewJSONPath [.str "combine", .str "variables", .int i, .str "fromFieldPath"])

/-- The specification of a combine patch that is accepted: the variable list is
not empty, every variable has a non-empty fromFieldPath that resolves against
the source kind, and toFieldPath is set and resolves against the destination
kind. -/
def combinePatchAccepted (parse : FieldPathParser) (ctx : scopedContext) (p : Patch)
    (sourceGvk destGvk : GroupVersionKind) : Prop :=
  (∃ c, p.combine = some c ∧ c.variables ≠ [] ∧
    ∀ v ∈ c.variables, v.fromFieldPath ≠ "" ∧
      validateFieldPath parse ctx sourceGvk v.fromFieldPath = some none) ∧
  (∃ dst, p.toFieldPath = some dst ∧ validateFieldPath parse ctx destGvk dst = some none)

/-- The loop over the variables checks every variable on its own, in order. -/
theorem validateCombineVariables_eq_sequence (parse : FieldPathParser) (ctx : scopedContext)
    (fromGvk : GroupVersionKind) (i : Nat) (vs : List CombineVariable) :
    validateCombineVariables parse ctx fromGvk i vs =
      sequenceIssues ((vs.enumFrom i).map
        (fun iv => combineVariableIssues parse ctx fromGvk iv.1 iv.2)) := by
  induction vs generalizing i with
  | nil => rfl
  | cons v rest ih =>
    simp only [validateCombineVariables, List.enumFrom_cons, List.map_cons, sequenceIssues]
    rw [ih (i + 1)]
    unfold combineVariableIssues
    by_cases hv : v.fromFieldPath = "" <;> simp only [hv, if_true, if_false]

/-- The loop over the variables, one step unfolded. -/
theorem validateCombineVariables_cons (parse : FieldPathParser) (ctx : scopedContext)
    (fromGvk : GroupVersionKind) (i : Nat) (v : CombineVariable) (rest : List CombineVariable) :
    validateCombineVariables parse ctx fromGvk i (v :: rest) =
      (do
        let a ← combineVariableIssues parse ctx fromGvk i v
        let b ← validateCombineVariables parse ctx fromGvk (i + 1) rest
        pure (a ++ b)) := by
  simp only [validateCombineVariables]
  unfold combineVariableIssues
  by_cases hv : v.fromFieldPath = "" <;> simp only [hv, if_true, if_false]

/-- One variable gets no issue exactly when its fromFieldPath is not empty and
resolves. -/
theorem combineVariableIssues_eq_nil (parse : FieldPathParser) (ctx : scopedContext)
    (fromGvk : GroupVersionKind) (i : Nat) (v : CombineVariable) :
    combineVariableIssues parse ctx fromGvk i v = some [] ↔
      v.fromFieldPath ≠ "" ∧ validateFieldPath parse ctx fromGvk v.fromFieldPath = some none := by
  unfold combineVariableIssues
  by_cases hv : v.fromFieldPath = ""
  · simp [hv]
  · simp [hv, reportFieldPath_eq_nil]

/-- The loop over the variables reports nothing exactly when every variable has
a non-empty fromFieldPath that resolves. -/
theorem validateCombineVariables_eq_nil (parse : FieldPathParser) (ctx : scopedContext)
    (fromGvk : GroupVersionKind) (i : Nat) (vs : List CombineVariable) :
    validateCombineVariables parse ctx fromGvk i vs = some [] ↔
      ∀ v ∈ vs, v.fromFieldPath ≠ "" ∧
        validateFieldPath parse ctx fromGvk v.fromFieldPath = some none := by
  induction vs generalizing i with
  | nil => simp [validateCombineVariables]
  | cons v rest ih =>
    rw [validateCombineVariables_cons, bind_append_eq_nil, ih (i + 1),
      combineVariableIssues_eq_nil]
    simp only [List.mem_cons, forall_eq_or_imp]

/-- The first half of `validateCombinePatch`: the variable list is required, and
each variable is checked against the source kind. -/
def combineSourceIssues (parse : FieldPathParser) (ctx : scopedContext) (p : Patch)
    (fromGvk : GroupVersionKind) : Option (List Issue) :=
  match p.combine with
  | none =>
    some [ctx.ReportIssueRequireField (NewJSONPath [.str "combine", .str "variables"])]
  | some c =>
    if c.variables = [] then
      some [ctx.ReportIssueRequireField (NewJSONPath [.str "combine", .str "variables"])]
    else
      sequenceIssues ((c.variables.enumFrom 0).map
        (fun iv => combineVariableIssues parse ctx fromGvk iv.1 iv.2))

/-- The second half of `validateCombinePatch`: toFieldPath is required, and
resolved against the destination kind. -/
def combineDestinationIssues (parse : FieldPathParser) (ctx : scopedContext) (p : Patch)
    (toGvk : GroupVersionKind) : Option (List Issue) :=
  match p.toFieldPath with
  | none => some [ctx.ReportIssueRequireField (NewJSONPath [.str "toFieldPath"])]
  | some dst => reportFieldPath parse ctx toGvk dst (NewJSONPath [.str "toFieldPath"])

/-- `validateCombinePatch` is its two halves in a row. -/
theorem validateCombinePatch_eq (parse : FieldPathParser) (ctx : scopedContext) (p : Patch)
    (fromGvk toGvk : GroupVersionKind) :
    validateCombinePatch parse ctx p fromGvk toGvk =
      (do
        let a ← combineSourceIssues parse ctx p fromGvk
        let b ← combineDestinationIssues parse ctx p toGvk
        pure (a ++ b)) := by
  have hdest : ∀ (first : List Issue) (dst : String),
      (do
        let dest ← reportFieldPath parse ctx toGvk dst (NewJSONPath [.str "toFieldPath"])
        pure (first ++ dest)) =
      (do
        let a ← some first
        let b ← reportFieldPath parse ctx toGvk dst (NewJSONPath [.str "toFieldPath"])
        pure (a ++ b)) := by
    intro first dst
    cases reportFieldPath parse ctx toGvk dst (NewJSONPath [.str "toFieldPath"]) <;> rfl
  unfold validateCombinePatch combineSourceIssues combineDestinationIssues
  rcases p.combine with _ | c
  · rcases p.toFieldPath with _ | dst
    · rfl
    · exact hdest _ dst
  · by_cases hnil : c.variables = []
    · have hlen : c.variables.length = 0 := by rw [hnil]; rfl
      simp only [hlen, hnil, if_true]
      rcases p.toFieldPath with _ | dst
      · rfl
      · exact hdest _ dst
    · have hlen : ¬ c.variables.length = 0 := fun h => hnil (List.length_eq_zero.mp h)
      simp only [hlen, hnil, if_false, ← validateCombineVariables_eq_sequence]
      rcases p.toFieldPath with _ | dst
      · show (do
          let vars ← validateCombineVariables parse ctx fromGvk 0 c.variables
          pure (vars ++ [ctx.ReportIssueRequireField (NewJSONPath [.str "toFieldPath"])])) = _
        cases validateCombineVariables parse ctx fromGvk 0 c.variables <;> rfl
      · rfl

/-- The first half reports nothing exactly when the variable list is not empty
and every variable has a non-empty fromFieldPath that resolves. -/
theorem combineSourceIssues_eq_nil (parse : FieldPathParser) (ctx : scopedContext) (p : Patch)
    (fromGvk : GroupVersionKind) :
    combineSourceIssues parse ctx p fromGvk = some [] ↔
      ∃ c, p.combine = some c ∧ c.variables ≠ [] ∧
        ∀ v ∈ c.variables, v.fromFieldPath ≠ "" ∧
          validateFieldPath parse ctx fromGvk v.fromFieldPath = some none := by
  unfold combineSourceIssues
  rcases p.combine with _ | c
  · simp
  · by_cases hnil : c.variables = []
    · simp [hnil]
    · simp only [hnil, if_false, ← validateCombineVariables_eq_sequence,
        validateCombineVariables_eq_nil, Option.some.injEq, exists_eq_left', ne_eq,
        not_false_eq_true, true_and]

/-- The second half reports nothing exactly when toFieldPath is set and
resolves. -/
theorem combineDestinationIssues_eq_nil (parse : FieldPathParser) (ctx : scopedContext)
    (p : Patch) (toGvk : GroupVersionKind) :
    combineDestinationIssues parse ctx p toGvk = some [] ↔
      ∃ dst, p.toFieldPath = some dst ∧ validateFieldPath parse ctx toGvk dst = some none := by
  unfold combineDestinationIssues
  rcases p.toFieldPath with _ | dst
  · simp
  · simp [reportFieldPath_eq_nil]

/-- A combine patch, validated by `validateCombinePatch`, gets no issue exactly
when it is accepted. -/
theorem validateCombinePatch_eq_nil (parse : FieldPathParser) (ctx : scopedContext) (p : Patch)
    (fromGvk toGvk : GroupVersionKind) :
    validateCombinePatch parse ctx p fromGvk toGvk = some [] ↔
      combinePatchAccepted parse ctx p fromGvk toGvk := by
  rw [validateCombinePatch_eq, bind_append_eq_nil, combineSourceIssues_eq_nil,
    combineDestinationIssues_eq_nil]
  rfl

/-- C12: a combine patch gets no issue exactly when its variable list is not
empty, every variable has a non-empty fromFieldPath that resolves against the
source kind, and its toFieldPath is set and resolves against the destination
kind; the source is the composite kind for `CombineFromComposite` and the base
kind for `CombineToComposite`. The issues are those of the variables, each
checked on its own and in order, followed by those of the destination; without a
toFieldPath the last issue is `require field` at toFieldPath, whatever the
source paths are. -/
theorem validatePatch_combine (parse : FieldPathParser) (ctx : scopedContext)
    (comp : Composition) (compositeGvk baseGvk : GroupVersionKind) (p : Patch) :
    (p.type = PatchTypeCombineFromComposite →
      (validatePatch parse ctx p comp compositeGvk baseGvk = some [] ↔
        combinePatchAccepted parse ctx p compositeGvk baseGvk) ∧
      validatePatch parse ctx p comp compositeGvk baseGvk =
        sequenceIssues [combineSourceIssues parse ctx p compositeGvk,
          combineDestinationIssues parse ctx p baseGvk]) ∧
    (p.type = PatchTypeCombineToComposite →
      (validatePatch parse ctx p comp compositeGvk baseGvk = some [] ↔
        combinePatchAccepted parse ctx p baseGvk compositeGvk) ∧
      validatePatch parse ctx p comp compositeGvk baseGvk =
        sequenceIssues [combineSourceIssues parse ctx p baseGvk,
          combineDestinationIssues parse ctx p compositeGvk]) ∧
    (∀ gvk, p.toFieldPath = none →
      combineDestinationIssues parse ctx p gvk = some [requireFieldIssue ctx "toFieldPath"]) ∧
    (∀ gvk (c : Combine), p.combine = some c → c.variables ≠ [] →
      combineSourceIssues parse ctx p gvk =
        sequenceIssues ((c.variables.enumFrom 0).map
          (fun iv => combineVariableIssues parse ctx gvk iv.1 iv.2))) := by
  have hseq : ∀ a b : Option (List Issue),
      sequenceIssues [a, b] = (do
        let x ← a
        let y ← b
        pure (x ++ y)) := by
    intro a b
    rcases a with _ | x <;> rcases b with _ | y <;> simp [sequenceIssues, bind, Option.bind, pure]
  refine ⟨?_, ?_, ?_, ?_⟩
  · intro hkind
    have hv : validatePatch parse ctx p comp compositeGvk baseGvk
        = validateCombinePatch parse ctx p compositeGvk baseGvk := by
      unfold validatePatch
      rw [hkind]
      rfl
    rw [hv]
    exact ⟨validateCombinePatch_eq_nil parse ctx p compositeGvk baseGvk,
      (validateCombinePatch_eq parse ctx p compositeGvk baseGvk).trans (hseq _ _).symm⟩
  · intro hkind
    have hv : validatePatch parse ctx p comp compositeGvk baseGvk
        = validateCombinePatch parse ctx p baseGvk compositeGvk := by
      unfold validatePatch
      rw [hkind]
      rfl
    rw [hv]
    exact ⟨validateCombinePatch_eq_nil parse ctx p baseGvk compositeGvk,
      (validateCombinePatch_eq parse ctx p baseGvk compositeGvk).trans (hseq _ _).symm⟩
  · intro gvk hto
    unfold combineDestinationIssues
    rw [hto]
    rfl
  · intro gvk c hc hne
    unfold combineSourceIssues
    rw [hc]
    simp only [hne, if_false]

/-- On `{a: {b: string}}`, read from both sides: the combine patch with the one
variable `a.b` and the destination `a.b` is accepted, and without a toFieldPath
the destination half is the `require field` issue. -/
theorem validatePatch_combine_witness :
    combinePatchAccepted exampleParse (exampleContext schemaAB)
      ⟨PatchTypeCombineFromComposite, none, some ⟨[⟨"a.b"⟩]⟩, some "a.b", none⟩
      exampleGvk exampleGvk ∧
    combineDestinationIssues exampleParse (exampleContext schemaAB)
        ⟨PatchTypeCombineFromComposite, some "a.b", some ⟨[⟨"a.b"⟩]⟩, none, none⟩ exampleGvk
      = some [requireFieldIssue (exampleContext schemaAB) "toFieldPath"] :=
  ⟨((validatePatch_combine exampleParse (exampleContext schemaAB)
      ⟨⟨"example.org/v1", "Widget"⟩, [], []⟩ exampleGvk exampleGvk
      ⟨PatchTypeCombineFromComposite, none, some ⟨[⟨"a.b"⟩]⟩, some "a.b", none⟩).1 rfl).1.mp rfl,
   (validatePatch_combine exampleParse (exampleContext schemaAB)
      ⟨⟨"example.org/v1", "Widget"⟩, [], []⟩ exampleGvk exampleGvk
      ⟨PatchTypeCombineFromComposite, some "a.b", some ⟨[⟨"a.b"⟩]⟩, none, none⟩).2.2.1
      exampleGvk rfl⟩

/-! ## What an issue of a patch is made of -/

/-- What a validator says about a patch, before a context places it: the path
inside the patch, the description and the offending value. -/
structure Finding where
  at_ : JSONPath
  description : String
  pathValue : String

/-- The issue that `ctx` reports for a finding. -/
def Finding.issue (ctx : scopedContext) (f : Finding) : Issue :=
  fieldPathIssue ctx f.at_ f.description f.pathValue

/-- Two runs of a validator, under the contexts `c` and `c'`, go in parallel:
both panic, or both report the issues of the same findings, at most `bound` of
them. -/
def Parallel (c c' : scopedContext) (bound : Nat) (r r' : Option (List Issue)) : Prop :=
  (r = none ∧ r' = none) ∨
  ∃ l : List Finding, l.length ≤ bound ∧
    r = some (l.map (Finding.issue c)) ∧ r' = some (l.map (Finding.issue c'))

/-- A larger bound will do. -/
theorem Parallel.mono {c c' : scopedContext} {n m : Nat} {r r' : Option (List Issue)}
    (h : Parallel c c' n r r') (hnm : n ≤ m) : Parallel c c' m r r' := by
  rcases h with h | ⟨l, hl, hr, hr'⟩
  · exact Or.inl h
  · exact Or.inr ⟨l, le_trans hl hnm, hr, hr'⟩

/-- No issue on either side. -/
theorem Parallel.nil (c c' : scopedContext) : Parallel c c' 0 (some []) (some []) :=
  Or.inr ⟨[], le_refl _, rfl, rfl⟩

/-- One issue of the same finding on either side. -/
theorem Parallel.single (c c' : scopedContext) (at_ : JSONPath) (description pathValue : String) :
    Parallel c c' 1 (some [fieldPathIssue c at_ description pathValue])
      (some [fieldPathIssue c' at_ description pathValue]) :=
  Or.inr ⟨[⟨at_, description, pathValue⟩], le_refl _, rfl, rfl⟩

/-- Two steps in a row go in parallel when each does. -/
theorem Parallel.append {c c' : scopedContext} {n m : Nat}
    {a a' b b' : Option (List Issue)}
    (ha : Parallel c c' n a a') (hb : Parallel c c' m b b') :
    Parallel c c' (n + m)
      (do
        let x ← a
        let y ← b
        pure (x ++ y))
      (do
        let x ← a'
        let y ← b'
        pure (x ++ y)) := by
  rcases ha with ⟨ha, ha'⟩ | ⟨la, hla, ha, ha'⟩
  · subst ha
    subst ha'
    exact Or.inl ⟨rfl, rfl⟩
  · subst ha
    subst ha'
    rcases hb with ⟨hb, hb'⟩ | ⟨lb, hlb, hb, hb'⟩
    · subst hb
      subst hb'
      exact Or.inl ⟨rfl, rfl⟩
    · subst hb
      subst hb'
      refine Or.inr ⟨la ++ lb, ?_, ?_, ?_⟩
      · rw [List.length_append]
        exact Nat.add_le_add hla hlb
      · rw [List.map_append]
        rfl
      · rw [List.map_append]
        rfl

/-- `validateFieldPath` reads the linter context of its scoped context only. -/
theorem validateFieldPath_context (parse : FieldPathParser) (c c' : scopedContext)
    (hctx : c.linterContext = c'.linterContext) (gvk : GroupVersionKind) (raw : String) :
    validateFieldPath parse c gvk raw = validateFieldPath parse c' gvk raw := by
  unfold validateFieldPath
  rw [hctx]

/-- `reportFieldPath` under two contexts that share their linter context. -/
theorem reportFieldPath_parallel (parse : FieldPathParser) (c c' : scopedContext)
    (hctx : c.linterContext = c'.linterContext)
    (gvk : GroupVersionKind) (raw : String) (at_ : JSONPath) :
    Parallel c c' 1 (reportFieldPath parse c gvk raw at_)
      (reportFieldPath parse c' gvk raw at_) := by
  rw [reportFieldPath_eq, reportFieldPath_eq, validateFieldPath_context parse c c' hctx]
  rcases validateFieldPath parse c' gvk raw with _ | _ | err
  · exact Or.inl ⟨rfl, rfl⟩
  · exact (Parallel.nil c c').mono (Nat.zero_le _)
  · exact Parallel.single c c' at_ err raw

/-- The number of issues that one patch can get at most: one for each combine
variable and two more. -/
def patchIssueBound (p : Patch) : Nat :=
  (match p.combine with
   | some c => c.variables.length
   | none => 0) + 2

/-- `ReportIssueRequireField` under two contexts. -/
theorem requireField_parallel (c c' : scopedContext) (at_ : JSONPath) :
    Parallel c c' 1 (some [c.ReportIssueRequireField at_])
      (some [c'.ReportIssueRequireField at_]) :=
  Parallel.single c c' at_ "require field" ""

/-- `validateSinglePatch` under two contexts that share their linter context. -/
theorem validateSinglePatch_parallel (parse : FieldPathParser) (c c' : scopedContext)
    (hctx : c.linterContext = c'.linterContext) (p : Patch) (fromGvk toGvk : GroupVersionKind) :
    Parallel c c' 2 (validateSinglePatch parse c p fromGvk toGvk)
      (validateSinglePatch parse c' p fromGvk toGvk) := by
  unfold validateSinglePatch
  rcases p.fromFieldPath with _ | src <;> rcases p.toFieldPath with _ | dst
  · exact Parallel.append (requireField_parallel c c' _) (requireField_parallel c c' _)
  · exact Parallel.append (requireField_parallel c c' _)
      (reportFieldPath_parallel parse c c' hctx toGvk dst _)
  · exact Parallel.append (reportFieldPath_parallel parse c c' hctx fromGvk src _)
      (reportFieldPath_parallel parse c c' hctx toGvk src _)
  · exact Parallel.append (reportFieldPath_parallel parse c c' hctx fromGvk src _)
      (reportFieldPath_parallel parse c c' hctx toGvk dst _)

/-- `validateEnvironmentPatch` under two contexts that share their linter
context. -/
theorem validateEnvironmentPatch_parallel (parse : FieldPathParser) (c c' : scopedContext)
    (hctx : c.linterContext = c'.linterContext) (p : Patch) (fromGvk toGvk : GroupVersionKind) :
    Parallel c c' 2 (validateEnvironmentPatch parse c p fromGvk toGvk)
      (validateEnvironmentPatch parse c' p fromGvk toGvk) := by
  unfold validateEnvironmentPatch
  rcases p.fromFieldPath with _ | src <;> rcases p.toFieldPath with _ | dst
  · exact Parallel.append (requireField_parallel c c' _) (requireField_parallel c c' _)
  · exact Parallel.append (requireField_parallel c c' _)
      (reportFieldPath_parallel parse c c' hctx toGvk dst _)
  · exact (Parallel.append (Parallel.nil c c')
      (reportFieldPath_parallel parse c c' hctx toGvk src _)).mono (by decide)
  · exact (Parallel.append (Parallel.nil c c')
      (reportFieldPath_parallel parse c c' hctx toGvk dst _)).mono (by decide)

/-- The check of one combine variable under two contexts. -/
theorem combineVariableIssues_parallel (parse : FieldPathParser) (c c' : scopedContext)
    (hctx : c.linterContext = c'.linterContext) (fromGvk : GroupVersionKind) (i : Nat)
    (v : CombineVariable) :
    Parallel c c' 1 (combineVariableIssues parse c fromGvk i v)
      (combineVariableIssues parse c' fromGvk i v) := by
  unfold combineVariableIssues
  by_cases hv : v.fromFieldPath = ""
  · simp only [hv, if_true]
    exact requireField_parallel c c' _
  · simp only [hv, if_false]
    exact reportFieldPath_parallel parse c c' hctx fromGvk _ _

/-- The loop over the combine variables under two contexts. -/
theorem validateCombineVariables_parallel (parse : FieldPathParser) (c c' : scopedContext)
    (hctx : c.linterContext = c'.linterContext) (fromGvk : GroupVersionKind) (i : Nat)
    (vs : List CombineVariable) :
    Parallel c c' vs.length (validateCombineVariables parse c fromGvk i vs)
      (validateCombineVariables parse c' fromGvk i vs) := by
  induction vs generalizing i with
  | nil => exact Parallel.nil c c'
  | cons v rest ih =>
    rw [validateCombineVariables_cons, validateCombineVariables_cons]
    exact (Parallel.append (combineVariableIssues_parallel parse c c' hctx fromGvk i v)
      (ih (i + 1))).mono (by rw [List.length_cons]; omega)

/-- `validateCombinePatch` under two contexts that share their linter context. -/
theorem validateCombinePatch_parallel (parse : FieldPathParser) (c c' : scopedContext)
    (hctx : c.linterContext = c'.linterContext) (p : Patch) (fromGvk toGvk : GroupVersionKind) :
    Parallel c c' (patchIssueBound p) (validateCombinePatch parse c p fromGvk toGvk)
      (validateCombinePatch parse c' p fromGvk toGvk) := by
  rw [validateCombinePatch_eq, validateCombinePatch_eq]
  have hsrc : Parallel c c' (patchIssueBound p - 1) (combineSourceIssues parse c p fromGvk)
      (combineSourceIssues parse c' p fromGvk) := by
    unfold combineSourceIssues patchIssueBound
    rcases p.combine with _ | cmb
    · exact requireField_parallel c c' _
    · by_cases hnil : cmb.variables = []
      · simp only [hnil, if_true]
        exact (requireField_parallel c c' _).mono (by omega)
      · simp only [hnil, if_false, ← validateCombineVariables_eq_sequence]
        exact (validateCombineVariables_parallel parse c c' hctx fromGvk 0 _).mono (by omega)
  have hdst : Parallel c c' 1 (combineDestinationIssues parse c p toGvk)
      (combineDestinationIssues parse c' p toGvk) := by
    unfold combineDestinationIssues
    rcases p.toFieldPath with _ | dst
    · exact requireField_parallel c c' _
    · exact reportFieldPath_parallel parse c c' hctx toGvk dst _
  exact (Parallel.append hsrc hdst).mono (by unfold patchIssueBound; omega)

/-! ## Patch sets -/

/-- The path under which the patch at index `i` of an expanded patch set
reports, relative to the referencing patch. -/
def patchSetEntryPath (patchPath : JSONPath) (i : Nat) : JSONPath :=
  NewJSONPath [.segment (.path patchPath), .str "patches", .int i, .str "type"]

/-- A patch that is not a patch-set reference is validated inside a patch set as
`validatePatch` validates it under the wrapped context. -/
theorem validatePatchSetEntry_eq_validatePatch (parse : FieldPathParser) (ctx : scopedContext)
    (comp : Composition) (compositeGvk baseGvk : GroupVersionKind) (patchPath : JSONPath)
    (i : Nat) (p : Patch) (hkind : p.type ≠ PatchTypePatchSet) :
    validatePatchSetEntry parse ctx compositeGvk baseGvk patchPath i p =
      validatePatch parse (ctx.Wrap (patchSetEntryPath patchPath i)) p comp
        compositeGvk baseGvk := by
  unfold validatePatchSetEntry validatePatch patchSetEntryPath
  by_cases h₁ : p.type = PatchTypeCombineToComposite
  · simp only [if_pos h₁]
  · by_cases h₂ : p.type = PatchTypeCombineFromComposite
    · simp only [if_neg h₁, if_pos h₂]
    · by_cases h₃ : p.type = PatchTypeToCompositeFieldPath
      · simp only [if_neg h₁, if_neg h₂, if_pos h₃]
      · by_cases h₄ : p.type = "" ∨ p.type = PatchTypeFromCompositeFieldPath
        · simp only [if_neg h₁, if_neg h₂, if_neg h₃, if_pos h₄]
        · by_cases h₅ : p.type = PatchTypeFromEnvironmentFieldPath
          · simp only [if_neg h₁, if_neg h₂, if_neg h₃, if_neg h₄, if_pos h₅, if_neg hkind]
          · simp only [if_neg h₁, if_neg h₂, if_neg h₃, if_neg h₄, if_neg h₅, if_neg hkind]

/-- `validatePatch` on a patch that is not a patch-set reference, under two
contexts that share their linter context. -/
theorem validatePatch_parallel (parse : FieldPathParser) (c c' : scopedContext)
    (hctx : c.linterContext = c'.linterContext) (comp : Composition)
    (compositeGvk baseGvk : GroupVersionKind) (p : Patch) (hkind : p.type ≠ PatchTypePatchSet) :
    Parallel c c' (patchIssueBound p) (validatePatch parse c p comp compositeGvk baseGvk)
      (validatePatch parse c' p comp compositeGvk baseGvk) := by
  have htwo : 2 ≤ patchIssueBound p := by unfold patchIssueBound; omega
  unfold validatePatch
  by_cases h₁ : p.type = PatchTypeCombineToComposite
  · simp only [if_pos h₁]
    exact validateCombinePatch_parallel parse c c' hctx p _ _
  · by_cases h₂ : p.type = PatchTypeCombineFromComposite
    · simp only [if_neg h₁, if_pos h₂]
      exact validateCombinePatch_parallel parse c c' hctx p _ _
    · by_cases h₃ : p.type = PatchTypeToCompositeFieldPath
      · simp only [if_neg h₁, if_neg h₂, if_pos h₃]
        exact (validateSinglePatch_parallel parse c c' hctx p _ _).mono htwo
      · by_cases h₄ : p.type = "" ∨ p.type = PatchTypeFromCompositeFieldPath
        · simp only [if_neg h₁, if_neg h₂, if_neg h₃, if_pos h₄]
          exact (validateSinglePatch_parallel parse c c' hctx p _ _).mono htwo
        · by_cases h₅ : p.type = PatchTypeFromEnvironmentFieldPath
          · simp only [if_neg h₁, if_neg h₂, if_neg h₃, if_neg h₄, if_pos h₅]
            exact (validateEnvironmentPatch_parallel parse c c' hctx p _ _).mono htwo
          · simp only [if_neg h₁, if_neg h₂, if_neg h₃, if_neg h₄, if_neg h₅, if_neg hkind]
            exact (Parallel.single c c' _ "unknown patch type" p.type).mono (by omega)

/-- The issue of a patch-set reference found inside a patch set. -/
theorem validatePatchSetEntry_nested (parse : FieldPathParser) (ctx : scopedContext)
    (compositeGvk baseGvk : GroupVersionKind) (patchPath : JSONPath) (i : Nat) (p : Patch)
    (hkind : p.type = PatchTypePatchSet) :
    validatePatchSetEntry parse ctx compositeGvk baseGvk patchPath i p =
      some [fieldPathIssue (ctx.Wrap (patchSetEntryPath patchPath i)) [.field "type"]
        "nested patch sets are not allowed" "PatchSet"] := by
  unfold validatePatchSetEntry
  rw [hkind]
  rfl

/-- Every patch inside a patch set reports under its wrapped context, and at
most `patchIssueBound` issues. -/
theorem validatePatchSetEntry_placed (parse : FieldPathParser) (ctx : scopedContext)
    (compositeGvk baseGvk : GroupVersionKind) (patchPath : JSONPath) (i : Nat) (p : Patch) :
    Parallel (ctx.Wrap (patchSetEntryPath patchPath i)) (ctx.Wrap (patchSetEntryPath patchPath i))
      (patchIssueBound p)
      (validatePatchSetEntry parse ctx compositeGvk baseGvk patchPath i p)
      (validatePatchSetEntry parse ctx compositeGvk baseGvk patchPath i p) := by
  by_cases hkind : p.type = PatchTypePatchSet
  · rw [validatePatchSetEntry_nested parse ctx compositeGvk baseGvk patchPath i p hkind]
    exact (Parallel.single _ _ _ _ _).mono (by unfold patchIssueBound; omega)
  · rw [validatePatchSetEntry_eq_validatePatch parse ctx ⟨⟨"", ""⟩, [], []⟩ compositeGvk baseGvk
      patchPath i p hkind]
    exact validatePatch_parallel parse _ _ rfl _ compositeGvk baseGvk p hkind

/-- The issues of an expanded patch set: each is the issue of a finding under
the wrapped context of one of the patches, and there are no more of them than
the bounds of the patches add up to. -/
theorem validatePatchSetFrom_placed (parse : FieldPathParser) (ctx : scopedContext)
    (compositeGvk baseGvk : GroupVersionKind) (patchPath : JSONPath)
    (patches : List Patch) (i : Nat) (issues : List Issue)
    (h : validatePatchSetFrom parse ctx compositeGvk baseGvk patchPath i patches = some issues) :
    issues.length ≤ (patches.map patchIssueBound).sum ∧
    ∀ x ∈ issues, ∃ (j : Nat) (f : Finding),
      x = f.issue (ctx.Wrap (patchSetEntryPath patchPath j)) := by
  induction patches generalizing i issues with
  | nil =>
    simp only [validatePatchSetFrom, Option.some.injEq] at h
    subst h
    simp
  | cons p rest ih =>
    simp only [validatePatchSetFrom] at h
    rcases validatePatchSetEntry_placed parse ctx compositeGvk baseGvk patchPath i p with
      ⟨hnone, _⟩ | ⟨l, hl, hsome, _⟩
    · rw [hnone] at h
      simp [bind, Option.bind] at h
    · rw [hsome] at h
      rcases hrest :
        validatePatchSetFrom parse ctx compositeGvk baseGvk patchPath (i + 1) rest with _ | later
      · rw [hrest] at h
        simp [bind, Option.bind] at h
      · rw [hrest] at h
        simp only [bind, Option.bind, pure, Option.some.injEq] at h
        subst h
        obtain ⟨hlen, hmem⟩ := ih (i + 1) later hrest
        refine ⟨?_, ?_⟩
        · simp only [List.length_append, List.length_map, List.map_cons, List.sum_cons]
          omega
        · intro x hx
          rcases List.mem_append.mp hx with hx | hx
          · obtain ⟨f, _, hf⟩ := List.mem_map.mp hx
            exact ⟨i, f, hf.symm⟩
          · exact hmem x hx

/-- A base path is not the path that wraps it. -/
theorem wrapped_ne_base (base within : JSONPath) :
    [JSONPathSegment.path base, JSONPathSegment.path within] ≠ base := by
  intro h
  have hsize := congrArg sizeOf h
  simp only [List.cons.sizeOf_spec, JSONPathSegment.path.sizeOf_spec] at hsize
  omega

/-- The search finds nothing when no patch set has the name. -/
theorem findPatchSet_eq_none (name : String) (sets : List PatchSet) (i : Nat)
    (h : ∀ s ∈ sets, s.name ≠ name) : findPatchSet name i sets = none := by
  induction sets generalizing i with
  | nil => rfl
  | cons s rest ih =>
    have hs : ¬ s.name = name := h s (List.mem_cons_self _ _)
    simp only [findPatchSet, if_neg hs]
    exact ih (i + 1) (fun t ht => h t (List.mem_cons_of_mem _ ht))

/-- The search finds a patch set when one has the name. -/
theorem findPatchSet_isSome (name : String) (sets : List PatchSet) (i : Nat)
    (s : PatchSet) (hmem : s ∈ sets) (hname : s.name = name) :
    ∃ found index, findPatchSet name i sets = some (found, index) := by
  induction sets generalizing i with
  | nil => simp at hmem
  | cons t rest ih =>
    by_cases ht : t.name = name
    · exact ⟨t, i, by simp only [findPatchSet, if_pos ht]⟩
    · simp only [findPatchSet, if_neg ht]
      rcases List.mem_cons.mp hmem with h | h
      · exact absurd (h ▸ hname) ht
      · exact ih (i + 1) h

/-- `validatePatch` on a patch-set reference. -/
theorem validatePatch_reference_eq (parse : FieldPathParser) (ctx : scopedContext)
    (comp : Composition) (compositeGvk baseGvk : GroupVersionKind) (p : Patch)
    (hkind : p.type = PatchTypePatchSet) :
    validatePatch parse ctx p comp compositeGvk baseGvk =
      match p.patchSetName with
      | none => some [requireFieldIssue ctx "patchSetName"]
      | some name =>
        match findPatchSet name 0 comp.patchSets with
        | none =>
          some [fieldPathIssue ctx [.field "patchSetName"] "no matching patchset found" name]
        | some (patchSet, patchSetIndex) =>
          validatePatchSetFrom parse ctx compositeGvk baseGvk
            (NewJSONPath [.str "#inlined", .str "spec", .str "patchSets", .int patchSetIndex])
            0 patchSet.patches := by
  unfold validatePatch
  rw [hkind]
  rfl

/-- C14: a patch-set reference whose name is missing gets exactly one issue,
`require field` at patchSetName; one whose name no patch set of the composition
has gets exactly one issue, `no matching patchset found` at patchSetName with the
name as its value. When a patch set of the composition has the name, neither of
the two issues is among those reported. -/
theorem validatePatch_patch_set_reference (parse : FieldPathParser) (ctx : scopedContext)
    (comp : Composition) (compositeGvk baseGvk : GroupVersionKind) (p : Patch)
    (hkind : p.type = PatchTypePatchSet) :
    (p.patchSetName = none →
      validatePatch parse ctx p comp compositeGvk baseGvk =
        some [requireFieldIssue ctx "patchSetName"]) ∧
    (∀ name, p.patchSetName = some name → (∀ s ∈ comp.patchSets, s.name ≠ name) →
      validatePatch parse ctx p comp compositeGvk baseGvk =
        some [fieldPathIssue ctx [.field "patchSetName"] "no matching patchset found" name]) ∧
    (∀ name s, p.patchSetName = some name → s ∈ comp.patchSets → s.name = name →
      ∀ issues, validatePatch parse ctx p comp compositeGvk baseGvk = some issues →
        requireFieldIssue ctx "patchSetName" ∉ issues ∧
        fieldPathIssue ctx [.field "patchSetName"] "no matching patchset found" name
          ∉ issues) := by
  have heq := validatePatch_reference_eq parse ctx comp compositeGvk baseGvk p hkind
  refine ⟨?_, ?_, ?_⟩
  · intro hname
    rw [heq, hname]
  · intro name hname hnone
    rw [heq, hname]
    simp only [findPatchSet_eq_none name comp.patchSets 0 hnone]
  · intro name s hname hmem hs issues hissues
    obtain ⟨found, index, hfound⟩ := findPatchSet_isSome name comp.patchSets 0 s hmem hs
    rw [heq, hname] at hissues
    simp only [hfound] at hissues
    obtain ⟨_, hplaced⟩ := validatePatchSetFrom_placed parse ctx compositeGvk baseGvk _
      found.patches 0 issues hissues
    have hpath : ∀ x ∈ issues, x.path ≠ [.path ctx.basePath, .path [.field "patchSetName"]] := by
      intro x hx hxpath
      obtain ⟨j, f, hf⟩ := hplaced x hx
      rw [hf] at hxpath
      simp only [Finding.issue, fieldPathIssue, scopedContext.Wrap, NewJSONPath, List.map,
        List.cons.injEq, JSONPathSegment.path.injEq] at hxpath
      exact wrapped_ne_base ctx.basePath _ hxpath.1
    exact ⟨fun hin => hpath _ hin rfl, fun hin => hpath _ hin rfl⟩

/-- A composition whose only patch set is `common`, holding one copy patch of
`a.b` to `a.b`: a reference without a name, a reference to `other`, and a
reference to `common`, whose issues are those of the patch set. -/
theorem validatePatch_patch_set_reference_witness :
    validatePatch exampleParse (exampleContext schemaAB)
        ⟨PatchTypePatchSet, none, none, none, none⟩
        ⟨⟨"example.org/v1", "Widget"⟩,
          [⟨"common", [⟨"", some "a.b", none, some "a.c", none⟩]⟩], []⟩ exampleGvk exampleGvk
      = some [requireFieldIssue (exampleContext schemaAB) "patchSetName"] ∧
    validatePatch exampleParse (exampleContext schemaAB)
        ⟨PatchTypePatchSet, none, none, none, some "other"⟩
        ⟨⟨"example.org/v1", "Widget"⟩,
          [⟨"common", [⟨"", some "a.b", none, some "a.c", none⟩]⟩], []⟩ exampleGvk exampleGvk
      = some [fieldPathIssue (exampleContext schemaAB) [.field "patchSetName"]
          "no matching patchset found" "other"] ∧
    (requireFieldIssue (exampleContext schemaAB) "patchSetName" ∉
        [fieldPathIssue
          ((exampleContext schemaAB).Wrap (patchSetEntryPath
            (NewJSONPath [.str "#inlined", .str "spec", .str "patchSets", .int 0]) 0))
          [.field "toFieldPath"] "property 'c' not found" "a.c"] ∧
      fieldPathIssue (exampleContext schemaAB) [.field "patchSetName"]
          "no matching patchset found" "common" ∉
        [fieldPathIssue
          ((exampleContext schemaAB).Wrap (patchSetEntryPath
            (NewJSONPath [.str "#inlined", .str "spec", .str "patchSets", .int 0]) 0))
          [.field "toFieldPath"] "property 'c' not found" "a.c"]) :=
  ⟨(validatePatch_patch_set_reference exampleParse (exampleContext schemaAB)
      ⟨⟨"example.org/v1", "Widget"⟩,
        [⟨"common", [⟨"", some "a.b", none, some "a.c", none⟩]⟩], []⟩ exampleGvk exampleGvk
      ⟨PatchTypePatchSet, none, none, none, none⟩ rfl).1 rfl,
   (validatePatch_patch_set_reference exampleParse (exampleContext schemaAB)
      ⟨⟨"example.org/v1", "Widget"⟩,
        [⟨"common", [⟨"", some "a.b", none, some "a.c", none⟩]⟩], []⟩ exampleGvk exampleGvk
      ⟨PatchTypePatchSet, none, none, none, some "other"⟩ rfl).2.1 "other" rfl
      (by simp),
   (validatePatch_patch_set_reference exampleParse (exampleContext schemaAB)
      ⟨⟨"example.org/v1", "Widget"⟩,
        [⟨"common", [⟨"", some "a.b", none, some "a.c", none⟩]⟩], []⟩ exampleGvk exampleGvk
      ⟨PatchTypePatchSet, none, none, none, some "common"⟩ rfl).2.2 "common"
      ⟨"common", [⟨"", some "a.b", none, some "a.c", none⟩]⟩ rfl
      (List.mem_singleton.mpr rfl) rfl _ rfl⟩

/-- The part of an issue that does not say where in the document it is: the rule
name, the entry, the description and the offending value. -/
def Issue.content (x : Issue) : String × Option PackageEntry × String × String :=
  (x.ruleName, x.entry, x.description, x.pathValue)

/-- Two runs in parallel under contexts of the same linter context and entry
report issues of the same content. -/
theorem Parallel.content_eq {c c' : scopedContext} {n : Nat} {r r' : Option (List Issue)}
    (h : Parallel c c' n r r') (hctx : c.linterContext = c'.linterContext)
    (hentry : c.entry = c'.entry) :
    r.map (List.map Issue.content) = r'.map (List.map Issue.content) := by
  rcases h with ⟨hr, hr'⟩ | ⟨l, _, hr, hr'⟩
  · rw [hr, hr']
  · rw [hr, hr']
    simp only [Option.map_some', List.map_map, Option.some.injEq]
    apply List.map_congr_left
    intro f _
    simp only [Function.comp, Issue.content, Finding.issue, fieldPathIssue, hctx, hentry]

/-- C16: a patch that is not a patch-set reference is validated inside a
referenced patch set exactly as `validatePatch` validates it at the top level,
with the same pair of kinds and the same direction by kind, under the wrapped
context: the two runs report the issues of the same findings (place inside the
patch, description, offending value), so the issues have the same rule name,
entry, description and offending value, and differ in the base of their path
only. -/
theorem validatePatchSetEntry_as_top_level (parse : FieldPathParser) (ctx : scopedContext)
    (comp : Composition) (compositeGvk baseGvk : GroupVersionKind) (patchPath : JSONPath)
    (i : Nat) (p : Patch) (hkind : p.type ≠ PatchTypePatchSet) :
    validatePatchSetEntry parse ctx compositeGvk baseGvk patchPath i p =
      validatePatch parse (ctx.Wrap (patchSetEntryPath patchPath i)) p comp
        compositeGvk baseGvk ∧
    Parallel (ctx.Wrap (patchSetEntryPath patchPath i)) ctx (patchIssueBound p)
      (validatePatchSetEntry parse ctx compositeGvk baseGvk patchPath i p)
      (validatePatch parse ctx p comp compositeGvk baseGvk) ∧
    (validatePatchSetEntry parse ctx compositeGvk baseGvk patchPath i p).map
        (List.map Issue.content)
      = (validatePatch parse ctx p comp compositeGvk baseGvk).map (List.map Issue.content) := by
  have heq := validatePatchSetEntry_eq_validatePatch parse ctx comp compositeGvk baseGvk
    patchPath i p hkind
  have hpar : Parallel (ctx.Wrap (patchSetEntryPath patchPath i)) ctx (patchIssueBound p)
      (validatePatchSetEntry parse ctx compositeGvk baseGvk patchPath i p)
      (validatePatch parse ctx p comp compositeGvk baseGvk) := by
    rw [heq]
    exact validatePatch_parallel parse (ctx.Wrap (patchSetEntryPath patchPath i)) ctx rfl comp
      compositeGvk baseGvk p hkind
  exact ⟨heq, hpar, hpar.content_eq rfl rfl⟩

/-- The copy patch of `a.c` to `a.c` on `{a: {b: string}}`, in the patch set 0 at
index 0 and at the top level: the same two descriptions and values. -/
theorem validatePatchSetEntry_as_top_level_witness :
    (validatePatchSetEntry exampleParse (exampleContext schemaAB) exampleGvk exampleGvk
        (NewJSONPath [.str "#inlined", .str "spec", .str "patchSets", .int 0]) 0
        ⟨"", some "a.c", none, none, none⟩).map (List.map Issue.content)
      = (validatePatch exampleParse (exampleContext schemaAB)
          ⟨"", some "a.c", none, none, none⟩ ⟨⟨"example.org/v1", "Widget"⟩, [], []⟩
          exampleGvk exampleGvk).map (List.map Issue.content) ∧
    (validatePatch exampleParse (exampleContext schemaAB)
          ⟨"", some "a.c", none, none, none⟩ ⟨⟨"example.org/v1", "Widget"⟩, [], []⟩
          exampleGvk exampleGvk).map (List.map Issue.content)
      = some [("composition.checkPathFieldPaths", some (exampleContext schemaAB).entry,
                "property 'c' not found", "a.c"),
              ("composition.checkPathFieldPaths", some (exampleContext schemaAB).entry,
                "property 'c' not found", "a.c")] :=
  ⟨(validatePatchSetEntry_as_top_level exampleParse (exampleContext schemaAB)
      ⟨⟨"example.org/v1", "Widget"⟩, [], []⟩ exampleGvk exampleGvk
      (NewJSONPath [.str "#inlined", .str "spec", .str "patchSets", .int 0]) 0
      ⟨"", some "a.c", none, none, none⟩ (by decide)).2.2, rfl⟩

/-! ## No panic on a store whose versions have a schema -/

/-- Every version that the store of the context holds has a non-nil `Schema`, as
every version has that `addMetaDataToSchema` has been through. -/
def storeSound (ctx : linterContext) : Prop :=
  ∀ gvk crd, ctx.GetCRDSchema gvk = some crd → crd.schema ≠ none

/-- Two steps in a row do not panic when neither does. -/
theorem bind_append_ne_none {a b : Option (List Issue)} (ha : a ≠ none) (hb : b ≠ none) :
    (do
      let x ← a
      let y ← b
      pure (x ++ y)) ≠ none := by
  rcases a with _ | x
  · exact absurd rfl ha
  · rcases b with _ | y
    · exact absurd rfl hb
    · simp [bind, Option.bind, pure]

/-- `validateFieldPath` does not panic on a sound store. -/
theorem validateFieldPath_ne_none (parse : FieldPathParser) (c : scopedContext)
    (hsound : storeSound c.linterContext) (gvk : GroupVersionKind) (raw : String) :
    validateFieldPath parse c gvk raw ≠ none := by
  rcases hparse : parse raw with err | path
  · unfold validateFieldPath
    simp [hparse]
  · rcases hcrd : c.linterContext.GetCRDSchema gvk with _ | crd
    · unfold validateFieldPath
      simp [hparse, hcrd]
    · rcases hschema : crd.schema with _ | validation
      · exact absurd hschema (hsound gvk crd hcrd)
      · rw [validateFieldPath_eq parse c gvk raw path crd validation hparse hcrd hschema]
        rcases validateSegments validation.openAPIV3Schema path with err | last <;> simp

/-- `reportFieldPath` does not panic on a sound store. -/
theorem reportFieldPath_ne_none (parse : FieldPathParser) (c : scopedContext)
    (hsound : storeSound c.linterContext) (gvk : GroupVersionKind) (raw : String)
    (at_ : JSONPath) : reportFieldPath parse c gvk raw at_ ≠ none := by
  have h := validateFieldPath_ne_none parse c hsound gvk raw
  rw [reportFieldPath_eq]
  rcases hv : validateFieldPath parse c gvk raw with _ | _ | err
  · exact absurd hv h
  · simp
  · simp

/-- `validateSinglePatch` does not panic on a sound store. -/
theorem validateSinglePatch_ne_none (parse : FieldPathParser) (c : scopedContext)
    (hsound : storeSound c.linterContext) (p : Patch) (fromGvk toGvk : GroupVersionKind) :
    validateSinglePatch parse c p fromGvk toGvk ≠ none := by
  have hsome : ∀ x : List Issue, (some x : Option (List Issue)) ≠ none := fun _ => by simp
  unfold validateSinglePatch
  rcases p.fromFieldPath with _ | src <;> rcases p.toFieldPath with _ | dst
  · exact bind_append_ne_none (hsome _) (hsome _)
  · exact bind_append_ne_none (hsome _) (reportFieldPath_ne_none parse c hsound toGvk dst _)
  · exact bind_append_ne_none (reportFieldPath_ne_none parse c hsound fromGvk src _)
      (reportFieldPath_ne_none parse c hsound toGvk src _)
  · exact bind_append_ne_none (reportFieldPath_ne_none parse c hsound fromGvk src _)
      (reportFieldPath_ne_none parse c hsound toGvk dst _)

/-- `validateEnvironmentPatch` does not panic on a sound store. -/
theorem validateEnvironmentPatch_ne_none (parse : FieldPathParser) (c : scopedContext)
    (hsound : storeSound c.linterContext) (p : Patch) (fromGvk toGvk : GroupVersionKind) :
    validateEnvironmentPatch parse c p fromGvk toGvk ≠ none := by
  have hsome : ∀ x : List Issue, (some x : Option (List Issue)) ≠ none := fun _ => by simp
  unfold validateEnvironmentPatch
  rcases p.fromFieldPath with _ | src <;> rcases p.toFieldPath with _ | dst
  · exact bind_append_ne_none (hsome _) (hsome _)
  · exact bind_append_ne_none (hsome _) (reportFieldPath_ne_none parse c hsound toGvk dst _)
  · exact bind_append_ne_none (hsome [])
      (reportFieldPath_ne_none parse c hsound toGvk src _)
  · exact bind_append_ne_none (hsome [])
      (reportFieldPath_ne_none parse c hsound toGvk dst _)

/-- The loop over the combine variables does not panic on a sound store. -/
theorem validateCombineVariables_ne_none (parse : FieldPathParser) (c : scopedContext)
    (hsound : storeSound c.linterContext) (fromGvk : GroupVersionKind) (i : Nat)
    (vs : List CombineVariable) :
    validateCombineVariables parse c fromGvk i vs ≠ none := by
  induction vs generalizing i with
  | nil => simp [validateCombineVariables]
  | cons v rest ih =>
    rw [validateCombineVariables_cons]
    refine bind_append_ne_none ?_ (ih (i + 1))
    unfold combineVariableIssues
    by_cases hv : v.fromFieldPath = ""
    · simp [hv]
    · simp only [hv, if_false]
      exact reportFieldPath_ne_none parse c hsound fromGvk _ _

/-- `validateCombinePatch` does not panic on a sound store. -/
theorem validateCombinePatch_ne_none (parse : FieldPathParser) (c : scopedContext)
    (hsound : storeSound c.linterContext) (p : Patch) (fromGvk toGvk : GroupVersionKind) :
    validateCombinePatch parse c p fromGvk toGvk ≠ none := by
  rw [validateCombinePatch_eq]
  refine bind_append_ne_none ?_ ?_
  · unfold combineSourceIssues
    rcases p.combine with _ | cmb
    · simp
    · by_cases hnil : cmb.variables = []
      · simp [hnil]
      · simp only [hnil, if_false, ← validateCombineVariables_eq_sequence]
        exact validateCombineVariables_ne_none parse c hsound fromGvk 0 _
  · unfold combineDestinationIssues
    rcases p.toFieldPath with _ | dst
    · simp
    · exact reportFieldPath_ne_none parse c hsound toGvk dst _

/-- The expansion of a patch set does not panic on a sound store. -/
theorem validatePatchSetFrom_ne_none (parse : FieldPathParser) (c : scopedContext)
    (hsound : storeSound c.linterContext) (compositeGvk baseGvk : GroupVersionKind)
    (patchPath : JSONPath) (patches : List Patch) (i : Nat) :
    validatePatchSetFrom parse c compositeGvk baseGvk patchPath i patches ≠ none := by
  induction patches generalizing i with
  | nil => simp [validatePatchSetFrom]
  | cons p rest ih =>
    simp only [validatePatchSetFrom]
    refine bind_append_ne_none ?_ (ih (i + 1))
    have hw : storeSound (c.Wrap (NewJSONPath
        [.segment (.path patchPath), .str "patches", .int i, .str "type"])).linterContext :=
      hsound
    unfold validatePatchSetEntry
    by_cases h₁ : p.type = PatchTypeCombineToComposite
    · simp only [if_pos h₁]
      exact validateCombinePatch_ne_none parse _ hw p _ _
    · by_cases h₂ : p.type = PatchTypeCombineFromComposite
      · simp only [if_neg h₁, if_pos h₂]
        exact validateCombinePatch_ne_none parse _ hw p _ _
      · by_cases h₃ : p.type = PatchTypeToCompositeFieldPath
        · simp only [if_neg h₁, if_neg h₂, if_pos h₃]
          exact validateSinglePatch_ne_none parse _ hw p _ _
        · by_cases h₄ : p.type = "" ∨ p.type = PatchTypeFromCompositeFieldPath
          · simp only [if_neg h₁, if_neg h₂, if_neg h₃, if_pos h₄]
            exact validateSinglePatch_ne_none parse _ hw p _ _
          · by_cases h₅ : p.type = PatchTypePatchSet
            · simp [if_neg h₁, if_neg h₂, if_neg h₃, if_neg h₄, if_pos h₅]
            · by_cases h₆ : p.type = PatchTypeFromEnvironmentFieldPath
              · simp only [if_neg h₁, if_neg h₂, if_neg h₃, if_neg h₄, if_neg h₅, if_pos h₆]
                exact validateEnvironmentPatch_ne_none parse _ hw p _ _
              · simp [if_neg h₁, if_neg h₂, if_neg h₃, if_neg h₄, if_neg h₅, if_neg h₆]

/-- `validatePatch` does not panic on a sound store. -/
theorem validatePatch_ne_none (parse : FieldPathParser) (c : scopedContext)
    (hsound : storeSound c.linterContext) (p : Patch) (comp : Composition)
    (compositeGvk baseGvk : GroupVersionKind) :
    validatePatch parse c p comp compositeGvk baseGvk ≠ none := by
  by_cases hkind : p.type = PatchTypePatchSet
  · rw [validatePatch_reference_eq parse c comp compositeGvk baseGvk p hkind]
    rcases p.patchSetName with _ | name
    · simp
    · dsimp only
      rcases findPatchSet name 0 comp.patchSets with _ | ⟨found, index⟩
      · simp
      · exact validatePatchSetFrom_ne_none parse c hsound compositeGvk baseGvk _ _ 0
  · rcases validatePatch_parallel parse c c rfl comp compositeGvk baseGvk p hkind with
      ⟨hnone, _⟩ | ⟨l, _, hsome, _⟩
    · unfold validatePatch at hnone ⊢
      by_cases h₁ : p.type = PatchTypeCombineToComposite
      · simp only [if_pos h₁]
        exact validateCombinePatch_ne_none parse c hsound p _ _
      · by_cases h₂ : p.type = PatchTypeCombineFromComposite
        · simp only [if_neg h₁, if_pos h₂]
          exact validateCombinePatch_ne_none parse c hsound p _ _
        · by_cases h₃ : p.type = PatchTypeToCompositeFieldPath
          · simp only [if_neg h₁, if_neg h₂, if_pos h₃]
            exact validateSinglePatch_ne_none parse c hsound p _ _
          · by_cases h₄ : p.type = "" ∨ p.type = PatchTypeFromCompositeFieldPath
            · simp only [if_neg h₁, if_neg h₂, if_neg h₃, if_pos h₄]
              exact validateSinglePatch_ne_none parse c hsound p _ _
            · by_cases h₅ : p.type = PatchTypeFromEnvironmentFieldPath
              · simp only [if_neg h₁, if_neg h₂, if_neg h₃, if_neg h₄, if_pos h₅]
                exact validateEnvironmentPatch_ne_none parse c hsound p _ _
              · simp [if_neg h₁, if_neg h₂, if_neg h₃, if_neg h₄, if_neg h₅, if_neg hkind]
    · rw [hsome]
      simp

/-! ## Patch sets do not nest -/

/-- The number of issues that the expansion of the patch set named by `p` can
give at most: the bounds of the patches of the first patch set of that name,
added up, and nothing when there is no such patch set. -/
def expansionBound (comp : Composition) (p : Patch) : Nat :=
  match p.patchSetName with
  | none => 0
  | some name =>
    match findPatchSet name 0 comp.patchSets with
    | none => 0
    | some (patchSet, _) => (patchSet.patches.map patchIssueBound).sum

/-- C15: a patch-set reference found inside a patch set gets exactly one issue,
`nested patch sets are not allowed`, whatever its patchSetName and whatever the
composition declares, and nothing is expanded for it. So the issues of any patch
are at most those of the patch itself and of the patches of the one patch set it
names, a number that references inside that patch set do not raise; and on a
store whose versions have a schema `validatePatch` returns such a list for every
patch and every composition. -/
theorem validatePatch_no_nested_expansion (parse : FieldPathParser) (ctx : scopedContext)
    (comp : Composition) (compositeGvk baseGvk : GroupVersionKind) :
    (∀ (patchPath : JSONPath) (i : Nat) (p : Patch), p.type = PatchTypePatchSet →
      validatePatchSetEntry parse ctx compositeGvk baseGvk patchPath i p =
        some [fieldPathIssue (ctx.Wrap (patchSetEntryPath patchPath i)) [.field "type"]
          "nested patch sets are not allowed" "PatchSet"]) ∧
    (∀ (p : Patch) (issues : List Issue),
      validatePatch parse ctx p comp compositeGvk baseGvk = some issues →
      issues.length ≤ patchIssueBound p + expansionBound comp p) ∧
    (storeSound ctx.linterContext → ∀ p : Patch,
      ∃ issues, validatePatch parse ctx p comp compositeGvk baseGvk = some issues) := by
  refine ⟨?_, ?_, ?_⟩
  · intro patchPath i p hkind
    exact validatePatchSetEntry_nested parse ctx compositeGvk baseGvk patchPath i p hkind
  · intro p issues hissues
    have htwo : 2 ≤ patchIssueBound p := by unfold patchIssueBound; omega
    by_cases hkind : p.type = PatchTypePatchSet
    · rw [validatePatch_reference_eq parse ctx comp compositeGvk baseGvk p hkind] at hissues
      rcases hname : p.patchSetName with _ | name
      · rw [hname] at hissues
        simp only [Option.some.injEq] at hissues
        subst hissues
        simp only [List.length_singleton]
        omega
      · rw [hname] at hissues
        rcases hfound : findPatchSet name 0 comp.patchSets with _ | ⟨found, index⟩
        · simp only [hfound, Option.some.injEq] at hissues
          subst hissues
          simp only [List.length_singleton]
          omega
        · simp only [hfound] at hissues
          have hlen := (validatePatchSetFrom_placed parse ctx compositeGvk baseGvk _
            found.patches 0 issues hissues).1
          have hbound : expansionBound comp p = (found.patches.map patchIssueBound).sum := by
            simp only [expansionBound, hname, hfound]
          omega
    · rcases validatePatch_parallel parse ctx ctx rfl comp compositeGvk baseGvk p hkind with
        ⟨hnone, _⟩ | ⟨l, hl, hsome, _⟩
      · rw [hnone] at hissues
        exact absurd hissues (by simp)
      · rw [hsome] at hissues
        simp only [Option.some.injEq] at hissues
        subst hissues
        rw [List.length_map]
        omega
  · intro hsound p
    have hne := validatePatch_ne_none parse ctx hsound p comp compositeGvk baseGvk
    rcases hres : validatePatch parse ctx p comp compositeGvk baseGvk with _ | issues
    · exact absurd hres hne
    · exact ⟨issues, rfl⟩

/-- The composition whose patch set `loop` refers to itself: the reference inside
it gets the one issue, and so does the patch that refers to `loop`. -/
theorem validatePatch_no_nested_expansion_witness :
    validatePatchSetEntry exampleParse (exampleContext schemaAB) exampleGvk exampleGvk
        (NewJSONPath [.str "#inlined", .str "spec", .str "patchSets", .int 0]) 0
        ⟨PatchTypePatchSet, none, none, none, some "loop"⟩
      = some [fieldPathIssue
          ((exampleContext schemaAB).Wrap (patchSetEntryPath
            (NewJSONPath [.str "#inlined", .str "spec", .str "patchSets", .int 0]) 0))
          [.field "type"] "nested patch sets are not allowed" "PatchSet"] ∧
    validatePatch exampleParse (exampleContext schemaAB)
        ⟨PatchTypePatchSet, none, none, none, some "loop"⟩
        ⟨⟨"example.org/v1", "Widget"⟩,
          [⟨"loop", [⟨PatchTypePatchSet, none, none, none, some "loop"⟩]⟩], []⟩
        exampleGvk exampleGvk
      = some [fieldPathIssue
          ((exampleContext schemaAB).Wrap (patchSetEntryPath
            (NewJSONPath [.str "#inlined", .str "spec", .str "patchSets", .int 0]) 0))
          [.field "type"] "nested patch sets are not allowed" "PatchSet"] ∧
    [fieldPathIssue
        ((exampleContext schemaAB).Wrap (patchSetEntryPath
          (NewJSONPath [.str "#inlined", .str "spec", .str "patchSets", .int 0]) 0))
        [.field "type"] "nested patch sets are not allowed" "PatchSet"].length
      ≤ patchIssueBound ⟨PatchTypePatchSet, none, none, none, some "loop"⟩ +
        expansionBound
          ⟨⟨"example.org/v1", "Widget"⟩,
            [⟨"loop", [⟨PatchTypePatchSet, none, none, none, some "loop"⟩]⟩], []⟩
          ⟨PatchTypePatchSet, none, none, none, some "loop"⟩ :=
  have h := validatePatch_no_nested_expansion exampleParse (exampleContext schemaAB)
    ⟨⟨"example.org/v1", "Widget"⟩,
      [⟨"loop", [⟨PatchTypePatchSet, none, none, none, some "loop"⟩]⟩], []⟩
    exampleGvk exampleGvk
  ⟨h.1 _ 0 ⟨PatchTypePatchSet, none, none, none, some "loop"⟩ rfl, rfl,
   h.2.1 ⟨PatchTypePatchSet, none, none, none, some "loop"⟩ _ rfl⟩

/-! ## The rule over a composition -/

/-- The scoped context under which `checkCompositionFieldPaths` validates the
patch at index `ip` of the resource at index `i`. -/
def resourcePatchContext (ctx : linterContext) (manifest : PackageEntry) (i ip : Nat) :
    scopedContext :=
  { linterContext := ctx
    entry := manifest
    basePath := NewJSONPath [.str "spec", .str "resources", .int i, .str "patches", .int ip] }

/-- The issue `no CRD for <gvk>` that the rule reports at `path`. -/
def noCRDIssue (ctx : linterContext) (manifest : PackageEntry) (path : JSONPath)
    (gvk : GroupVersionKind) : Issue :=
  { ruleName := ctx.ruleName
    entry := some manifest
    path := path
    pathValue := ""
    description := "no CRD for " ++ gvk.string }

/-- The issue `failed to parse base` that the rule reports for the resource at
index `i`. -/
def parseBaseIssue (ctx : linterContext) (manifest : PackageEntry) (i : Nat) (err : String) :
    Issue :=
  { ruleName := ctx.ruleName
    entry := some manifest
    path := [.field "spec", .field "resources", .index i, .field "base"]
    pathValue := ""
    description := "failed to parse base: " ++ err }

/-- The loop over the patches of a resource validates every patch on its own, in
order. -/
theorem validateResourcePatchesFrom_eq_sequence (parse : FieldPathParser) (ctx : linterContext)
    (manifest : PackageEntry) (comp : Composition) (compositeGvk baseGvk : GroupVersionKind)
    (i ip : Nat) (patches : List Patch) :
    validateResourcePatchesFrom parse ctx manifest comp compositeGvk baseGvk i ip patches =
      sequenceIssues ((patches.enumFrom ip).map (fun jp =>
        validatePatch parse (resourcePatchContext ctx manifest i jp.1) jp.2 comp
          compositeGvk baseGvk)) := by
  induction patches generalizing ip with
  | nil => rfl
  | cons p rest ih =>
    simp only [validateResourcePatchesFrom, List.enumFrom_cons, List.map_cons, sequenceIssues]
    rw [ih (ip + 1)]
    rfl

/-- The loop over the resources checks every resource on its own, in order. -/
theorem checkResourcesFrom_eq_sequence (d : Decoders) (parse : FieldPathParser)
    (ctx : linterContext) (manifest : PackageEntry) (comp : Composition)
    (compositeGvk : GroupVersionKind) (i : Nat) (resources : List ComposedTemplate) :
    checkResourcesFrom d parse ctx manifest comp compositeGvk i resources =
      sequenceIssues ((resources.enumFrom i).map (fun ir =>
        checkResource d parse ctx manifest comp compositeGvk ir.1 ir.2)) := by
  induction resources generalizing i with
  | nil => rfl
  | cons r rest ih =>
    simp only [checkResourcesFrom, List.enumFrom_cons, List.map_cons, sequenceIssues]
    rw [ih (i + 1)]

/-- What one resource contributes: its single issue when its base does not parse
or its kind has no schema, and else the issues of its patches in sequence. -/
theorem checkResource_eq (d : Decoders) (parse : FieldPathParser) (ctx : linterContext)
    (manifest : PackageEntry) (comp : Composition) (compositeGvk : GroupVersionKind)
    (i : Nat) (r : ComposedTemplate) :
    checkResource d parse ctx manifest comp compositeGvk i r =
      match d.unmarshalBase r.base with
      | .error err => some [parseBaseIssue ctx manifest i err]
      | .ok (apiVersion, kind) =>
        match ctx.GetCRDSchema (objectGroupVersionKind d apiVersion kind) with
        | none =>
          some [noCRDIssue ctx manifest
            [.field "spec", .field "resources", .index i, .field "base"]
            (objectGroupVersionKind d apiVersion kind)]
        | some _ =>
          sequenceIssues ((r.patches.enumFrom 0).map (fun jp =>
            validatePatch parse (resourcePatchContext ctx manifest i jp.1) jp.2 comp
              compositeGvk (objectGroupVersionKind d apiVersion kind))) := by
  unfold checkResource
  rcases d.unmarshalBase r.base with err | ⟨apiVersion, kind⟩
  · rfl
  · dsimp only
    rcases ctx.GetCRDSchema (objectGroupVersionKind d apiVersion kind) with _ | crd
    · rfl
    · exact validateResourcePatchesFrom_eq_sequence parse ctx manifest comp compositeGvk _ i 0 _

/-- The rule on a composition that decodes and whose composite kind has a
schema. -/
theorem checkCompositionFieldPaths_known (d : Decoders) (parse : FieldPathParser)
    (ctx : linterContext) (pkg : Package) (manifest : PackageEntry) (comp : Composition)
    (group version : String)
    (hcomp : manifest.IsComposition d = true)
    (hdecode : d.unmarshalComposition manifest.raw = .ok comp)
    (hgv : d.parseGroupVersion comp.compositeTypeRef.apiVersion = .ok (group, version))
    (hknown : ctx.GetCRDSchema ⟨group, version, comp.compositeTypeRef.kind⟩ ≠ none) :
    checkCompositionFieldPaths d parse ctx pkg manifest =
      checkResourcesFrom d parse ctx manifest comp ⟨group, version, comp.compositeTypeRef.kind⟩
        0 comp.resources := by
  unfold checkCompositionFieldPaths PackageEntry.AsComposition
  simp only [hcomp, if_true, hdecode, hgv]
  rcases hcrd : ctx.GetCRDSchema ⟨group, version, comp.compositeTypeRef.kind⟩ with _ | crd
  · exact absurd hcrd hknown
  · rfl

/-- One resource does not panic on a sound store. -/
theorem checkResource_ne_none (d : Decoders) (parse : FieldPathParser) (ctx : linterContext)
    (hsound : storeSound ctx) (manifest : PackageEntry) (comp : Composition)
    (compositeGvk : GroupVersionKind) (i : Nat) (r : ComposedTemplate) :
    checkResource d parse ctx manifest comp compositeGvk i r ≠ none := by
  rw [checkResource_eq]
  rcases d.unmarshalBase r.base with err | ⟨apiVersion, kind⟩
  · simp
  · dsimp only
    rcases ctx.GetCRDSchema (objectGroupVersionKind d apiVersion kind) with _ | crd
    · simp
    · dsimp only
      rw [sequenceIssues_eq_some]
      · simp
      · intro step hstep
        obtain ⟨jp, _, hjp⟩ := List.mem_map.mp hstep
        rw [← hjp]
        exact validatePatch_ne_none parse _ hsound jp.2 comp compositeGvk _

/-- C17: on a composition that decodes and whose composite kind has a schema,
the issues of the rule are the issues of its resources in sequence, in the
order of the resources; a resource whose base does not parse or whose kind has
no schema contributes its single issue, and any other resource the issues that
`validatePatch` reports for each of its patches on its own, in the order of the
patches. On a store whose versions have a schema no step panics, so that the
issues are those lists end to end. -/
theorem checkCompositionFieldPaths_concatenation (d : Decoders) (parse : FieldPathParser)
    (ctx : linterContext) (pkg : Package) (manifest : PackageEntry) (comp : Composition)
    (group version : String)
    (hcomp : manifest.IsComposition d = true)
    (hdecode : d.unmarshalComposition manifest.raw = .ok comp)
    (hgv : d.parseGroupVersion comp.compositeTypeRef.apiVersion = .ok (group, version))
    (hknown : ctx.GetCRDSchema ⟨group, version, comp.compositeTypeRef.kind⟩ ≠ none) :
    checkCompositionFieldPaths d parse ctx pkg manifest =
      sequenceIssues ((comp.resources.enumFrom 0).map (fun ir =>
        checkResource d parse ctx manifest comp ⟨group, version, comp.compositeTypeRef.kind⟩
          ir.1 ir.2)) ∧
    (∀ (i : Nat) (r : ComposedTemplate),
      checkResource d parse ctx manifest comp ⟨group, version, comp.compositeTypeRef.kind⟩ i r =
        match d.unmarshalBase r.base with
        | .error err => some [parseBaseIssue ctx manifest i err]
        | .ok (apiVersion, kind) =>
          match ctx.GetCRDSchema (objectGroupVersionKind d apiVersion kind) with
          | none =>
            some [noCRDIssue ctx manifest
              [.field "spec", .field "resources", .index i, .field "base"]
              (objectGroupVersionKind d apiVersion kind)]
          | some _ =>
            sequenceIssues ((r.patches.enumFrom 0).map (fun jp =>
              validatePatch parse (resourcePatchContext ctx manifest i jp.1) jp.2 comp
                ⟨group, version, comp.compositeTypeRef.kind⟩
                (objectGroupVersionKind d apiVersion kind)))) ∧
    (storeSound ctx →
      (∀ (sctx : scopedContext) (p : Patch) (baseGvk : GroupVersionKind),
        sctx.linterContext = ctx →
        validatePatch parse sctx p comp ⟨group, version, comp.compositeTypeRef.kind⟩ baseGvk
          ≠ none) ∧
      checkCompositionFieldPaths d parse ctx pkg manifest =
        some (((comp.resources.enumFrom 0).map (fun ir =>
          checkResource d parse ctx manifest comp ⟨group, version, comp.compositeTypeRef.kind⟩
            ir.1 ir.2)).filterMap id).flatten) := by
  have hrule := checkCompositionFieldPaths_known d parse ctx pkg manifest comp group version
    hcomp hdecode hgv hknown
  rw [checkResourcesFrom_eq_sequence] at hrule
  refine ⟨hrule, ?_, ?_⟩
  · intro i r
    exact checkResource_eq d parse ctx manifest comp _ i r
  · intro hsound
    refine ⟨?_, ?_⟩
    · intro sctx p baseGvk hctx
      exact validatePatch_ne_none parse sctx (hctx ▸ hsound) p comp _ baseGvk
    · rw [hrule, sequenceIssues_eq_some]
      intro step hstep
      obtain ⟨ir, _, hir⟩ := List.mem_map.mp hstep
      rw [← hir]
      exact checkResource_ne_none d parse ctx hsound manifest comp _ ir.1 ir.2

/-- A composition of three resources on the composite kind `Widget`: a `Widget`
with a copy patch of `a.c` and a copy patch of `a.b`, a `Gadget`, whose kind
has no schema, and a base that does not parse. -/
def exampleComposition : Composition :=
  { compositeTypeRef := ⟨"example.org/v1", "Widget"⟩
    patchSets := []
    resources :=
      [⟨"widget", [⟨"", some "a.c", none, none, none⟩, ⟨"", some "a.b", none, none, none⟩]⟩,
       ⟨"gadget", [⟨"", some "a.b", none, none, none⟩]⟩,
       ⟨"broken", [⟨"", some "a.b", none, none, none⟩]⟩] }

/-- Toy decoders, enough for the examples: they give what the real ones give on
the strings of the examples. -/
def exampleDecoders : Decoders :=
  { parseGroupVersion := fun gv =>
      if gv = "example.org/v1" then .ok ("example.org", "v1")
      else if gv = "apiextensions.crossplane.io/v1" then .ok ("apiextensions.crossplane.io", "v1")
      else .error "unexpected GroupVersion string"
    unmarshalComposition := fun raw =>
      if raw = "widgets" then .ok exampleComposition else .error "cannot unmarshal"
    unmarshalBase := fun raw =>
      if raw = "widget" then .ok ("example.org/v1", "Widget")
      else if raw = "gadget" then .ok ("example.org/v1", "Gadget")
      else .error "cannot unmarshal" }

/-- The manifest of `exampleComposition`. -/
def exampleManifest : PackageEntry :=
  ⟨"apiextensions.crossplane.io/v1", "Composition", "example", "composition.yaml", "widgets"⟩

/-- The linter context whose store holds `{a: {b: string}}` for `Widget`. -/
def exampleLinterContext : linterContext := (exampleContext schemaAB).linterContext

/-- The store of the example holds versions with a schema only. -/
theorem exampleLinterContext_sound : storeSound exampleLinterContext := by
  intro gvk crd hcrd
  simp only [exampleLinterContext, exampleContext, linterContext.GetCRDSchema,
    SchemaStore.GetCRDSchema, List.lookup] at hcrd
  split at hcrd
  · simp only [Option.some.injEq] at hcrd
    rw [← hcrd]
    simp
  · simp at hcrd

/-- The rule on `exampleComposition`: the two issues of the first patch of the
first resource (its second patch has none), then the single issue of the second
resource, then the single issue of the third. -/
theorem checkCompositionFieldPaths_concatenation_witness :
    checkCompositionFieldPaths exampleDecoders exampleParse exampleLinterContext
        ⟨"", "", [exampleManifest]⟩ exampleManifest
      = some [fieldPathIssue (resourcePatchContext exampleLinterContext exampleManifest 0 0)
                [.field "fromFieldPath"] "property 'c' not found" "a.c",
              fieldPathIssue (resourcePatchContext exampleLinterContext exampleManifest 0 0)
                [.field "toFieldPath"] "property 'c' not found" "a.c",
              noCRDIssue exampleLinterContext exampleManifest
                [.field "spec", .field "resources", .index 1, .field "base"] otherGvk,
              parseBaseIssue exampleLinterContext exampleManifest 2 "cannot unmarshal"] :=
  ((checkCompositionFieldPaths_concatenation exampleDecoders exampleParse exampleLinterContext
      ⟨"", "", [exampleManifest]⟩ exampleManifest exampleComposition "example.org" "v1"
      rfl rfl rfl (fun h => Option.noConfusion h)).2.2 exampleLinterContext_sound).2.trans rfl

/-- The rendering of the place of a resource's base. -/
theorem JSONPath_string_resource_base (i : Nat) :
    JSONPath.string [.field "spec", .field "resources", .index i, .field "base"]
      = ".spec.resources[" ++ toString (i : Int) ++ "].base" := by
  have h₁ : ("spec".toList.any (· == '.')) = false := by decide
  have h₂ : ("resources".toList.any (· == '.')) = false := by decide
  have h₃ : ("base".toList.any (· == '.')) = false := by decide
  simp only [JSONPath.string, JSONPathSegment.string, h₁, h₂, h₃, Bool.false_eq_true, if_false,
    String.append_empty]
  have e₁ : ".spec.resources[" = "." ++ ("spec" ++ ("." ++ ("resources" ++ "["))) := by decide
  have e₂ : "].base" = "]" ++ ("." ++ "base") := by decide
  rw [e₁, e₂]
  simp only [String.append_assoc]

/-- C18: a missing schema is reported and is no fault. On a composition that
decodes and whose composite kind has no schema in the store, the rule reports
exactly one issue, `no CRD for <gvk>` at `.spec.compositeTypeRef`, and looks at
no resource. For a resource whose base parses to a kind without a schema it
reports exactly one issue, `no CRD for <gvk>` at `.spec.resources[i].base`,
validates none of its patches and goes on with the next resource. -/
theorem checkCompositionFieldPaths_missing_schema (d : Decoders) (parse : FieldPathParser)
    (ctx : linterContext) (pkg : Package) (manifest : PackageEntry) (comp : Composition)
    (group version : String)
    (hcomp : manifest.IsComposition d = true)
    (hdecode : d.unmarshalComposition manifest.raw = .ok comp)
    (hgv : d.parseGroupVersion comp.compositeTypeRef.apiVersion = .ok (group, version)) :
    (ctx.GetCRDSchema ⟨group, version, comp.compositeTypeRef.kind⟩ = none →
      checkCompositionFieldPaths d parse ctx pkg manifest =
        some [noCRDIssue ctx manifest [.field "spec", .field "compositeTypeRef"]
          ⟨group, version, comp.compositeTypeRef.kind⟩]) ∧
    JSONPath.string [.field "spec", .field "compositeTypeRef"] = ".spec.compositeTypeRef" ∧
    (∀ (compositeGvk : GroupVersionKind) (i : Nat) (r : ComposedTemplate)
        (rest : List ComposedTemplate) (apiVersion kind : String),
      d.unmarshalBase r.base = .ok (apiVersion, kind) →
      ctx.GetCRDSchema (objectGroupVersionKind d apiVersion kind) = none →
      checkResource d parse ctx manifest comp compositeGvk i r =
        some [noCRDIssue ctx manifest
          [.field "spec", .field "resources", .index i, .field "base"]
          (objectGroupVersionKind d apiVersion kind)] ∧
      checkResourcesFrom d parse ctx manifest comp compositeGvk i (r :: rest) =
        (checkResourcesFrom d parse ctx manifest comp compositeGvk (i + 1) rest).map
          (fun later => noCRDIssue ctx manifest
            [.field "spec", .field "resources", .index i, .field "base"]
            (objectGroupVersionKind d apiVersion kind) :: later)) ∧
    (∀ i : Nat,
      JSONPath.string [.field "spec", .field "resources", .index i, .field "base"]
        = ".spec.resources[" ++ toString (i : Int) ++ "].base") := by
  refine ⟨?_, by decide, ?_, JSONPath_string_resource_base⟩
  · intro hnone
    unfold checkCompositionFieldPaths PackageEntry.AsComposition
    simp only [hcomp, if_true, hdecode, hgv, hnone]
    rfl
  · intro compositeGvk i r rest apiVersion kind hbase hnone
    have hres : checkResource d parse ctx manifest comp compositeGvk i r =
        some [noCRDIssue ctx manifest
          [.field "spec", .field "resources", .index i, .field "base"]
          (objectGroupVersionKind d apiVersion kind)] := by
      rw [checkResource_eq]
      simp only [hbase, hnone]
    refine ⟨hres, ?_⟩
    simp only [checkResourcesFrom, hres]
    cases checkResourcesFrom d parse ctx manifest comp compositeGvk (i + 1) rest <;> rfl

/-- The example composition against a store that knows no kind, and its `Gadget`
resource against the store that knows `Widget` only. -/
theorem checkCompositionFieldPaths_missing_schema_witness :
    checkCompositionFieldPaths exampleDecoders exampleParse ⟨"rule", ⟨[]⟩⟩
        ⟨"", "", [exampleManifest]⟩ exampleManifest
      = some [noCRDIssue ⟨"rule", ⟨[]⟩⟩ exampleManifest
          [.field "spec", .field "compositeTypeRef"] exampleGvk] ∧
    checkResource exampleDecoders exampleParse exampleLinterContext exampleManifest
        exampleComposition exampleGvk 1 ⟨"gadget", [⟨"", some "a.b", none, none, none⟩]⟩
      = some [noCRDIssue exampleLinterContext exampleManifest
          [.field "spec", .field "resources", .index 1, .field "base"] otherGvk] ∧
    (noCRDIssue exampleLinterContext exampleManifest
        [.field "spec", .field "resources", .index 1, .field "base"] otherGvk).description
      = "no CRD for example.org/v1, Kind=Gadget" :=
  ⟨(checkCompositionFieldPaths_missing_schema exampleDecoders exampleParse ⟨"rule", ⟨[]⟩⟩
      ⟨"", "", [exampleManifest]⟩ exampleManifest exampleComposition "example.org" "v1"
      rfl rfl rfl).1 rfl,
   ((checkCompositionFieldPaths_missing_schema exampleDecoders exampleParse exampleLinterContext
      ⟨"", "", [exampleManifest]⟩ exampleManifest exampleComposition "example.org" "v1"
      rfl rfl rfl).2.2.1 exampleGvk 1 ⟨"gadget", [⟨"", some "a.b", none, none, none⟩]⟩ []
      "example.org/v1" "Gadget" rfl rfl).1,
   by decide⟩

/-! ## The schema store -/

/-- After `m[k] = v` the key `k` holds `v`. -/
theorem lookup_mapSet_self {κ α : Type} [DecidableEq κ] (l : List (κ × α)) (k : κ) (v : α) :
    (mapSet l k v).lookup k = some v := by
  induction l with
  | nil => simp [mapSet, List.lookup]
  | cons kv rest ih =>
    obtain ⟨k', v'⟩ := kv
    by_cases h : k' = k
    · simp [mapSet, h, List.lookup]
    · have hne : (k == k') = false := by
        simp only [beq_eq_false_iff_ne, ne_eq]
        exact fun hk => h hk.symm
      simp only [mapSet, if_neg h, List.lookup, hne]
      exact ih

/-- After `m[k] = v` every other key holds what it held. -/
theorem lookup_mapSet_of_ne {κ α : Type} [DecidableEq κ] (l : List (κ × α)) (k k' : κ) (v : α)
    (hne : k' ≠ k) : (mapSet l k v).lookup k' = l.lookup k' := by
  induction l with
  | nil =>
    have h : (k' == k) = false := by simp only [beq_eq_false_iff_ne, ne_eq]; exact hne
    simp [mapSet, List.lookup, h]
  | cons kv rest ih =>
    obtain ⟨k₀, v₀⟩ := kv
    by_cases h : k₀ = k
    · have hk : (k' == k) = false := by simp only [beq_eq_false_iff_ne, ne_eq]; exact hne
      have hk₀ : (k' == k₀) = false := by rw [h]; exact hk
      simp only [mapSet, if_pos h, List.lookup, hk, hk₀]
    · simp only [mapSet, if_neg h, List.lookup]
      cases (k' == k₀)
      · exact ih
      · rfl

/-- The loop of `registerCRD` over two lists of versions in a row. -/
theorem registerVersions_append (group kind : String) (s : SchemaStore)
    (pre post : List CustomResourceDefinitionVersion) :
    registerVersions group kind s (pre ++ post) =
      match registerVersions group kind s pre with
      | none => none
      | some mid => registerVersions group kind mid post := by
  induction pre generalizing s with
  | nil => rfl
  | cons v rest ih =>
    simp only [List.cons_append, registerVersions]
    cases addMetaDataToSchema v with
    | none => rfl
    | some version => exact ih _

/-- The loop of `registerCRD` leaves alone every key that is not the key of one
of its versions. -/
theorem registerVersions_other (group kind : String) (s s' : SchemaStore)
    (versions : List CustomResourceDefinitionVersion) (key : GroupVersionKind)
    (h : registerVersions group kind s versions = some s')
    (hkey : ∀ w ∈ versions, key ≠ ⟨group, w.name, kind⟩) :
    s'.GetCRDSchema key = s.GetCRDSchema key := by
  induction versions generalizing s with
  | nil =>
    simp only [registerVersions, Option.some.injEq] at h
    rw [← h]
  | cons v rest ih =>
    simp only [registerVersions] at h
    cases hv : addMetaDataToSchema v with
    | none => simp [hv] at h
    | some version =>
      simp only [hv] at h
      rw [ih _ h (fun w hw => hkey w (List.mem_cons_of_mem _ hw))]
      exact lookup_mapSet_of_ne s.versions _ key version (hkey v (List.mem_cons_self _ _))

/-- After the loop of `registerCRD`, the key of a version that no later version
of the list shares holds what `addMetaDataToSchema` made of that version. -/
theorem registerVersions_last (group kind : String) (s s' : SchemaStore)
    (pre post : List CustomResourceDefinitionVersion) (v : CustomResourceDefinitionVersion)
    (h : registerVersions group kind s (pre ++ v :: post) = some s')
    (hlast : ∀ w ∈ post, w.name ≠ v.name) :
    ∃ version, addMetaDataToSchema v = some version ∧
      s'.GetCRDSchema ⟨group, v.name, kind⟩ = some version := by
  rw [registerVersions_append] at h
  cases hpre : registerVersions group kind s pre with
  | none => simp [hpre] at h
  | some mid =>
    simp only [hpre, registerVersions] at h
    cases hv : addMetaDataToSchema v with
    | none => simp [hv] at h
    | some version =>
      simp only [hv] at h
      refine ⟨version, rfl, ?_⟩
      rw [registerVersions_other group kind _ s' post ⟨group, v.name, kind⟩ h]
      · exact lookup_mapSet_self mid.versions _ version
      · intro w hw hkey
        simp only [GroupVersionKind.mk.injEq, true_and, and_true] at hkey
        exact hlast w hw hkey.symm

/-- C19: last write wins. When a definition is registered after another, each
key of the later one holds afterwards the schema of the later one, as
`addMetaDataToSchema` leaves it: that of the last of its versions of that name;
it is what registering the later definition alone gives, so nothing of the
earlier registration is left under the key. Every key that is not a key of the
later definition holds what it held before the later registration. -/
theorem registerCRD_last_write_wins (s s₁ s₂ : SchemaStore)
    (crd₁ crd₂ : CustomResourceDefinition)
    (pre post : List CustomResourceDefinitionVersion) (v : CustomResourceDefinitionVersion)
    (h₁ : s.registerCRD crd₁ = some s₁) (h₂ : s₁.registerCRD crd₂ = some s₂)
    (hv : crd₂.versions = pre ++ v :: post) (hlast : ∀ w ∈ post, w.name ≠ v.name) :
    (∃ version, addMetaDataToSchema v = some version ∧
      s₂.GetCRDSchema ⟨crd₂.group, v.name, crd₂.kind⟩ = some version) ∧
    (∀ alone, NewSchemaStore.registerCRD crd₂ = some alone →
      alone.GetCRDSchema ⟨crd₂.group, v.name, crd₂.kind⟩ =
        s₂.GetCRDSchema ⟨crd₂.group, v.name, crd₂.kind⟩) ∧
    (∀ key, (∀ w ∈ crd₂.versions, key ≠ ⟨crd₂.group, w.name, crd₂.kind⟩) →
      s₂.GetCRDSchema key = s₁.GetCRDSchema key) := by
  have _ := h₁
  unfold SchemaStore.registerCRD at h₂
  have hboth := h₂
  rw [hv] at hboth
  obtain ⟨version, hversion, hlookup⟩ :=
    registerVersions_last crd₂.group crd₂.kind s₁ s₂ pre post v hboth hlast
  refine ⟨⟨version, hversion, hlookup⟩, ?_, ?_⟩
  · intro alone halone
    unfold SchemaStore.registerCRD at halone
    rw [hv] at halone
    obtain ⟨version', hversion', hlookup'⟩ :=
      registerVersions_last crd₂.group crd₂.kind NewSchemaStore alone pre post v halone hlast
    rw [hlookup, hlookup', ← hversion, ← hversion']
  · intro key hkey
    exact registerVersions_other crd₂.group crd₂.kind s₁ s₂ crd₂.versions key h₂ hkey

/-- The schema `{c: string}`. -/
def schemaC : JSONSchemaProps := .mk "object" none (some [("c", stringLeaf)]) none none

/-- A definition of `Widget` with the schema `{a: {b: string}}`. -/
def widgetCRD₁ : CustomResourceDefinition :=
  ⟨"example.org", "Widget", [⟨"v1", some ⟨some schemaAB⟩⟩]⟩

/-- A definition of `Widget` with the schema `{c: string}`. -/
def widgetCRD₂ : CustomResourceDefinition :=
  ⟨"example.org", "Widget", [⟨"v1", some ⟨some schemaC⟩⟩]⟩

/-- A store that holds a version of `Gadget`. -/
def gadgetStore : SchemaStore := ⟨[(otherGvk, ⟨"v1", some ⟨some schemaAB⟩⟩)]⟩

/-- The store `gadgetStore` after the registration of `widgetCRD₁`. -/
def storeAfterFirst : SchemaStore := (gadgetStore.registerCRD widgetCRD₁).getD NewSchemaStore

/-- The store `storeAfterFirst` after the registration of `widgetCRD₂`. -/
def storeAfterSecond : SchemaStore := (storeAfterFirst.registerCRD widgetCRD₂).getD NewSchemaStore

/-- The two definitions of `Widget` registered one after the other: the key holds
the second schema, on which `c` resolves and `a` does not, and `Gadget` holds
what it held. -/
theorem registerCRD_last_write_wins_witness :
    (∃ version, addMetaDataToSchema ⟨"v1", some ⟨some schemaC⟩⟩ = some version ∧
      storeAfterSecond.GetCRDSchema exampleGvk = some version) ∧
    storeAfterSecond.GetCRDSchema otherGvk = storeAfterFirst.GetCRDSchema otherGvk ∧
    validateFieldPath exampleParse
        ⟨⟨"rule", storeAfterSecond⟩, exampleManifest, []⟩ exampleGvk "c" = some none ∧
    validateFieldPath exampleParse
        ⟨⟨"rule", storeAfterSecond⟩, exampleManifest, []⟩ exampleGvk "a.b"
      = some (some "property 'a' not found") :=
  have h := registerCRD_last_write_wins gadgetStore storeAfterFirst storeAfterSecond
    widgetCRD₁ widgetCRD₂ [] [] ⟨"v1", some ⟨some schemaC⟩⟩ rfl rfl rfl
    (fun _ hw => absurd hw (List.not_mem_nil _))
  ⟨h.1,
   h.2.2 otherGvk (fun w hw => by
    rw [List.mem_singleton.mp hw]
    decide),
   rfl, rfl⟩

/-! ## Metadata fields -/

/-- The sub-property `name` of the property `metadata` of a root schema. -/
def rootMetadataField (root : JSONSchemaProps) (name : String) : Option JSONSchemaProps :=
  match mapLookup root.properties "metadata" with
  | some metadata => mapLookup metadata.properties name
  | none => none

/-- The sub-property `name` of the property `metadata` of the schema of a
version. -/
def metadataField (version : CustomResourceDefinitionVersion) (name : String) :
    Option JSONSchemaProps :=
  match version.schema with
  | none => none
  | some validation =>
    match validation.openAPIV3Schema with
    | none => none
    | some root => rootMetadataField root name

/-- The sub-property `name` of `metadata` in the schema that the store returns
for `key`. -/
def SchemaStore.metadataField (s : SchemaStore) (key : GroupVersionKind) (name : String) :
    Option JSONSchemaProps :=
  match s.GetCRDSchema key with
  | none => none
  | some version => CrossplaneLint.metadataField version name

/-- The properties of a node whose properties were replaced. -/
theorem withProperties_properties (node : JSONSchemaProps)
    (props : Option (List (String × JSONSchemaProps))) :
    (node.withProperties props).properties = props := by
  cases node
  rfl

/-- One step of the loop of `addMetaDataToSchema`, on a root whose `metadata`
has a map of properties: the step does not panic, the root stays of that form,
and the field of the step is added unless `metadata` has it already. -/
theorem addMetaProp_fields (root : JSONSchemaProps) (n : String) (prop : JSONSchemaProps)
    (rp : List (String × JSONSchemaProps)) (m : JSONSchemaProps)
    (mp : List (String × JSONSchemaProps))
    (hrp : root.properties = some rp) (hm : rp.lookup "metadata" = some m)
    (hmp : m.properties = some mp) :
    ∃ root' rp' m' mp', addMetaProp root n prop = some root' ∧
      root'.properties = some rp' ∧ rp'.lookup "metadata" = some m' ∧
      m'.properties = some mp' ∧
      ∀ name, mp'.lookup name =
        match mp.lookup name with
        | some x => some x
        | none => if name = n then some prop else none := by
  have hzero : propertyOrZero root.properties "metadata" = m := by
    simp only [propertyOrZero, mapLookup, hrp, hm]
  unfold addMetaProp
  rw [hzero, hmp]
  simp only [mapLookup]
  cases hn : mp.lookup n with
  | some existing =>
    refine ⟨root, rp, m, mp, rfl, hrp, hm, hmp, ?_⟩
    intro name
    cases hname : mp.lookup name with
    | some x => rfl
    | none =>
      have hne : ¬ name = n := fun h => by rw [h, hn] at hname; cases hname
      simp only [if_neg hne]
  | none =>
    simp only [hrp, hmp]
    refine ⟨_, _, _, _, rfl, withProperties_properties _ _, lookup_mapSet_self rp "metadata" _,
      withProperties_properties _ _, ?_⟩
    intro name
    by_cases hname : name = n
    · rw [hname, lookup_mapSet_self, hn]
      simp
    · rw [lookup_mapSet_of_ne mp n name prop hname]
      cases mp.lookup name with
      | some x => rfl
      | none => simp only [if_neg hname]

/-- The loop of `addMetaDataToSchema`, on a root whose `metadata` has a map of
properties: the fields of the list are added, each unless `metadata` has it
already. -/
theorem addMetaProps_fields (fields : List (String × JSONSchemaProps)) (root : JSONSchemaProps)
    (rp : List (String × JSONSchemaProps)) (m : JSONSchemaProps)
    (mp : List (String × JSONSchemaProps))
    (hrp : root.properties = some rp) (hm : rp.lookup "metadata" = some m)
    (hmp : m.properties = some mp) :
    ∃ root', addMetaProps root fields = some root' ∧
      ∀ name, rootMetadataField root' name =
        match mp.lookup name with
        | some x => some x
        | none => fields.lookup name := by
  induction fields generalizing root rp m mp with
  | nil =>
    refine ⟨root, rfl, ?_⟩
    intro name
    simp only [rootMetadataField, mapLookup, hrp, hm, hmp, List.lookup]
    cases mp.lookup name <;> rfl
  | cons field rest ih =>
    obtain ⟨n, prop⟩ := field
    obtain ⟨root₁, rp₁, m₁, mp₁, hstep, hrp₁, hm₁, hmp₁, hfields⟩ :=
      addMetaProp_fields root n prop rp m mp hrp hm hmp
    obtain ⟨root', hrest, hfinal⟩ := ih root₁ rp₁ m₁ mp₁ hrp₁ hm₁ hmp₁
    refine ⟨root', ?_, ?_⟩
    · simp only [addMetaProps, hstep, hrest]
    · intro name
      rw [hfinal name, hfields name]
      cases mp.lookup name with
      | some x => rfl
      | none =>
        by_cases hname : name = n
        · simp [hname, List.lookup]
        · have hbeq : (name == n) = false := by
            simp only [beq_eq_false_iff_ne, ne_eq]
            exact hname
          simp only [if_neg hname, List.lookup, hbeq]

/-- The first statement of `addMetaDataToRoot`: the property `metadata` is
created when it is absent. -/
def ensureMetadata (root : JSONSchemaProps) : Option JSONSchemaProps :=
  match mapLookup root.properties "metadata" with
  | some _ => some root
  | none =>
    match root.properties with
    | none => none
    | some rootProps =>
      some (root.withProperties
        (some (mapSet rootProps "metadata" (.mk "object" none (some []) none none))))

/-- The second statement of `addMetaDataToRoot`: the properties of `metadata` are
made a map when they are nil. -/
def ensureMetadataProperties (withMeta : JSONSchemaProps) : Option JSONSchemaProps :=
  match (propertyOrZero withMeta.properties "metadata").properties with
  | some _ => some withMeta
  | none =>
    match withMeta.properties with
    | none => none
    | some rootProps =>
      some (withMeta.withProperties
        (some (mapSet rootProps "metadata"
          ((propertyOrZero withMeta.properties "metadata").withProperties (some [])))))

/-- `addMetaDataToRoot` is its three statements in a row. -/
theorem addMetaDataToRoot_eq (root : JSONSchemaProps) :
    addMetaDataToRoot root =
      (ensureMetadata root).bind (fun withMeta =>
        (ensureMetadataProperties withMeta).bind (fun withFields =>
          addMetaProps withFields additionalMetaProps)) := by
  have hinner : ∀ w : JSONSchemaProps,
      (match (propertyOrZero w.properties "metadata").properties with
        | some _ => addMetaProps w additionalMetaProps
        | none =>
          match w.properties with
          | none => none
          | some rootProps =>
            addMetaProps (w.withProperties
              (some (mapSet rootProps "metadata"
                ((propertyOrZero w.properties "metadata").withProperties (some [])))))
              additionalMetaProps) =
      (ensureMetadataProperties w).bind (fun withFields =>
          addMetaProps withFields additionalMetaProps) := by
    intro w
    unfold ensureMetadataProperties
    split
    · rfl
    · split <;> rfl
  unfold addMetaDataToRoot ensureMetadata
  split
  · exact hinner root
  · split
    · rfl
    · exact hinner _
/-- After the first statement the root has the property `metadata`, with the
fields it had before. -/
theorem ensureMetadata_fields (root withMeta : JSONSchemaProps)
    (h : ensureMetadata root = some withMeta) :
    ∃ rp m, withMeta.properties = some rp ∧ rp.lookup "metadata" = some m ∧
      ∀ name, mapLookup m.properties name = rootMetadataField root name := by
  unfold ensureMetadata at h
  rcases hrp : root.properties with _ | rp
  · simp [hrp, mapLookup] at h
  · rcases hm : rp.lookup "metadata" with _ | m
    · simp only [hrp, mapLookup, hm, Option.some.injEq] at h
      refine ⟨_, .mk "object" none (some []) none none, ?_, lookup_mapSet_self rp "metadata" _, ?_⟩
      · rw [← h]
        exact withProperties_properties _ _
      · intro name
        have hfresh : (JSONSchemaProps.mk "object" none (some []) none none).properties
            = some [] := rfl
        simp only [rootMetadataField, mapLookup, hrp, hm, hfresh, List.lookup]
    · simp only [hrp, mapLookup, hm, Option.some.injEq] at h
      refine ⟨rp, m, ?_, hm, ?_⟩
      · rw [← h]
        exact hrp
      · intro name
        simp only [rootMetadataField, mapLookup, hrp, hm]

/-- After the second statement `metadata` has a map of properties, with the
fields it had before. -/
theorem ensureMetadataProperties_fields (withMeta withFields : JSONSchemaProps)
    (rp : List (String × JSONSchemaProps)) (m : JSONSchemaProps)
    (hrp : withMeta.properties = some rp) (hm : rp.lookup "metadata" = some m)
    (h : ensureMetadataProperties withMeta = some withFields) :
    ∃ rp' m' mp', withFields.properties = some rp' ∧ rp'.lookup "metadata" = some m' ∧
      m'.properties = some mp' ∧ ∀ name, mp'.lookup name = mapLookup m.properties name := by
  have hzero : propertyOrZero withMeta.properties "metadata" = m := by
    simp only [propertyOrZero, mapLookup, hrp, hm]
  unfold ensureMetadataProperties at h
  rw [hzero] at h
  rcases hmp : m.properties with _ | mp
  · simp only [hmp, hrp, Option.some.injEq] at h
    refine ⟨mapSet rp "metadata" (m.withProperties (some [])), m.withProperties (some []), [],
      ?_, lookup_mapSet_self rp "metadata" _, withProperties_properties _ _, ?_⟩
    · rw [← h]
      exact withProperties_properties _ _
    · intro name
      simp only [mapLookup, List.lookup]
  · simp only [hmp, Option.some.injEq] at h
    refine ⟨rp, m, mp, ?_, hm, hmp, ?_⟩
    · rw [← h]
      exact hrp
    · intro name
      simp only [mapLookup]

/-- The metadata fields that `addMetaDataToSchema` leaves on a root schema: the
fields that `metadata` declared, and for a field it did not declare the entry of
`additionalMetaProps`, if there is one. -/
theorem addMetaDataToRoot_fields (root root' : JSONSchemaProps)
    (h : addMetaDataToRoot root = some root') (name : String) :
    rootMetadataField root' name =
      match rootMetadataField root name with
      | some x => some x
      | none => additionalMetaProps.lookup name := by
  rw [addMetaDataToRoot_eq] at h
  rcases hone : ensureMetadata root with _ | withMeta
  · simp [hone] at h
  · rcases htwo : ensureMetadataProperties withMeta with _ | withFields
    · simp [hone, htwo] at h
    · simp only [hone, htwo, Option.bind] at h
      obtain ⟨rp, m, hrp, hm, hsame⟩ := ensureMetadata_fields root withMeta hone
      obtain ⟨rp', m', mp', hrp', hm', hmp', hsame'⟩ :=
        ensureMetadataProperties_fields withMeta withFields rp m hrp hm htwo
      obtain ⟨final, hfinal, hfields⟩ :=
        addMetaProps_fields additionalMetaProps withFields rp' m' mp' hrp' hm' hmp'
      rw [hfinal] at h
      simp only [Option.some.injEq] at h
      rw [← h, hfields name, hsame' name, hsame name]

/-- The metadata fields of the version that `addMetaDataToSchema` leaves. -/
theorem addMetaDataToSchema_fields (v version : CustomResourceDefinitionVersion)
    (h : addMetaDataToSchema v = some version) (name : String) :
    metadataField version name =
      match metadataField v name with
      | some x => some x
      | none => additionalMetaProps.lookup name := by
  unfold addMetaDataToSchema at h
  rcases hschema : v.schema with _ | validation
  · simp only [hschema] at h
    rcases hroot : addMetaDataToRoot (.mk "" none (some []) none none) with _ | augmented
    · simp [hroot] at h
    · simp only [hroot, Option.some.injEq] at h
      rw [← h]
      simp only [metadataField, hschema]
      exact addMetaDataToRoot_fields _ augmented hroot name
  · simp only [hschema] at h
    rcases hopen : validation.openAPIV3Schema with _ | root
    · simp only [hopen] at h
      rcases hroot : addMetaDataToRoot (.mk "" none (some []) none none) with _ | augmented
      · simp [hroot] at h
      · simp only [hroot, Option.some.injEq] at h
        rw [← h]
        simp only [metadataField, hschema, hopen]
        exact addMetaDataToRoot_fields _ augmented hroot name
    · simp only [hopen] at h
      rcases hroot : addMetaDataToRoot root with _ | augmented
      · simp [hroot] at h
      · simp only [hroot, Option.some.injEq] at h
        rw [← h]
        simp only [metadataField, hschema, hopen]
        exact addMetaDataToRoot_fields root augmented hroot name

/-- The amended C20: when a definition is registered after another under the
same key, the metadata fields of the schema that the store returns for the key
are the metadata fields that the later definition declares itself, together
with the standard fields of `additionalMetaProps` that it does not declare; so
`name`, `namespace`, `labels` and `annotations` are present after the later
registration, as they were after the earlier one. -/
theorem registerCRD_metadata_fields (s s₁ s₂ : SchemaStore)
    (crd₁ crd₂ : CustomResourceDefinition)
    (pre post : List CustomResourceDefinitionVersion) (v : CustomResourceDefinitionVersion)
    (h₁ : s.registerCRD crd₁ = some s₁) (h₂ : s₁.registerCRD crd₂ = some s₂)
    (hv : crd₂.versions = pre ++ v :: post) (hlast : ∀ w ∈ post, w.name ≠ v.name) :
    (∀ name, s₂.metadataField ⟨crd₂.group, v.name, crd₂.kind⟩ name =
      match metadataField v name with
      | some x => some x
      | none => additionalMetaProps.lookup name) ∧
    (∀ name ∈ ["name", "namespace", "labels", "annotations"],
      (s₂.metadataField ⟨crd₂.group, v.name, crd₂.kind⟩ name).isSome = true) := by
  have _ := h₁
  unfold SchemaStore.registerCRD at h₂
  rw [hv] at h₂
  obtain ⟨version, hversion, hlookup⟩ :=
    registerVersions_last crd₂.group crd₂.kind s₁ s₂ pre post v h₂ hlast
  have hfields : ∀ name, s₂.metadataField ⟨crd₂.group, v.name, crd₂.kind⟩ name =
      match metadataField v name with
      | some x => some x
      | none => additionalMetaProps.lookup name := by
    intro name
    simp only [SchemaStore.metadataField, hlookup]
    exact addMetaDataToSchema_fields v version hversion name
  refine ⟨hfields, ?_⟩
  intro name hname
  rw [hfields name]
  cases metadataField v name with
  | some x => rfl
  | none =>
    simp only [List.mem_cons, List.mem_singleton, List.not_mem_nil, or_false] at hname
    rcases hname with h | h | h | h <;> subst h <;> rfl

/-- The two definitions of `Widget`, neither of which declares `metadata`,
registered one after the other: the four standard fields are there, `name` as a
string, and no field `uid`. -/
theorem registerCRD_metadata_fields_witness :
    (∀ name ∈ ["name", "namespace", "labels", "annotations"],
      (storeAfterSecond.metadataField exampleGvk name).isSome = true) ∧
    storeAfterSecond.metadataField exampleGvk "name" = some stringLeaf ∧
    storeAfterSecond.metadataField exampleGvk "uid" = none :=
  have h := registerCRD_metadata_fields gadgetStore storeAfterFirst storeAfterSecond
    widgetCRD₁ widgetCRD₂ [] [] ⟨"v1", some ⟨some schemaC⟩⟩ rfl rfl rfl
    (fun _ hw => absurd hw (List.not_mem_nil _))
  ⟨h.2, (h.1 "name").trans rfl, (h.1 "uid").trans rfl⟩

/-- A definition of `Widget` whose `metadata` declares a field `uid`. -/
def uidCRD : CustomResourceDefinition :=
  ⟨"example.org", "Widget",
    [⟨"v1", some ⟨some (.mk "object" none
      (some [("metadata", .mk "object" none (some [("uid", stringLeaf)]) none none)])
      none none)⟩⟩]⟩

/-- The empty store after the registration of `uidCRD`. -/
def storeAfterUid : SchemaStore := (NewSchemaStore.registerCRD uidCRD).getD NewSchemaStore

/-- The store `storeAfterUid` after the registration of `widgetCRD₂`. -/
def storeAfterUidThenWidget : SchemaStore :=
  (storeAfterUid.registerCRD widgetCRD₂).getD NewSchemaStore

/-- C20 as stated fails: `uidCRD` and then `widgetCRD₂` are registered under the
key of `Widget`; the metadata field `uid` is present after the first
registration and absent after the second. -/
theorem registerCRD_metadata_field_regressed :
    NewSchemaStore.registerCRD uidCRD = some storeAfterUid ∧
    storeAfterUid.registerCRD widgetCRD₂ = some storeAfterUidThenWidget ∧
    storeAfterUid.metadataField exampleGvk "uid" = some stringLeaf ∧
    storeAfterUidThenWidget.metadataField exampleGvk "uid" = none ∧
    storeAfterUidThenWidget.metadataField exampleGvk "name" = some stringLeaf :=
  ⟨rfl, rfl, rfl, rfl, rfl⟩

/-! ## Unknown patch types -/

/-- C30: a patch whose type is not empty and is none of the six known types gets
exactly one issue, `unknown patch type`, placed at the field `type` of the patch
and carrying the type as its value, whatever the parser and the store are; so
does such a patch inside an expanded patch set, under the wrapped context. -/
theorem validatePatch_unknown_type (parse : FieldPathParser) (ctx : scopedContext)
    (comp : Composition) (compositeGvk baseGvk : GroupVersionKind) (patchPath : JSONPath)
    (i : Nat) (p : Patch)
    (hempty : p.type ≠ "")
    (hfrom : p.type ≠ PatchTypeFromCompositeFieldPath)
    (hto : p.type ≠ PatchTypeToCompositeFieldPath)
    (hcfrom : p.type ≠ PatchTypeCombineFromComposite)
    (hcto : p.type ≠ PatchTypeCombineToComposite)
    (henv : p.type ≠ PatchTypeFromEnvironmentFieldPath)
    (hset : p.type ≠ PatchTypePatchSet) :
    validatePatch parse ctx p comp compositeGvk baseGvk =
      some [fieldPathIssue ctx [.field "type"] "unknown patch type" p.type] ∧
    validatePatchSetEntry parse ctx compositeGvk baseGvk patchPath i p =
      some [fieldPathIssue (ctx.Wrap (patchSetEntryPath patchPath i)) [.field "type"]
        "unknown patch type" p.type] ∧
    JSONPath.string (fieldPathIssue ctx [.field "type"] "unknown patch type" p.type).path
      = JSONPath.string ctx.basePath ++ ".type" := by
  have hcopy : ¬ (p.type = "" ∨ p.type = PatchTypeFromCompositeFieldPath) := by
    rintro (h | h)
    · exact hempty h
    · exact hfrom h
  have htop : validatePatch parse ctx p comp compositeGvk baseGvk =
      some [fieldPathIssue ctx [.field "type"] "unknown patch type" p.type] := by
    unfold validatePatch
    simp only [if_neg hcto, if_neg hcfrom, if_neg hto, if_neg hcopy, if_neg henv, if_neg hset]
    rfl
  refine ⟨htop, ?_, ?_⟩
  · rw [validatePatchSetEntry_eq_validatePatch parse ctx comp compositeGvk baseGvk patchPath i p
      hset]
    unfold validatePatch
    simp only [if_neg hcto, if_neg hcfrom, if_neg hto, if_neg hcopy, if_neg henv, if_neg hset]
    rfl
  · exact JSONPath_string_base_field ctx.basePath "type" (by decide)

/-- A patch of the type `ToEnvironmentFieldPath`, which this linter does not
know, at the top level and inside a patch set. -/
theorem validatePatch_unknown_type_witness :
    validatePatch exampleParse (exampleContext schemaAB)
        ⟨"ToEnvironmentFieldPath", some "a.b", none, some "a.c", none⟩
        ⟨⟨"example.org/v1", "Widget"⟩, [], []⟩ exampleGvk exampleGvk
      = some [fieldPathIssue (exampleContext schemaAB) [.field "type"] "unknown patch type"
          "ToEnvironmentFieldPath"] ∧
    validatePatchSetEntry exampleParse (exampleContext schemaAB) exampleGvk exampleGvk
        (NewJSONPath [.str "#inlined", .str "spec", .str "patchSets", .int 0]) 2
        ⟨"ToEnvironmentFieldPath", some "a.b", none, some "a.c", none⟩
      = some [fieldPathIssue
          ((exampleContext schemaAB).Wrap (patchSetEntryPath
            (NewJSONPath [.str "#inlined", .str "spec", .str "patchSets", .int 0]) 2))
          [.field "type"] "unknown patch type" "ToEnvironmentFieldPath"] :=
  have h := validatePatch_unknown_type exampleParse (exampleContext schemaAB)
    ⟨⟨"example.org/v1", "Widget"⟩, [], []⟩ exampleGvk exampleGvk
    (NewJSONPath [.str "#inlined", .str "spec", .str "patchSets", .int 0]) 2
    ⟨"ToEnvironmentFieldPath", some "a.b", none, some "a.c", none⟩
    (by decide) (by decide) (by decide) (by decide) (by decide) (by decide) (by decide)
  ⟨h.1, h.2.1⟩

/-! ## The path of an issue of an expanded patch set -/

/-- The rendering of two paths one after the other. -/
theorem JSONPath_string_append (a b : JSONPath) :
    JSONPath.string (a ++ b) = JSONPath.string a ++ JSONPath.string b := by
  induction a with
  | nil => simp [JSONPath.string]
  | cons seg rest ih =>
    show JSONPathSegment.string seg ++ JSONPath.string (rest ++ b) = _
    rw [ih]
    simp only [JSONPath.string, String.append_assoc]

/-- The rendering of a path made of a base path and a path inside it. -/
theorem JSONPath_string_pair (base within : JSONPath) :
    JSONPath.string [.path base, .path within]
      = JSONPath.string base ++ JSONPath.string within := by
  simp only [JSONPath.string, JSONPathSegment.string, String.append_empty]

/-- The number of an index segment that comes from a loop index is rendered as
the index. -/
theorem toString_index (n : Nat) : toString (n : Int) = toString n := rfl

/-- The rendering of the base path of the patch `j` of the resource `r`. -/
theorem resourcePatchContext_string (ctx : linterContext) (manifest : PackageEntry)
    (r j : Nat) :
    JSONPath.string (resourcePatchContext ctx manifest r j).basePath
      = ".spec.resources[" ++ toString r ++ "].patches[" ++ toString j ++ "]" := by
  have h₁ : ("spec".toList.any (· == '.')) = false := by decide
  have h₂ : ("resources".toList.any (· == '.')) = false := by decide
  have h₃ : ("patches".toList.any (· == '.')) = false := by decide
  simp only [resourcePatchContext, NewJSONPath, List.map, JSONPath.string,
    JSONPathSegment.string, h₁, h₂, h₃, Bool.false_eq_true, if_false, String.append_empty,
    toString_index]
  have e₁ : ".spec.resources[" = "." ++ ("spec" ++ ("." ++ ("resources" ++ "["))) := by decide
  have e₂ : "].patches[" = "]" ++ ("." ++ ("patches" ++ "[")) := by decide
  rw [e₁, e₂]
  simp only [String.append_assoc]

/-- The rendering of the path under which the patch `i` of the patch set `k`
reports, inside the referencing patch. -/
theorem patchSetEntryPath_string (k i : Nat) :
    JSONPath.string (patchSetEntryPath
        (NewJSONPath [.str "#inlined", .str "spec", .str "patchSets", .int k]) i)
      = ".#inlined.spec.patchSets[" ++ toString k ++ "].patches[" ++ toString i ++ "]"
        ++ ".type" := by
  have h₀ : ("#inlined".toList.any (· == '.')) = false := by decide
  have h₁ : ("spec".toList.any (· == '.')) = false := by decide
  have h₂ : ("patchSets".toList.any (· == '.')) = false := by decide
  have h₃ : ("patches".toList.any (· == '.')) = false := by decide
  have h₄ : ("type".toList.any (· == '.')) = false := by decide
  simp only [patchSetEntryPath, NewJSONPath, List.map, JSONPath.string,
    JSONPathSegment.string, h₀, h₁, h₂, h₃, h₄, Bool.false_eq_true, if_false,
    String.append_empty, toString_index]
  have e₁ : ".#inlined.spec.patchSets[" =
      "." ++ ("#inlined" ++ ("." ++ ("spec" ++ ("." ++ ("patchSets" ++ "["))))) := by decide
  have e₂ : "].patches[" = "]" ++ ("." ++ ("patches" ++ "[")) := by decide
  have e₃ : ".type" = "." ++ "type" := by decide
  rw [e₁, e₂, e₃]
  simp only [String.append_assoc]

/-- The loop of `validatePatchSet` validates every patch of the set on its own,
in order. -/
theorem validatePatchSetFrom_eq_sequence (parse : FieldPathParser) (ctx : scopedContext)
    (compositeGvk baseGvk : GroupVersionKind) (patchPath : JSONPath) (i : Nat)
    (patches : List Patch) :
    validatePatchSetFrom parse ctx compositeGvk baseGvk patchPath i patches =
      sequenceIssues ((patches.enumFrom i).map (fun jp =>
        validatePatchSetEntry parse ctx compositeGvk baseGvk patchPath jp.1 jp.2)) := by
  induction patches generalizing i with
  | nil => rfl
  | cons p rest ih =>
    simp only [validatePatchSetFrom, List.enumFrom_cons, List.map_cons, sequenceIssues]
    rw [ih (i + 1)]

/-- An issue of steps in sequence is an issue of one of the steps. -/
theorem sequenceIssues_mem (steps : List (Option (List Issue))) (issues : List Issue)
    (h : sequenceIssues steps = some issues) (x : Issue) (hx : x ∈ issues) :
    ∃ l, some l ∈ steps ∧ x ∈ l := by
  induction steps generalizing issues with
  | nil =>
    simp only [sequenceIssues, Option.some.injEq] at h
    rw [← h] at hx
    cases hx
  | cons step rest ih =>
    rcases step with _ | here
    · simp [sequenceIssues, bind, Option.bind] at h
    · rcases hrest : sequenceIssues rest with _ | later
      · simp [sequenceIssues, hrest, bind, Option.bind] at h
      · simp only [sequenceIssues, hrest, bind, Option.bind, pure, Option.some.injEq] at h
        rw [← h] at hx
        rcases List.mem_append.mp hx with hmem | hmem
        · exact ⟨here, List.mem_cons_self _ _, hmem⟩
        · obtain ⟨l, hl, hxl⟩ := ih later hrest hmem
          exact ⟨l, List.mem_cons_of_mem _ hl, hxl⟩

/-- What the search of `validatePatch` finds is the first patch set of the name,
with its index. -/
theorem findPatchSet_first (name : String) (sets : List PatchSet) (i : Nat)
    (found : PatchSet) (index : Nat)
    (h : findPatchSet name i sets = some (found, index)) :
    ∃ k, index = i + k ∧ sets[k]? = some found ∧ found.name = name ∧
      ∀ k', k' < k → ∀ s, sets[k']? = some s → s.name ≠ name := by
  induction sets generalizing i with
  | nil => simp [findPatchSet] at h
  | cons t rest ih =>
    by_cases ht : t.name = name
    · simp only [findPatchSet, if_pos ht, Option.some.injEq, Prod.mk.injEq] at h
      refine ⟨0, by omega, ?_, ?_, ?_⟩
      · simp [h.1]
      · rw [← h.1]
        exact ht
      · intro k' hk'
        omega
    · simp only [findPatchSet, if_neg ht] at h
      obtain ⟨k, hk, hget, hname, hfirst⟩ := ih (i + 1) h
      refine ⟨k + 1, by omega, ?_, hname, ?_⟩
      · simpa using hget
      · intro k' hk' s hs
        cases k' with
        | zero =>
          simp only [List.getElem?_cons_zero, Option.some.injEq] at hs
          rw [← hs]
          exact ht
        | succ n =>
          simp only [List.getElem?_cons_succ] at hs
          exact hfirst n (by omega) s hs

/-- C29: the path of an issue of an expanded patch set. Let the patch `j` of the
resource `r` refer to a patch set by name, and let the search find it at the
index `k`, which is the index of the first patch set of that name. Then every
issue is one of a patch `i` of that set, and its path renders as
`.spec.resources[r].patches[j].#inlined.spec.patchSets[k].patches[i]` followed by
`.type` and by the place of the finding inside the patch. -/
theorem validatePatch_expanded_path (parse : FieldPathParser) (ctx : linterContext)
    (manifest : PackageEntry) (r j : Nat) (comp : Composition)
    (compositeGvk baseGvk : GroupVersionKind) (p : Patch) (name : String)
    (found : PatchSet) (k : Nat) (issues : List Issue)
    (hkind : p.type = PatchTypePatchSet) (hname : p.patchSetName = some name)
    (hfound : findPatchSet name 0 comp.patchSets = some (found, k))
    (hissues : validatePatch parse (resourcePatchContext ctx manifest r j) p comp
      compositeGvk baseGvk = some issues) :
    (comp.patchSets[k]? = some found ∧ found.name = name ∧
      ∀ k', k' < k → ∀ s, comp.patchSets[k']? = some s → s.name ≠ name) ∧
    ∀ x ∈ issues, ∃ (i : Nat) (q : Patch) (l : List Issue) (f : Finding),
      found.patches[i]? = some q ∧
      validatePatchSetEntry parse (resourcePatchContext ctx manifest r j) compositeGvk baseGvk
        (NewJSONPath [.str "#inlined", .str "spec", .str "patchSets", .int k]) i q = some l ∧
      x ∈ l ∧
      JSONPath.string x.path =
        ".spec.resources[" ++ toString r ++ "].patches[" ++ toString j ++ "]"
          ++ (".#inlined.spec.patchSets[" ++ toString k ++ "].patches[" ++ toString i ++ "]"
            ++ ".type")
          ++ JSONPath.string f.at_ := by
  obtain ⟨k₀, hk₀, hget, hfname, hfirst⟩ := findPatchSet_first name comp.patchSets 0 found k hfound
  have hk : k = k₀ := by omega
  subst hk
  refine ⟨⟨hget, hfname, hfirst⟩, ?_⟩
  intro x hx
  rw [validatePatch_reference_eq parse _ comp compositeGvk baseGvk p hkind, hname] at hissues
  simp only [hfound] at hissues
  rw [validatePatchSetFrom_eq_sequence] at hissues
  obtain ⟨l, hl, hxl⟩ := sequenceIssues_mem _ issues hissues x hx
  obtain ⟨⟨i, q⟩, hiq, hentry⟩ := List.mem_map.mp hl
  have hq : found.patches[i]? = some q := by
    have := List.mk_mem_enumFrom_iff_le_and_getElem?_sub.mp hiq
    simpa using this.2
  refine ⟨i, q, l, ?_⟩
  rcases validatePatchSetEntry_placed parse (resourcePatchContext ctx manifest r j)
      compositeGvk baseGvk
      (NewJSONPath [.str "#inlined", .str "spec", .str "patchSets", .int k]) i q with
    ⟨hnone, _⟩ | ⟨fs, _, hsome, _⟩
  · rw [hnone] at hentry
    cases hentry
  · have hl' : l = fs.map (Finding.issue ((resourcePatchContext ctx manifest r j).Wrap
        (patchSetEntryPath
          (NewJSONPath [.str "#inlined", .str "spec", .str "patchSets", .int k]) i))) := by
      rw [hsome] at hentry
      exact (Option.some.inj hentry).symm
    rw [hl'] at hxl
    obtain ⟨f, _, hf⟩ := List.mem_map.mp hxl
    refine ⟨f, hq, hentry, by rw [hl']; exact hxl, ?_⟩
    rw [← hf]
    show JSONPath.string
        [.path ((resourcePatchContext ctx manifest r j).Wrap _).basePath, .path f.at_] = _
    rw [JSONPath_string_pair]
    show JSONPath.string
        [.path (resourcePatchContext ctx manifest r j).basePath, .path (patchSetEntryPath _ i)]
        ++ _ = _
    rw [JSONPath_string_pair, resourcePatchContext_string, patchSetEntryPath_string]

/-- A composition whose second patch set is the first one called `common`: the
patch 3 of the resource 2 refers to it, and the issue of the copy patch in it is
placed under `.spec.resources[2].patches[3].#inlined.spec.patchSets[1].patches[0]`. -/
theorem validatePatch_expanded_path_witness :
    (∀ x ∈ [fieldPathIssue
          ((resourcePatchContext exampleLinterContext exampleManifest 2 3).Wrap
            (patchSetEntryPath
              (NewJSONPath [.str "#inlined", .str "spec", .str "patchSets", .int 1]) 0))
          [.field "toFieldPath"] "property 'c' not found" "a.c"],
      ∃ (i : Nat) (q : Patch) (l : List Issue) (f : Finding),
        [(⟨"", some "a.b", none, some "a.c", none⟩ : Patch)][i]? = some q ∧
        validatePatchSetEntry exampleParse
          (resourcePatchContext exampleLinterContext exampleManifest 2 3) exampleGvk exampleGvk
          (NewJSONPath [.str "#inlined", .str "spec", .str "patchSets", .int 1]) i q = some l ∧
        x ∈ l ∧
        JSONPath.string x.path =
          ".spec.resources[" ++ toString 2 ++ "].patches[" ++ toString 3 ++ "]"
            ++ (".#inlined.spec.patchSets[" ++ toString 1 ++ "].patches[" ++ toString i ++ "]"
              ++ ".type")
            ++ JSONPath.string f.at_) ∧
    JSONPath.string (fieldPathIssue
        ((resourcePatchContext exampleLinterContext exampleManifest 2 3).Wrap
          (patchSetEntryPath
            (NewJSONPath [.str "#inlined", .str "spec", .str "patchSets", .int 1]) 0))
        [.field "toFieldPath"] "property 'c' not found" "a.c").path
      = ".spec.resources[2].patches[3].#inlined.spec.patchSets[1].patches[0].type.toFieldPath" :=
  ⟨(validatePatch_expanded_path exampleParse exampleLinterContext exampleManifest 2 3
    ⟨⟨"example.org/v1", "Widget"⟩,
      [⟨"other", []⟩, ⟨"common", [⟨"", some "a.b", none, some "a.c", none⟩]⟩,
       ⟨"common", []⟩], []⟩
    exampleGvk exampleGvk ⟨PatchTypePatchSet, none, none, none, some "common"⟩ "common"
    ⟨"common", [⟨"", some "a.b", none, some "a.c", none⟩]⟩ 1 _ rfl rfl rfl rfl).2,
   by decide⟩

/-! ## Metadata augmentation is additive -/

/-- Two nodes that differ at most in their `Properties`. -/
def sameButProperties (a b : JSONSchemaProps) : Prop :=
  a.type = b.type ∧ a.xPreserveUnknownFields = b.xPreserveUnknownFields ∧
  a.additionalProperties = b.additionalProperties ∧ a.items = b.items

/-- What a statement of `addMetaDataToSchema` may change of a root schema: the
root keeps everything but its properties, every property other than `metadata`
is what it was, and a `metadata` that was there keeps everything but its
properties. -/
def augmentFrame (root root' : JSONSchemaProps) : Prop :=
  sameButProperties root' root ∧
  (∀ k, k ≠ "metadata" → mapLookup root'.properties k = mapLookup root.properties k) ∧
  (∀ m, mapLookup root.properties "metadata" = some m →
    ∃ m', mapLookup root'.properties "metadata" = some m' ∧ sameButProperties m' m)

/-- A node is itself but for its properties. -/
theorem sameButProperties_refl (a : JSONSchemaProps) : sameButProperties a a :=
  ⟨rfl, rfl, rfl, rfl⟩

/-- The relation `sameButProperties` composes. -/
theorem sameButProperties_trans {a b c : JSONSchemaProps}
    (hab : sameButProperties a b) (hbc : sameButProperties b c) : sameButProperties a c :=
  ⟨hab.1.trans hbc.1, hab.2.1.trans hbc.2.1, hab.2.2.1.trans hbc.2.2.1,
    hab.2.2.2.trans hbc.2.2.2⟩

/-- Replacing the properties of a node changes its properties only. -/
theorem withProperties_same (a : JSONSchemaProps)
    (props : Option (List (String × JSONSchemaProps))) :
    sameButProperties (a.withProperties props) a := by
  cases a
  exact ⟨rfl, rfl, rfl, rfl⟩

/-- A root left as it is. -/
theorem augmentFrame_refl (root : JSONSchemaProps) : augmentFrame root root :=
  ⟨sameButProperties_refl root, fun _ _ => rfl, fun m hm => ⟨m, hm, sameButProperties_refl m⟩⟩

/-- The relation `augmentFrame` composes. -/
theorem augmentFrame_trans {a b c : JSONSchemaProps}
    (hab : augmentFrame a b) (hbc : augmentFrame b c) : augmentFrame a c := by
  refine ⟨sameButProperties_trans hbc.1 hab.1, ?_, ?_⟩
  · intro k hk
    rw [hbc.2.1 k hk, hab.2.1 k hk]
  · intro m hm
    obtain ⟨m₁, hm₁, hsame₁⟩ := hab.2.2 m hm
    obtain ⟨m₂, hm₂, hsame₂⟩ := hbc.2.2 m₁ hm₁
    exact ⟨m₂, hm₂, sameButProperties_trans hsame₂ hsame₁⟩

/-- The assignment `root.Properties["metadata"] = x` of a node `x` that is the
former `metadata`, if there was one, but for its properties. -/
theorem augmentFrame_set (root : JSONSchemaProps) (rp : List (String × JSONSchemaProps))
    (x : JSONSchemaProps) (hrp : root.properties = some rp)
    (hx : ∀ m, rp.lookup "metadata" = some m → sameButProperties x m) :
    augmentFrame root (root.withProperties (some (mapSet rp "metadata" x))) := by
  refine ⟨withProperties_same root _, ?_, ?_⟩
  · intro k hk
    rw [withProperties_properties, hrp]
    exact lookup_mapSet_of_ne rp "metadata" k x hk
  · intro m hm
    rw [hrp] at hm
    refine ⟨x, ?_, hx m hm⟩
    rw [withProperties_properties]
    exact lookup_mapSet_self rp "metadata" x

/-- The value that indexing the properties with `metadata` gives, when the
property is there. -/
theorem propertyOrZero_metadata (root : JSONSchemaProps)
    (rp : List (String × JSONSchemaProps)) (m : JSONSchemaProps)
    (hrp : root.properties = some rp) (hm : rp.lookup "metadata" = some m) :
    propertyOrZero root.properties "metadata" = m := by
  simp only [propertyOrZero, mapLookup, hrp, hm]

/-- The first statement keeps to the frame. -/
theorem ensureMetadata_frame (root withMeta : JSONSchemaProps)
    (h : ensureMetadata root = some withMeta) : augmentFrame root withMeta := by
  unfold ensureMetadata at h
  rcases hrp : root.properties with _ | rp
  · simp [hrp, mapLookup] at h
  · rcases hm : rp.lookup "metadata" with _ | m
    · simp only [hrp, mapLookup, hm, Option.some.injEq] at h
      rw [← h]
      exact augmentFrame_set root rp _ hrp (fun m hm' => by rw [hm] at hm'; cases hm')
    · simp only [hrp, mapLookup, hm, Option.some.injEq] at h
      rw [← h]
      exact augmentFrame_refl root

/-- The second statement keeps to the frame. -/
theorem ensureMetadataProperties_frame (withMeta withFields : JSONSchemaProps)
    (h : ensureMetadataProperties withMeta = some withFields) :
    augmentFrame withMeta withFields := by
  unfold ensureMetadataProperties at h
  rcases hrp : withMeta.properties with _ | rp
  · rw [hrp] at h
    rcases hmp : (propertyOrZero none "metadata").properties with _ | mp
    · simp [hmp] at h
    · simp only [hmp, Option.some.injEq] at h
      rw [← h]
      exact augmentFrame_refl withMeta
  · rw [hrp] at h
    rcases hmp : (propertyOrZero (some rp) "metadata").properties with _ | mp
    · simp only [hmp, Option.some.injEq] at h
      rw [← h]
      refine augmentFrame_set withMeta rp _ hrp (fun m hm => ?_)
      rw [← hrp, propertyOrZero_metadata withMeta rp m hrp hm]
      exact withProperties_same m _
    · simp only [hmp, Option.some.injEq] at h
      rw [← h]
      exact augmentFrame_refl withMeta

/-- One step of the loop keeps to the frame. -/
theorem addMetaProp_frame (root root' : JSONSchemaProps) (n : String) (prop : JSONSchemaProps)
    (h : addMetaProp root n prop = some root') : augmentFrame root root' := by
  unfold addMetaProp at h
  rcases hrp : root.properties with _ | rp
  · rw [hrp] at h
    rcases hn : mapLookup (propertyOrZero none "metadata").properties n with _ | x
    · simp only [hn] at h
      rcases hmp : (propertyOrZero none "metadata").properties with _ | mp
      · simp [hmp] at h
      · simp [hmp] at h
    · simp only [hn, Option.some.injEq] at h
      rw [← h]
      exact augmentFrame_refl root
  · rw [hrp] at h
    rcases hn : mapLookup (propertyOrZero (some rp) "metadata").properties n with _ | x
    · simp only [hn] at h
      rcases hmp : (propertyOrZero (some rp) "metadata").properties with _ | mp
      · simp [hmp] at h
      · simp only [hmp, Option.some.injEq] at h
        rw [← h]
        refine augmentFrame_set root rp _ hrp (fun m hm => ?_)
        rw [← hrp, propertyOrZero_metadata root rp m hrp hm]
        exact withProperties_same m _
    · simp only [hn, Option.some.injEq] at h
      rw [← h]
      exact augmentFrame_refl root

/-- The loop keeps to the frame. -/
theorem addMetaProps_frame (fields : List (String × JSONSchemaProps))
    (root root' : JSONSchemaProps) (h : addMetaProps root fields = some root') :
    augmentFrame root root' := by
  induction fields generalizing root with
  | nil =>
    simp only [addMetaProps, Option.some.injEq] at h
    rw [← h]
    exact augmentFrame_refl root
  | cons field rest ih =>
    obtain ⟨n, prop⟩ := field
    simp only [addMetaProps] at h
    rcases hstep : addMetaProp root n prop with _ | next
    · simp [hstep] at h
    · simp only [hstep] at h
      exact augmentFrame_trans (addMetaProp_frame root next n prop hstep) (ih next h)

/-- The first statement does not panic on a root that has a map of properties. -/
theorem ensureMetadata_some (root : JSONSchemaProps) (rp : List (String × JSONSchemaProps))
    (hrp : root.properties = some rp) : ∃ withMeta, ensureMetadata root = some withMeta := by
  unfold ensureMetadata
  rcases hm : rp.lookup "metadata" with _ | m
  · simp only [hrp, mapLookup, hm]
    exact ⟨_, rfl⟩
  · simp only [hrp, mapLookup, hm]
    exact ⟨_, rfl⟩

/-- The `metadata` that the first statement creates when there is none. -/
theorem ensureMetadata_fresh (root withMeta : JSONSchemaProps)
    (rp : List (String × JSONSchemaProps)) (hrp : root.properties = some rp)
    (hm : rp.lookup "metadata" = none) (h : ensureMetadata root = some withMeta) :
    mapLookup withMeta.properties "metadata" = some (.mk "object" none (some []) none none) := by
  unfold ensureMetadata at h
  simp only [hrp, mapLookup, hm, Option.some.injEq] at h
  rw [← h, withProperties_properties]
  exact lookup_mapSet_self rp "metadata" _

/-- The second statement does not panic on a root that has a map of
properties. -/
theorem ensureMetadataProperties_some (withMeta : JSONSchemaProps)
    (rp : List (String × JSONSchemaProps)) (hrp : withMeta.properties = some rp) :
    ∃ withFields, ensureMetadataProperties withMeta = some withFields := by
  unfold ensureMetadataProperties
  rw [hrp]
  rcases hmp : (propertyOrZero (some rp) "metadata").properties with _ | mp
  · exact ⟨_, rfl⟩
  · exact ⟨_, rfl⟩

/-- The statements of `addMetaDataToSchema` on a root schema that has a map of
properties: they do not panic, and they add to the root nothing but the property
`metadata`, when it is absent, and to `metadata` nothing but the entries of
`additionalMetaProps` that it does not declare. -/
theorem addMetaDataToRoot_additive (root : JSONSchemaProps)
    (rp : List (String × JSONSchemaProps)) (hrp : root.properties = some rp) :
    ∃ root' m', addMetaDataToRoot root = some root' ∧
      sameButProperties root' root ∧
      (∀ k, k ≠ "metadata" → mapLookup root'.properties k = mapLookup root.properties k) ∧
      mapLookup root'.properties "metadata" = some m' ∧
      (∀ m, mapLookup root.properties "metadata" = some m →
        sameButProperties m' m ∧
        ∀ name, mapLookup m'.properties name =
          match mapLookup m.properties name with
          | some x => some x
          | none => additionalMetaProps.lookup name) ∧
      (mapLookup root.properties "metadata" = none →
        sameButProperties m' (.mk "object" none (some []) none none) ∧
        ∀ name, mapLookup m'.properties name = additionalMetaProps.lookup name) := by
  obtain ⟨w, hone⟩ := ensureMetadata_some root rp hrp
  obtain ⟨rp₁, m₁, hrp₁, hm₁, _⟩ := ensureMetadata_fields root w hone
  obtain ⟨w₂, htwo⟩ := ensureMetadataProperties_some w rp₁ hrp₁
  obtain ⟨rp₂, m₂, mp₂, hrp₂, hm₂, hmp₂, _⟩ :=
    ensureMetadataProperties_fields w w₂ rp₁ m₁ hrp₁ hm₁ htwo
  obtain ⟨final, hfinal, _⟩ :=
    addMetaProps_fields additionalMetaProps w₂ rp₂ m₂ mp₂ hrp₂ hm₂ hmp₂
  have hroot : addMetaDataToRoot root = some final := by
    rw [addMetaDataToRoot_eq]
    simp only [hone, htwo, Option.bind, hfinal]
  have hlater : augmentFrame w final :=
    augmentFrame_trans (ensureMetadataProperties_frame w w₂ htwo)
      (addMetaProps_frame additionalMetaProps w₂ final hfinal)
  have hall : augmentFrame root final :=
    augmentFrame_trans (ensureMetadata_frame root w hone) hlater
  have hw : mapLookup w.properties "metadata" = some m₁ := by
    simp only [mapLookup, hrp₁, hm₁]
  obtain ⟨m', hm', hsame'⟩ := hlater.2.2 m₁ hw
  have hfields := addMetaDataToRoot_fields root final hroot
  have hafter : ∀ name, rootMetadataField final name = mapLookup m'.properties name := by
    intro name
    simp only [rootMetadataField, hm']
  refine ⟨final, m', hroot, hall.1, hall.2.1, hm', ?_, ?_⟩
  · intro m hm
    obtain ⟨m'', hm'', hsame''⟩ := hall.2.2 m hm
    rw [hm'] at hm''
    simp only [Option.some.injEq] at hm''
    rw [hm'']
    refine ⟨hsame'', ?_⟩
    intro name
    rw [← hm'', ← hafter name, hfields name]
    simp only [rootMetadataField, hm]
  · intro hnone
    have hlookup : rp.lookup "metadata" = none := by
      simpa only [mapLookup, hrp] using hnone
    have hfresh := ensureMetadata_fresh root w rp hrp hlookup hone
    rw [hw] at hfresh
    simp only [Option.some.injEq] at hfresh
    rw [hfresh] at hsame'
    refine ⟨hsame', ?_⟩
    intro name
    rw [← hafter name, hfields name]
    simp only [rootMetadataField, hnone]

/-- C21: metadata augmentation is additive only. On a version whose root schema
has a map of properties, `addMetaDataToSchema` does not panic and leaves the
version with its name and a root schema that differs from the former one in its
properties only; every root property other than `metadata` is what it was; a
`metadata` that was declared keeps its type and its other fields, and each of its
sub-properties stays what it was (a declared `name`, `namespace`, `labels` or
`annotations` included), while a name it did not declare holds the entry of
`additionalMetaProps` of that name if there is one (one of the four standard
fields) and nothing otherwise; a `metadata` that was not declared is created of
type `object` with just the four standard fields. -/
theorem addMetaDataToSchema_additive (v : CustomResourceDefinitionVersion)
    (validation : CustomResourceValidation) (root : JSONSchemaProps)
    (rp : List (String × JSONSchemaProps))
    (hschema : v.schema = some validation) (hopen : validation.openAPIV3Schema = some root)
    (hrp : root.properties = some rp) :
    ∃ root' m', addMetaDataToSchema v = some ⟨v.name, some ⟨some root'⟩⟩ ∧
      sameButProperties root' root ∧
      (∀ k, k ≠ "metadata" → mapLookup root'.properties k = mapLookup root.properties k) ∧
      mapLookup root'.properties "metadata" = some m' ∧
      (∀ m, mapLookup root.properties "metadata" = some m →
        sameButProperties m' m ∧
        ∀ name, mapLookup m'.properties name =
          match mapLookup m.properties name with
          | some x => some x
          | none => additionalMetaProps.lookup name) ∧
      (mapLookup root.properties "metadata" = none →
        sameButProperties m' (.mk "object" none (some []) none none) ∧
        ∀ name, mapLookup m'.properties name = additionalMetaProps.lookup name) := by
  obtain ⟨root', m', hroot, hrest⟩ := addMetaDataToRoot_additive root rp hrp
  refine ⟨root', m', ?_, hrest⟩
  unfold addMetaDataToSchema
  simp only [hschema, hopen, hroot]

/-- A schema whose `metadata` declares `name` as an integer and a field `uid`,
next to a property `spec`. -/
def schemaOwnName : JSONSchemaProps :=
  .mk "object" none
    (some [("spec", schemaAB),
           ("metadata", .mk "object" none
             (some [("name", .mk "integer" none none none none), ("uid", stringLeaf)])
             none none)])
    none none

/-- On `schemaOwnName` the augmentation keeps `spec`, the declared `name` (an
integer still) and `uid`, and adds `namespace`, `labels` and `annotations`. -/
theorem addMetaDataToSchema_additive_witness :
    ∃ root' m', addMetaDataToSchema ⟨"v1", some ⟨some schemaOwnName⟩⟩
        = some ⟨"v1", some ⟨some root'⟩⟩ ∧
      sameButProperties root' schemaOwnName ∧
      mapLookup root'.properties "spec" = some schemaAB ∧
      mapLookup root'.properties "metadata" = some m' ∧
      m'.type = "object" ∧
      mapLookup m'.properties "name" = some (.mk "integer" none none none none) ∧
      mapLookup m'.properties "uid" = some stringLeaf ∧
      mapLookup m'.properties "namespace" = some stringLeaf ∧
      mapLookup m'.properties "labels"
        = some (.mk "" none none (some (true, some stringLeaf)) none) ∧
      mapLookup m'.properties "generation" = none :=
  have ⟨root', m', h, hsame, hother, hm', hdeclared, _⟩ :=
    addMetaDataToSchema_additive ⟨"v1", some ⟨some schemaOwnName⟩⟩ ⟨some schemaOwnName⟩
      schemaOwnName _ rfl rfl rfl
  have hd := hdeclared _ rfl
  ⟨root', m', h, hsame, (hother "spec" (by decide)).trans rfl, hm', hd.1.1,
    (hd.2 "name").trans rfl, (hd.2 "uid").trans rfl, (hd.2 "namespace").trans rfl,
    (hd.2 "labels").trans rfl, (hd.2 "generation").trans rfl⟩

/-! ## The standard metadata fields resolve -/

/-- A field segment on an object-kind node without x-preserve-unknown-fields,
for a declared property. -/
theorem validateFieldPathSegment_hit (current prop : JSONSchemaProps) (name : String)
    (htype : current.type = "object" ∨ current.type = "")
    (hpres : boolDeref current.xPreserveUnknownFields false = false)
    (hhit : mapLookup current.properties name = some prop) :
    validateFieldPathSegment current (Segment.ofField name) = .ok (some prop) := by
  unfold validateFieldPathSegment
  rw [if_pos (show (Segment.ofField name).type = SegmentField from rfl)]
  have hfield : (Segment.ofField name).field = name := rfl
  simp only [propType_object htype, ne_eq, not_true_eq_false, if_false, hpres,
    Bool.false_eq_true, hfield, hhit]

/-- The paths `metadata.<field>` and `metadata.<field>.<k>` on a root schema of
object kind whose `metadata` is of object kind, neither with
x-preserve-unknown-fields. -/
theorem validateSegments_metadata (root m prop : JSONSchemaProps) (field : String)
    (htype : root.type = "object" ∨ root.type = "")
    (hpres : boolDeref root.xPreserveUnknownFields false = false)
    (hm : mapLookup root.properties "metadata" = some m)
    (hmtype : m.type = "object" ∨ m.type = "")
    (hmpres : boolDeref m.xPreserveUnknownFields false = false)
    (hfield : mapLookup m.properties field = some prop) :
    validateSegments (some root) [Segment.ofField "metadata", Segment.ofField field]
      = .ok (some prop) ∧
    ∀ k, validateSegments (some root)
        [Segment.ofField "metadata", Segment.ofField field, Segment.ofField k]
      = validateSegments (some prop) [Segment.ofField k] := by
  have hone := validateFieldPathSegment_hit root m "metadata" htype hpres hm
  have htwo := validateFieldPathSegment_hit m prop field hmtype hmpres hfield
  refine ⟨?_, fun k => ?_⟩
  · simp only [validateSegments, hone, htwo]
  · simp only [validateSegments, hone, htwo]

/-- The amended C22: the standard metadata fields resolve on a registered schema
of object kind. Let a version be registered (the last of its name in its
definition) whose root schema has a map of properties, is of object kind (type
`object` or none) and does not set x-preserve-unknown-fields, and whose
`metadata`, if declared, is of object kind, does not set
x-preserve-unknown-fields and declares none of `name`, `namespace`, `labels`,
`annotations`. Then on the root schema of the version that `GetCRDSchema`
returns, `metadata.name` and `metadata.namespace` resolve to the string leaf, and
`metadata.labels.k` and `metadata.annotations.k` resolve to the string leaf for
every key `k`. -/
theorem registerCRD_seeds_metadata (s s' : SchemaStore) (crd : CustomResourceDefinition)
    (pre post : List CustomResourceDefinitionVersion) (v : CustomResourceDefinitionVersion)
    (validation : CustomResourceValidation) (root : JSONSchemaProps)
    (rp : List (String × JSONSchemaProps))
    (h : s.registerCRD crd = some s')
    (hv : crd.versions = pre ++ v :: post) (hlast : ∀ w ∈ post, w.name ≠ v.name)
    (hschema : v.schema = some validation) (hopen : validation.openAPIV3Schema = some root)
    (hrp : root.properties = some rp)
    (htype : root.type = "object" ∨ root.type = "")
    (hpres : boolDeref root.xPreserveUnknownFields false = false)
    (hmeta : ∀ m, mapLookup root.properties "metadata" = some m →
      (m.type = "object" ∨ m.type = "") ∧
      boolDeref m.xPreserveUnknownFields false = false ∧
      ∀ name ∈ ["name", "namespace", "labels", "annotations"],
        mapLookup m.properties name = none) :
    ∃ root', s'.GetCRDSchema ⟨crd.group, v.name, crd.kind⟩
        = some ⟨v.name, some ⟨some root'⟩⟩ ∧
      validateSegments (some root') [Segment.ofField "metadata", Segment.ofField "name"]
        = .ok (some stringLeaf) ∧
      validateSegments (some root') [Segment.ofField "metadata", Segment.ofField "namespace"]
        = .ok (some stringLeaf) ∧
      (∀ k, validateSegments (some root')
          [Segment.ofField "metadata", Segment.ofField "labels", Segment.ofField k]
        = .ok (some stringLeaf)) ∧
      (∀ k, validateSegments (some root')
          [Segment.ofField "metadata", Segment.ofField "annotations", Segment.ofField k]
        = .ok (some stringLeaf)) := by
  unfold SchemaStore.registerCRD at h
  rw [hv] at h
  obtain ⟨version, hversion, hlookup⟩ :=
    registerVersions_last crd.group crd.kind s s' pre post v h hlast
  obtain ⟨root', m', hadd, hsame, _, hm', hdeclared, hfresh⟩ :=
    addMetaDataToRoot_additive root rp hrp
  have hadd' : addMetaDataToSchema v = some ⟨v.name, some ⟨some root'⟩⟩ := by
    unfold addMetaDataToSchema
    simp only [hschema, hopen, hadd]
  rw [hadd'] at hversion
  simp only [Option.some.injEq] at hversion
  have htype' : root'.type = "object" ∨ root'.type = "" := by
    rw [hsame.1]
    exact htype
  have hpres' : boolDeref root'.xPreserveUnknownFields false = false := by
    rw [hsame.2.1]
    exact hpres
  have hfacts : (m'.type = "object" ∨ m'.type = "") ∧
      boolDeref m'.xPreserveUnknownFields false = false ∧
      ∀ name ∈ ["name", "namespace", "labels", "annotations"],
        mapLookup m'.properties name = additionalMetaProps.lookup name := by
    rcases hm : mapLookup root.properties "metadata" with _ | m
    · obtain ⟨hsame', hfields⟩ := hfresh hm
      refine ⟨Or.inl hsame'.1, ?_, fun name _ => hfields name⟩
      rw [hsame'.2.1]
      rfl
    · obtain ⟨hsame', hfields⟩ := hdeclared m hm
      obtain ⟨hmtype, hmpres, hmnone⟩ := hmeta m hm
      refine ⟨?_, ?_, ?_⟩
      · rw [hsame'.1]
        exact hmtype
      · rw [hsame'.2.1]
        exact hmpres
      · intro name hname
        rw [hfields name, hmnone name hname]
  obtain ⟨hmtype', hmpres', hstd⟩ := hfacts
  have hname := validateSegments_metadata root' m' stringLeaf "name" htype' hpres' hm'
    hmtype' hmpres' ((hstd "name" (by simp)).trans rfl)
  have hnamespace := validateSegments_metadata root' m' stringLeaf "namespace" htype' hpres' hm'
    hmtype' hmpres' ((hstd "namespace" (by simp)).trans rfl)
  have hlabels := validateSegments_metadata root' m'
    (.mk "" none none (some (true, some stringLeaf)) none) "labels" htype' hpres' hm'
    hmtype' hmpres' ((hstd "labels" (by simp)).trans rfl)
  have hannotations := validateSegments_metadata root' m'
    (.mk "" none none (some (true, some stringLeaf)) none) "annotations" htype' hpres' hm'
    hmtype' hmpres' ((hstd "annotations" (by simp)).trans rfl)
  refine ⟨root', ?_, hname.1, hnamespace.1, fun k => ?_, fun k => ?_⟩
  · rw [hlookup, ← hversion]
  · rw [hlabels.2 k]
    rfl
  · rw [hannotations.2 k]
    rfl

/-- The definition `widgetCRD₂`, whose schema `{c: string}` declares no
`metadata`, registered in the store `storeAfterFirst`: the four standard paths
resolve to the string leaf. -/
theorem registerCRD_seeds_metadata_witness :
    ∃ root', storeAfterSecond.GetCRDSchema exampleGvk = some ⟨"v1", some ⟨some root'⟩⟩ ∧
      validateSegments (some root') [Segment.ofField "metadata", Segment.ofField "name"]
        = .ok (some stringLeaf) ∧
      validateSegments (some root') [Segment.ofField "metadata", Segment.ofField "namespace"]
        = .ok (some stringLeaf) ∧
      (∀ k, validateSegments (some root')
          [Segment.ofField "metadata", Segment.ofField "labels", Segment.ofField k]
        = .ok (some stringLeaf)) ∧
      (∀ k, validateSegments (some root')
          [Segment.ofField "metadata", Segment.ofField "annotations", Segment.ofField k]
        = .ok (some stringLeaf)) :=
  registerCRD_seeds_metadata storeAfterFirst storeAfterSecond widgetCRD₂ [] []
    ⟨"v1", some ⟨some schemaC⟩⟩ ⟨some schemaC⟩ schemaC [("c", stringLeaf)] rfl rfl
    (fun _ hw => absurd hw (List.not_mem_nil _)) rfl rfl rfl (Or.inl rfl) rfl
    (fun _ hm => Option.noConfusion hm)

/-- A definition of `Widget` whose `metadata` is declared a string. -/
def stringMetadataCRD : CustomResourceDefinition :=
  ⟨"example.org", "Widget",
    [⟨"v1", some ⟨some (.mk "object" none
      (some [("metadata", .mk "string" none none none none)]) none none)⟩⟩]⟩

/-- A definition of `Widget` whose root schema sets x-preserve-unknown-fields. -/
def preserveRootCRD : CustomResourceDefinition :=
  ⟨"example.org", "Widget",
    [⟨"v1", some ⟨some (.mk "object" (some true) (some [("c", stringLeaf)]) none none)⟩⟩]⟩

/-- The root schema that the store holds for `key`. -/
def SchemaStore.rootSchema (s : SchemaStore) (key : GroupVersionKind) : Option JSONSchemaProps :=
  match s.GetCRDSchema key with
  | none => none
  | some version =>
    match version.schema with
    | none => none
    | some validation => validation.openAPIV3Schema

/-- A parser that knows the path `metadata.name`. -/
def metadataParse : FieldPathParser := fun raw =>
  if raw = "metadata.name" then .ok [Segment.ofField "metadata", Segment.ofField "name"]
  else .error "unexpected path"

/-- C22 as stated fails. The root schema of `stringMetadataCRD` has a map of
properties and its `metadata`, declared a string, declares none of the four
fields: after registration `metadata` holds the field `name` and is a string
still, and `metadata.name` does not resolve. The root schema of
`preserveRootCRD` sets x-preserve-unknown-fields: `metadata.name` resolves to no
schema rather than to the string leaf. -/
theorem registerCRD_metadata_not_resolved :
    (∃ s root, NewSchemaStore.registerCRD stringMetadataCRD = some s ∧
      s.rootSchema exampleGvk = some root ∧
      s.metadataField exampleGvk "name" = some stringLeaf ∧
      validateSegments (some root) [Segment.ofField "metadata", Segment.ofField "name"]
        = .error "expected type 'object' but got 'string'" ∧
      validateFieldPath metadataParse ⟨⟨"rule", s⟩, exampleManifest, []⟩ exampleGvk
          "metadata.name"
        = some (some "expected type 'object' but got 'string'")) ∧
    (∃ s root, NewSchemaStore.registerCRD preserveRootCRD = some s ∧
      s.rootSchema exampleGvk = some root ∧
      s.metadataField exampleGvk "name" = some stringLeaf ∧
      validateSegments (some root) [Segment.ofField "metadata", Segment.ofField "name"]
        = .ok none) :=
  ⟨⟨_, _, rfl, rfl, rfl, rfl, rfl⟩, ⟨_, _, rfl, rfl, rfl, rfl⟩⟩

/-! ## Duplicate objects -/

/-- The entries of identity `g`, in the order of the package. -/
def entriesOf (d : Decoders) (g : groupVersionKindName) (entries : List PackageEntry) :
    List PackageEntry :=
  entries.filter (fun e => decide (entryGroupVersionKindName d e = g))

/-- What the map `objects` holds for a key whose entries are `l`: nothing when
there is none. -/
def groupOrNone (l : List PackageEntry) : Option (List PackageEntry) :=
  if l.isEmpty then none else some l

/-- The issue that `CheckDuplicateObjects` reports for the identity `g`, whose
first entry is `first`. -/
def duplicateIssue (sem : LoopVariable) (ctx : linterContext) (entries : List PackageEntry)
    (g : groupVersionKindName) (first : PackageEntry) : Issue :=
  { ruleName := ctx.ruleName
    entry := some (loopVariableAfter sem entries first)
    path := []
    pathValue := ""
    description := duplicateDescription g }

/-- The entries of an identity in two lists in a row. -/
theorem entriesOf_append (d : Decoders) (g : groupVersionKindName) (a b : List PackageEntry) :
    entriesOf d g (a ++ b) = entriesOf d g a ++ entriesOf d g b :=
  List.filter_append _ _

/-- The entries of an identity, with one entry more at the end. -/
theorem entriesOf_concat (d : Decoders) (g : groupVersionKindName) (done : List PackageEntry)
    (e : PackageEntry) :
    entriesOf d g (done ++ [e]) =
      if entryGroupVersionKindName d e = g then entriesOf d g done ++ [e]
      else entriesOf d g done := by
  rw [entriesOf_append]
  by_cases h : entryGroupVersionKindName d e = g
  · simp [entriesOf, h]
  · simp [entriesOf, h]

/-- The keys of a map after an assignment. -/
theorem mapSet_keys {κ α : Type} [DecidableEq κ] (l : List (κ × α)) (k : κ) (v : α) :
    (mapSet l k v).map Prod.fst =
      if k ∈ l.map Prod.fst then l.map Prod.fst else l.map Prod.fst ++ [k] := by
  induction l with
  | nil => simp [mapSet]
  | cons kv rest ih =>
    obtain ⟨k', v'⟩ := kv
    by_cases h : k' = k
    · simp [mapSet, h]
    · have hne : ¬ k = k' := fun hk => h hk.symm
      simp only [mapSet, if_neg h, List.map_cons, ih, List.mem_cons, hne, false_or]
      split <;> simp

/-- An assignment keeps the keys of a map distinct. -/
theorem mapSet_nodup {κ α : Type} [DecidableEq κ] (l : List (κ × α)) (k : κ) (v : α)
    (h : (l.map Prod.fst).Nodup) : ((mapSet l k v).map Prod.fst).Nodup := by
  rw [mapSet_keys]
  split
  · exact h
  · rename_i hk
    exact List.Nodup.append h (List.nodup_singleton k)
      (by
        intro x hx hx'
        rw [List.mem_singleton] at hx'
        exact hk (hx' ▸ hx))

/-- In a map with distinct keys an entry is what the key is looked up to. -/
theorem lookup_of_mem {κ α : Type} [DecidableEq κ] (l : List (κ × α)) (k : κ) (v : α)
    (hnodup : (l.map Prod.fst).Nodup) (hmem : (k, v) ∈ l) : l.lookup k = some v := by
  induction l with
  | nil => cases hmem
  | cons kv rest ih =>
    obtain ⟨k', v'⟩ := kv
    simp only [List.map_cons, List.nodup_cons] at hnodup
    rcases List.mem_cons.mp hmem with heq | hrest
    · simp only [Prod.mk.injEq] at heq
      rw [heq.1, heq.2]
      simp [List.lookup]
    · have hne : k ≠ k' := by
        intro hk
        apply hnodup.1
        rw [← hk]
        exact List.mem_map_of_mem Prod.fst hrest
      have hbeq : (k == k') = false := by
        simp only [beq_eq_false_iff_ne, ne_eq]
        exact hne
      simp only [List.lookup, hbeq]
      exact ih hnodup.2 hrest

/-- A map with distinct keys, taken apart at a key it holds. -/
theorem split_at_key {κ α : Type} [DecidableEq κ] (l : List (κ × α)) (k : κ) (v : α)
    (hnodup : (l.map Prod.fst).Nodup) (hlookup : l.lookup k = some v) :
    ∃ l₁ l₂, l = l₁ ++ (k, v) :: l₂ ∧ ∀ p ∈ l₁ ++ l₂, p.1 ≠ k := by
  induction l with
  | nil => simp [List.lookup] at hlookup
  | cons kv rest ih =>
    obtain ⟨k', v'⟩ := kv
    simp only [List.map_cons, List.nodup_cons] at hnodup
    by_cases hk : k = k'
    · have hv : v' = v := by
        simpa [List.lookup, hk] using hlookup
      refine ⟨[], rest, by rw [hk, hv]; rfl, ?_⟩
      intro p hp hpk
      apply hnodup.1
      rw [← hk, ← hpk]
      exact List.mem_map_of_mem Prod.fst hp
    · have hbeq : (k == k') = false := by
        simp only [beq_eq_false_iff_ne, ne_eq]
        exact hk
      simp only [List.lookup, hbeq] at hlookup
      obtain ⟨l₁, l₂, hsplit, hne⟩ := ih hnodup.2 hlookup
      refine ⟨(k', v') :: l₁, l₂, by rw [hsplit]; rfl, ?_⟩
      intro p hp
      rcases List.mem_cons.mp hp with hp | hp
      · rw [hp]
        exact fun h => hk h.symm
      · exact hne p hp

/-- The first loop of `CheckDuplicateObjects` keeps the keys of `objects`
distinct. -/
theorem collectObjects_nodup (d : Decoders) (rest : List PackageEntry)
    (objects : List (groupVersionKindName × List PackageEntry))
    (h : (objects.map Prod.fst).Nodup) :
    ((collectObjects d objects rest).map Prod.fst).Nodup := by
  induction rest generalizing objects with
  | nil => exact h
  | cons e rest ih =>
    simp only [collectObjects]
    split
    · exact ih _ (mapSet_nodup objects _ _ h)
    · exact ih _ (mapSet_nodup objects _ _ h)

/-- The first loop of `CheckDuplicateObjects`: when `objects` holds for each
identity its entries among `done`, in their order, it holds afterwards for each
identity its entries among `done` and the entries of the loop. -/
theorem collectObjects_lookup (d : Decoders) (rest done : List PackageEntry)
    (objects : List (groupVersionKindName × List PackageEntry))
    (h : ∀ g, objects.lookup g = groupOrNone (entriesOf d g done)) (g : groupVersionKindName) :
    (collectObjects d objects rest).lookup g = groupOrNone (entriesOf d g (done ++ rest)) := by
  induction rest generalizing objects done with
  | nil => simpa using h g
  | cons e rest ih =>
    have hnext : ∀ g', (mapSet objects (entryGroupVersionKindName d e)
          (entriesOf d (entryGroupVersionKindName d e) done ++ [e])).lookup g'
        = groupOrNone (entriesOf d g' (done ++ [e])) := by
      intro g'
      rw [entriesOf_concat]
      by_cases hg : entryGroupVersionKindName d e = g'
      · rw [if_pos hg, ← hg, lookup_mapSet_self]
        simp [groupOrNone]
      · rw [if_neg hg, lookup_mapSet_of_ne _ _ _ _ (fun hk => hg hk.symm)]
        exact h g'
    have hstep : collectObjects d objects (e :: rest) =
        collectObjects d (mapSet objects (entryGroupVersionKindName d e)
          (entriesOf d (entryGroupVersionKindName d e) done ++ [e])) rest := by
      have hkey := h (entryGroupVersionKindName d e)
      simp only [collectObjects]
      rcases hl : entriesOf d (entryGroupVersionKindName d e) done with _ | ⟨x, xs⟩
      · rw [hl] at hkey
        simp only [groupOrNone, List.isEmpty_nil, if_true] at hkey
        simp only [hkey, List.nil_append]
      · rw [hl] at hkey
        simp only [groupOrNone, List.isEmpty_cons, Bool.false_eq_true, if_false] at hkey
        simp only [hkey]
    rw [hstep, ih (done ++ [e]) _ hnext]
    simp

/-- The map `objects` of `CheckDuplicateObjects` after its first loop: it holds
for each identity the entries of that identity, in the order of the package. -/
theorem collectObjects_spec (d : Decoders) (entries : List PackageEntry) :
    ((collectObjects d [] entries).map Prod.fst).Nodup ∧
    ∀ g, (collectObjects d [] entries).lookup g = groupOrNone (entriesOf d g entries) := by
  refine ⟨collectObjects_nodup d entries [] List.nodup_nil, fun g => ?_⟩
  have h := collectObjects_lookup d entries [] [] (fun g' => by simp [groupOrNone, entriesOf]) g
  simpa using h

/-- An entry of the map `objects` after the first loop holds the entries of its
key. -/
theorem collectObjects_mem (d : Decoders) (entries : List PackageEntry)
    (p : groupVersionKindName × List PackageEntry) (hp : p ∈ collectObjects d [] entries) :
    p.2 = entriesOf d p.1 entries := by
  obtain ⟨hnodup, hlookup⟩ := collectObjects_spec d entries
  have h := lookup_of_mem _ p.1 p.2 hnodup hp
  rw [hlookup p.1] at h
  unfold groupOrNone at h
  split at h
  · cases h
  · simp only [Option.some.injEq] at h
    exact h.symm

/-- The second loop reports for a key that holds two entries or more. -/
theorem reportDuplicates_two (sem : LoopVariable) (ctx : linterContext)
    (entries : List PackageEntry) (g : groupVersionKindName)
    (first second : PackageEntry) (tail : List PackageEntry) :
    reportDuplicates sem ctx entries (g, first :: second :: tail)
      = some (duplicateIssue sem ctx entries g first) := by
  simp [reportDuplicates, duplicateIssue, linterContext.ReportIssue]

/-- The second loop does not report for a key that holds one entry or none. -/
theorem reportDuplicates_few (sem : LoopVariable) (ctx : linterContext)
    (entries : List PackageEntry) (p : groupVersionKindName × List PackageEntry)
    (h : p.2.length ≤ 1) : reportDuplicates sem ctx entries p = none := by
  unfold reportDuplicates
  rw [if_neg (by omega)]

/-- What the second loop reports for a key, it reports for two entries or more
of the key, naming the first. -/
theorem reportDuplicates_eq_some (sem : LoopVariable) (ctx : linterContext)
    (entries : List PackageEntry) (p : groupVersionKindName × List PackageEntry) (x : Issue)
    (h : reportDuplicates sem ctx entries p = some x) :
    ∃ first second tail, p.2 = first :: second :: tail ∧
      x = duplicateIssue sem ctx entries p.1 first := by
  obtain ⟨g, same⟩ := p
  rcases same with _ | ⟨first, _ | ⟨second, tail⟩⟩
  · rw [reportDuplicates_few sem ctx entries _ (by simp)] at h
    cases h
  · rw [reportDuplicates_few sem ctx entries _ (by simp)] at h
    cases h
  · rw [reportDuplicates_two] at h
    simp only [Option.some.injEq] at h
    exact ⟨first, second, tail, rfl, h.symm⟩

/-- The issues of `CheckDuplicateObjects` are, up to their order, the issues of
the entries of the map in the order in which the map was filled. -/
theorem CheckDuplicateObjects_perm (sem : LoopVariable)
    (rangeOrder : List (groupVersionKindName × List PackageEntry) →
      List (groupVersionKindName × List PackageEntry))
    (d : Decoders) (ctx : linterContext) (pkg : Package)
    (hperm : ∀ l, (rangeOrder l).Perm l) :
    (CheckDuplicateObjects sem rangeOrder d ctx pkg).Perm
      ((collectObjects d [] pkg.entries).filterMap (reportDuplicates sem ctx pkg.entries)) :=
  List.Perm.filterMap _ (hperm _)

/-- Every issue of `CheckDuplicateObjects` is the issue of an identity that two
entries or more have, and names the first of them. -/
theorem CheckDuplicateObjects_mem (sem : LoopVariable)
    (rangeOrder : List (groupVersionKindName × List PackageEntry) →
      List (groupVersionKindName × List PackageEntry))
    (d : Decoders) (ctx : linterContext) (pkg : Package)
    (hperm : ∀ l, (rangeOrder l).Perm l) (x : Issue)
    (hx : x ∈ CheckDuplicateObjects sem rangeOrder d ctx pkg) :
    ∃ g first second tail, entriesOf d g pkg.entries = first :: second :: tail ∧
      x = duplicateIssue sem ctx pkg.entries g first := by
  have hx' := (CheckDuplicateObjects_perm sem rangeOrder d ctx pkg hperm).mem_iff.mp hx
  obtain ⟨p, hp, hreport⟩ := List.mem_filterMap.mp hx'
  obtain ⟨first, second, tail, hsame, hissue⟩ :=
    reportDuplicates_eq_some sem ctx pkg.entries p x hreport
  refine ⟨p.1, first, second, tail, ?_, hissue⟩
  rw [← collectObjects_mem d pkg.entries p hp]
  exact hsame

/-- The issues of `CheckDuplicateObjects` when two entries or more have the
identity `g`: the issue of `g`, once, and the issues of other identities. -/
theorem CheckDuplicateObjects_group (sem : LoopVariable)
    (rangeOrder : List (groupVersionKindName × List PackageEntry) →
      List (groupVersionKindName × List PackageEntry))
    (d : Decoders) (ctx : linterContext) (pkg : Package)
    (hperm : ∀ l, (rangeOrder l).Perm l)
    (g : groupVersionKindName) (first second : PackageEntry) (tail : List PackageEntry)
    (hgroup : entriesOf d g pkg.entries = first :: second :: tail) :
    ∃ others, (CheckDuplicateObjects sem rangeOrder d ctx pkg).Perm
        (duplicateIssue sem ctx pkg.entries g first :: others) ∧
      ∀ x ∈ others, ∃ g' first' second' tail', g' ≠ g ∧
        entriesOf d g' pkg.entries = first' :: second' :: tail' ∧
        x = duplicateIssue sem ctx pkg.entries g' first' := by
  obtain ⟨hnodup, hlookup⟩ := collectObjects_spec d pkg.entries
  have hg : (collectObjects d [] pkg.entries).lookup g = some (first :: second :: tail) := by
    rw [hlookup g, hgroup]
    rfl
  obtain ⟨l₁, l₂, hsplit, hne⟩ := split_at_key _ g _ hnodup hg
  refine ⟨l₁.filterMap (reportDuplicates sem ctx pkg.entries) ++
      l₂.filterMap (reportDuplicates sem ctx pkg.entries), ?_, ?_⟩
  · refine (CheckDuplicateObjects_perm sem rangeOrder d ctx pkg hperm).trans ?_
    rw [hsplit, List.filterMap_append, List.filterMap_cons, reportDuplicates_two]
    exact List.perm_middle
  · intro x hx
    rw [← List.filterMap_append] at hx
    obtain ⟨p, hp, hreport⟩ := List.mem_filterMap.mp hx
    obtain ⟨first', second', tail', hsame, hissue⟩ :=
      reportDuplicates_eq_some sem ctx pkg.entries p x hreport
    have hmem : p ∈ collectObjects d [] pkg.entries := by
      rw [hsplit]
      rcases List.mem_append.mp hp with h | h
      · exact List.mem_append_left _ h
      · exact List.mem_append_right _ (List.mem_cons_of_mem _ h)
    refine ⟨p.1, first', second', tail', hne p hp, ?_, hissue⟩
    rw [← collectObjects_mem d pkg.entries p hmem]
    exact hsame

/-- The entries of an identity in a list with one entry more at the front. -/
theorem entriesOf_cons (d : Decoders) (g : groupVersionKindName) (e : PackageEntry)
    (rest : List PackageEntry) :
    entriesOf d g (e :: rest) =
      if entryGroupVersionKindName d e = g then e :: entriesOf d g rest
      else entriesOf d g rest := by
  by_cases h : entryGroupVersionKindName d e = g
  · simp [entriesOf, h]
  · simp [entriesOf, h]

/-- Among entries no two of which share an identity, an identity has one entry
at most. -/
theorem entriesOf_length_le_one (d : Decoders) (g : groupVersionKindName)
    (l : List PackageEntry) (h : (l.map (entryGroupVersionKindName d)).Nodup) :
    (entriesOf d g l).length ≤ 1 := by
  induction l with
  | nil => simp [entriesOf]
  | cons e rest ih =>
    simp only [List.map_cons, List.nodup_cons] at h
    rw [entriesOf_cons]
    by_cases hk : entryGroupVersionKindName d e = g
    · have hrest : entriesOf d g rest = [] := by
        simp only [entriesOf, List.filter_eq_nil_iff, decide_eq_true_eq]
        intro e' he' hk'
        apply h.1
        rw [hk, ← hk']
        exact List.mem_map_of_mem _ he'
      rw [if_pos hk, hrest]
      simp
    · rw [if_neg hk]
      exact ih h.2

/-- The entries of an identity are not changed by leaving out the entries of
another identity. -/
theorem entriesOf_filter_ne (d : Decoders) (g g' : groupVersionKindName) (hne : g' ≠ g)
    (l : List PackageEntry) :
    entriesOf d g' (l.filter (fun e => decide (entryGroupVersionKindName d e ≠ g)))
      = entriesOf d g' l := by
  unfold entriesOf
  rw [List.filter_filter]
  congr 1
  funext e
  by_cases h : entryGroupVersionKindName d e = g'
  · simp [h, hne]
  · simp [h]

/-- The description of the issue of an identity, written out. -/
theorem duplicateDescription_eq (g : groupVersionKindName) :
    duplicateDescription g =
      "Multiple objects of kind '" ++ g.gvk.group ++ "/" ++ g.gvk.version ++ ", Kind="
        ++ g.gvk.kind ++ "' with name '" ++ g.name ++ "'" := by
  simp only [duplicateDescription, GroupVersionKind.string, String.append_assoc]

/-- The amended C23: let exactly two entries of a package have the identity `g`
(the group, version and kind of the object, and its name), `first` before
`second` in the list of entries, and let no two of the other entries share an
identity. Then `CheckDuplicateObjects` reports exactly one issue, under the name
of the rule, whose description is
`Multiple objects of kind '<group>/<version>, Kind=<kind>' with name '<name>'`;
when each iteration of a loop has its own variable, the entry of the issue is
`first`. -/
theorem CheckDuplicateObjects_two_entries (sem : LoopVariable)
    (rangeOrder : List (groupVersionKindName × List PackageEntry) →
      List (groupVersionKindName × List PackageEntry))
    (d : Decoders) (ctx : linterContext) (pkg : Package)
    (hperm : ∀ l, (rangeOrder l).Perm l)
    (g : groupVersionKindName) (first second : PackageEntry)
    (hpair : entriesOf d g pkg.entries = [first, second])
    (hothers : ((pkg.entries.filter
      (fun e => decide (entryGroupVersionKindName d e ≠ g))).map
        (entryGroupVersionKindName d)).Nodup) :
    ∃ x, CheckDuplicateObjects sem rangeOrder d ctx pkg = [x] ∧
      x.ruleName = ctx.ruleName ∧
      x.description =
        "Multiple objects of kind '" ++ g.gvk.group ++ "/" ++ g.gvk.version ++ ", Kind="
          ++ g.gvk.kind ++ "' with name '" ++ g.name ++ "'" ∧
      x.entry = some (loopVariableAfter sem pkg.entries first) ∧
      (sem = .perIteration → x.entry = some first) := by
  obtain ⟨others, hperm', hothers'⟩ :=
    CheckDuplicateObjects_group sem rangeOrder d ctx pkg hperm g first second [] hpair
  have hnil : others = [] := by
    apply List.eq_nil_iff_forall_not_mem.mpr
    intro x hx
    obtain ⟨g', first', second', tail', hne, hgroup, _⟩ := hothers' x hx
    have hle := entriesOf_length_le_one d g' _ hothers
    rw [entriesOf_filter_ne d g g' hne, hgroup] at hle
    simp at hle
  rw [hnil] at hperm'
  refine ⟨duplicateIssue sem ctx pkg.entries g first, List.perm_singleton.mp hperm', rfl,
    duplicateDescription_eq g, rfl, ?_⟩
  intro hsem
  rw [hsem]
  rfl

/-- Toy decoders for the examples of duplicate objects: `parseGroupVersion`
gives what `schema.ParseGroupVersion` gives on the strings of the examples. -/
def duplicateDecoders : Decoders :=
  { parseGroupVersion := fun gv =>
      if gv = "example.org/v1" then .ok ("example.org", "v1")
      else if gv = "example.org/v2" then .ok ("example.org", "v2")
      else if gv = "other.org/v1" then .ok ("other.org", "v1")
      else .error "unexpected GroupVersion string"
    unmarshalComposition := fun _ => .error "cannot unmarshal"
    unmarshalBase := fun _ => .error "cannot unmarshal" }

/-- The document `Widget` `x` of `example.org/v1`, in the file `a.yaml`. -/
def widgetX : PackageEntry := ⟨"example.org/v1", "Widget", "x", "a.yaml", "first"⟩

/-- The document `Widget` `x` of `example.org/v1`, in the file `b.yaml`. -/
def widgetXAgain : PackageEntry := ⟨"example.org/v1", "Widget", "x", "b.yaml", "second"⟩

/-- The document `Gadget` `y` of `example.org/v1`. -/
def gadgetY : PackageEntry := ⟨"example.org/v1", "Gadget", "y", "c.yaml", "third"⟩

/-- Scenario D, with a third document between the two: one issue, which names
`example.org/v1, Kind=Widget` and `x` and whose entry is the first document,
when each iteration has its own variable. -/
theorem CheckDuplicateObjects_two_entries_witness :
    ∃ x, CheckDuplicateObjects .perIteration List.reverse duplicateDecoders
        ⟨"generic.checkDuplicates", NewSchemaStore⟩ ⟨"", "", [widgetX, gadgetY, widgetXAgain]⟩
        = [x] ∧
      x.ruleName = "generic.checkDuplicates" ∧
      x.description = "Multiple objects of kind 'example.org/v1, Kind=Widget' with name 'x'" ∧
      x.entry = some widgetX :=
  have ⟨x, hx, hname, hdescription, _, hentry⟩ :=
    CheckDuplicateObjects_two_entries .perIteration List.reverse duplicateDecoders
      ⟨"generic.checkDuplicates", NewSchemaStore⟩ ⟨"", "", [widgetX, gadgetY, widgetXAgain]⟩
      List.reverse_perm ⟨⟨"example.org", "v1", "Widget"⟩, "x"⟩ widgetX widgetXAgain
      (by decide) (by decide)
  ⟨x, hx, hname, hdescription.trans (by decide), hentry rfl⟩

/-- The document `Widget` `x` of `example.org/v2`. -/
def widgetXv2 : PackageEntry := ⟨"example.org/v2", "Widget", "x", "b.yaml", "second"⟩

/-- C23 as stated fails. Two documents of kind `Widget` and name `x`, of the
versions `v1` and `v2` of a group, are the only two entries of a package: no
issue is reported. And when the two documents are of the same group and
version, the description of the issue names the group, the version and the kind,
not the kind alone. -/
theorem CheckDuplicateObjects_same_kind_name_unreported :
    widgetX.kind = widgetXv2.kind ∧ widgetX.name = widgetXv2.name ∧
    (∀ sem, CheckDuplicateObjects sem id duplicateDecoders
        ⟨"generic.checkDuplicates", NewSchemaStore⟩ ⟨"", "", [widgetX, widgetXv2]⟩ = []) ∧
    (∀ sem, (CheckDuplicateObjects sem id duplicateDecoders
        ⟨"generic.checkDuplicates", NewSchemaStore⟩ ⟨"", "", [widgetX, widgetXAgain]⟩).map
          (fun x => x.description)
      = ["Multiple objects of kind 'example.org/v1, Kind=Widget' with name 'x'"]) ∧
    "Multiple objects of kind 'example.org/v1, Kind=Widget' with name 'x'"
      ≠ "Multiple objects of kind 'Widget' with name 'x'" :=
  ⟨rfl, rfl, fun _ => rfl, fun sem => by cases sem <;> decide, by decide⟩

/-- A list of two elements or more, taken apart. -/
theorem exists_two_of_length {α : Type} (l : List α) (h : 2 ≤ l.length) :
    ∃ first second tail, l = first :: second :: tail := by
  rcases l with _ | ⟨first, _ | ⟨second, tail⟩⟩
  · simp at h
  · simp at h
  · exact ⟨first, second, tail, rfl⟩

/-- The amended C24: documents collide when they have the same identity, which
is the group, the version and the kind of the object (the group and version
read from its `apiVersion`) and its name. For every package that holds two
entries `a` and `b` of equal group, version and kind and of equal name,
`CheckDuplicateObjects` reports an issue that names that identity; and it
reports no issue for a package no two entries of which have the same
identity. -/
theorem CheckDuplicateObjects_collide (sem : LoopVariable)
    (rangeOrder : List (groupVersionKindName × List PackageEntry) →
      List (groupVersionKindName × List PackageEntry))
    (d : Decoders) (ctx : linterContext) (pkg : Package)
    (hperm : ∀ l, (rangeOrder l).Perm l) :
    (∀ pre a mid b post, pkg.entries = pre ++ a :: (mid ++ b :: post) →
      objectGroupVersionKind d a.apiVersion a.kind = objectGroupVersionKind d b.apiVersion b.kind →
      a.name = b.name →
      ∃ x ∈ CheckDuplicateObjects sem rangeOrder d ctx pkg,
        x.description =
          "Multiple objects of kind '" ++ (objectGroupVersionKind d a.apiVersion a.kind).string
            ++ "' with name '" ++ a.name ++ "'") ∧
    ((pkg.entries.map (entryGroupVersionKindName d)).Nodup →
      CheckDuplicateObjects sem rangeOrder d ctx pkg = []) := by
  refine ⟨?_, ?_⟩
  · intro pre a mid b post hentries hgvk hname
    have hkey : entryGroupVersionKindName d b = entryGroupVersionKindName d a := by
      simp only [entryGroupVersionKindName, hgvk, hname]
    have hlen : 2 ≤ (entriesOf d (entryGroupVersionKindName d a) pkg.entries).length := by
      rw [hentries, entriesOf_append, entriesOf_cons, if_pos rfl, entriesOf_append,
        entriesOf_cons, if_pos hkey]
      simp only [List.length_append, List.length_cons]
      omega
    obtain ⟨first, second, tail, hgroup⟩ := exists_two_of_length _ hlen
    obtain ⟨others, hperm', _⟩ := CheckDuplicateObjects_group sem rangeOrder d ctx pkg hperm
      (entryGroupVersionKindName d a) first second tail hgroup
    exact ⟨duplicateIssue sem ctx pkg.entries (entryGroupVersionKindName d a) first,
      hperm'.mem_iff.mpr (List.mem_cons_self _ _), rfl⟩
  · intro hnodup
    apply List.eq_nil_iff_forall_not_mem.mpr
    intro x hx
    obtain ⟨g, first, second, tail, hgroup, _⟩ :=
      CheckDuplicateObjects_mem sem rangeOrder d ctx pkg hperm x hx
    have hle := entriesOf_length_le_one d g pkg.entries hnodup
    rw [hgroup] at hle
    simp at hle

/-- The document `Widget` `x` of `other.org/v1`. -/
def widgetXOther : PackageEntry := ⟨"other.org/v1", "Widget", "x", "d.yaml", "fourth"⟩

/-- The package of `widgetX`, `gadgetY` and `widgetXAgain` has an issue that
names `example.org/v1, Kind=Widget` and `x`; the package of `widgetX`, `gadgetY`
and `widgetXv2` has none. -/
theorem CheckDuplicateObjects_collide_witness :
    (∃ x ∈ CheckDuplicateObjects .perIteration List.reverse duplicateDecoders
        ⟨"generic.checkDuplicates", NewSchemaStore⟩ ⟨"", "", [widgetX, gadgetY, widgetXAgain]⟩,
      x.description = "Multiple objects of kind 'example.org/v1, Kind=Widget' with name 'x'") ∧
    CheckDuplicateObjects .perIteration List.reverse duplicateDecoders
        ⟨"generic.checkDuplicates", NewSchemaStore⟩ ⟨"", "", [widgetX, gadgetY, widgetXv2]⟩ = [] :=
  ⟨(CheckDuplicateObjects_collide .perIteration List.reverse duplicateDecoders
      ⟨"generic.checkDuplicates", NewSchemaStore⟩ ⟨"", "", [widgetX, gadgetY, widgetXAgain]⟩
      List.reverse_perm).1 [] widgetX [gadgetY] widgetXAgain [] rfl rfl rfl,
   (CheckDuplicateObjects_collide .perIteration List.reverse duplicateDecoders
      ⟨"generic.checkDuplicates", NewSchemaStore⟩ ⟨"", "", [widgetX, gadgetY, widgetXv2]⟩
      List.reverse_perm).2 (by decide)⟩

/-- C24 as stated fails: the group and the version are part of the identity. A
package holds two documents of kind `Widget` and name `x`, one of the group
`example.org` and one of the group `other.org`, and a third document: no issue
is reported. -/
theorem CheckDuplicateObjects_groups_differ :
    widgetX.kind = widgetXOther.kind ∧ widgetX.name = widgetXOther.name ∧
    ∀ sem, CheckDuplicateObjects sem id duplicateDecoders
        ⟨"generic.checkDuplicates", NewSchemaStore⟩
        ⟨"", "", [widgetX, widgetXOther, gadgetY]⟩ = [] :=
  ⟨rfl, rfl, fun _ => rfl⟩

/-- The amended C25: when two documents or more (`first`, `second` and the
documents of `tail`, in the order of the package) have the identity `g`,
`CheckDuplicateObjects` reports one issue for the group, however many documents
it has: the issues are, in some order, that issue and issues of other
identities. The issue names the identity, and its entry is the first document of
the group when each iteration of a loop has its own variable. When no two of the
other documents share an identity, the issue of the group is the only one. -/
theorem CheckDuplicateObjects_one_issue_for_group (sem : LoopVariable)
    (rangeOrder : List (groupVersionKindName × List PackageEntry) →
      List (groupVersionKindName × List PackageEntry))
    (d : Decoders) (ctx : linterContext) (pkg : Package)
    (hperm : ∀ l, (rangeOrder l).Perm l)
    (g : groupVersionKindName) (first second : PackageEntry) (tail : List PackageEntry)
    (hgroup : entriesOf d g pkg.entries = first :: second :: tail) :
    ∃ x others, (CheckDuplicateObjects sem rangeOrder d ctx pkg).Perm (x :: others) ∧
      x.description =
        "Multiple objects of kind '" ++ g.gvk.group ++ "/" ++ g.gvk.version ++ ", Kind="
          ++ g.gvk.kind ++ "' with name '" ++ g.name ++ "'" ∧
      x.entry = some (loopVariableAfter sem pkg.entries first) ∧
      (sem = .perIteration → x.entry = some first) ∧
      (∀ y ∈ others, ∃ g' first' second' tail', g' ≠ g ∧
        entriesOf d g' pkg.entries = first' :: second' :: tail' ∧
        y.description = duplicateDescription g' ∧
        y.entry = some (loopVariableAfter sem pkg.entries first')) ∧
      (((pkg.entries.filter (fun e => decide (entryGroupVersionKindName d e ≠ g))).map
          (entryGroupVersionKindName d)).Nodup → others = []) := by
  obtain ⟨others, hperm', hothers⟩ :=
    CheckDuplicateObjects_group sem rangeOrder d ctx pkg hperm g first second tail hgroup
  refine ⟨duplicateIssue sem ctx pkg.entries g first, others, hperm', duplicateDescription_eq g,
    rfl, ?_, ?_, ?_⟩
  · intro hsem
    rw [hsem]
    rfl
  · intro y hy
    obtain ⟨g', first', second', tail', hne, hgroup', hissue⟩ := hothers y hy
    exact ⟨g', first', second', tail', hne, hgroup', by rw [hissue]; rfl, by rw [hissue]; rfl⟩
  · intro hnodup
    apply List.eq_nil_iff_forall_not_mem.mpr
    intro y hy
    obtain ⟨g', first', second', tail', hne, hgroup', _⟩ := hothers y hy
    have hle := entriesOf_length_le_one d g' _ hnodup
    rw [entriesOf_filter_ne d g g' hne, hgroup'] at hle
    simp at hle

/-- The document `Widget` `x` of `example.org/v1`, a third time. -/
def widgetXThird : PackageEntry := ⟨"example.org/v1", "Widget", "x", "e.yaml", "fifth"⟩

/-- Three documents of one identity and a fourth document: one issue, whose
entry is the first of the three. -/
theorem CheckDuplicateObjects_one_issue_for_group_witness :
    ∃ x, (CheckDuplicateObjects .perIteration List.reverse duplicateDecoders
        ⟨"generic.checkDuplicates", NewSchemaStore⟩
        ⟨"", "", [widgetX, widgetXAgain, gadgetY, widgetXThird]⟩).Perm [x] ∧
      x.description = "Multiple objects of kind 'example.org/v1, Kind=Widget' with name 'x'" ∧
      x.entry = some widgetX :=
  have ⟨x, others, hperm, hdescription, _, hentry, _, hnil⟩ :=
    CheckDuplicateObjects_one_issue_for_group .perIteration List.reverse duplicateDecoders
      ⟨"generic.checkDuplicates", NewSchemaStore⟩
      ⟨"", "", [widgetX, widgetXAgain, gadgetY, widgetXThird]⟩
      List.reverse_perm ⟨⟨"example.org", "v1", "Widget"⟩, "x"⟩ widgetX widgetXAgain
      [widgetXThird] (by decide)
  ⟨x, (hnil (by decide)) ▸ hperm, hdescription.trans (by decide), hentry rfl⟩

/-- C25 as stated fails: three documents have one identity, and one issue is
reported for them, not two. -/
theorem CheckDuplicateObjects_three_entries_one_issue :
    entriesOf duplicateDecoders ⟨⟨"example.org", "v1", "Widget"⟩, "x"⟩
        [widgetX, widgetXAgain, widgetXThird] = [widgetX, widgetXAgain, widgetXThird] ∧
    ∀ sem, (CheckDuplicateObjects sem id duplicateDecoders
        ⟨"generic.checkDuplicates", NewSchemaStore⟩
        ⟨"", "", [widgetX, widgetXAgain, widgetXThird]⟩).length = 1 :=
  ⟨by decide, fun sem => by cases sem <;> rfl⟩

/-! ## The composite type of a composition -/

/-- Reference predicate: the entry is a composite-type definition that decodes
and has the group and the kind of `gvk` together with a version of the name of
its version. -/
def definesCompositeType (d : Decoders) (unmarshalXRD : XRDDecoder) (gvk : GroupVersionKind)
    (e : PackageEntry) : Bool :=
  e.IsXRD d &&
    match unmarshalXRD e.raw with
    | .ok xrd =>
      decide (xrd.group = gvk.group) && decide (xrd.kind = gvk.kind) &&
        xrd.versions.any (fun v => decide (v.name = gvk.version))
    | .error _ => false

/-- The inner loop of `getCompositeXRD` finds a version when there is one of the
name. -/
theorem findCompositeVersion_isSome (name : String)
    (versions : List CompositeResourceDefinitionVersion) :
    (findCompositeVersion name versions).isSome
      = versions.any (fun v => decide (v.name = name)) := by
  induction versions with
  | nil => rfl
  | cons v rest ih =>
    by_cases h : v.name = name
    · simp [findCompositeVersion, h]
    · simp [findCompositeVersion, h, ih]

/-- The loop of `getCompositeXRD` over entries whose composite-type definitions
all decode: it returns no issue, and a version when an entry defines the
composite type. -/
theorem getCompositeXRDFrom_decodable (d : Decoders) (unmarshalXRD : XRDDecoder)
    (gvk : GroupVersionKind) (entries : List PackageEntry)
    (hdecodable : ∀ e ∈ entries, e.IsXRD d = true → ∃ xrd, unmarshalXRD e.raw = .ok xrd) :
    ∃ r, getCompositeXRDFrom d unmarshalXRD gvk entries = (r, none) ∧
      r.isSome = entries.any (definesCompositeType d unmarshalXRD gvk) := by
  induction entries with
  | nil => exact ⟨none, rfl, rfl⟩
  | cons e rest ih =>
    obtain ⟨r, hr, hsome⟩ := ih (fun e' he' => hdecodable e' (List.mem_cons_of_mem _ he'))
    by_cases hx : e.IsXRD d = true
    · obtain ⟨xrd, hxrd⟩ := hdecodable e (List.mem_cons_self _ _) hx
      have has : e.AsXRD d unmarshalXRD = .ok xrd := by
        simp only [PackageEntry.AsXRD, hx, if_true, hxrd]
      by_cases hmatch : xrd.group = gvk.group ∧ xrd.kind = gvk.kind
      · rcases hfind : findCompositeVersion gvk.version xrd.versions with _ | v
        · have hany := findCompositeVersion_isSome gvk.version xrd.versions
          rw [hfind] at hany
          refine ⟨r, ?_, ?_⟩
          · simp only [getCompositeXRDFrom, hx, Bool.not_true, Bool.false_eq_true, if_false,
              has, if_pos hmatch, hfind, hr]
          · simp only [List.any_cons, definesCompositeType, hx, hxrd, ← hany, Option.isSome_none,
              Bool.and_false, Bool.false_or, hsome]
        · have hany := findCompositeVersion_isSome gvk.version xrd.versions
          rw [hfind] at hany
          refine ⟨some v, ?_, ?_⟩
          · simp only [getCompositeXRDFrom, hx, Bool.not_true, Bool.false_eq_true, if_false,
              has, if_pos hmatch, hfind]
          · simp only [List.any_cons, definesCompositeType, hx, hxrd, ← hany, hmatch.1, hmatch.2,
              decide_True, Bool.and_self, Option.isSome_some, Bool.true_or]
      · refine ⟨r, ?_, ?_⟩
        · simp only [getCompositeXRDFrom, hx, Bool.not_true, Bool.false_eq_true, if_false,
            has, if_neg hmatch, hr]
        · have hfalse : (decide (xrd.group = gvk.group) && decide (xrd.kind = gvk.kind)) = false := by
            by_cases hg : xrd.group = gvk.group
            · have hk : ¬ xrd.kind = gvk.kind := fun hk => hmatch ⟨hg, hk⟩
              simp [hk]
            · simp [hg]
          simp only [List.any_cons, definesCompositeType, hx, hxrd, hfalse, Bool.false_and,
            Bool.and_false, Bool.false_or, hsome]
    · have hx' : e.IsXRD d = false := by simpa using hx
      refine ⟨r, ?_, ?_⟩
      · simp only [getCompositeXRDFrom, hx', Bool.not_false, if_true, hr]
      · simp only [List.any_cons, definesCompositeType, hx', Bool.false_and, Bool.false_or, hsome]

/-- The amended C26: the composite type of a composition. For an entry that
decodes as a composition whose `compositeTypeRef` parses to a group and a
version, in a linted package whose composite-type definitions all decode:
`CheckCompositionCompositeTypeRef` reports for the entry exactly one issue,
`no composite type found for <kind>.<group>/<version>`, when no entry of the
linted package is a composite-type definition of that group and kind with a
version of that name, and no issue when there is such an entry. The schema store
is not read: with any other store in the context the rule reports the same, so a
definition that is registered from a dependency only does not count. -/
theorem checkCompositeTypeRef_composite_type (sem : LoopVariable) (d : Decoders)
    (unmarshalXRD : XRDDecoder) (ctx : linterContext) (pkg : Package)
    (manifest : PackageEntry) (comp : Composition) (group version : String)
    (hcomp : manifest.AsComposition d = .ok comp)
    (hparse : d.parseGroupVersion comp.compositeTypeRef.apiVersion = .ok (group, version))
    (hdecodable : ∀ e ∈ pkg.entries, e.IsXRD d = true → ∃ xrd, unmarshalXRD e.raw = .ok xrd) :
    (pkg.entries.any
        (definesCompositeType d unmarshalXRD ⟨group, version, comp.compositeTypeRef.kind⟩) = false →
      checkCompositeTypeRef sem d unmarshalXRD ctx pkg manifest =
        [{ ruleName := ctx.ruleName
           entry := some (loopVariableAfter sem pkg.entries manifest)
           path := []
           pathValue := ""
           description := "no composite type found for " ++ comp.compositeTypeRef.kind ++ "."
             ++ group ++ "/" ++ version }]) ∧
    (pkg.entries.any
        (definesCompositeType d unmarshalXRD ⟨group, version, comp.compositeTypeRef.kind⟩) = true →
      checkCompositeTypeRef sem d unmarshalXRD ctx pkg manifest = []) ∧
    (∀ store : SchemaStore,
      checkCompositeTypeRef sem d unmarshalXRD ⟨ctx.ruleName, store⟩ pkg manifest
        = checkCompositeTypeRef sem d unmarshalXRD ctx pkg manifest) := by
  have his : manifest.IsComposition d = true := by
    by_cases h : manifest.IsComposition d = true
    · exact h
    · simp [PackageEntry.AsComposition, h] at hcomp
  obtain ⟨r, hr, hsome⟩ := getCompositeXRDFrom_decodable d unmarshalXRD
    ⟨group, version, comp.compositeTypeRef.kind⟩ pkg.entries hdecodable
  have hbody : checkCompositeTypeRef sem d unmarshalXRD ctx pkg manifest =
      match r with
      | none =>
        [ctx.ReportIssue
          { ruleName := ""
            entry := some (loopVariableAfter sem pkg.entries manifest)
            path := []
            pathValue := ""
            description :=
              errNoMatchingCompositeType comp.compositeTypeRef.kind group version }]
      | some _ => [] := by
    simp only [checkCompositeTypeRef, his, Bool.not_true, Bool.false_eq_true, if_false, hcomp,
      hparse, getCompositeXRD, hr]
    cases r <;> rfl
  refine ⟨?_, ?_, fun _ => rfl⟩
  · intro hnone
    rw [hnone] at hsome
    rcases r with _ | v
    · rw [hbody]
      rfl
    · cases hsome
  · intro hdefined
    rw [hdefined] at hsome
    rcases r with _ | v
    · cases hsome
    · rw [hbody]

/-- A toy decoder of composite-type definitions: `Widget` and `Gadget`, each
with the version `v1`. -/
def exampleXRDDecoder : XRDDecoder := fun raw =>
  if raw = "xwidgets" then .ok ⟨"example.org", "Widget", [⟨"v1"⟩], none⟩
  else if raw = "xgadgets" then .ok ⟨"example.org", "Gadget", [⟨"v1"⟩], none⟩
  else .error "cannot unmarshal"

/-- The composite-type definition of `Widget`. -/
def widgetXRD : PackageEntry :=
  ⟨"apiextensions.crossplane.io/v1", "CompositeResourceDefinition", "xwidgets.example.org",
    "xwidgets.yaml", "xwidgets"⟩

/-- The composite-type definition of `Gadget`. -/
def gadgetXRD : PackageEntry :=
  ⟨"apiextensions.crossplane.io/v1", "CompositeResourceDefinition", "xgadgets.example.org",
    "xgadgets.yaml", "xgadgets"⟩

/-- Scenario E: the composition of the example refers to `Widget` of
`example.org/v1`, which the store of the context holds. In a package with the
definition of `Gadget` only, one issue names the triple; with the definition of
`Widget` among the entries, there is no issue. -/
theorem checkCompositeTypeRef_composite_type_witness :
    (exampleLinterContext.schemaStore.GetCRDSchema ⟨"example.org", "v1", "Widget"⟩).isSome
      = true ∧
    checkCompositeTypeRef .perIteration exampleDecoders exampleXRDDecoder
        ⟨"composition.checkCompositeType", exampleLinterContext.schemaStore⟩
        ⟨"", "", [exampleManifest, gadgetXRD]⟩ exampleManifest
      = [{ ruleName := "composition.checkCompositeType"
           entry := some exampleManifest
           path := []
           pathValue := ""
           description := "no composite type found for Widget.example.org/v1" }] ∧
    checkCompositeTypeRef .perIteration exampleDecoders exampleXRDDecoder
        ⟨"composition.checkCompositeType", exampleLinterContext.schemaStore⟩
        ⟨"", "", [exampleManifest, gadgetXRD, widgetXRD]⟩ exampleManifest = [] :=
  ⟨rfl,
   ((checkCompositeTypeRef_composite_type .perIteration exampleDecoders exampleXRDDecoder
      ⟨"composition.checkCompositeType", exampleLinterContext.schemaStore⟩
      ⟨"", "", [exampleManifest, gadgetXRD]⟩ exampleManifest exampleComposition
      "example.org" "v1" rfl rfl
      (by
        intro e he hx
        simp only [List.mem_cons, List.mem_singleton, List.not_mem_nil, or_false] at he
        rcases he with rfl | rfl
        · exact absurd hx (by decide)
        · exact ⟨_, rfl⟩)).1 (by decide)).trans rfl,
   (checkCompositeTypeRef_composite_type .perIteration exampleDecoders exampleXRDDecoder
      ⟨"composition.checkCompositeType", exampleLinterContext.schemaStore⟩
      ⟨"", "", [exampleManifest, gadgetXRD, widgetXRD]⟩ exampleManifest exampleComposition
      "example.org" "v1" rfl rfl
      (by
        intro e he hx
        simp only [List.mem_cons, List.mem_singleton, List.not_mem_nil, or_false] at he
        rcases he with rfl | rfl | rfl
        · exact absurd hx (by decide)
        · exact ⟨_, rfl⟩
        · exact ⟨_, rfl⟩)).2.1 (by decide)⟩

/-- A toy decoder of `CustomResourceDefinition` manifests, which decodes none. -/
def exampleCRDDecoder : CRDDecoder := fun _ => .error "cannot unmarshal"

/-- Modelled from the spec: functions `ForCompositeResource` and
`ForCompositeResourceClaim` of package `schema`, which are not among the
sources. For a composite-type definition the specification derives one
composite-resource schema key per declared version, of the group and the kind
of the definition, and, when claim support is declared, one claim schema key
per declared version, of the group of the definition and the kind of the claim.
The versions carry no schema of their own here: the store gives each the
standard metadata. -/
def specCompositeBuilders : CompositeBuilders :=
  { ForCompositeResource := fun xrd =>
      .ok ⟨xrd.group, xrd.kind, xrd.versions.map (fun v => ⟨v.name, none⟩)⟩
    ForCompositeResourceClaim := fun xrd =>
      .ok ⟨xrd.group, xrd.claimNames.getD "", xrd.versions.map (fun v => ⟨v.name, none⟩)⟩ }

/-- The package of the example composition alone. -/
def compositionPackage : Package := ⟨"", "example", [exampleManifest]⟩

/-- A dependency that holds the composite-type definition of `Widget`. -/
def widgetDependency : Package := ⟨"", "dependency", [widgetXRD]⟩

/-- C26 as stated fails: the composition of the example refers to `Widget` of
`example.org/v1`, and the definition of `Widget` is in a dependency and not in
the linted package. `Run` registers the dependency, so that the store holds the
version `v1` of `Widget`: the definition is registered. The rule reports
`no composite type found for Widget.example.org/v1` all the same, with that
store and with any other store. -/
theorem checkCompositeTypeRef_dependency_definition :
    (∃ store,
      buildSchemaStore exampleDecoders exampleCRDDecoder exampleXRDDecoder specCompositeBuilders
        compositionPackage [widgetDependency] = some (.ok store) ∧
      (store.GetCRDSchema ⟨"example.org", "v1", "Widget"⟩).isSome = true ∧
      ∀ sem, checkCompositeTypeRef sem exampleDecoders exampleXRDDecoder
          ⟨"composition.checkCompositeType", store⟩ compositionPackage exampleManifest
        = [{ ruleName := "composition.checkCompositeType"
             entry := some exampleManifest
             path := []
             pathValue := ""
             description := "no composite type found for Widget.example.org/v1" }]) ∧
    (∀ sem store, checkCompositeTypeRef sem exampleDecoders exampleXRDDecoder
        ⟨"composition.checkCompositeType", store⟩ compositionPackage exampleManifest
      = [{ ruleName := "composition.checkCompositeType"
           entry := some exampleManifest
           path := []
           pathValue := ""
           description := "no composite type found for Widget.example.org/v1" }]) :=
  ⟨⟨_, rfl, rfl, fun sem => by cases sem <;> rfl⟩,
   fun sem _ => by cases sem <;> rfl⟩

/-! ## The names of the rules -/

/-- Every issue of `validatePatch` bears the name of the rule of its context. -/
theorem validatePatch_ruleName (parse : FieldPathParser) (c : scopedContext)
    (comp : Composition) (compositeGvk baseGvk : GroupVersionKind) (p : Patch)
    (issues : List Issue)
    (h : validatePatch parse c p comp compositeGvk baseGvk = some issues) :
    ∀ x ∈ issues, x.ruleName = c.linterContext.ruleName := by
  intro x hx
  by_cases hkind : p.type = PatchTypePatchSet
  · rw [validatePatch_reference_eq parse c comp compositeGvk baseGvk p hkind] at h
    rcases hname : p.patchSetName with _ | name
    · simp only [hname, Option.some.injEq] at h
      rw [← h, List.mem_singleton] at hx
      rw [hx]
      rfl
    · simp only [hname] at h
      rcases hfind : findPatchSet name 0 comp.patchSets with _ | ⟨patchSet, k⟩
      · simp only [hfind, Option.some.injEq] at h
        rw [← h, List.mem_singleton] at hx
        rw [hx]
        rfl
      · simp only [hfind] at h
        obtain ⟨j, f, hf⟩ := (validatePatchSetFrom_placed parse c compositeGvk baseGvk _ _ 0
          issues h).2 x hx
        rw [hf]
        rfl
  · rcases validatePatch_parallel parse c c rfl comp compositeGvk baseGvk p hkind with
      ⟨hnone, _⟩ | ⟨l, _, hsome, _⟩
    · rw [hnone] at h
      cases h
    · rw [hsome] at h
      simp only [Option.some.injEq] at h
      rw [← h] at hx
      obtain ⟨f, _, hf⟩ := List.mem_map.mp hx
      rw [← hf]
      rfl

/-- Every issue of a resource bears the name of the rule of the context. -/
theorem checkResource_ruleName (d : Decoders) (parse : FieldPathParser) (ctx : linterContext)
    (manifest : PackageEntry) (comp : Composition) (compositeGvk : GroupVersionKind)
    (i : Nat) (r : ComposedTemplate) (issues : List Issue)
    (h : checkResource d parse ctx manifest comp compositeGvk i r = some issues) :
    ∀ x ∈ issues, x.ruleName = ctx.ruleName := by
  intro x hx
  rw [checkResource_eq] at h
  rcases hbase : d.unmarshalBase r.base with err | ⟨apiVersion, kind⟩
  · simp only [hbase, Option.some.injEq] at h
    rw [← h, List.mem_singleton] at hx
    rw [hx]
    rfl
  · simp only [hbase] at h
    rcases hcrd : ctx.GetCRDSchema (objectGroupVersionKind d apiVersion kind) with _ | crd
    · simp only [hcrd, Option.some.injEq] at h
      rw [← h, List.mem_singleton] at hx
      rw [hx]
      rfl
    · simp only [hcrd] at h
      obtain ⟨l, hl, hxl⟩ := sequenceIssues_mem _ issues h x hx
      obtain ⟨jp, _, hjp⟩ := List.mem_map.mp hl
      exact validatePatch_ruleName parse _ comp compositeGvk _ jp.2 l hjp x hxl

/-- Every issue of `checkCompositionFieldPaths` bears the name of the rule of
the context. -/
theorem checkCompositionFieldPaths_ruleName (d : Decoders) (parse : FieldPathParser)
    (ctx : linterContext) (pkg : Package) (manifest : PackageEntry) (issues : List Issue)
    (h : checkCompositionFieldPaths d parse ctx pkg manifest = some issues) :
    ∀ x ∈ issues, x.ruleName = ctx.ruleName := by
  intro x hx
  unfold checkCompositionFieldPaths at h
  split at h
  · split at h
    · simp only [Option.some.injEq] at h
      rw [← h, List.mem_singleton] at hx
      rw [hx]
      rfl
    · split at h
      · simp only [Option.some.injEq] at h
        rw [← h, List.mem_singleton] at hx
        rw [hx]
        rfl
      · dsimp only at h
        split at h
        · simp only [Option.some.injEq] at h
          rw [← h, List.mem_singleton] at hx
          rw [hx]
          rfl
        · rw [checkResourcesFrom_eq_sequence] at h
          obtain ⟨l, hl, hxl⟩ := sequenceIssues_mem _ issues h x hx
          obtain ⟨ir, _, hir⟩ := List.mem_map.mp hl
          exact checkResource_ruleName d parse ctx manifest _ _ ir.1 ir.2 l hir x hxl
  · simp only [Option.some.injEq] at h
    rw [← h] at hx
    cases hx

/-- Every issue that the goroutines of `CheckCompositionFieldPaths` send bears
the name of the rule of the context. -/
theorem checkCompositionFieldPathsEach_ruleName (d : Decoders) (parse : FieldPathParser)
    (ctx : linterContext) (pkg : Package) (entries : List PackageEntry)
    (sent : List (List Issue))
    (h : checkCompositionFieldPathsEach d parse ctx pkg entries = some sent) :
    ∀ x ∈ sent.flatten, x.ruleName = ctx.ruleName := by
  induction entries generalizing sent with
  | nil =>
    simp only [checkCompositionFieldPathsEach, Option.some.injEq] at h
    rw [← h]
    intro x hx
    cases hx
  | cons m rest ih =>
    simp only [checkCompositionFieldPathsEach] at h
    rcases hm : checkCompositionFieldPaths d parse ctx pkg m with _ | issues
    · simp [hm] at h
    · rcases hrest : checkCompositionFieldPathsEach d parse ctx pkg rest with _ | later
      · simp [hm, hrest] at h
      · simp only [hm, hrest, Option.some.injEq] at h
        rw [← h]
        intro x hx
        rw [List.flatten_cons, List.mem_append] at hx
        rcases hx with hx | hx
        · exact checkCompositionFieldPaths_ruleName d parse ctx pkg m issues hm x hx
        · exact ih later hrest x hx

/-- Every issue of `CheckDuplicateObjects` bears the name of the rule of the
context. -/
theorem CheckDuplicateObjects_ruleName (sem : LoopVariable)
    (rangeOrder : List (groupVersionKindName × List PackageEntry) →
      List (groupVersionKindName × List PackageEntry))
    (d : Decoders) (ctx : linterContext) (pkg : Package) :
    ∀ x ∈ CheckDuplicateObjects sem rangeOrder d ctx pkg, x.ruleName = ctx.ruleName := by
  intro x hx
  obtain ⟨p, _, hreport⟩ := List.mem_filterMap.mp hx
  obtain ⟨first, _, _, _, hissue⟩ := reportDuplicates_eq_some sem ctx pkg.entries p x hreport
  rw [hissue]
  rfl

/-- Every issue of the body of the loop of `CheckCompositionCompositeTypeRef`
bears the name of the rule of the context. -/
theorem checkCompositeTypeRef_ruleName (sem : LoopVariable) (d : Decoders)
    (unmarshalXRD : XRDDecoder) (ctx : linterContext) (pkg : Package) (manifest : PackageEntry) :
    ∀ x ∈ checkCompositeTypeRef sem d unmarshalXRD ctx pkg manifest,
      x.ruleName = ctx.ruleName := by
  intro x hx
  unfold checkCompositeTypeRef at hx
  split at hx
  · cases hx
  · split at hx
    · rw [List.mem_singleton] at hx
      rw [hx]
      rfl
    · split at hx
      · rw [List.mem_singleton] at hx
        rw [hx]
        rfl
      · dsimp only at hx
        split at hx
        · rw [List.mem_singleton] at hx
          rw [hx]
          rfl
        · rw [List.mem_singleton] at hx
          rw [hx]
          rfl
        · cases hx

/-- Every issue of `CheckCompositionCompositeTypeRef` bears the name of the rule
of the context. -/
theorem checkCompositeTypeRefs_ruleName (sem : LoopVariable) (d : Decoders)
    (unmarshalXRD : XRDDecoder) (ctx : linterContext) (pkg : Package)
    (entries : List PackageEntry) :
    ∀ x ∈ checkCompositeTypeRefs sem d unmarshalXRD ctx pkg entries,
      x.ruleName = ctx.ruleName := by
  induction entries with
  | nil =>
    intro x hx
    cases hx
  | cons m rest ih =>
    intro x hx
    simp only [checkCompositeTypeRefs, List.mem_append] at hx
    rcases hx with hx | hx
    · exact checkCompositeTypeRef_ruleName sem d unmarshalXRD ctx pkg m x hx
    · exact ih x hx

/-- The names under which the rules are registered. -/
def registeredRuleNames : List String :=
  ["generic.checkDuplicates", "composition.checkCompositeType",
    "composition.checkPathFieldPaths"]

/-- Every issue that the goroutines of the default rules send bears the name of
one of the rules. -/
theorem runRules_defaultRules_ruleName (env : Environment) (store : SchemaStore)
    (pkg : Package) (sent : List (List Issue))
    (h : runRules store pkg (defaultRules env) = some sent) :
    ∀ x ∈ sent.flatten, x.ruleName ∈ registeredRuleNames := by
  simp only [defaultRules, runRules] at h
  rcases hpaths : CheckCompositionFieldPaths env.decoders env.parse
      { ruleName := "composition.checkPathFieldPaths", schemaStore := store } pkg with _ | paths
  · simp [hpaths] at h
  · simp only [hpaths, List.append_nil, List.singleton_append, Option.some.injEq] at h
    rw [← h]
    intro x hx
    simp only [List.flatten_cons, List.mem_append] at hx
    rcases hx with hx | hx | hx
    · rw [CheckDuplicateObjects_ruleName _ _ _ _ _ x hx]
      simp [registeredRuleNames]
    · rw [checkCompositeTypeRefs_ruleName _ _ _ _ _ _ x hx]
      simp [registeredRuleNames]
    · rw [checkCompositionFieldPathsEach_ruleName _ _ _ _ _ paths hpaths x hx]
      simp [registeredRuleNames]

/-- `checkCompositionFieldPaths` does not panic on a sound store. -/
theorem checkCompositionFieldPaths_ne_none (d : Decoders) (parse : FieldPathParser)
    (ctx : linterContext) (hsound : storeSound ctx) (pkg : Package) (manifest : PackageEntry) :
    checkCompositionFieldPaths d parse ctx pkg manifest ≠ none := by
  unfold checkCompositionFieldPaths
  split
  · split
    · simp
    · split
      · simp
      · dsimp only
        split
        · simp
        · rw [checkResourcesFrom_eq_sequence, sequenceIssues_eq_some]
          · simp
          · intro step hstep
            obtain ⟨ir, _, hir⟩ := List.mem_map.mp hstep
            rw [← hir]
            exact checkResource_ne_none d parse ctx hsound manifest _ _ ir.1 ir.2
  · simp

/-- No goroutine of `CheckCompositionFieldPaths` panics on a sound store. -/
theorem checkCompositionFieldPathsEach_ne_none (d : Decoders) (parse : FieldPathParser)
    (ctx : linterContext) (hsound : storeSound ctx) (pkg : Package)
    (entries : List PackageEntry) :
    checkCompositionFieldPathsEach d parse ctx pkg entries ≠ none := by
  induction entries with
  | nil => simp [checkCompositionFieldPathsEach]
  | cons m rest ih =>
    simp only [checkCompositionFieldPathsEach]
    rcases hm : checkCompositionFieldPaths d parse ctx pkg m with _ | issues
    · exact absurd hm (checkCompositionFieldPaths_ne_none d parse ctx hsound pkg m)
    · rcases hrest : checkCompositionFieldPathsEach d parse ctx pkg rest with _ | later
      · exact absurd hrest ih
      · simp

/-- C27: every issue bears the name of the rule that reports it. `ReportIssue`
sets the rule name of the issue to the rule name of the context, whatever the
issue held, and leaves `Entry`, `Path`, `PathValue` and `Description` as they
are. Hence, when the channel hands over what the goroutines of the rules send,
every issue of a report of `Lint` bears one of the three names under which the
rules are registered; and `Lint` returns a report when every version of the store
has a schema. -/
theorem Lint_rule_names (env : Environment) (store : SchemaStore) (pkg : Package)
    (hschedule : ∀ sent, (env.schedule sent).Perm sent.flatten) :
    (∀ (c : linterContext) (issue : Issue),
      (c.ReportIssue issue).ruleName = c.ruleName ∧
      (c.ReportIssue issue).entry = issue.entry ∧
      (c.ReportIssue issue).path = issue.path ∧
      (c.ReportIssue issue).pathValue = issue.pathValue ∧
      (c.ReportIssue issue).description = issue.description) ∧
    (∀ report, (Newlinter env store).Lint env.schedule pkg = some report →
      ∀ x ∈ report.issues,
        x.ruleName = "generic.checkDuplicates" ∨
        x.ruleName = "composition.checkCompositeType" ∨
        x.ruleName = "composition.checkPathFieldPaths") ∧
    ((∀ gvk crd, store.GetCRDSchema gvk = some crd → crd.schema ≠ none) →
      ∃ report, (Newlinter env store).Lint env.schedule pkg = some report) := by
  refine ⟨fun c issue => ⟨rfl, rfl, rfl, rfl, rfl⟩, ?_, ?_⟩
  · intro report hreport x hx
    unfold linter.Lint linter.runRulesConcurrently Newlinter at hreport
    rcases hsent : runRules store pkg (defaultRules env) with _ | sent
    · simp [hsent] at hreport
    · simp only [hsent, Option.some.injEq] at hreport
      rw [← hreport] at hx
      have hmem := (hschedule sent).mem_iff.mp hx
      have hname := runRules_defaultRules_ruleName env store pkg sent hsent x hmem
      simpa [registeredRuleNames] using hname
  · intro hsound
    have hpaths := checkCompositionFieldPathsEach_ne_none env.decoders env.parse
      { ruleName := "composition.checkPathFieldPaths", schemaStore := store }
      (fun gvk crd hcrd => hsound gvk crd hcrd) pkg pkg.entries
    rcases hsent : checkCompositionFieldPathsEach env.decoders env.parse
      { ruleName := "composition.checkPathFieldPaths", schemaStore := store } pkg pkg.entries
      with _ | paths
    · exact absurd hsent hpaths
    · have hrules : ∃ sent, runRules store pkg (defaultRules env) = some sent := by
        simp only [defaultRules, runRules, CheckCompositionFieldPaths, hsent]
        exact ⟨_, rfl⟩
      obtain ⟨sent, hrun⟩ := hrules
      exact ⟨⟨env.schedule sent⟩, by
        simp only [linter.Lint, linter.runRulesConcurrently, Newlinter, hrun]⟩

/-- An environment for the examples: a variable for each iteration, maps ranged
over in the order in which they were filled, the toy decoders, and a channel
that hands over the issues goroutine by goroutine. -/
def exampleEnvironment : Environment :=
  { loopVariable := .perIteration
    rangeOrder := id
    decoders := exampleDecoders
    unmarshalXRD := exampleXRDDecoder
    parse := exampleParse
    schedule := List.flatten }

/-- A package of the composition of the example, the definition of `Gadget` and
two documents `Widget` `x`. -/
def examplePackage : Package :=
  ⟨"", "example", [exampleManifest, gadgetXRD, widgetX, widgetXAgain]⟩

/-- The linter on `examplePackage`, with the schema `{a: {b: string}}` for
`Widget` in the store: one issue of the rule of duplicates, one of the rule of
composite types and four of the rule of field paths, each under the name of its
rule. -/
theorem Lint_rule_names_witness :
    ∃ report, (Newlinter exampleEnvironment exampleLinterContext.schemaStore).Lint
        exampleEnvironment.schedule examplePackage = some report ∧
      report.issues.map (fun x => x.ruleName) =
        ["generic.checkDuplicates", "composition.checkCompositeType",
          "composition.checkPathFieldPaths", "composition.checkPathFieldPaths",
          "composition.checkPathFieldPaths", "composition.checkPathFieldPaths"] ∧
      ∀ x ∈ report.issues,
        x.ruleName = "generic.checkDuplicates" ∨
        x.ruleName = "composition.checkCompositeType" ∨
        x.ruleName = "composition.checkPathFieldPaths" :=
  ⟨_, rfl, rfl,
    (Lint_rule_names exampleEnvironment exampleLinterContext.schemaStore examplePackage
      (fun _ => List.Perm.refl _)).2.1 _ rfl⟩

/-! ## The error of the command -/

/-- The three ways out of `Run` after linting: no error exactly for a report
without issues; for a report with issues, the error with their number when
`PrintReport` returns no error, and the error of `PrintReport` otherwise. -/
theorem runOnReport_cases (lib : YamlLibraries) (report : LinterReport) :
    (runOnReport lib report = none ↔ report.issues.length = 0) ∧
    (report.issues.length ≠ 0 → PrintReport lib report = none →
      runOnReport lib report
        = some (toString report.issues.length ++ " issues discovered during linting")) ∧
    (∀ err, report.issues.length ≠ 0 → PrintReport lib report = some err →
      runOnReport lib report = some err) := by
  refine ⟨?_, ?_, ?_⟩
  · constructor
    · intro h
      by_cases hzero : report.issues.length = 0
      · exact hzero
      · unfold runOnReport at h
        rw [if_neg hzero] at h
        cases hprint : PrintReport lib report <;> simp [hprint] at h
    · intro hzero
      unfold runOnReport
      rw [if_pos hzero]
  · intro hzero hprint
    unfold runOnReport
    rw [if_neg hzero, hprint]
    rfl
  · intro err hzero hprint
    unfold runOnReport
    rw [if_neg hzero, hprint]

/-- The calls of `evalJSONPath` to the YAML libraries return no error for the
issue: for its entry and its path, when it has both, `yamlpath.NewPath` accepts
the text of the path, `goyaml.Unmarshal` accepts the raw manifest of the entry,
and `Path.Find` returns nodes, none included. -/
def YamlLibraries.Accept (lib : YamlLibraries) (issue : Issue) : Prop :=
  ∀ e, issue.entry = some e → issue.path ≠ [] →
    lib.newPath (JSONPath.string issue.path) = none ∧
    lib.unmarshalNode e.raw = none ∧
    ∃ pathNodes, lib.find (JSONPath.string issue.path) e.raw = .ok pathNodes

/-- When the libraries accept the entry and the path, `evalJSONPath` returns a
line and a column: those of the first node found, or `0` and `0`. -/
theorem evalJSONPath_ok (lib : YamlLibraries) (e : PackageEntry) (path : JSONPath)
    (hpath : lib.newPath (JSONPath.string path) = none)
    (hnode : lib.unmarshalNode e.raw = none)
    (pathNodes : List (Nat × Nat))
    (hfind : lib.find (JSONPath.string path) e.raw = .ok pathNodes) :
    evalJSONPath lib e path = .ok (pathNodes.headD (0, 0)) := by
  unfold evalJSONPath
  rw [hpath, hnode, hfind]
  cases pathNodes <;> rfl

/-- An issue that the libraries accept is printed without error. -/
theorem printIssue_accepted (lib : YamlLibraries) (issue : Issue)
    (h : lib.Accept issue) : printIssue lib issue = none := by
  unfold printIssue
  rcases hentry : issue.entry with _ | e
  · rfl
  · dsimp only
    by_cases hempty : issue.path.isEmpty = true
    · rw [if_pos hempty]
    · rw [if_neg hempty]
      have hne : issue.path ≠ [] := by
        intro hnil
        exact hempty (by rw [hnil]; rfl)
      obtain ⟨hpath, hnode, pathNodes, hfind⟩ := h e hentry hne
      rw [evalJSONPath_ok lib e issue.path hpath hnode pathNodes hfind]

/-- Issues that the libraries accept are printed without error. -/
theorem printIssues_accepted (lib : YamlLibraries) (issues : List Issue)
    (h : ∀ issue ∈ issues, lib.Accept issue) : printIssues lib issues = none := by
  induction issues with
  | nil => rfl
  | cons issue rest ih =>
    unfold printIssues
    rw [printIssue_accepted lib issue (h issue (List.mem_cons_self _ _))]
    exact ih (fun x hx => h x (List.mem_cons_of_mem _ hx))

/-- C28: the error of the command. The YAML libraries that the printer calls
are assumed to return no error for the entries and the paths of the issues of
the report. After linting, `Run` returns no error if and only if the report
holds no issue; for a report that holds issues it returns the error
`<n> issues discovered during linting`, where `n` is the number of issues of the
report. -/
theorem runOnReport_issue_count (lib : YamlLibraries) (report : LinterReport)
    (hlib : ∀ issue ∈ report.issues, lib.Accept issue) :
    (runOnReport lib report = none ↔ report.issues.length = 0) ∧
    (report.issues.length ≠ 0 →
      runOnReport lib report
        = some (toString report.issues.length ++ " issues discovered during linting")) :=
  ⟨(runOnReport_cases lib report).1,
   fun hzero => (runOnReport_cases lib report).2.1 hzero
     (printIssues_accepted lib report.issues hlib)⟩

/-- Libraries that accept every path and every manifest and find no node for a
path, as for a path that the manifest does not hold. -/
def exampleYamlLibraries : YamlLibraries :=
  { newPath := fun _ => none
    unmarshalNode := fun _ => none
    find := fun _ _ => .ok [] }

/-- A report of two issues, one without a path and one with a path. -/
def exampleReport : LinterReport :=
  ⟨[{ ruleName := "generic.checkDuplicates", entry := some widgetX, path := [],
      pathValue := "",
      description := "Multiple objects of kind 'example.org/v1, Kind=Widget' with name 'x'" },
    fieldPathIssue (resourcePatchContext exampleLinterContext exampleManifest 0 0)
      [.field "fromFieldPath"] "property 'c' not found" "a.c"]⟩

/-- The empty report gives no error; the report of two issues, which the
libraries accept, has issues and gives `2 issues discovered during linting`. -/
theorem runOnReport_issue_count_witness :
    runOnReport exampleYamlLibraries ⟨[]⟩ = none ∧
    (∀ issue ∈ exampleReport.issues, exampleYamlLibraries.Accept issue) ∧
    exampleReport.issues.length ≠ 0 ∧
    runOnReport exampleYamlLibraries exampleReport
      = some "2 issues discovered during linting" :=
  ⟨(runOnReport_issue_count exampleYamlLibraries ⟨[]⟩
      (fun _ h => absurd h (List.not_mem_nil _))).1.mpr rfl,
   fun _ _ _ _ _ => ⟨rfl, rfl, [], rfl⟩,
   by decide,
   ((runOnReport_issue_count exampleYamlLibraries exampleReport
      (fun _ _ _ _ _ => ⟨rfl, rfl, [], rfl⟩)).2 (by decide)).trans (by decide)⟩

/-! ## What holds of every issue of a validator -/

/-- Every issue that a run reports has the property `P`; a run that panics
reports nothing. -/
def IssuesSatisfy (P : Issue → Prop) (r : Option (List Issue)) : Prop :=
  ∀ issues, r = some issues → ∀ x ∈ issues, P x

/-- A run that reports nothing. -/
theorem IssuesSatisfy_nil (P : Issue → Prop) : IssuesSatisfy P (some []) := by
  intro issues h x hx
  simp only [Option.some.injEq] at h
  rw [← h] at hx
  cases hx

/-- A run that reports one issue. -/
theorem IssuesSatisfy_single (P : Issue → Prop) (x : Issue) (hx : P x) :
    IssuesSatisfy P (some [x]) := by
  intro issues h y hy
  simp only [Option.some.injEq] at h
  rw [← h, List.mem_singleton] at hy
  rw [hy]
  exact hx

/-- Two steps in a row. -/
theorem IssuesSatisfy_append {P : Issue → Prop} {a b : Option (List Issue)}
    (ha : IssuesSatisfy P a) (hb : IssuesSatisfy P b) :
    IssuesSatisfy P
      (do
        let x ← a
        let y ← b
        pure (x ++ y)) := by
  intro issues h z hz
  rcases a with _ | la
  · simp [bind, Option.bind] at h
  · rcases b with _ | lb
    · simp [bind, Option.bind] at h
    · simp only [bind, Option.bind, pure, Option.some.injEq] at h
      rw [← h] at hz
      rcases List.mem_append.mp hz with hz | hz
      · exact ha la rfl z hz
      · exact hb lb rfl z hz

/-- The statement that validates one raw path and reports its error. -/
theorem reportFieldPath_satisfies (P : Issue → Prop) (parse : FieldPathParser)
    (c : scopedContext) (gvk : GroupVersionKind) (raw : String) (at_ : JSONPath)
    (h : ∀ err, validateFieldPath parse c gvk raw = some (some err) →
      P (fieldPathIssue c at_ err raw)) :
    IssuesSatisfy P (reportFieldPath parse c gvk raw at_) := by
  rw [reportFieldPath_eq]
  rcases hv : validateFieldPath parse c gvk raw with _ | _ | err
  · intro issues hi
    cases hi
  · exact IssuesSatisfy_nil P
  · exact IssuesSatisfy_single P _ (h err hv)

/-- `validateSinglePatch`: its issues are a missing `fromFieldPath` or an error
of the source path, then a missing `toFieldPath` or an error of the destination
path. -/
theorem validateSinglePatch_satisfies (P : Issue → Prop) (parse : FieldPathParser)
    (c : scopedContext) (p : Patch) (fromGvk toGvk : GroupVersionKind)
    (hsrcMissing : P (fieldPathIssue c [.field "fromFieldPath"] "require field" ""))
    (hdstMissing : P (fieldPathIssue c [.field "toFieldPath"] "require field" ""))
    (hsrc : ∀ raw err, validateFieldPath parse c fromGvk raw = some (some err) →
      P (fieldPathIssue c [.field "fromFieldPath"] err raw))
    (hdst : ∀ raw err, validateFieldPath parse c toGvk raw = some (some err) →
      P (fieldPathIssue c [.field "toFieldPath"] err raw)) :
    IssuesSatisfy P (validateSinglePatch parse c p fromGvk toGvk) := by
  unfold validateSinglePatch
  rcases p.fromFieldPath with _ | src <;> rcases p.toFieldPath with _ | dst
  · exact IssuesSatisfy_append (IssuesSatisfy_single P _ hsrcMissing)
      (IssuesSatisfy_single P _ hdstMissing)
  · exact IssuesSatisfy_append (IssuesSatisfy_single P _ hsrcMissing)
      (reportFieldPath_satisfies P parse c toGvk dst _ (hdst dst))
  · exact IssuesSatisfy_append (reportFieldPath_satisfies P parse c fromGvk src _ (hsrc src))
      (reportFieldPath_satisfies P parse c toGvk src _ (hdst src))
  · exact IssuesSatisfy_append (reportFieldPath_satisfies P parse c fromGvk src _ (hsrc src))
      (reportFieldPath_satisfies P parse c toGvk dst _ (hdst dst))

/-! ## A patch without a type -/

/-- `validateSinglePatch` does not read the type of the patch. -/
theorem validateSinglePatch_type (parse : FieldPathParser) (c : scopedContext) (p : Patch)
    (t : String) (fromGvk toGvk : GroupVersionKind) :
    validateSinglePatch parse c { p with type := t } fromGvk toGvk
      = validateSinglePatch parse c p fromGvk toGvk := rfl

/-- `validatePatch` on a patch of the empty type or of the type
`FromCompositeFieldPath`. -/
theorem validatePatch_copy_from_composite (parse : FieldPathParser) (c : scopedContext)
    (comp : Composition) (compositeGvk baseGvk : GroupVersionKind) (p : Patch)
    (h : p.type = "" ∨ p.type = PatchTypeFromCompositeFieldPath) :
    validatePatch parse c p comp compositeGvk baseGvk
      = validateSinglePatch parse c p compositeGvk baseGvk := by
  have h₁ : ¬ p.type = PatchTypeCombineToComposite := by
    rcases h with h | h <;> rw [h] <;> decide
  have h₂ : ¬ p.type = PatchTypeCombineFromComposite := by
    rcases h with h | h <;> rw [h] <;> decide
  have h₃ : ¬ p.type = PatchTypeToCompositeFieldPath := by
    rcases h with h | h <;> rw [h] <;> decide
  unfold validatePatch
  simp only [if_neg h₁, if_neg h₂, if_neg h₃, if_pos h]

/-- The body of the loop of `validatePatchSet` on a patch of the empty type or
of the type `FromCompositeFieldPath`. -/
theorem validatePatchSetEntry_copy_from_composite (parse : FieldPathParser)
    (c : scopedContext) (compositeGvk baseGvk : GroupVersionKind) (patchPath : JSONPath)
    (i : Nat) (p : Patch) (h : p.type = "" ∨ p.type = PatchTypeFromCompositeFieldPath) :
    validatePatchSetEntry parse c compositeGvk baseGvk patchPath i p
      = validateSinglePatch parse (c.Wrap (patchSetEntryPath patchPath i)) p
          compositeGvk baseGvk := by
  have h₁ : ¬ p.type = PatchTypeCombineToComposite := by
    rcases h with h | h <;> rw [h] <;> decide
  have h₂ : ¬ p.type = PatchTypeCombineFromComposite := by
    rcases h with h | h <;> rw [h] <;> decide
  have h₃ : ¬ p.type = PatchTypeToCompositeFieldPath := by
    rcases h with h | h <;> rw [h] <;> decide
  unfold validatePatchSetEntry
  simp only [if_neg h₁, if_neg h₂, if_neg h₃, if_pos h]
  rfl

/-- The loop of `validatePatchSet` reports the same for two lists of patches
whose patches are validated alike, place by place. -/
theorem validatePatchSetFrom_congr (parse : FieldPathParser) (c : scopedContext)
    (compositeGvk baseGvk : GroupVersionKind) (patchPath : JSONPath)
    (pre post : List Patch) (p q : Patch) (k : Nat)
    (h : ∀ i, validatePatchSetEntry parse c compositeGvk baseGvk patchPath i p
      = validatePatchSetEntry parse c compositeGvk baseGvk patchPath i q) :
    validatePatchSetFrom parse c compositeGvk baseGvk patchPath k (pre ++ p :: post)
      = validatePatchSetFrom parse c compositeGvk baseGvk patchPath k (pre ++ q :: post) := by
  induction pre generalizing k with
  | nil => simp only [List.nil_append, validatePatchSetFrom, h k]
  | cons first rest ih =>
    show validatePatchSetFrom parse c compositeGvk baseGvk patchPath k
        (first :: (rest ++ p :: post))
      = validatePatchSetFrom parse c compositeGvk baseGvk patchPath k
        (first :: (rest ++ q :: post))
    simp only [validatePatchSetFrom, ih (k + 1)]

/-- The issues of `validateSinglePatch` are at `fromFieldPath` or at
`toFieldPath` of the patch. -/
theorem validateSinglePatch_places (parse : FieldPathParser) (c : scopedContext) (p : Patch)
    (fromGvk toGvk : GroupVersionKind) :
    IssuesSatisfy
      (fun x => x.path = [.path c.basePath, .path [.field "fromFieldPath"]] ∨
        x.path = [.path c.basePath, .path [.field "toFieldPath"]])
      (validateSinglePatch parse c p fromGvk toGvk) :=
  validateSinglePatch_satisfies _ parse c p fromGvk toGvk (Or.inl rfl) (Or.inr rfl)
    (fun _ _ _ => Or.inl rfl) (fun _ _ _ => Or.inr rfl)

/-- The issue `unknown patch type` is at `type`, where no issue of
`validateSinglePatch` is. -/
theorem unknown_type_not_placed (c : scopedContext) (t : String) :
    ¬ ((c.ReportIssueFieldPath (NewJSONPath [.str "type"]) "unknown patch type" t).path
        = [.path c.basePath, .path [.field "fromFieldPath"]] ∨
      (c.ReportIssueFieldPath (NewJSONPath [.str "type"]) "unknown patch type" t).path
        = [.path c.basePath, .path [.field "toFieldPath"]]) := by
  have hpath : (c.ReportIssueFieldPath (NewJSONPath [.str "type"]) "unknown patch type" t).path
      = [.path c.basePath, .path [.field "type"]] := rfl
  rw [hpath]
  intro h
  rcases h with h | h
  · simp only [List.cons.injEq, JSONPathSegment.path.injEq, JSONPathSegment.field.injEq,
      and_true, true_and] at h
    exact absurd h (by decide)
  · simp only [List.cons.injEq, JSONPathSegment.path.injEq, JSONPathSegment.field.injEq,
      and_true, true_and] at h
    exact absurd h (by decide)

/-- C33: a patch without a type is validated as a copy from the composite. For
every patch `p`, composition and pair of kinds, `validatePatch` reports for `p`
with the type `""` what it reports for `p` with the type
`FromCompositeFieldPath`, and so does the loop of `validatePatchSet` for a patch
at any index of a patch set and for the patch set as a whole. The issues are
those of `validateSinglePatch` from the composite kind to the base kind: each is
at `fromFieldPath` or at `toFieldPath`, and the issue `unknown patch type` at
`type` is not among them. -/
theorem validatePatch_empty_type (parse : FieldPathParser) (ctx : scopedContext)
    (comp : Composition) (compositeGvk baseGvk : GroupVersionKind) (patchPath : JSONPath)
    (p : Patch) :
    validatePatch parse ctx { p with type := "" } comp compositeGvk baseGvk
      = validatePatch parse ctx { p with type := PatchTypeFromCompositeFieldPath } comp
          compositeGvk baseGvk ∧
    (∀ i, validatePatchSetEntry parse ctx compositeGvk baseGvk patchPath i { p with type := "" }
      = validatePatchSetEntry parse ctx compositeGvk baseGvk patchPath i
          { p with type := PatchTypeFromCompositeFieldPath }) ∧
    (∀ name pre post,
      validatePatchSet parse ctx ⟨name, pre ++ { p with type := "" } :: post⟩
          compositeGvk baseGvk patchPath
        = validatePatchSet parse ctx
          ⟨name, pre ++ { p with type := PatchTypeFromCompositeFieldPath } :: post⟩
          compositeGvk baseGvk patchPath) ∧
    validatePatch parse ctx { p with type := "" } comp compositeGvk baseGvk
      = validateSinglePatch parse ctx p compositeGvk baseGvk ∧
    (∀ issues, validatePatch parse ctx { p with type := "" } comp compositeGvk baseGvk
        = some issues →
      (∀ x ∈ issues, x.path = [.path ctx.basePath, .path [.field "fromFieldPath"]] ∨
        x.path = [.path ctx.basePath, .path [.field "toFieldPath"]]) ∧
      ctx.ReportIssueFieldPath (NewJSONPath [.str "type"]) "unknown patch type" "" ∉ issues) ∧
    (∀ i issues,
      validatePatchSetEntry parse ctx compositeGvk baseGvk patchPath i { p with type := "" }
        = some issues →
      (ctx.Wrap (patchSetEntryPath patchPath i)).ReportIssueFieldPath
        (NewJSONPath [.str "type"]) "unknown patch type" "" ∉ issues) := by
  have hempty := validatePatch_copy_from_composite parse ctx comp compositeGvk baseGvk
    { p with type := "" } (Or.inl rfl)
  have hfrom := validatePatch_copy_from_composite parse ctx comp compositeGvk baseGvk
    { p with type := PatchTypeFromCompositeFieldPath } (Or.inr rfl)
  rw [validateSinglePatch_type] at hempty hfrom
  have hentry : ∀ i,
      validatePatchSetEntry parse ctx compositeGvk baseGvk patchPath i { p with type := "" }
        = validatePatchSetEntry parse ctx compositeGvk baseGvk patchPath i
          { p with type := PatchTypeFromCompositeFieldPath } := by
    intro i
    exact (validatePatchSetEntry_copy_from_composite parse ctx compositeGvk baseGvk patchPath i
        { p with type := "" } (Or.inl rfl)).trans
      (validatePatchSetEntry_copy_from_composite parse ctx compositeGvk baseGvk patchPath i
        { p with type := PatchTypeFromCompositeFieldPath } (Or.inr rfl)).symm
  refine ⟨hempty.trans hfrom.symm, hentry, ?_, hempty, ?_, ?_⟩
  · intro name pre post
    exact validatePatchSetFrom_congr parse ctx compositeGvk baseGvk patchPath pre post _ _ 0
      hentry
  · intro issues hissues
    rw [hempty] at hissues
    have hplaces := validateSinglePatch_places parse ctx p compositeGvk baseGvk issues hissues
    exact ⟨hplaces, fun hmem => unknown_type_not_placed ctx "" (hplaces _ hmem)⟩
  · intro i issues hissues
    rw [validatePatchSetEntry_copy_from_composite parse ctx compositeGvk baseGvk patchPath i
      { p with type := "" } (Or.inl rfl), validateSinglePatch_type] at hissues
    have hplaces := validateSinglePatch_places parse (ctx.Wrap (patchSetEntryPath patchPath i))
      p compositeGvk baseGvk issues hissues
    exact fun hmem => unknown_type_not_placed _ "" (hplaces _ hmem)

/-- The copy patch of `a.c` on `{a: {b: string}}`, without a type and with the
type `FromCompositeFieldPath`: the same two issues, at `fromFieldPath` and at
`toFieldPath`. -/
theorem validatePatch_empty_type_witness :
    validatePatch exampleParse (exampleContext schemaAB) ⟨"", some "a.c", none, none, none⟩
        ⟨⟨"example.org/v1", "Widget"⟩, [], []⟩ exampleGvk exampleGvk
      = validatePatch exampleParse (exampleContext schemaAB)
        ⟨"FromCompositeFieldPath", some "a.c", none, none, none⟩
        ⟨⟨"example.org/v1", "Widget"⟩, [], []⟩ exampleGvk exampleGvk ∧
    validatePatch exampleParse (exampleContext schemaAB) ⟨"", some "a.c", none, none, none⟩
        ⟨⟨"example.org/v1", "Widget"⟩, [], []⟩ exampleGvk exampleGvk
      = some [fieldPathIssue (exampleContext schemaAB) [.field "fromFieldPath"]
                "property 'c' not found" "a.c",
              fieldPathIssue (exampleContext schemaAB) [.field "toFieldPath"]
                "property 'c' not found" "a.c"] :=
  ⟨(validatePatch_empty_type exampleParse (exampleContext schemaAB)
      ⟨⟨"example.org/v1", "Widget"⟩, [], []⟩ exampleGvk exampleGvk
      (NewJSONPath [.str "#inlined", .str "spec", .str "patchSets", .int 0])
      ⟨"", some "a.c", none, none, none⟩).1,
   rfl⟩

/-! ## The descriptions of the issues of a patch -/

/-- Every error that `validateFieldPath` returns for the kind `gvk`, under a
scoped context of the linter context `ctx`, has the property `D`. -/
def FieldErrors (D : String → Prop) (parse : FieldPathParser) (ctx : linterContext)
    (gvk : GroupVersionKind) : Prop :=
  ∀ (c : scopedContext) (raw err : String), c.linterContext = ctx →
    validateFieldPath parse c gvk raw = some (some err) → D err

/-- The description of the issue of one raw path. -/
theorem reportFieldPath_described (D : String → Prop) (parse : FieldPathParser)
    (c : scopedContext) (gvk : GroupVersionKind) (raw : String) (at_ : JSONPath)
    (h : FieldErrors D parse c.linterContext gvk) :
    IssuesSatisfy (fun x => D x.description) (reportFieldPath parse c gvk raw at_) :=
  reportFieldPath_satisfies _ parse c gvk raw at_ (fun err hv => h c raw err rfl hv)

/-- The description of the issue of a missing field. -/
theorem requireField_described (D : String → Prop) (c : scopedContext) (at_ : JSONPath)
    (h : D "require field") :
    IssuesSatisfy (fun x => D x.description) (some [c.ReportIssueRequireField at_]) :=
  IssuesSatisfy_single _ _ h

/-- The descriptions of the issues of `validateSinglePatch`. -/
theorem validateSinglePatch_described (D : String → Prop) (parse : FieldPathParser)
    (c : scopedContext) (p : Patch) (fromGvk toGvk : GroupVersionKind)
    (hreq : D "require field")
    (hfrom : FieldErrors D parse c.linterContext fromGvk)
    (hto : FieldErrors D parse c.linterContext toGvk) :
    IssuesSatisfy (fun x => D x.description) (validateSinglePatch parse c p fromGvk toGvk) :=
  validateSinglePatch_satisfies _ parse c p fromGvk toGvk hreq hreq
    (fun raw err hv => hfrom c raw err rfl hv) (fun raw err hv => hto c raw err rfl hv)

/-- The descriptions of the issues of `validateEnvironmentPatch`. -/
theorem validateEnvironmentPatch_described (D : String → Prop) (parse : FieldPathParser)
    (c : scopedContext) (p : Patch) (fromGvk toGvk : GroupVersionKind)
    (hreq : D "require field")
    (hto : FieldErrors D parse c.linterContext toGvk) :
    IssuesSatisfy (fun x => D x.description)
      (validateEnvironmentPatch parse c p fromGvk toGvk) := by
  unfold validateEnvironmentPatch
  rcases p.fromFieldPath with _ | src <;> rcases p.toFieldPath with _ | dst
  · exact IssuesSatisfy_append (requireField_described D c _ hreq)
      (requireField_described D c _ hreq)
  · exact IssuesSatisfy_append (requireField_described D c _ hreq)
      (reportFieldPath_described D parse c toGvk dst _ hto)
  · exact IssuesSatisfy_append (IssuesSatisfy_nil _)
      (reportFieldPath_described D parse c toGvk src _ hto)
  · exact IssuesSatisfy_append (IssuesSatisfy_nil _)
      (reportFieldPath_described D parse c toGvk dst _ hto)

/-- The description of the issue of one combine variable. -/
theorem combineVariableIssues_described (D : String → Prop) (parse : FieldPathParser)
    (c : scopedContext) (fromGvk : GroupVersionKind) (i : Nat) (v : CombineVariable)
    (hreq : D "require field")
    (hfrom : FieldErrors D parse c.linterContext fromGvk) :
    IssuesSatisfy (fun x => D x.description) (combineVariableIssues parse c fromGvk i v) := by
  unfold combineVariableIssues
  by_cases hv : v.fromFieldPath = ""
  · simp only [hv, if_true]
    exact requireField_described D c _ hreq
  · simp only [hv, if_false]
    exact reportFieldPath_described D parse c fromGvk _ _ hfrom

/-- The descriptions of the issues of the loop over the combine variables. -/
theorem validateCombineVariables_described (D : String → Prop) (parse : FieldPathParser)
    (c : scopedContext) (fromGvk : GroupVersionKind) (i : Nat) (vs : List CombineVariable)
    (hreq : D "require field")
    (hfrom : FieldErrors D parse c.linterContext fromGvk) :
    IssuesSatisfy (fun x => D x.description)
      (validateCombineVariables parse c fromGvk i vs) := by
  induction vs generalizing i with
  | nil => exact IssuesSatisfy_nil _
  | cons v rest ih =>
    rw [validateCombineVariables_cons]
    exact IssuesSatisfy_append (combineVariableIssues_described D parse c fromGvk i v hreq hfrom)
      (ih (i + 1))

/-- The descriptions of the issues of `validateCombinePatch`. -/
theorem validateCombinePatch_described (D : String → Prop) (parse : FieldPathParser)
    (c : scopedContext) (p : Patch) (fromGvk toGvk : GroupVersionKind)
    (hreq : D "require field")
    (hfrom : FieldErrors D parse c.linterContext fromGvk)
    (hto : FieldErrors D parse c.linterContext toGvk) :
    IssuesSatisfy (fun x => D x.description) (validateCombinePatch parse c p fromGvk toGvk) := by
  rw [validateCombinePatch_eq]
  have hsrc : IssuesSatisfy (fun x => D x.description) (combineSourceIssues parse c p fromGvk) := by
    unfold combineSourceIssues
    rcases p.combine with _ | cmb
    · exact requireField_described D c _ hreq
    · by_cases hnil : cmb.variables = []
      · simp only [hnil, if_true]
        exact requireField_described D c _ hreq
      · simp only [hnil, if_false, ← validateCombineVariables_eq_sequence]
        exact validateCombineVariables_described D parse c fromGvk 0 _ hreq hfrom
  have hdst : IssuesSatisfy (fun x => D x.description)
      (combineDestinationIssues parse c p toGvk) := by
    unfold combineDestinationIssues
    rcases p.toFieldPath with _ | dst
    · exact requireField_described D c _ hreq
    · exact reportFieldPath_described D parse c toGvk dst _ hto
  exact IssuesSatisfy_append hsrc hdst

/-- The descriptions of the issues of `validatePatch` on a patch that is not a
patch-set reference. -/
theorem validatePatch_described_plain (D : String → Prop) (parse : FieldPathParser)
    (c : scopedContext) (comp : Composition) (compositeGvk baseGvk : GroupVersionKind)
    (p : Patch) (hkind : p.type ≠ PatchTypePatchSet)
    (hreq : D "require field") (hunknown : D "unknown patch type")
    (hcomposite : FieldErrors D parse c.linterContext compositeGvk)
    (hbase : FieldErrors D parse c.linterContext baseGvk) :
    IssuesSatisfy (fun x => D x.description)
      (validatePatch parse c p comp compositeGvk baseGvk) := by
  unfold validatePatch
  by_cases h₁ : p.type = PatchTypeCombineToComposite
  · simp only [if_pos h₁]
    exact validateCombinePatch_described D parse c p _ _ hreq hbase hcomposite
  · by_cases h₂ : p.type = PatchTypeCombineFromComposite
    · simp only [if_neg h₁, if_pos h₂]
      exact validateCombinePatch_described D parse c p _ _ hreq hcomposite hbase
    · by_cases h₃ : p.type = PatchTypeToCompositeFieldPath
      · simp only [if_neg h₁, if_neg h₂, if_pos h₃]
        exact validateSinglePatch_described D parse c p _ _ hreq hbase hcomposite
      · by_cases h₄ : p.type = "" ∨ p.type = PatchTypeFromCompositeFieldPath
        · simp only [if_neg h₁, if_neg h₂, if_neg h₃, if_pos h₄]
          exact validateSinglePatch_described D parse c p _ _ hreq hcomposite hbase
        · by_cases h₅ : p.type = PatchTypeFromEnvironmentFieldPath
          · simp only [if_neg h₁, if_neg h₂, if_neg h₃, if_neg h₄, if_pos h₅]
            exact validateEnvironmentPatch_described D parse c p _ _ hreq hbase
          · simp only [if_neg h₁, if_neg h₂, if_neg h₃, if_neg h₄, if_neg h₅, if_neg hkind]
            exact IssuesSatisfy_single _ _ hunknown

/-- The descriptions of the issues of a patch inside a patch set. -/
theorem validatePatchSetEntry_described (D : String → Prop) (parse : FieldPathParser)
    (c : scopedContext) (compositeGvk baseGvk : GroupVersionKind) (patchPath : JSONPath)
    (i : Nat) (p : Patch)
    (hreq : D "require field") (hunknown : D "unknown patch type")
    (hnested : D "nested patch sets are not allowed")
    (hcomposite : FieldErrors D parse c.linterContext compositeGvk)
    (hbase : FieldErrors D parse c.linterContext baseGvk) :
    IssuesSatisfy (fun x => D x.description)
      (validatePatchSetEntry parse c compositeGvk baseGvk patchPath i p) := by
  by_cases hkind : p.type = PatchTypePatchSet
  · rw [validatePatchSetEntry_nested parse c compositeGvk baseGvk patchPath i p hkind]
    exact IssuesSatisfy_single _ _ hnested
  · rw [validatePatchSetEntry_eq_validatePatch parse c ⟨⟨"", ""⟩, [], []⟩ compositeGvk baseGvk
      patchPath i p hkind]
    exact validatePatch_described_plain D parse _ _ compositeGvk baseGvk p hkind hreq hunknown
      hcomposite hbase

/-- The descriptions of the issues of an expanded patch set. -/
theorem validatePatchSetFrom_described (D : String → Prop) (parse : FieldPathParser)
    (c : scopedContext) (compositeGvk baseGvk : GroupVersionKind) (patchPath : JSONPath)
    (patches : List Patch) (i : Nat)
    (hreq : D "require field") (hunknown : D "unknown patch type")
    (hnested : D "nested patch sets are not allowed")
    (hcomposite : FieldErrors D parse c.linterContext compositeGvk)
    (hbase : FieldErrors D parse c.linterContext baseGvk) :
    IssuesSatisfy (fun x => D x.description)
      (validatePatchSetFrom parse c compositeGvk baseGvk patchPath i patches) := by
  induction patches generalizing i with
  | nil => exact IssuesSatisfy_nil _
  | cons p rest ih =>
    simp only [validatePatchSetFrom]
    exact IssuesSatisfy_append
      (validatePatchSetEntry_described D parse c compositeGvk baseGvk patchPath i p hreq hunknown
        hnested hcomposite hbase)
      (ih (i + 1))

/-- The descriptions of the issues of `validatePatch`: each is one of the four
fixed messages of the patch validator or an error that `validateFieldPath`
returns for the composite kind or for the base kind. -/
theorem validatePatch_described (D : String → Prop) (parse : FieldPathParser)
    (c : scopedContext) (comp : Composition) (compositeGvk baseGvk : GroupVersionKind)
    (p : Patch)
    (hreq : D "require field") (hunknown : D "unknown patch type")
    (hnested : D "nested patch sets are not allowed")
    (hnomatch : D "no matching patchset found")
    (hcomposite : FieldErrors D parse c.linterContext compositeGvk)
    (hbase : FieldErrors D parse c.linterContext baseGvk) :
    IssuesSatisfy (fun x => D x.description)
      (validatePatch parse c p comp compositeGvk baseGvk) := by
  by_cases hkind : p.type = PatchTypePatchSet
  · rw [validatePatch_reference_eq parse c comp compositeGvk baseGvk p hkind]
    rcases p.patchSetName with _ | name
    · exact IssuesSatisfy_single _ _ hreq
    · dsimp only
      rcases findPatchSet name 0 comp.patchSets with _ | ⟨patchSet, k⟩
      · exact IssuesSatisfy_single _ _ hnomatch
      · exact validatePatchSetFrom_described D parse c compositeGvk baseGvk _ _ 0 hreq hunknown
          hnested hcomposite hbase
  · exact validatePatch_described_plain D parse c comp compositeGvk baseGvk p hkind hreq
      hunknown hcomposite hbase

/-! ## No missing schema under the patches -/

/-- The description is not the message `no CRD for <gvk>`, whatever stands for
`<gvk>`. -/
def notNoCRD (description : String) : Prop :=
  ∀ t : String, description ≠ "no CRD for " ++ t

/-- A string whose first four characters are not `no C` is not the message. -/
theorem notNoCRD_of_take (s : String) (h : s.data.take 4 ≠ ['n', 'o', ' ', 'C']) :
    notNoCRD s := by
  intro t hs
  apply h
  rw [hs, String.data_append]
  have hlit : "no CRD for ".data = 'n' :: 'o' :: ' ' :: 'C' :: "RD for ".data := by decide
  rw [hlit]
  rfl

/-- A string that begins with four characters or more of another beginning is
not the message. -/
theorem notNoCRD_append (a rest : String) (h : a.data.take 4 ≠ ['n', 'o', ' ', 'C'])
    (hlen : 4 ≤ a.data.length) : notNoCRD (a ++ rest) := by
  apply notNoCRD_of_take
  rw [String.data_append, List.take_append_of_le_length hlen]
  exact h

/-- No error of the resolver of one segment is the message. -/
theorem validateFieldPathSegment_error_notNoCRD (current : JSONSchemaProps) (segment : Segment)
    (err : String) (h : validateFieldPathSegment current segment = .error err) :
    notNoCRD err := by
  have hwrong : ∀ e a, notNoCRD (errFieldPathWrongType e a) := by
    intro e a
    simp only [errFieldPathWrongType, String.append_assoc]
    exact notNoCRD_append _ _ (by decide) (by decide)
  have hfound : ∀ f, notNoCRD (errFieldNotFound f) := by
    intro f
    simp only [errFieldNotFound, String.append_assoc]
    exact notNoCRD_append _ _ (by decide) (by decide)
  have hitems : notNoCRD errFieldArrayNoItems := notNoCRD_of_take _ (by decide)
  have hinvalid : ∀ t, notNoCRD (errInvalidSegmentType t) := by
    intro t
    exact notNoCRD_append _ _ (by decide) (by decide)
  unfold validateFieldPathSegment at h
  by_cases hseg : segment.type = SegmentField
  · rw [if_pos hseg] at h
    dsimp only at h
    by_cases hprop : (if current.type = "" then "object" else current.type) ≠ "object"
    · rw [if_pos hprop] at h
      cases h
      exact hwrong _ _
    · rw [if_neg hprop] at h
      by_cases hpres : boolDeref current.xPreserveUnknownFields false = true
      · rw [if_pos hpres] at h
        cases h
      · rw [if_neg hpres] at h
        rcases hlook : mapLookup current.properties segment.field with _ | prop
        · rw [hlook] at h
          dsimp only at h
          rcases haddl : current.additionalProperties with _ | ⟨allows, schema⟩
          · rw [haddl] at h
            dsimp only at h
            cases h
            exact hfound _
          · cases allows
            · rw [haddl] at h
              dsimp only at h
              cases h
              exact hfound _
            · rw [haddl] at h
              dsimp only at h
              cases h
        · rw [hlook] at h
          dsimp only at h
          cases h
  · rw [if_neg hseg] at h
    by_cases hidx : segment.type = SegmentIndex
    · rw [if_pos hidx] at h
      by_cases harr : current.type ≠ "array"
      · rw [if_pos harr] at h
        cases h
        exact hwrong _ _
      · rw [if_neg harr] at h
        rcases hschema : current.items with _ | _ | schema
        · rw [hschema] at h
          dsimp only at h
          cases h
          exact hitems
        · rw [hschema] at h
          dsimp only at h
          cases h
          exact hitems
        · rw [hschema] at h
          dsimp only at h
          cases h
    · rw [if_neg hidx] at h
      cases h
      exact hinvalid _

/-- No error of the resolver of a path is the message. -/
theorem validateSegments_error_notNoCRD (current : Option JSONSchemaProps)
    (path : List Segment) (err : String) (h : validateSegments current path = .error err) :
    notNoCRD err := by
  induction path generalizing current with
  | nil =>
    simp only [validateSegments] at h
    cases h
  | cons segment rest ih =>
    rcases current with _ | node
    · simp only [validateSegments] at h
      cases h
    · simp only [validateSegments] at h
      rcases hstep : validateFieldPathSegment node segment with e | next
      · rw [hstep] at h
        cases h
        exact validateFieldPathSegment_error_notNoCRD node segment _ hstep
      · rw [hstep] at h
        exact ih next h

/-- `validateFieldPath` for a kind whose schema the store holds: its error is an
error of the parser or an error of the resolver on that schema; the branch
`no CRD for <gvk>` is not taken. -/
theorem validateFieldPath_known (parse : FieldPathParser) (c : scopedContext)
    (gvk : GroupVersionKind) (raw err : String)
    (hknown : c.linterContext.GetCRDSchema gvk ≠ none)
    (h : validateFieldPath parse c gvk raw = some (some err)) :
    parse raw = .error err ∨
    ∃ path crd validation, parse raw = .ok path ∧
      c.linterContext.GetCRDSchema gvk = some crd ∧ crd.schema = some validation ∧
      validateSegments validation.openAPIV3Schema path = .error err := by
  unfold validateFieldPath at h
  rcases hparse : parse raw with e | path
  · simp only [hparse, Option.some.injEq] at h
    rw [h]
    exact Or.inl rfl
  · rcases hcrd : c.linterContext.GetCRDSchema gvk with _ | crd
    · exact absurd hcrd hknown
    · rcases hschema : crd.schema with _ | validation
      · simp [hparse, hcrd, hschema] at h
      · rcases hsegments : validateSegments validation.openAPIV3Schema path with e | ok
        · simp only [hparse, hcrd, hschema, hsegments, Option.some.injEq] at h
          rw [h] at hsegments
          exact Or.inr ⟨path, crd, validation, rfl, rfl, hschema, hsegments⟩
        · simp [hparse, hcrd, hschema, hsegments] at h

/-- The errors of `validateFieldPath` for a kind whose schema the store holds
are not the message, when no error of the parser is. -/
theorem fieldErrors_notNoCRD (parse : FieldPathParser) (ctx : linterContext)
    (gvk : GroupVersionKind)
    (hparse : ∀ raw err, parse raw = .error err → notNoCRD err)
    (hknown : ctx.GetCRDSchema gvk ≠ none) :
    FieldErrors notNoCRD parse ctx gvk := by
  intro c raw err hctx h
  rcases validateFieldPath_known parse c gvk raw err (hctx ▸ hknown) h with
    herr | ⟨path, crd, validation, _, _, _, hsegments⟩
  · exact hparse raw err herr
  · exact validateSegments_error_notNoCRD _ path err hsegments

/-- Steps in sequence: what holds of the issues of every step holds of the
issues of the sequence. -/
theorem IssuesSatisfy_sequence (P : Issue → Prop) (steps : List (Option (List Issue)))
    (h : ∀ step ∈ steps, IssuesSatisfy P step) : IssuesSatisfy P (sequenceIssues steps) := by
  intro issues hissues x hx
  obtain ⟨l, hl, hxl⟩ := sequenceIssues_mem steps issues hissues x hx
  exact h (some l) hl l rfl x hxl

/-- The issues of `validatePatch` for a composite kind and a base kind whose
schemas the store holds: no description is the message. -/
theorem validatePatch_notNoCRD (parse : FieldPathParser) (c : scopedContext)
    (comp : Composition) (compositeGvk baseGvk : GroupVersionKind) (p : Patch)
    (hparse : ∀ raw err, parse raw = .error err → notNoCRD err)
    (hcomposite : c.linterContext.GetCRDSchema compositeGvk ≠ none)
    (hbase : c.linterContext.GetCRDSchema baseGvk ≠ none) :
    IssuesSatisfy (fun x => notNoCRD x.description)
      (validatePatch parse c p comp compositeGvk baseGvk) :=
  validatePatch_described notNoCRD parse c comp compositeGvk baseGvk p
    (notNoCRD_of_take _ (by decide)) (notNoCRD_of_take _ (by decide))
    (notNoCRD_of_take _ (by decide)) (notNoCRD_of_take _ (by decide))
    (fieldErrors_notNoCRD parse c.linterContext compositeGvk hparse hcomposite)
    (fieldErrors_notNoCRD parse c.linterContext baseGvk hparse hbase)

/-- The issues of one resource, for a composite kind whose schema the store
holds: an issue whose description is the message is at the base of the
resource. -/
theorem checkResource_notNoCRD (d : Decoders) (parse : FieldPathParser) (ctx : linterContext)
    (manifest : PackageEntry) (comp : Composition) (compositeGvk : GroupVersionKind)
    (i : Nat) (r : ComposedTemplate)
    (hparse : ∀ raw err, parse raw = .error err → notNoCRD err)
    (hcomposite : ctx.GetCRDSchema compositeGvk ≠ none) :
    IssuesSatisfy
      (fun x => notNoCRD x.description ∨
        x.path = [.field "spec", .field "resources", .index i, .field "base"])
      (checkResource d parse ctx manifest comp compositeGvk i r) := by
  rw [checkResource_eq]
  rcases d.unmarshalBase r.base with err | ⟨apiVersion, kind⟩
  · exact IssuesSatisfy_single _ _ (Or.inr rfl)
  · dsimp only
    rcases hcrd : ctx.GetCRDSchema (objectGroupVersionKind d apiVersion kind) with _ | crd
    · exact IssuesSatisfy_single _ _ (Or.inr rfl)
    · dsimp only
      apply IssuesSatisfy_sequence
      intro step hstep
      obtain ⟨jp, _, hjp⟩ := List.mem_map.mp hstep
      rw [← hjp]
      intro issues hissues x hx
      exact Or.inl (validatePatch_notNoCRD parse (resourcePatchContext ctx manifest i jp.1) comp
        compositeGvk _ jp.2 hparse hcomposite
        (by
          show ctx.GetCRDSchema (objectGroupVersionKind d apiVersion kind) ≠ none
          rw [hcrd]
          exact fun h => Option.noConfusion h)
        issues hissues x hx)

/-- What holds of every issue of a run holds in a weaker form too. -/
theorem IssuesSatisfy_mono {P Q : Issue → Prop} {r : Option (List Issue)}
    (h : IssuesSatisfy P r) (hPQ : ∀ x, P x → Q x) : IssuesSatisfy Q r :=
  fun issues hissues x hx => hPQ x (h issues hissues x hx)

/-- The message of a wrapped error that begins with `failed` is not the message
`no CRD for <gvk>`. -/
theorem wrapError_notNoCRD (err rest : String) :
    notNoCRD (wrapError err ("failed to " ++ rest)) := by
  simp only [wrapError, String.append_assoc]
  exact notNoCRD_append _ _ (by decide) (by decide)

/-- The issues of `checkCompositionFieldPaths`: an issue whose description is the
message `no CRD for <gvk>` is at `spec.compositeTypeRef` or at the base of a
resource. -/
theorem checkCompositionFieldPaths_notNoCRD (d : Decoders) (parse : FieldPathParser)
    (ctx : linterContext) (pkg : Package) (manifest : PackageEntry)
    (hparse : ∀ raw err, parse raw = .error err → notNoCRD err) :
    IssuesSatisfy
      (fun x => notNoCRD x.description ∨
        x.path = [.field "spec", .field "compositeTypeRef"] ∨
        ∃ i : Nat, x.path = [.field "spec", .field "resources", .index i, .field "base"])
      (checkCompositionFieldPaths d parse ctx pkg manifest) := by
  have hconvert : "failed to convert object to " ++ "Composition"
      = "failed to " ++ "convert object to Composition" := by decide
  have hconvert' : "failed to convert object to Composition"
      = "failed to " ++ "convert object to Composition" := by decide
  unfold checkCompositionFieldPaths
  by_cases his : manifest.IsComposition d = true
  · rw [if_pos his]
    rcases manifest.AsComposition d with err | comp
    · dsimp only
      refine IssuesSatisfy_single _ _ (Or.inl ?_)
      show notNoCRD (wrapError err ("failed to convert object to " ++ "Composition"))
      rw [hconvert]
      exact wrapError_notNoCRD err _
    · dsimp only
      rcases d.parseGroupVersion comp.compositeTypeRef.apiVersion with err | ⟨group, version⟩
      · dsimp only
        refine IssuesSatisfy_single _ _ (Or.inl ?_)
        show notNoCRD (wrapError err "failed to convert object to Composition")
        rw [hconvert']
        exact wrapError_notNoCRD err _
      · dsimp only
        rcases hcrd : ctx.GetCRDSchema ⟨group, version, comp.compositeTypeRef.kind⟩ with _ | crd
        · exact IssuesSatisfy_single _ _ (Or.inr (Or.inl rfl))
        · dsimp only
          rw [checkResourcesFrom_eq_sequence]
          apply IssuesSatisfy_sequence
          intro step hstep
          obtain ⟨ir, _, hir⟩ := List.mem_map.mp hstep
          rw [← hir]
          refine IssuesSatisfy_mono (checkResource_notNoCRD d parse ctx manifest comp _ ir.1 ir.2
            hparse (by rw [hcrd]; exact fun h => Option.noConfusion h)) ?_
          intro x hx
          rcases hx with hx | hx
          · exact Or.inl hx
          · exact Or.inr (Or.inr ⟨ir.1, hx⟩)
  · rw [if_neg his]
    exact IssuesSatisfy_nil _

/-- The issues of `validatePatch` are under the base path of its context. -/
theorem validatePatch_under_base (parse : FieldPathParser) (c : scopedContext)
    (comp : Composition) (compositeGvk baseGvk : GroupVersionKind) (p : Patch) :
    IssuesSatisfy
      (fun x => ∃ suffix, JSONPath.string x.path = JSONPath.string c.basePath ++ suffix)
      (validatePatch parse c p comp compositeGvk baseGvk) := by
  have hfinding : ∀ f : Finding,
      ∃ suffix, JSONPath.string (f.issue c).path = JSONPath.string c.basePath ++ suffix :=
    fun f => ⟨_, JSONPath_string_pair c.basePath f.at_⟩
  have hwrapped : ∀ (q : JSONPath) (f : Finding),
      ∃ suffix, JSONPath.string (f.issue (c.Wrap q)).path
        = JSONPath.string c.basePath ++ suffix := by
    intro q f
    refine ⟨JSONPath.string q ++ JSONPath.string f.at_, ?_⟩
    have hpath : (f.issue (c.Wrap q)).path = [.path [.path c.basePath, .path q], .path f.at_] :=
      rfl
    rw [hpath, JSONPath_string_pair, JSONPath_string_pair, String.append_assoc]
  intro issues h x hx
  by_cases hkind : p.type = PatchTypePatchSet
  · rw [validatePatch_reference_eq parse c comp compositeGvk baseGvk p hkind] at h
    rcases hname : p.patchSetName with _ | name
    · simp only [hname, Option.some.injEq] at h
      rw [← h, List.mem_singleton] at hx
      rw [hx]
      exact hfinding ⟨[.field "patchSetName"], "require field", ""⟩
    · simp only [hname] at h
      rcases hfind : findPatchSet name 0 comp.patchSets with _ | ⟨patchSet, k⟩
      · simp only [hfind, Option.some.injEq] at h
        rw [← h, List.mem_singleton] at hx
        rw [hx]
        exact hfinding ⟨[.field "patchSetName"], "no matching patchset found", name⟩
      · simp only [hfind] at h
        obtain ⟨j, f, hf⟩ := (validatePatchSetFrom_placed parse c compositeGvk baseGvk _ _ 0
          issues h).2 x hx
        rw [hf]
        exact hwrapped _ f
  · rcases validatePatch_parallel parse c c rfl comp compositeGvk baseGvk p hkind with
      ⟨hnone, _⟩ | ⟨l, _, hsome, _⟩
    · rw [hnone] at h
      cases h
    · rw [hsome] at h
      simp only [Option.some.injEq] at h
      rw [← h] at hx
      obtain ⟨f, _, hf⟩ := List.mem_map.mp hx
      rw [← hf]
      exact hfinding f

/-- C34: the schemas are present when the patches are validated. Let the parser
return no error that reads `no CRD for ...`. Under a linter context whose store
holds a schema for a kind, an error of `validateFieldPath` for that kind is an
error of the parser or an error of the resolver on the stored schema, and does
not read `no CRD for ...`. `checkCompositionFieldPaths` validates the patches of a
resource only after it has found a schema for the composite kind and for the
base kind, and with those two kinds: every issue that `validatePatch` reports
for the patch `j` of the resource `i` is under `.spec.resources[i].patches[j]`
and has no description `no CRD for ...`. So an issue of the rule with such a
description is at `spec.compositeTypeRef` or at the base of a resource. -/
theorem checkCompositionFieldPaths_schema_present (d : Decoders) (parse : FieldPathParser)
    (ctx : linterContext) (pkg : Package) (manifest : PackageEntry)
    (hparse : ∀ raw err, parse raw = .error err → ∀ t : String, err ≠ "no CRD for " ++ t) :
    (∀ (c : scopedContext) (gvk : GroupVersionKind) (raw err : String),
      c.linterContext = ctx → ctx.GetCRDSchema gvk ≠ none →
      validateFieldPath parse c gvk raw = some (some err) →
      (parse raw = .error err ∨
        ∃ path crd validation, parse raw = .ok path ∧
          ctx.GetCRDSchema gvk = some crd ∧ crd.schema = some validation ∧
          validateSegments validation.openAPIV3Schema path = .error err) ∧
      ∀ t : String, err ≠ "no CRD for " ++ t) ∧
    (∀ (comp : Composition) (compositeGvk baseGvk : GroupVersionKind) (i j : Nat) (p : Patch)
      (issues : List Issue),
      ctx.GetCRDSchema compositeGvk ≠ none → ctx.GetCRDSchema baseGvk ≠ none →
      validatePatch parse (resourcePatchContext ctx manifest i j) p comp compositeGvk baseGvk
        = some issues →
      ∀ x ∈ issues,
        (∃ suffix, JSONPath.string x.path
          = ".spec.resources[" ++ toString i ++ "].patches[" ++ toString j ++ "]" ++ suffix) ∧
        ∀ t : String, x.description ≠ "no CRD for " ++ t) ∧
    (∀ issues, checkCompositionFieldPaths d parse ctx pkg manifest = some issues →
      ∀ x ∈ issues, ∀ t : String, x.description = "no CRD for " ++ t →
        x.path = [.field "spec", .field "compositeTypeRef"] ∨
        ∃ i : Nat, x.path = [.field "spec", .field "resources", .index i, .field "base"]) := by
  refine ⟨?_, ?_, ?_⟩
  · intro c gvk raw err hctx hknown h
    have hknown' : c.linterContext.GetCRDSchema gvk ≠ none := by
      rw [hctx]
      exact hknown
    refine ⟨?_, fieldErrors_notNoCRD parse ctx gvk hparse hknown c raw err hctx h⟩
    rw [← hctx]
    exact validateFieldPath_known parse c gvk raw err hknown' h
  · intro comp compositeGvk baseGvk i j p issues hcomposite hbase hissues x hx
    refine ⟨?_, validatePatch_notNoCRD parse (resourcePatchContext ctx manifest i j) comp
      compositeGvk baseGvk p hparse hcomposite hbase issues hissues x hx⟩
    obtain ⟨suffix, hsuffix⟩ := validatePatch_under_base parse
      (resourcePatchContext ctx manifest i j) comp compositeGvk baseGvk p issues hissues x hx
    rw [resourcePatchContext_string] at hsuffix
    exact ⟨suffix, hsuffix⟩
  · intro issues hissues x hx t hdescription
    rcases checkCompositionFieldPaths_notNoCRD d parse ctx pkg manifest hparse issues hissues x hx
      with hnot | hat
    · exact absurd hdescription (hnot t)
    · exact hat

/-- The parser of the examples returns one error, which does not read
`no CRD for ...`. -/
theorem exampleParse_error (raw err : String) (h : exampleParse raw = .error err) :
    ∀ t : String, err ≠ "no CRD for " ++ t := by
  unfold exampleParse at h
  split_ifs at h
  cases h
  exact notNoCRD_of_take _ (by decide)

/-- The rule on `exampleComposition`: its one issue that reads `no CRD for ...`
is at the base of the second resource, and the issues of the first patch of the
first resource read `property 'c' not found`. -/
theorem checkCompositionFieldPaths_schema_present_witness :
    (∀ raw err, exampleParse raw = .error err → ∀ t : String, err ≠ "no CRD for " ++ t) ∧
    (∀ issues, checkCompositionFieldPaths exampleDecoders exampleParse exampleLinterContext
        ⟨"", "", [exampleManifest]⟩ exampleManifest = some issues →
      ∀ x ∈ issues, ∀ t : String, x.description = "no CRD for " ++ t →
        x.path = [.field "spec", .field "compositeTypeRef"] ∨
        ∃ i : Nat, x.path = [.field "spec", .field "resources", .index i, .field "base"]) ∧
    (checkCompositionFieldPaths exampleDecoders exampleParse exampleLinterContext
        ⟨"", "", [exampleManifest]⟩ exampleManifest).map
        (List.map (fun x => (JSONPath.string x.path, x.description)))
      = some [(".spec.resources[0].patches[0].fromFieldPath", "property 'c' not found"),
              (".spec.resources[0].patches[0].toFieldPath", "property 'c' not found"),
              (".spec.resources[1].base", "no CRD for example.org/v1, Kind=Gadget"),
              (".spec.resources[2].base", "failed to parse base: cannot unmarshal")] :=
  ⟨exampleParse_error,
   (checkCompositionFieldPaths_schema_present exampleDecoders exampleParse
      exampleLinterContext ⟨"", "", [exampleManifest]⟩ exampleManifest exampleParse_error).2.2,
   by decide⟩

/-! ## Registration of a schema without properties -/

/-- The metadata of the schema of the version has the four standard fields. -/
def hasStandardMetadata (version : CustomResourceDefinitionVersion) : Bool :=
  ["name", "namespace", "labels", "annotations"].all
    (fun name => (metadataField version name).isSome)

/-- The statements of `addMetaDataToSchema` panic on a root schema whose
`Properties` are nil: the property `metadata` is assigned in a nil map. -/
theorem addMetaDataToRoot_nil_properties (root : JSONSchemaProps)
    (h : root.properties = none) : addMetaDataToRoot root = none := by
  rw [addMetaDataToRoot_eq]
  have hone : ensureMetadata root = none := by
    unfold ensureMetadata
    simp only [h, mapLookup]
  rw [hone]
  rfl

/-- The version that `addMetaDataToSchema` leaves has a root schema and the four
standard fields. -/
theorem addMetaDataToSchema_result (v version : CustomResourceDefinitionVersion)
    (h : addMetaDataToSchema v = some version) :
    (∃ root', version.schema = some ⟨some root'⟩) ∧ hasStandardMetadata version = true := by
  refine ⟨?_, ?_⟩
  · unfold addMetaDataToSchema at h
    dsimp only at h
    split at h
    · cases h
    · simp only [Option.some.injEq] at h
      rw [← h]
      exact ⟨_, rfl⟩
  · have hfields := addMetaDataToSchema_fields v version h
    have hsome : ∀ name ∈ ["name", "namespace", "labels", "annotations"],
        (metadataField version name).isSome = true := by
      intro name hname
      rw [hfields name]
      cases metadataField v name with
      | some x => rfl
      | none =>
        simp only [List.mem_cons, List.mem_singleton, List.not_mem_nil, or_false] at hname
        rcases hname with h | h | h | h <;> subst h <;> rfl
    simp only [hasStandardMetadata, List.all_eq_true]
    exact hsome

/-- `addMetaDataToSchema` completes on every version but those whose root schema
is present with nil `Properties`, on which it panics. -/
theorem addMetaDataToSchema_total_or_panics (v : CustomResourceDefinitionVersion) :
    (∃ version, addMetaDataToSchema v = some version ∧
      (∃ root', version.schema = some ⟨some root'⟩) ∧ hasStandardMetadata version = true) ∨
    (addMetaDataToSchema v = none ∧
      ∃ validation root, v.schema = some validation ∧
        validation.openAPIV3Schema = some root ∧ root.properties = none) := by
  have hfresh : ∃ augmented,
      addMetaDataToRoot (.mk "" none (some []) none none) = some augmented := by
    obtain ⟨root', _, hroot, _⟩ :=
      addMetaDataToRoot_additive (.mk "" none (some []) none none) [] rfl
    exact ⟨root', hroot⟩
  have hsome : ∀ version, addMetaDataToSchema v = some version →
      ∃ version, addMetaDataToSchema v = some version ∧
        (∃ root', version.schema = some ⟨some root'⟩) ∧ hasStandardMetadata version = true :=
    fun version h => ⟨version, h, addMetaDataToSchema_result v version h⟩
  rcases hschema : v.schema with _ | validation
  · obtain ⟨augmented, haugmented⟩ := hfresh
    refine Or.inl (hsome { v with schema := some ⟨some augmented⟩ } ?_)
    unfold addMetaDataToSchema
    simp only [hschema, haugmented]
  · rcases hopen : validation.openAPIV3Schema with _ | root
    · obtain ⟨augmented, haugmented⟩ := hfresh
      refine Or.inl (hsome { v with schema := some ⟨some augmented⟩ } ?_)
      unfold addMetaDataToSchema
      simp only [hschema, hopen, haugmented]
    · rcases hrp : root.properties with _ | rp
      · refine Or.inr ⟨?_, validation, root, rfl, hopen, hrp⟩
        unfold addMetaDataToSchema
        simp only [hschema, hopen, addMetaDataToRoot_nil_properties root hrp]
      · obtain ⟨root', _, hroot, _⟩ := addMetaDataToRoot_additive root rp hrp
        refine Or.inl (hsome { v with schema := some ⟨some root'⟩ } ?_)
        unfold addMetaDataToSchema
        simp only [hschema, hopen, hroot]

/-- A version whose root schema sets x-preserve-unknown-fields and has no
properties. -/
def preserveOnlyVersion : CustomResourceDefinitionVersion :=
  ⟨"v1", some ⟨some (.mk "object" (some true) none none none)⟩⟩

/-- A version whose root schema declares `metadata` of type `object` without
properties. -/
def bareMetadataVersion : CustomResourceDefinitionVersion :=
  ⟨"v1", some ⟨some (.mk "object" none
    (some [("metadata", .mk "object" none none none none)]) none none)⟩⟩

/-- C32, where the code departs from it: on a version whose root schema is
present without a map of properties (here a root that only sets
x-preserve-unknown-fields) `addMetaDataToSchema` panics, and so does
`registerCRD` of a definition with that version. It completes, with a root schema
and the four standard fields, on a version with no schema, on one whose schema
has no root and on one whose `metadata` has no map of properties; and in general
on every version but those whose root schema is present with nil `Properties`. -/
theorem addMetaDataToSchema_nil_properties_panics :
    addMetaDataToSchema preserveOnlyVersion = none ∧
    NewSchemaStore.registerCRD ⟨"example.org", "Widget", [preserveOnlyVersion]⟩ = none ∧
    (∃ version, addMetaDataToSchema ⟨"v1", none⟩ = some version ∧
      (∃ root', version.schema = some ⟨some root'⟩) ∧ hasStandardMetadata version = true) ∧
    (∃ version, addMetaDataToSchema ⟨"v1", some ⟨none⟩⟩ = some version ∧
      (∃ root', version.schema = some ⟨some root'⟩) ∧ hasStandardMetadata version = true) ∧
    (∃ version, addMetaDataToSchema bareMetadataVersion = some version ∧
      (∃ root', version.schema = some ⟨some root'⟩) ∧ hasStandardMetadata version = true) ∧
    (∀ v : CustomResourceDefinitionVersion,
      (∃ version, addMetaDataToSchema v = some version ∧
        (∃ root', version.schema = some ⟨some root'⟩) ∧ hasStandardMetadata version = true) ∨
      (addMetaDataToSchema v = none ∧
        ∃ validation root, v.schema = some validation ∧
          validation.openAPIV3Schema = some root ∧ root.properties = none)) :=
  ⟨rfl, rfl, ⟨_, rfl, ⟨_, rfl⟩, rfl⟩, ⟨_, rfl, ⟨_, rfl⟩, rfl⟩, ⟨_, rfl, ⟨_, rfl⟩, rfl⟩,
    addMetaDataToSchema_total_or_panics⟩

/-- What a key holds after `m[k] = v`: the value `v`, or what it held. -/
theorem lookup_mapSet_cases {κ α : Type} [DecidableEq κ] (l : List (κ × α)) (k k' : κ)
    (v x : α) (h : (mapSet l k v).lookup k' = some x) : x = v ∨ l.lookup k' = some x := by
  by_cases hk : k' = k
  · rw [hk, lookup_mapSet_self] at h
    simp only [Option.some.injEq] at h
    exact Or.inl h.symm
  · rw [lookup_mapSet_of_ne l k k' v hk] at h
    exact Or.inr h

/-- When the loop of `registerCRD` completes on a store whose versions have a
schema, the versions of the store it leaves have a schema. -/
theorem registerVersions_sound (group kind : String) (s s' : SchemaStore)
    (versions : List CustomResourceDefinitionVersion)
    (hs : ∀ gvk v, s.GetCRDSchema gvk = some v → v.schema ≠ none)
    (h : registerVersions group kind s versions = some s') :
    ∀ gvk v, s'.GetCRDSchema gvk = some v → v.schema ≠ none := by
  induction versions generalizing s with
  | nil =>
    simp only [registerVersions, Option.some.injEq] at h
    rw [← h]
    exact hs
  | cons w rest ih =>
    simp only [registerVersions] at h
    rcases hw : addMetaDataToSchema w with _ | version
    · simp [hw] at h
    · simp only [hw] at h
      refine ih _ ?_ h
      intro gvk v hv
      rcases lookup_mapSet_cases s.versions _ gvk version v hv with hx | hx
      · obtain ⟨⟨root', hroot⟩, _⟩ := addMetaDataToSchema_result w version hw
        rw [hx, hroot]
        exact fun hnone => Option.noConfusion hnone
      · exact hs gvk v hx

/-! ## The order of the rule table -/

/-- Two runs of the rules send alike: both panic, or both send the same issues
with the same multiplicities. -/
def SameSent (a b : Option (List (List Issue))) : Prop :=
  match a, b with
  | none, none => True
  | some x, some y => x.flatten.Perm y.flatten
  | _, _ => False

/-- The issues that one rule of the table reports under the context of its
name, over all its goroutines; `none` when it panics. -/
def ruleIssues (store : SchemaStore) (pkg : Package) (rule : String × LinterRule) :
    Option (List Issue) :=
  (rule.2 { ruleName := rule.1, schemaStore := store } pkg).map List.flatten

/-- A run sends like itself. -/
theorem SameSent_refl (a : Option (List (List Issue))) : SameSent a a := by
  rcases a with _ | x
  · trivial
  · exact List.Perm.refl _

/-- The relation `SameSent` composes. -/
theorem SameSent_trans {a b c : Option (List (List Issue))}
    (hab : SameSent a b) (hbc : SameSent b c) : SameSent a c := by
  rcases a with _ | x <;> rcases b with _ | y <;> rcases c with _ | z
  all_goals first
    | exact List.Perm.trans hab hbc
    | exact False.elim hab
    | exact False.elim hbc
    | trivial

/-- The loop of `runRulesConcurrently`, one step unfolded. -/
theorem runRules_cons (store : SchemaStore) (pkg : Package) (rule : String × LinterRule)
    (rest : List (String × LinterRule)) :
    runRules store pkg (rule :: rest) =
      match rule.2 { ruleName := rule.1, schemaStore := store } pkg with
      | none => none
      | some sent =>
        match runRules store pkg rest with
        | none => none
        | some later => some (sent ++ later) := by
  obtain ⟨name, r⟩ := rule
  rfl

/-- One rule more in front of two tables that send alike. -/
theorem SameSent_cons (store : SchemaStore) (pkg : Package) (rule : String × LinterRule)
    {l l' : List (String × LinterRule)}
    (h : SameSent (runRules store pkg l) (runRules store pkg l')) :
    SameSent (runRules store pkg (rule :: l)) (runRules store pkg (rule :: l')) := by
  rw [runRules_cons, runRules_cons]
  rcases rule.2 { ruleName := rule.1, schemaStore := store } pkg with _ | sent
  · trivial
  · rcases ha : runRules store pkg l with _ | a <;>
      rcases hb : runRules store pkg l' with _ | b <;> rw [ha, hb] at h
    · trivial
    · exact False.elim h
    · exact False.elim h
    · show (sent ++ a).flatten.Perm (sent ++ b).flatten
      rw [List.flatten_append, List.flatten_append]
      exact List.Perm.append_left _ h

/-- Two rules in front of a table, in either order. -/
theorem SameSent_swap (store : SchemaStore) (pkg : Package) (x y : String × LinterRule)
    (l : List (String × LinterRule)) :
    SameSent (runRules store pkg (y :: x :: l)) (runRules store pkg (x :: y :: l)) := by
  rw [runRules_cons, runRules_cons, runRules_cons, runRules_cons]
  rcases x.2 { ruleName := x.1, schemaStore := store } pkg with _ | sx <;>
    rcases y.2 { ruleName := y.1, schemaStore := store } pkg with _ | sy <;>
    rcases runRules store pkg l with _ | rest
  all_goals first
    | trivial
    | (show (sy ++ (sx ++ rest)).flatten.Perm (sx ++ (sy ++ rest)).flatten
       simp only [List.flatten_append]
       exact List.perm_append_comm_assoc _ _ _)

/-- The rules send alike in whatever order the table is ranged over. -/
theorem runRules_perm (store : SchemaStore) (pkg : Package)
    {rules rules' : List (String × LinterRule)} (h : rules.Perm rules') :
    SameSent (runRules store pkg rules) (runRules store pkg rules') := by
  induction h with
  | nil => exact SameSent_refl _
  | cons x _ ih => exact SameSent_cons store pkg x ih
  | swap x y l => exact SameSent_swap store pkg x y l
  | trans _ _ ih₁ ih₂ => exact SameSent_trans ih₁ ih₂

/-- What the rules send is what each rule reports, rule by rule. -/
theorem runRules_eq_some (store : SchemaStore) (pkg : Package)
    (rules : List (String × LinterRule)) (sent : List (List Issue))
    (h : runRules store pkg rules = some sent) :
    ∃ perRule : List (List Issue),
      rules.map (ruleIssues store pkg) = perRule.map some ∧
      sent.flatten = perRule.flatten := by
  induction rules generalizing sent with
  | nil =>
    simp only [runRules, Option.some.injEq] at h
    rw [← h]
    exact ⟨[], rfl, rfl⟩
  | cons rule rest ih =>
    rw [runRules_cons] at h
    rcases hrule : rule.2 { ruleName := rule.1, schemaStore := store } pkg with _ | here
    · simp [hrule] at h
    · rcases hrest : runRules store pkg rest with _ | later
      · simp [hrule, hrest] at h
      · simp only [hrule, hrest, Option.some.injEq] at h
        obtain ⟨perRule, hmap, hflat⟩ := ih later hrest
        refine ⟨here.flatten :: perRule, ?_, ?_⟩
        · simp only [List.map_cons, hmap, ruleIssues, hrule, Option.map_some']
        · rw [← h, List.flatten_append, hflat, List.flatten_cons]

/-- C31: the issues of the report do not depend on the order of the rule table.
For two orders of the same table, the same package and the same store, and
whatever order the channel hands the issues over in either run: `Lint` returns a
report for the one order exactly when it does for the other, the issues of the
two reports are the same with the same multiplicities, one list being a
permutation of the other, and the issues of a report are, up to their order,
the issues that each rule of the table reports, taken together. -/
theorem Lint_rule_order (schedule₁ schedule₂ : List (List Issue) → List Issue)
    (store : SchemaStore) (pkg : Package) (rules₁ rules₂ : List (String × LinterRule))
    (horder : rules₁.Perm rules₂)
    (h₁ : ∀ sent, (schedule₁ sent).Perm sent.flatten)
    (h₂ : ∀ sent, (schedule₂ sent).Perm sent.flatten) :
    ((linter.mk store rules₁).Lint schedule₁ pkg = none ↔
      (linter.mk store rules₂).Lint schedule₂ pkg = none) ∧
    (∀ report₁ report₂,
      (linter.mk store rules₁).Lint schedule₁ pkg = some report₁ →
      (linter.mk store rules₂).Lint schedule₂ pkg = some report₂ →
      report₁.issues.Perm report₂.issues) ∧
    (∀ report₁, (linter.mk store rules₁).Lint schedule₁ pkg = some report₁ →
      ∃ perRule : List (List Issue),
        rules₁.map (ruleIssues store pkg) = perRule.map some ∧
        report₁.issues.Perm perRule.flatten) ∧
    (∀ report₂, (linter.mk store rules₂).Lint schedule₂ pkg = some report₂ →
      ∃ perRule : List (List Issue),
        rules₂.map (ruleIssues store pkg) = perRule.map some ∧
        report₂.issues.Perm perRule.flatten) := by
  have hsame := runRules_perm store pkg horder
  have hreport : ∀ (schedule : List (List Issue) → List Issue)
      (rules : List (String × LinterRule)),
      (∀ sent, (schedule sent).Perm sent.flatten) →
      ∀ report, (linter.mk store rules).Lint schedule pkg = some report →
        ∃ sent, runRules store pkg rules = some sent ∧ report.issues.Perm sent.flatten := by
    intro schedule rules hschedule report h
    unfold linter.Lint linter.runRulesConcurrently at h
    rcases hsent : runRules store pkg rules with _ | sent
    · simp [hsent] at h
    · simp only [hsent, Option.some.injEq] at h
      rw [← h]
      exact ⟨sent, rfl, hschedule sent⟩
  have hunion : ∀ (schedule : List (List Issue) → List Issue)
      (rules : List (String × LinterRule)),
      (∀ sent, (schedule sent).Perm sent.flatten) →
      ∀ report, (linter.mk store rules).Lint schedule pkg = some report →
        ∃ perRule : List (List Issue),
          rules.map (ruleIssues store pkg) = perRule.map some ∧
          report.issues.Perm perRule.flatten := by
    intro schedule rules hschedule report h
    obtain ⟨sent, hsent, hperm⟩ := hreport schedule rules hschedule report h
    obtain ⟨perRule, hmap, hflat⟩ := runRules_eq_some store pkg rules sent hsent
    exact ⟨perRule, hmap, hflat ▸ hperm⟩
  refine ⟨?_, ?_, hunion schedule₁ rules₁ h₁, hunion schedule₂ rules₂ h₂⟩
  · unfold linter.Lint linter.runRulesConcurrently
    rcases ha : runRules store pkg rules₁ with _ | a <;>
      rcases hb : runRules store pkg rules₂ with _ | b
    · simp
    · rw [ha, hb] at hsame
      exact False.elim hsame
    · rw [ha, hb] at hsame
      exact False.elim hsame
    · simp
  · intro report₁ report₂ hr₁ hr₂
    obtain ⟨a, ha, hpa⟩ := hreport schedule₁ rules₁ h₁ report₁ hr₁
    obtain ⟨b, hb, hpb⟩ := hreport schedule₂ rules₂ h₂ report₂ hr₂
    rw [ha, hb] at hsame
    exact hpa.trans (List.Perm.trans hsame hpb.symm)

/-- The default rules in the order of the source and in the opposite order, the
channel handing over goroutine by goroutine: the two reports hold the same six
issues, those of the rule of field paths last in one report and first in the
other. -/
theorem Lint_rule_order_witness :
    ∃ report₁ report₂,
      (linter.mk exampleLinterContext.schemaStore (defaultRules exampleEnvironment)).Lint
        List.flatten examplePackage = some report₁ ∧
      (linter.mk exampleLinterContext.schemaStore (defaultRules exampleEnvironment).reverse).Lint
        List.flatten examplePackage = some report₂ ∧
      report₁.issues.Perm report₂.issues ∧
      report₁.issues.map (fun x => x.ruleName) =
        ["generic.checkDuplicates", "composition.checkCompositeType",
          "composition.checkPathFieldPaths", "composition.checkPathFieldPaths",
          "composition.checkPathFieldPaths", "composition.checkPathFieldPaths"] ∧
      report₂.issues.map (fun x => x.ruleName) =
        ["composition.checkPathFieldPaths", "composition.checkPathFieldPaths",
          "composition.checkPathFieldPaths", "composition.checkPathFieldPaths",
          "composition.checkCompositeType", "generic.checkDuplicates"] :=
  ⟨_, _, rfl, rfl,
    (Lint_rule_order List.flatten List.flatten
      exampleLinterContext.schemaStore examplePackage (defaultRules exampleEnvironment)
      (defaultRules exampleEnvironment).reverse (List.reverse_perm _).symm
      (fun _ => List.Perm.refl _) (fun _ => List.Perm.refl _)).2.1 _ _ rfl rfl,
    rfl, rfl⟩

end CrossplaneLint
